import Mathlib

/-! # FAT file system simulation: shallow embedding of `fs.h` / `fs.cpp`

The embedding follows the C++ source function by function.

* A disk block is a list of bytes (`Nat`, each meant to be below 256).  The
  block device (`disk.h`) is not part of the sources, so `BLOCK_SIZE` is a
  parameter of every definition and the device itself is modelled from the
  specification: a list of blocks, `read`/`write` failing exactly on an
  out-of-range index.
* A `dir_entry` is a record of its five fields; a directory block is read as
  `DIR_BLOCK_SIZE` consecutive 64-byte images (56 name bytes, `size` in four
  bytes, `first_blk` in two, `type`, `access_rights`; little-endian).
* The object state `FS` holds the disk, the in-memory table `m_fat`, the
  working-directory block and the two function-local `static` flags of
  `MakeFATEntry`.
* A call yields a `Run`: `ret` when the source returns, `undef` when the
  source performs an access outside an array (an out-of-range `m_fat` or
  `std::vector` index, a C-string read of a char array holding no NUL, a
  `strcpy` longer than the name field), `spin` when the loop budget `fuel`
  handed to the model is used up, `thrown` when `std::stoi` throws.
* Strings are byte lists.  The banner line every operation prints first is not
  modelled; `cat` and `pwd` return the text they send to `std::cout` after the
  banner.  `ls`, which only reads the working directory's block and prints, is
  not modelled.
-/

/-! ## Results of running a member function -/

/-- Outcome of running a piece of the source. -/
inductive Run (α : Type) where
  | ret (a : α) : Run α
  | undef : Run α
  | spin : Run α
  | thrown : Run α
deriving DecidableEq, Repr

namespace Run

/-- Sequencing: the continuation runs only after a normal return. -/
def bind {α β : Type} (x : Run α) (f : α → Run β) : Run β :=
  match x with
  | ret a => f a
  | undef => undef
  | spin => spin
  | thrown => thrown

instance : Monad Run where
  pure := Run.ret
  bind := Run.bind

/-- A `std::vector` or array read that is defined only inside the bounds. -/
def ofOption {α : Type} : Option α → Run α
  | some a => ret a
  | none => undef

end Run

/-! ## Constants of `fs.h` -/

def ERROR_CODE : Int := -1
def ROOT_BLOCK : Nat := 0
def FAT_BLOCK : Nat := 1
def FAT_FREE : Int := 0
def FAT_EOF : Int := -1
def TYPE_FILE : Nat := 0
def TYPE_DIR : Nat := 1
def READ : Nat := 4
def WRITE : Nat := 2
def EXECUTE : Nat := 1
def FILE_NAME_SIZE : Nat := 56

/-- `sizeof(dir_entry)`: 56 + 4 + 2 + 1 + 1 bytes, no padding. -/
def DIR_ENTRY_SIZE : Nat := 64

/-- `#define FAT_SIZE BLOCK_SIZE / 2`. -/
def FAT_SIZE (BLOCK_SIZE : Nat) : Nat := BLOCK_SIZE / 2

/-- `#define DIR_BLOCK_SIZE BLOCK_SIZE / (uint32_t)sizeof(dir_entry)`. -/
def DIR_BLOCK_SIZE (BLOCK_SIZE : Nat) : Nat := BLOCK_SIZE / DIR_ENTRY_SIZE

/-! ## Machine integer conversions -/

/-- Conversion of an `int` to `int16_t`. -/
def toInt16 (v : Int) : Int := (v + 32768) % 65536 - 32768

/-- Conversion of a `uint32_t` to `int`. -/
def toInt32 (v : Int) : Int := (v + 2147483648) % 4294967296 - 2147483648

/-- Conversion of an `int` to `uint16_t`. -/
def toUInt16 (v : Int) : Nat := (v % 65536).toNat

/-- Conversion of an `int` or `size_t` to `uint32_t`. -/
def toUInt32 (v : Int) : Nat := (v % 4294967296).toNat

/-- Conversion of an `int` to `uint8_t`. -/
def toUInt8 (v : Int) : Nat := (v % 256).toNat

/-! ## Strings and character arrays -/

/-- Bytes of a string literal (used to write paths and payloads legibly). -/
def str (s : String) : List Nat := s.data.map Char.toNat

/-- `std::string::c_str()` read as a C string: the bytes before the first NUL. -/
def cstrOf (s : List Nat) : List Nat := s.takeWhile (fun b => b ≠ 0)

/-- C-string read of a `char` array: defined only if the array holds a NUL. -/
def c_str (a : List Nat) : Option (List Nat) :=
  if 0 ∈ a then some (a.takeWhile (fun b => b ≠ 0)) else none

/-- `strcpy(field, s.c_str())`: writes the string and its terminator over the
front of the array, leaving the remaining bytes; defined only if both fit. -/
def strcpy (field : List Nat) (s : List Nat) : Option (List Nat) :=
  if (cstrOf s).length < field.length then
    some (cstrOf s ++ [0] ++ field.drop ((cstrOf s).length + 1))
  else none

/-- `std::isalnum` in the "C" locale. -/
def isalnum (c : Nat) : Bool :=
  (48 ≤ c && c ≤ 57) || (65 ≤ c && c ≤ 90) || (97 ≤ c && c ≤ 122)

/-! ## Directory entries and their 64-byte images -/

/-- `struct dir_entry`. -/
structure dir_entry where
  file_name : List Nat
  size : Nat
  first_blk : Nat
  type : Nat
  access_rights : Nat
deriving DecidableEq, Repr

/-- `dir_entry e = {}`: every byte zero. -/
def dir_entry.empty : dir_entry :=
  { file_name := List.replicate FILE_NAME_SIZE 0, size := 0, first_blk := 0,
    type := 0, access_rights := 0 }

/-- Image of a record in a block. -/
def dir_entry.encode (e : dir_entry) : List Nat :=
  e.file_name ++
    [e.size % 256, e.size / 256 % 256, e.size / 65536 % 256, e.size / 16777216 % 256,
     e.first_blk % 256, e.first_blk / 256 % 256, e.type % 256, e.access_rights % 256]

/-- Record held by a 64-byte image. -/
def dir_entry.decode (b : List Nat) : dir_entry :=
  { file_name := b.take FILE_NAME_SIZE
    size := b.getD 56 0 % 256 + 256 * (b.getD 57 0 % 256) + 65536 * (b.getD 58 0 % 256)
      + 16777216 * (b.getD 59 0 % 256)
    first_blk := b.getD 60 0 % 256 + 256 * (b.getD 61 0 % 256)
    type := b.getD 62 0 % 256
    access_rights := b.getD 63 0 % 256 }

/-- Bytes of slot `i` of a directory block. -/
def slotBytes (blk : List Nat) (i : Nat) : List Nat :=
  (blk.drop (DIR_ENTRY_SIZE * i)).take DIR_ENTRY_SIZE

/-- The array `dir_entry dirEntries[DIR_BLOCK_SIZE]` filled by `m_disk.read`. -/
def dirEntries (BLOCK_SIZE : Nat) (blk : List Nat) : List dir_entry :=
  (List.range (DIR_BLOCK_SIZE BLOCK_SIZE)).map (fun i => dir_entry.decode (slotBytes blk i))

/-- Block written back after `dirEntries[i] = e`: only the bytes of slot `i`
differ from the block that was read. -/
def setSlot (blk : List Nat) (i : Nat) (e : dir_entry) : List Nat :=
  blk.take (DIR_ENTRY_SIZE * i) ++ e.encode ++ blk.drop (DIR_ENTRY_SIZE * i + DIR_ENTRY_SIZE)

/-- `FS::DirEntryExists`: the first name byte is not NUL. -/
def DirEntryExists (e : dir_entry) : Bool := e.file_name.headD 0 != 0

/-- `FS::HasValidAccess`: `(access_rights & mask) == mask`. -/
def HasValidAccess (e : dir_entry) (accessBitMask : Nat) : Bool :=
  (e.access_rights &&& accessBitMask) == accessBitMask

/-! ## The allocation table as bytes -/

/-- The two bytes of one `int16_t` slot. -/
def int16Bytes (v : Int) : List Nat :=
  [(v % 65536).toNat % 256, (v % 65536).toNat / 256]

/-- The buffer `(uint8_t*)m_fat` handed to the device by `UpdateFAT`. -/
def fatBytes (fat : List Int) : List Nat := (fat.map int16Bytes).flatten

/-! ## Block device -/

/-- Modelled from the spec: the block device of `disk.h` (not among the
sources) is "an addressable array of fixed-size blocks supporting whole-block
read and write by index"; `read` fails only on an out-of-range index. -/
def Disk.read (disk : List (List Nat)) (blk : Int) : Option (List Nat) :=
  if 0 ≤ blk ∧ blk < disk.length then disk.get? blk.toNat else none

/-- Modelled from the spec: `write(index, block) -> status | failure`, failing
only on an out-of-range index and never writing a block partially. -/
def Disk.write (disk : List (List Nat)) (blk : Int) (buf : List Nat) : Option (List (List Nat)) :=
  if 0 ≤ blk ∧ blk < disk.length then some (disk.set blk.toNat buf) else none

/-! ## Paths -/

/-- `enum class PATH_TYPE`. -/
inductive PATH_TYPE where
  | ROOT | RELATIVE | ABSOLUTE | INVALID
deriving DecidableEq, Repr

/-- The `getline(stream, individualPath, '/')` loop of `ParseDirPath`: `cur` is
the segment being read.  A delimiter ends a segment (possibly empty); at the
end of the stream a segment is produced only if characters were extracted. -/
def ParseDirPathLoop : List Nat → List Nat → List (List Nat)
  | [], cur => if cur = [] then [] else [cur]
  | c :: cs, cur => if c = 47 then cur :: ParseDirPathLoop cs [] else ParseDirPathLoop cs (cur ++ [c])

/-- `FS::ParseDirPath`. -/
def ParseDirPath (dirPath : List Nat) : List (List Nat) := ParseDirPathLoop dirPath []

/-- `FS::EvaluatePathType`. -/
def EvaluatePathType (paths : List (List Nat)) : PATH_TYPE :=
  if paths.length = 1 then
    (if paths.headD [] = [] then PATH_TYPE.ROOT else PATH_TYPE.RELATIVE)
  else if paths.length > 1 then
    (if paths.headD [] = str "." ∨ paths.headD [] = str ".." then PATH_TYPE.RELATIVE
     else if paths.headD [] = [] then PATH_TYPE.ABSOLUTE
     else PATH_TYPE.INVALID)
  else PATH_TYPE.INVALID

/-- `FS::HasSpecialCharacters`. -/
def HasSpecialCharacters (filename : List Nat) : Bool :=
  if filename = str ".." then false else filename.any (fun c => !isalnum c)

/-- Body of the `for` loop of `FilenamesAreValid` from index `i` on. -/
def FilenamesAreValidLoop (pathType : PATH_TYPE) : Nat → List (List Nat) → Bool
  | _, [] => true
  | i, filename :: rest =>
    if HasSpecialCharacters filename then
      if pathType ≠ PATH_TYPE.ABSOLUTE ∧ pathType ≠ PATH_TYPE.RELATIVE then false
      else if i ≠ 0 then false
      else if pathType = PATH_TYPE.ABSOLUTE ∧ filename ≠ [] then false
      else if pathType = PATH_TYPE.RELATIVE ∧ ¬ (filename = str ".") then false
      else if filename.length > FILE_NAME_SIZE then false
      else FilenamesAreValidLoop pathType (i + 1) rest
    else if filename.length > FILE_NAME_SIZE then false
    else FilenamesAreValidLoop pathType (i + 1) rest

/-- `FS::FilenamesAreValid`. -/
def FilenamesAreValid (dirpath : List Nat) : Bool :=
  if dirpath = [] then false
  else if EvaluatePathType (ParseDirPath dirpath) = PATH_TYPE.INVALID then false
  else if EvaluatePathType (ParseDirPath dirpath) = PATH_TYPE.ROOT then true
  else FilenamesAreValidLoop (EvaluatePathType (ParseDirPath dirpath)) 0 (ParseDirPath dirpath)

/-- `FS::CalculateMinBlockCount` on `int`, with the truncating `/` and `%` of C. -/
def CalculateMinBlockCount (BLOCK_SIZE : Nat) (size : Int) : Int :=
  if Int.tmod size BLOCK_SIZE ≠ 0 then Int.tdiv size BLOCK_SIZE + 1 else Int.tdiv size BLOCK_SIZE

/-- `std::isspace` in the "C" locale. -/
def isspace (c : Nat) : Bool := c = 32 || (9 ≤ c && c ≤ 13)

/-- `std::isdigit`. -/
def isdigit (c : Nat) : Bool := 48 ≤ c && c ≤ 57

/-- `std::stoi`: leading white space, an optional sign, then decimal digits up
to the first other character; `none` when it throws (no digit, or a value that
does not fit an `int`). -/
def stoi (s : List Nat) : Option Int :=
  let t := s.dropWhile isspace
  let neg := t.head? = some 45
  let u := if t.head? = some 45 ∨ t.head? = some 43 then t.drop 1 else t
  let ds := u.takeWhile isdigit
  let v : Int := ds.foldl (fun a d => 10 * a + ((d : Int) - 48)) 0
  let w : Int := if neg then -v else v
  if ds = [] then none
  else if w < -2147483648 ∨ w > 2147483647 then none
  else some w

/-! ## The file system object -/

/-- State of an `FS` object: the device `m_disk`, the table `m_fat`, the block
of the working directory, and the `static` flags of `MakeFATEntry`. -/
structure FS where
  m_disk : List (List Nat)
  m_fat : List Int
  m_cwdBlock : Nat
  rootCreated : Bool
  FATCreated : Bool
deriving DecidableEq, Repr

namespace FS

/-- `const uint8_t m_defaultPermissions = READ | WRITE`. -/
def m_defaultPermissions : Nat := 6

/-- `FS::UpdateFAT`: the status of the device write of the whole table. -/
def UpdateFAT (s : FS) : Int × FS :=
  match Disk.write s.m_disk FAT_BLOCK (fatBytes s.m_fat) with
  | some d => (0, { s with m_disk := d })
  | none => (ERROR_CODE, s)

/-- `FS::MakeFATEntry(const uint32_t index, const int16_t blockValue)`.  The
argument `index` is the `int` at the call site, converted to `uint32_t`; the
guard `index > FAT_SIZE` lets `index == FAT_SIZE` through to `m_fat[index]`. -/
def MakeFATEntry (BLOCK_SIZE : Nat) (s : FS) (index : Int) (blockValue : Int) : Run (Int × FS) :=
  let idx := toUInt32 index
  if idx = ROOT_BLOCK ∧ s.rootCreated = true then Run.ret (ERROR_CODE, s)
  else
    let s1 := if idx = ROOT_BLOCK then { s with rootCreated := true } else s
    if idx = FAT_BLOCK ∧ s1.FATCreated = true then Run.ret (ERROR_CODE, s1)
    else
      let s2 := if idx = FAT_BLOCK then { s1 with FATCreated := true } else s1
      if idx > FAT_SIZE BLOCK_SIZE then Run.ret (ERROR_CODE, s2)
      else if idx < s2.m_fat.length ∧ idx < FAT_SIZE BLOCK_SIZE then
        Run.ret (UpdateFAT { s2 with m_fat := s2.m_fat.set idx (toInt16 blockValue) })
      else Run.undef

/-- `FS::GetChildBlock`: `m_fat[block]`. -/
def GetChildBlock (BLOCK_SIZE : Nat) (s : FS) (block : Int) : Run Int :=
  if 0 ≤ block ∧ block < FAT_SIZE BLOCK_SIZE then Run.ofOption (s.m_fat.get? block.toNat)
  else Run.undef

/-- `FS::BlockIsFree`. -/
def BlockIsFree (s : FS) (block : Nat) : Bool := s.m_fat.get? block == some FAT_FREE

/-- The scan of `GetFreeBlocks` over the block numbers still to visit, `n`
being the number of blocks still wanted. -/
def GetFreeBlocksLoop (s : FS) : List Nat → Nat → List Nat
  | [], _ => []
  | blockNum :: rest, n =>
    if n = 0 then []
    else if s.BlockIsFree blockNum then blockNum :: GetFreeBlocksLoop s rest (n - 1)
    else GetFreeBlocksLoop s rest n

/-- `FS::GetFreeBlocks`: status and the vector it filled. -/
def GetFreeBlocks (BLOCK_SIZE : Nat) (s : FS) (nBlocksToAdd : Int) : Int × List Nat :=
  if nBlocksToAdd < 0 then (ERROR_CODE, [])
  else (0, GetFreeBlocksLoop s (List.range (FAT_SIZE BLOCK_SIZE)) nBlocksToAdd.toNat)

/-- The linking loop shared by `AllocateNewFileOnFAT` and `ExtendFileOnFAT`,
with `k` iterations left of `n` (so `i = n - k`). -/
def LinkLoop (BLOCK_SIZE : Nat) (freeBlocksArray : List Nat) (n : Nat) : Nat → FS → Run (Int × FS)
  | 0, s => Run.ret (0, s)
  | k + 1, s =>
    let i := n - (k + 1)
    match freeBlocksArray.get? i with
    | none => Run.undef
    | some freeBlockIndex =>
      match (if i = n - 1 then some FAT_EOF else (freeBlocksArray.get? (i + 1)).map Int.ofNat) with
      | none => Run.undef
      | some linkedBlock =>
        match MakeFATEntry BLOCK_SIZE s freeBlockIndex linkedBlock with
        | Run.ret (st, s1) =>
          if st ≠ 0 then Run.ret (ERROR_CODE, s1) else LinkLoop BLOCK_SIZE freeBlocksArray n k s1
        | Run.undef => Run.undef
        | Run.spin => Run.spin
        | Run.thrown => Run.thrown

/-- `FS::AllocateNewFileOnFAT`: status, new state and `*allocatedFirstBlock`. -/
def AllocateNewFileOnFAT (BLOCK_SIZE : Nat) (s : FS) (nBlocksToAllocate : Int) :
    Run (Int × FS × Int) :=
  match GetFreeBlocks BLOCK_SIZE s nBlocksToAllocate with
  | (st, freeBlocksArray) =>
    if st ≠ 0 then Run.ret (ERROR_CODE, s, 0)
    else do
      let r ← LinkLoop BLOCK_SIZE freeBlocksArray nBlocksToAllocate.toNat nBlocksToAllocate.toNat s
      if r.1 ≠ 0 then Run.ret (ERROR_CODE, r.2, 0)
      else
        match freeBlocksArray.get? 0 with
        | none => Run.undef
        | some first => Run.ret (0, r.2, (first : Int))

/-- `FS::GetEOFBlockFromStartBlock`. -/
def GetEOFBlockFromStartBlock (BLOCK_SIZE : Nat) (s : FS) : Nat → Int → Run Int
  | 0, _ => Run.spin
  | fuel + 1, EOFBlock => do
    let child ← GetChildBlock BLOCK_SIZE s EOFBlock
    if child ≠ FAT_EOF then GetEOFBlockFromStartBlock BLOCK_SIZE s fuel child
    else Run.ret EOFBlock

/-- `FS::ExtendFileOnFAT`. -/
def ExtendFileOnFAT (BLOCK_SIZE : Nat) (fuel : Nat) (s : FS) (nBlocksToAllocate : Int)
    (startBlock : Int) : Run (Int × FS) :=
  match GetFreeBlocks BLOCK_SIZE s nBlocksToAllocate with
  | (st, freeBlocksArray) =>
    if st ≠ 0 then Run.ret (ERROR_CODE, s)
    else do
      let EOFBlock ← GetEOFBlockFromStartBlock BLOCK_SIZE s fuel startBlock
      let first ← Run.ofOption (freeBlocksArray.get? 0)
      let r ← MakeFATEntry BLOCK_SIZE s EOFBlock (first : Int)
      if r.1 ≠ 0 then Run.ret (ERROR_CODE, r.2)
      else do
        let r2 ← LinkLoop BLOCK_SIZE freeBlocksArray nBlocksToAllocate.toNat nBlocksToAllocate.toNat r.2
        if r2.1 ≠ 0 then Run.ret (ERROR_CODE, r2.2) else Run.ret (0, r2.2)

/-- Index of the first array element whose name, read as a C string, equals
`name` (the scans of `GetDirEntry` and `UpdateDirEntry`). -/
def findName (name : List Nat) : List dir_entry → Run (Option Nat)
  | [] => Run.ret none
  | e :: es =>
    match c_str e.file_name with
    | none => Run.undef
    | some n =>
      if n = name then Run.ret (some 0)
      else do
        let r ← findName name es
        Run.ret (r.map (fun i => i + 1))

/-- Whether `strcmp(a, b) == 0` for two `char` arrays: bytes are compared in
step up to the first difference or a common NUL; running off an array without
either is outside the model. -/
def strcmpEq : List Nat → List Nat → Option Bool
  | a :: as, b :: bs =>
    if a ≠ b then some false else if a = 0 then some true else strcmpEq as bs
  | _, _ => none

/-- Index of the first array element whose name `strcmp` finds equal to the
name field `old` (the scan of `UpdateDirEntry`). -/
def findStrcmp (old : List Nat) : List dir_entry → Run (Option Nat)
  | [] => Run.ret none
  | e :: es =>
    match strcmpEq e.file_name old with
    | none => Run.undef
    | some true => Run.ret (some 0)
    | some false => do
      let r ← findStrcmp old es
      Run.ret (r.map (fun i => i + 1))

/-- Index of the first array element for which `DirEntryExists` is false. -/
def firstAbsent : List dir_entry → Option Nat
  | [] => none
  | e :: es => if DirEntryExists e then (firstAbsent es).map (fun i => i + 1) else some 0

/-- `FS::GetDirEntry(const int parentDirBlock, const std::string&, dir_entry&)`:
status and `dirEntryOut`. -/
def GetDirEntry (BLOCK_SIZE : Nat) (s : FS) (parentDirBlock : Int) (filename : List Nat) :
    Run (Int × dir_entry) :=
  match Disk.read s.m_disk parentDirBlock with
  | none => Run.ret (ERROR_CODE, dir_entry.empty)
  | some blk => do
    let r ← findName filename (dirEntries BLOCK_SIZE blk)
    match r with
    | none => Run.ret (0, dir_entry.empty)
    | some i => Run.ret (0, dir_entry.decode (slotBytes blk i))

/-- The `for` loop of `GetDirectoryBlock` from index `i` on. -/
def GetDirectoryBlockLoop (BLOCK_SIZE : Nat) (s : FS) (pathType : PATH_TYPE) :
    Nat → List (List Nat) → Int → Run Int
  | _, [], currentBlock => Run.ret currentBlock
  | i, name :: rest, currentBlock =>
    if i = 0 ∧ ((pathType = PATH_TYPE.RELATIVE ∧ name = str ".") ∨
        (pathType = PATH_TYPE.ABSOLUTE ∧ name = [])) then
      GetDirectoryBlockLoop BLOCK_SIZE s pathType (i + 1) rest currentBlock
    else do
      let r ← GetDirEntry BLOCK_SIZE s currentBlock name
      if !DirEntryExists r.2 || r.2.type ≠ TYPE_DIR then Run.ret ERROR_CODE
      else GetDirectoryBlockLoop BLOCK_SIZE s pathType (i + 1) rest (r.2.first_blk : Int)

/-- `FS::GetDirectoryBlock`. -/
def GetDirectoryBlock (BLOCK_SIZE : Nat) (s : FS) (dirPaths : List (List Nat)) : Run Int :=
  if dirPaths.length = 0 then Run.ret (s.m_cwdBlock : Int)
  else
    match EvaluatePathType dirPaths with
    | PATH_TYPE.INVALID => Run.ret ERROR_CODE
    | PATH_TYPE.ROOT => Run.ret (ROOT_BLOCK : Int)
    | PATH_TYPE.RELATIVE =>
      GetDirectoryBlockLoop BLOCK_SIZE s PATH_TYPE.RELATIVE 0 dirPaths (s.m_cwdBlock : Int)
    | PATH_TYPE.ABSOLUTE =>
      GetDirectoryBlockLoop BLOCK_SIZE s PATH_TYPE.ABSOLUTE 0 dirPaths (ROOT_BLOCK : Int)

/-- `FS::GetDirEntry(std::vector<std::string> dirPaths, dir_entry&)`: status
(always 0) and `dirEntryOut`; `dirPaths.back()` needs a non-empty vector. -/
def GetDirEntryPath (BLOCK_SIZE : Nat) (s : FS) (dirPaths : List (List Nat)) :
    Run (Int × dir_entry) :=
  match dirPaths.getLast? with
  | none => Run.undef
  | some fileName => do
    let parentDirBlock ← GetDirectoryBlock BLOCK_SIZE s dirPaths.dropLast
    if parentDirBlock ≠ ERROR_CODE then do
      let r ← GetDirEntry BLOCK_SIZE s parentDirBlock fileName
      Run.ret (0, r.2)
    else Run.ret (0, dir_entry.empty)

/-- `FS::UpdateDirEntry`. -/
def UpdateDirEntry (BLOCK_SIZE : Nat) (s : FS) (parentDirBlock : Int)
    (oldDirEntry newDirEntry : dir_entry) : Run (Int × FS) :=
  match Disk.read s.m_disk parentDirBlock with
  | none => Run.ret (ERROR_CODE, s)
  | some blk => do
    let r ← findStrcmp oldDirEntry.file_name (dirEntries BLOCK_SIZE blk)
    let blk1 := match r with
      | none => blk
      | some i => setSlot blk i newDirEntry
    match Disk.write s.m_disk parentDirBlock blk1 with
    | none => Run.ret (ERROR_CODE, s)
    | some d => Run.ret (0, { s with m_disk := d })

/-- `FS::AddNewDirEntry`. -/
def AddNewDirEntry (BLOCK_SIZE : Nat) (s : FS) (parentDirectoryBlock : Int)
    (newDirEntry : dir_entry) : Int × FS :=
  if !DirEntryExists newDirEntry then (ERROR_CODE, s)
  else
    match Disk.read s.m_disk parentDirectoryBlock with
    | none => (ERROR_CODE, s)
    | some blk =>
      match firstAbsent (dirEntries BLOCK_SIZE blk) with
      | none => (ERROR_CODE, s)
      | some i =>
        match Disk.write s.m_disk parentDirectoryBlock (setSlot blk i newDirEntry) with
        | none => (ERROR_CODE, s)
        | some d => (0, { s with m_disk := d })

/-- `FS::DirectoryIsEmpty`: the loop starts at index 1. -/
def DirectoryIsEmpty (BLOCK_SIZE : Nat) (s : FS) (dirEntry : dir_entry) : Bool :=
  match Disk.read s.m_disk (dirEntry.first_blk : Int) with
  | none => false
  | some blk => ((dirEntries BLOCK_SIZE blk).drop 1).all (fun e => !DirEntryExists e)

/-- `FS::FilepathExists`. -/
def FilepathExists (BLOCK_SIZE : Nat) (s : FS) (filePath : List Nat) : Run Bool := do
  let r ← GetDirEntryPath BLOCK_SIZE s (ParseDirPath filePath)
  Run.ret (DirEntryExists r.2)

/-- Number of characters one iteration of `WriteDataStringToFile` copies:
`BLOCK_SIZE < fileContentSize ? BLOCK_SIZE : fileContentSize % BLOCK_SIZE`. -/
def charactersToCopy (BLOCK_SIZE : Nat) (fileContentSize : Nat) : Nat :=
  if BLOCK_SIZE < fileContentSize then BLOCK_SIZE else fileContentSize % BLOCK_SIZE

/-- The `while (!stringData.empty())` loop of `WriteDataStringToFile`. -/
def WriteLoop (BLOCK_SIZE : Nat) : Nat → FS → List Nat → Int → Run (Int × FS)
  | 0, s, stringData, _ => if stringData = [] then Run.ret (0, s) else Run.spin
  | fuel + 1, s, stringData, nextBlock =>
    if stringData = [] then Run.ret (0, s)
    else
      let k := charactersToCopy BLOCK_SIZE stringData.length
      let blockBuffer := stringData.take k ++ List.replicate (BLOCK_SIZE - k) 0
      match Disk.write s.m_disk nextBlock blockBuffer with
      | none => Run.ret (ERROR_CODE, s)
      | some d => do
        let child ← GetChildBlock BLOCK_SIZE s nextBlock
        WriteLoop BLOCK_SIZE fuel { s with m_disk := d } (stringData.drop k) child

/-- `FS::WriteDataStringToFile`. -/
def WriteDataStringToFile (BLOCK_SIZE : Nat) (fuel : Nat) (s : FS) (stringData : List Nat)
    (fileDirEntry : dir_entry) : Run (Int × FS) :=
  if fileDirEntry.type ≠ TYPE_FILE then Run.ret (ERROR_CODE, s)
  else if CalculateMinBlockCount BLOCK_SIZE (toInt32 fileDirEntry.size)
      < CalculateMinBlockCount BLOCK_SIZE stringData.length then Run.ret (ERROR_CODE, s)
  else WriteLoop BLOCK_SIZE fuel s stringData (fileDirEntry.first_blk : Int)

/-- The loop of `ReadFileToDataString`.  `strlen(blockBuffer)` reads the
buffer of `BLOCK_SIZE` bytes as a C string before the result is clamped, so a
block holding no NUL is read past the end of the buffer. -/
def ReadLoop (BLOCK_SIZE : Nat) (s : FS) : Nat → List Nat → Int → Run (Int × List Nat)
  | 0, stringData, currentBlock =>
    if currentBlock = FAT_EOF then Run.ret (0, stringData) else Run.spin
  | fuel + 1, stringData, currentBlock =>
    if currentBlock = FAT_EOF then Run.ret (0, stringData)
    else
      match Disk.read s.m_disk currentBlock with
      | none => Run.ret (ERROR_CODE, stringData)
      | some blockBuffer => do
        let text ← Run.ofOption (c_str blockBuffer)
        let charactersToAppend := if text.length ≥ BLOCK_SIZE then BLOCK_SIZE else text.length
        let child ← GetChildBlock BLOCK_SIZE s currentBlock
        ReadLoop BLOCK_SIZE s fuel (stringData ++ blockBuffer.take charactersToAppend) child

/-- `FS::ReadFileToDataString`: status and the string after the call. -/
def ReadFileToDataString (BLOCK_SIZE : Nat) (fuel : Nat) (s : FS) (stringData : List Nat)
    (fileDirEntry : dir_entry) : Run (Int × List Nat) :=
  ReadLoop BLOCK_SIZE s fuel stringData (fileDirEntry.first_blk : Int)

/-- The loop of `format` that marks the blocks after the table block free. -/
def formatLoop (BLOCK_SIZE : Nat) : List Nat → FS → Run (Int × FS)
  | [], s => Run.ret (0, s)
  | i :: rest, s => do
    let r ← MakeFATEntry BLOCK_SIZE s (i : Int) FAT_FREE
    if r.1 ≠ 0 then Run.ret (ERROR_CODE, r.2) else formatLoop BLOCK_SIZE rest r.2

/-- `FS::format`. -/
def format (BLOCK_SIZE : Nat) (s : FS) : Run (Int × FS) :=
  let s0 := { s with m_disk := s.m_disk.map (fun _ => List.replicate BLOCK_SIZE 0) }
  do
    let r ← MakeFATEntry BLOCK_SIZE s0 (ROOT_BLOCK : Int) FAT_EOF
    if r.1 ≠ 0 then Run.ret (ERROR_CODE, r.2)
    else do
      let r1 ← MakeFATEntry BLOCK_SIZE r.2 (FAT_BLOCK : Int) FAT_EOF
      if r1.1 ≠ 0 then Run.ret (ERROR_CODE, r1.2)
      else formatLoop BLOCK_SIZE (List.range' (FAT_BLOCK + 1) (FAT_SIZE BLOCK_SIZE - (FAT_BLOCK + 1))) r1.2

/-- `FS::create`; `line` is what `std::getline(std::cin, inputBuffer)` reads. -/
def create (BLOCK_SIZE : Nat) (fuel : Nat) (s : FS) (filepath : List Nat) (line : List Nat) :
    Run (Int × FS) :=
  if !FilenamesAreValid filepath then Run.ret (ERROR_CODE, s)
  else do
    let ex ← FilepathExists BLOCK_SIZE s filepath
    if ex then Run.ret (ERROR_CODE, s)
    else do
      let newFilename ← Run.ofOption (ParseDirPath filepath).getLast?
      let inputBuffer :=
        (if newFilename = str "testfile" then List.replicate (BLOCK_SIZE * 3 + 1) 97 else line)
          ++ [10]
      let a ← AllocateNewFileOnFAT BLOCK_SIZE s
        (CalculateMinBlockCount BLOCK_SIZE inputBuffer.length)
      if a.1 ≠ 0 then Run.ret (ERROR_CODE, a.2.1)
      else do
        let name ← Run.ofOption (strcpy dir_entry.empty.file_name filepath)
        let newDirEntry : dir_entry :=
          { file_name := name, size := toUInt32 inputBuffer.length,
            first_blk := toUInt16 a.2.2, type := TYPE_FILE,
            access_rights := m_defaultPermissions }
        let w ← WriteDataStringToFile BLOCK_SIZE fuel a.2.1 inputBuffer newDirEntry
        if w.1 ≠ 0 then Run.ret (ERROR_CODE, w.2)
        else do
          let parent ← GetDirectoryBlock BLOCK_SIZE w.2 (ParseDirPath filepath).dropLast
          let r := AddNewDirEntry BLOCK_SIZE w.2 parent newDirEntry
          if r.1 ≠ 0 then Run.ret (ERROR_CODE, r.2) else Run.ret (0, r.2)

/-- The `while (currentFileBlock != FAT_EOF)` loop of `cat`;
`catOutput.append(fileBlockBuffer)` reads the block as a C string. -/
def catLoop (BLOCK_SIZE : Nat) (s : FS) : Nat → List Nat → Int → Run (Int × List Nat)
  | 0, catOutput, currentFileBlock =>
    if currentFileBlock = FAT_EOF then Run.ret (0, catOutput) else Run.spin
  | fuel + 1, catOutput, currentFileBlock =>
    if currentFileBlock = FAT_EOF then Run.ret (0, catOutput)
    else
      match Disk.read s.m_disk currentFileBlock with
      | none => Run.ret (ERROR_CODE, catOutput)
      | some fileBlockBuffer => do
        let text ← Run.ofOption (c_str fileBlockBuffer)
        let child ← GetChildBlock BLOCK_SIZE s currentFileBlock
        catLoop BLOCK_SIZE s fuel (catOutput ++ text) child

/-- `FS::cat`: status, the state (the function writes nothing) and the text
sent to `std::cout`, which is `catOutput` followed by `std::endl`. -/
def cat (BLOCK_SIZE : Nat) (fuel : Nat) (s : FS) (filepath : List Nat) :
    Run (Int × FS × List Nat) :=
  if !FilenamesAreValid filepath then Run.ret (ERROR_CODE, s, [])
  else do
    let ex ← FilepathExists BLOCK_SIZE s filepath
    if !ex then Run.ret (ERROR_CODE, s, [])
    else do
      let r ← GetDirEntryPath BLOCK_SIZE s (ParseDirPath filepath)
      if r.2.type ≠ TYPE_FILE || !HasValidAccess r.2 READ then Run.ret (ERROR_CODE, s, [])
      else do
        let out ← catLoop BLOCK_SIZE s fuel [] (r.2.first_blk : Int)
        if out.1 ≠ 0 then Run.ret (ERROR_CODE, s, []) else Run.ret (0, s, out.2 ++ [10])

/-- The block-by-block copy loop of `cp`. -/
def cpLoop (BLOCK_SIZE : Nat) : Nat → FS → Int → Int → Run (Int × FS)
  | 0, s, currentSourceBlock, _ =>
    if currentSourceBlock = FAT_EOF then Run.ret (0, s) else Run.spin
  | fuel + 1, s, currentSourceBlock, currentDestBlock =>
    if currentSourceBlock = FAT_EOF then Run.ret (0, s)
    else
      match Disk.read s.m_disk currentSourceBlock with
      | none => Run.ret (ERROR_CODE, s)
      | some dataBuffer =>
        match Disk.write s.m_disk currentDestBlock dataBuffer with
        | none => Run.ret (ERROR_CODE, s)
        | some d => do
          let nextSource ← GetChildBlock BLOCK_SIZE s currentSourceBlock
          let nextDest ← GetChildBlock BLOCK_SIZE s currentDestBlock
          cpLoop BLOCK_SIZE fuel { s with m_disk := d } nextSource nextDest

/-- The second half of `cp`, from the allocation of the new chain on:
`dirBlock` and `destFileName` are the directory block and the name the first
half chose. -/
def cpFinish (BLOCK_SIZE : Nat) (fuel : Nat) (s : FS) (sourceDirEntry : dir_entry)
    (dirBlock : Int) (destFileName : List Nat) : Run (Int × FS) := do
  let a ← AllocateNewFileOnFAT BLOCK_SIZE s
    (CalculateMinBlockCount BLOCK_SIZE (toInt32 sourceDirEntry.size))
  if a.1 ≠ 0 then Run.ret (ERROR_CODE, a.2.1)
  else do
    let name ← Run.ofOption (strcpy sourceDirEntry.file_name destFileName)
    let sourceDirCopy : dir_entry :=
      { sourceDirEntry with file_name := name, first_blk := toUInt16 a.2.2 }
    let r := AddNewDirEntry BLOCK_SIZE a.2.1 dirBlock sourceDirCopy
    if r.1 ≠ 0 then Run.ret (ERROR_CODE, r.2)
    else
      cpLoop BLOCK_SIZE fuel r.2 (sourceDirEntry.first_blk : Int) (sourceDirCopy.first_blk : Int)

/-- `FS::cp`. -/
def cp (BLOCK_SIZE : Nat) (fuel : Nat) (s : FS) (sourcepath destpath : List Nat) :
    Run (Int × FS) :=
  if !FilenamesAreValid sourcepath || !FilenamesAreValid destpath then Run.ret (ERROR_CODE, s)
  else do
    let ex ← FilepathExists BLOCK_SIZE s sourcepath
    if !ex then Run.ret (ERROR_CODE, s)
    else do
      let src ← GetDirEntryPath BLOCK_SIZE s (ParseDirPath sourcepath)
      let sourceDirEntry := src.2
      if !DirEntryExists sourceDirEntry then Run.ret (ERROR_CODE, s)
      else if sourceDirEntry.type ≠ TYPE_FILE || !HasValidAccess sourceDirEntry READ then
        Run.ret (ERROR_CODE, s)
      else do
        let dst ← GetDirEntryPath BLOCK_SIZE s (ParseDirPath destpath)
        let destDirEntry := dst.2
        if dst.1 ≠ 0 then Run.ret (ERROR_CODE, s)
        else if destDirEntry.type = TYPE_DIR then do
          let destFileName ← Run.ofOption (c_str sourceDirEntry.file_name)
          cpFinish BLOCK_SIZE fuel s sourceDirEntry (destDirEntry.first_blk : Int) destFileName
        else if DirEntryExists destDirEntry || HasSpecialCharacters destpath then
          Run.ret (ERROR_CODE, s)
        else cpFinish BLOCK_SIZE fuel s sourceDirEntry (s.m_cwdBlock : Int) destpath

/-- `FS::mv`. -/
def mv (BLOCK_SIZE : Nat) (s : FS) (sourcepath destpath : List Nat) : Run (Int × FS) :=
  if !FilenamesAreValid sourcepath || !FilenamesAreValid destpath then Run.ret (ERROR_CODE, s)
  else do
    let ex ← FilepathExists BLOCK_SIZE s sourcepath
    if !ex then Run.ret (ERROR_CODE, s)
    else do
      let src ← GetDirEntryPath BLOCK_SIZE s (ParseDirPath sourcepath)
      let sourceDirEntry := src.2
      if sourceDirEntry.type = TYPE_DIR then Run.ret (ERROR_CODE, s)
      else do
        let sourceDirEntryBlock ← GetDirectoryBlock BLOCK_SIZE s (ParseDirPath sourcepath).dropLast
        let dst ← GetDirEntryPath BLOCK_SIZE s (ParseDirPath destpath)
        let destDirEntry := dst.2
        if dst.1 ≠ 0 then Run.ret (ERROR_CODE, s)
        else if destDirEntry.type = TYPE_DIR then
          let r := AddNewDirEntry BLOCK_SIZE s (destDirEntry.first_blk : Int) sourceDirEntry
          if r.1 ≠ 0 then Run.ret (ERROR_CODE, r.2)
          else do
            let u ← UpdateDirEntry BLOCK_SIZE r.2 sourceDirEntryBlock sourceDirEntry dir_entry.empty
            if u.1 ≠ 0 then Run.ret (ERROR_CODE, u.2) else Run.ret (0, u.2)
        else if DirEntryExists destDirEntry || HasSpecialCharacters destpath then
          Run.ret (ERROR_CODE, s)
        else do
          let name ← Run.ofOption (strcpy sourceDirEntry.file_name destpath)
          let newSourceDirEntry : dir_entry := { sourceDirEntry with file_name := name }
          let u ← UpdateDirEntry BLOCK_SIZE s sourceDirEntryBlock sourceDirEntry newSourceDirEntry
          if u.1 ≠ 0 then Run.ret (ERROR_CODE, u.2) else Run.ret (0, u.2)

/-- The chain-freeing loop of `rm`: the block is zeroed (the status of that
write is not looked at), then its table slot is set to `FAT_FREE`. -/
def rmLoop (BLOCK_SIZE : Nat) : Nat → FS → Int → Run (Int × FS)
  | 0, s, currentBlock => if currentBlock = FAT_EOF then Run.ret (0, s) else Run.spin
  | fuel + 1, s, currentBlock =>
    if currentBlock = FAT_EOF then Run.ret (0, s)
    else
      let s1 : FS :=
        match Disk.write s.m_disk currentBlock (List.replicate BLOCK_SIZE 0) with
        | none => s
        | some d => { s with m_disk := d }
      do
        let nextBlock ← GetChildBlock BLOCK_SIZE s1 currentBlock
        let r ← MakeFATEntry BLOCK_SIZE s1 currentBlock FAT_FREE
        if r.1 ≠ 0 then Run.ret (ERROR_CODE, r.2) else rmLoop BLOCK_SIZE fuel r.2 nextBlock

/-- `FS::rm`. -/
def rm (BLOCK_SIZE : Nat) (fuel : Nat) (s : FS) (filepath : List Nat) : Run (Int × FS) :=
  if !FilenamesAreValid filepath then Run.ret (ERROR_CODE, s)
  else do
    let ex ← FilepathExists BLOCK_SIZE s filepath
    if !ex then Run.ret (ERROR_CODE, s)
    else do
      let t ← GetDirEntryPath BLOCK_SIZE s (ParseDirPath filepath)
      let tempDirEntryHolder := t.2
      if t.1 ≠ 0 then Run.ret (ERROR_CODE, s)
      else if tempDirEntryHolder.type = TYPE_DIR ∧
          ¬ DirectoryIsEmpty BLOCK_SIZE s tempDirEntryHolder = true then Run.ret (ERROR_CODE, s)
      else do
        let parent ← GetDirectoryBlock BLOCK_SIZE s (ParseDirPath filepath).dropLast
        let u ← UpdateDirEntry BLOCK_SIZE s parent tempDirEntryHolder dir_entry.empty
        if u.1 ≠ 0 then Run.ret (ERROR_CODE, u.2)
        else rmLoop BLOCK_SIZE fuel u.2 (tempDirEntryHolder.first_blk : Int)

/-- `FS::append`. -/
def append (BLOCK_SIZE : Nat) (fuel : Nat) (s : FS) (filepath1 filepath2 : List Nat) :
    Run (Int × FS) :=
  if !FilenamesAreValid filepath1 || !FilenamesAreValid filepath2 then Run.ret (ERROR_CODE, s)
  else do
    let ex1 ← FilepathExists BLOCK_SIZE s filepath1
    let ex2 ← (if !ex1 then Run.ret false else FilepathExists BLOCK_SIZE s filepath2)
    if !ex1 || !ex2 then Run.ret (ERROR_CODE, s)
    else do
      let src ← GetDirEntryPath BLOCK_SIZE s (ParseDirPath filepath1)
      let dst ← GetDirEntryPath BLOCK_SIZE s (ParseDirPath filepath2)
      let sourceDirEntry := src.2
      let destDirEntry := dst.2
      if sourceDirEntry.type ≠ TYPE_FILE || destDirEntry.type ≠ TYPE_FILE then
        Run.ret (ERROR_CODE, s)
      else if !HasValidAccess sourceDirEntry READ || !HasValidAccess destDirEntry (READ ||| WRITE)
        then Run.ret (ERROR_CODE, s)
      else do
        let r1 ← ReadFileToDataString BLOCK_SIZE fuel s [] destDirEntry
        if r1.1 ≠ 0 then Run.ret (ERROR_CODE, s)
        else do
          let r2 ← ReadFileToDataString BLOCK_SIZE fuel s r1.2 sourceDirEntry
          if r2.1 ≠ 0 then Run.ret (ERROR_CODE, s)
          else do
            let fileContents := r2.2
            let destBlockCount := CalculateMinBlockCount BLOCK_SIZE (toInt32 destDirEntry.size)
            let desiredNewBlockCount := CalculateMinBlockCount BLOCK_SIZE fileContents.length
            let x ← (if desiredNewBlockCount > destBlockCount then
                ExtendFileOnFAT BLOCK_SIZE fuel s (desiredNewBlockCount - destBlockCount)
                  (destDirEntry.first_blk : Int)
              else Run.ret (0, s))
            if x.1 ≠ 0 then Run.ret (ERROR_CODE, x.2)
            else do
              let newDestDirEntry : dir_entry :=
                { destDirEntry with size := toUInt32 fileContents.length }
              let parent ← GetDirectoryBlock BLOCK_SIZE x.2 (ParseDirPath filepath2).dropLast
              let u ← UpdateDirEntry BLOCK_SIZE x.2 parent destDirEntry newDestDirEntry
              if u.1 ≠ 0 then Run.ret (ERROR_CODE, u.2)
              else WriteDataStringToFile BLOCK_SIZE fuel u.2 fileContents newDestDirEntry

/-- `FS::mkdir`.  The record is inserted with `m_defaultPermissions`; the
later `newDir.access_rights = 0` changes only the local copy. -/
def mkdir (BLOCK_SIZE : Nat) (s : FS) (dirpath : List Nat) : Run (Int × FS) :=
  if !FilenamesAreValid dirpath then Run.ret (ERROR_CODE, s)
  else do
    let ex ← FilepathExists BLOCK_SIZE s dirpath
    if ex then Run.ret (ERROR_CODE, s)
    else do
      let dirName ← Run.ofOption (ParseDirPath dirpath).getLast?
      let a ← AllocateNewFileOnFAT BLOCK_SIZE s 1
      if a.1 ≠ 0 then Run.ret (ERROR_CODE, a.2.1)
      else do
        let name ← Run.ofOption (strcpy dir_entry.empty.file_name dirName)
        let newDir : dir_entry :=
          { file_name := name, size := 0, first_blk := toUInt16 a.2.2, type := TYPE_DIR,
            access_rights := m_defaultPermissions }
        let parentDirBlock ← GetDirectoryBlock BLOCK_SIZE a.2.1 (ParseDirPath dirpath).dropLast
        let r := AddNewDirEntry BLOCK_SIZE a.2.1 parentDirBlock newDir
        if r.1 ≠ 0 then Run.ret (ERROR_CODE, r.2)
        else do
          let m ← MakeFATEntry BLOCK_SIZE r.2 a.2.2 FAT_EOF
          if m.1 ≠ 0 then Run.ret (ERROR_CODE, m.2)
          else do
            let backName ← Run.ofOption (strcpy dir_entry.empty.file_name (str ".."))
            let backRefDirEntry : dir_entry :=
              { file_name := backName, size := 0, first_blk := toUInt16 parentDirBlock,
                type := TYPE_DIR, access_rights := 0 }
            let b := AddNewDirEntry BLOCK_SIZE m.2 a.2.2 backRefDirEntry
            if b.1 ≠ 0 then Run.ret (ERROR_CODE, b.2) else Run.ret (0, b.2)

/-- `FS::cd`. -/
def cd (BLOCK_SIZE : Nat) (s : FS) (dirpath : List Nat) : Run (Int × FS) :=
  if dirpath = str "/" then Run.ret (0, { s with m_cwdBlock := ROOT_BLOCK })
  else if !FilenamesAreValid dirpath then Run.ret (ERROR_CODE, s)
  else do
    let r ← GetDirEntryPath BLOCK_SIZE s (ParseDirPath dirpath)
    let newCWD := r.2
    if !DirEntryExists newCWD || newCWD.type ≠ TYPE_DIR then Run.ret (ERROR_CODE, s)
    else Run.ret (0, { s with m_cwdBlock := newCWD.first_blk })

/-- The scan of `pwd` over the parent's records: the name of the first record
whose first block is the current block, whether or not that record exists. -/
def pwdFind (currentBlock : Int) : List dir_entry → Run (Option (List Nat))
  | [] => Run.ret none
  | e :: es =>
    if (e.first_blk : Int) = currentBlock then do
      let name ← Run.ofOption (c_str e.file_name)
      Run.ret (some name)
    else pwdFind currentBlock es

/-- The `while (currentBlock != ROOT_BLOCK)` loop of `pwd`: status and the
vector `filepath`. -/
def pwdLoop (BLOCK_SIZE : Nat) (s : FS) : Nat → Int → List (List Nat) →
    Run (Int × List (List Nat))
  | 0, currentBlock, filepath =>
    if currentBlock = (ROOT_BLOCK : Int) then Run.ret (0, filepath) else Run.spin
  | fuel + 1, currentBlock, filepath =>
    if currentBlock = (ROOT_BLOCK : Int) then Run.ret (0, filepath)
    else do
      let r ← GetDirEntry BLOCK_SIZE s currentBlock (str "..")
      let backRefEntry := r.2
      if r.1 ≠ 0 then Run.ret (ERROR_CODE, filepath)
      else
        match Disk.read s.m_disk (backRefEntry.first_blk : Int) with
        | none => Run.ret (ERROR_CODE, filepath)
        | some blk => do
          let found ← pwdFind currentBlock (dirEntries BLOCK_SIZE blk)
          let filepath1 := match found with
            | none => filepath
            | some name => filepath ++ [str "/" ++ name]
          pwdLoop BLOCK_SIZE s fuel (backRefEntry.first_blk : Int) filepath1

/-- `FS::pwd`: status and the line sent to `std::cout`, its `std::endl`
included. -/
def pwd (BLOCK_SIZE : Nat) (fuel : Nat) (s : FS) : Run (Int × List Nat) := do
  let r ← pwdLoop BLOCK_SIZE s fuel (s.m_cwdBlock : Int) []
  if r.1 ≠ 0 then Run.ret (ERROR_CODE, [])
  else
    let joined := r.2.reverse.flatten
    let pwdOutput := if joined = [] then str "/" else joined
    Run.ret (0, str "'" ++ pwdOutput ++ str "'" ++ [10])

/-- `FS::chmod`; the status of `UpdateDirEntry` is not looked at. -/
def chmod (BLOCK_SIZE : Nat) (s : FS) (accessrights filepath : List Nat) : Run (Int × FS) :=
  if !FilenamesAreValid filepath then Run.ret (ERROR_CODE, s)
  else do
    let ex ← FilepathExists BLOCK_SIZE s filepath
    if !ex then Run.ret (ERROR_CODE, s)
    else
      match stoi accessrights with
      | none => Run.thrown
      | some accessRightsValue =>
        if accessRightsValue > ((READ ||| WRITE ||| EXECUTE : Nat) : Int) ∨ accessRightsValue < 0 then
          Run.ret (ERROR_CODE, s)
        else do
          let r ← GetDirEntryPath BLOCK_SIZE s (ParseDirPath filepath)
          let dirEntry := r.2
          let parentDirectoryBlock ← GetDirectoryBlock BLOCK_SIZE s (ParseDirPath filepath).dropLast
          let newDirEntry : dir_entry :=
            { dirEntry with access_rights := toUInt8 accessRightsValue }
          let u ← UpdateDirEntry BLOCK_SIZE s parentDirectoryBlock dirEntry newDirEntry
          Run.ret (0, u.2)

end FS

/-! ## Notions used to state the properties -/

/-- Two records agree in everything path resolution looks at: name, type and
first block. -/
def dir_entry.SameLink (a b : dir_entry) : Prop :=
  a.file_name = b.file_name ∧ a.type = b.type ∧ a.first_blk = b.first_blk

/-- State after the directory block `pb`, read as `blk`, is written back with
slot `i` replaced by `e`. -/
def FS.withSlot (s : FS) (pb : Nat) (blk : List Nat) (i : Nat) (e : dir_entry) : FS :=
  { s with m_disk := s.m_disk.set pb (setSlot blk i e) }

/-- The record `create` builds for a name of at most 55 bytes: the name padded
with NULs, the size, the first block, type FILE and the default rights. -/
def FS.createdEntry (name : List Nat) (size first : Nat) : dir_entry :=
  { file_name := name ++ List.replicate (56 - name.length) 0, size := size, first_blk := first,
    type := TYPE_FILE, access_rights := FS.m_defaultPermissions }

/-- State after a one-block file is created in the working directory: block
`f` is linked to `FAT_EOF` and holds `data` padded with NULs, and the record
goes to slot `i` of the working directory's block `blk`. -/
def FS.withNewFile (BLOCK_SIZE : Nat) (s : FS) (f : Nat) (data blk : List Nat) (i : Nat)
    (e : dir_entry) : FS :=
  FS.withSlot
    { s with
      m_fat := s.m_fat.set f FAT_EOF,
      m_disk := (s.m_disk.set 1 (fatBytes (s.m_fat.set f FAT_EOF))).set f
        (data ++ List.replicate (BLOCK_SIZE - data.length) 0) }
    s.m_cwdBlock blk i e

/-- The record `mkdir` inserts in the parent for a name of at most 55 bytes:
the name padded with NULs, size 0, the new block, type DIR and the default
rights. -/
def FS.mkdirEntry (name : List Nat) (first : Nat) : dir_entry :=
  { file_name := name ++ List.replicate (56 - name.length) 0, size := 0, first_blk := first,
    type := TYPE_DIR, access_rights := FS.m_defaultPermissions }

/-- The back reference `mkdir` puts in the new block. -/
def FS.backRefEntry (parent : Nat) : dir_entry :=
  { file_name := str ".." ++ List.replicate 54 0, size := 0, first_blk := parent,
    type := TYPE_DIR, access_rights := 0 }

/-- State after a successful `mkdir`: block `f` is linked to `FAT_EOF` (twice,
by the allocation and by `MakeFATEntry`), the record `e` goes to slot `i` of
the parent's block `pb` read as `blk`, and the back reference `back` to slot 0
of the new block read as `fblk`. -/
def FS.withNewDir (s : FS) (f pb : Nat) (blk fblk : List Nat) (i : Nat) (e back : dir_entry) :
    FS :=
  { s with
    m_fat := (s.m_fat.set f FAT_EOF).set f FAT_EOF,
    m_disk := ((((s.m_disk.set 1 (fatBytes (s.m_fat.set f FAT_EOF))).set pb
      (setSlot blk i e)).set 1 (fatBytes ((s.m_fat.set f FAT_EOF).set f FAT_EOF))).set f
      (setSlot fblk 0 back)) }

/-- A property of what a call returns, if it returns. -/
def Run.Holds {α : Type} (P : α → Prop) (x : Run α) : Prop := ∀ a, x = Run.ret a → P a

/-- The reserved slots are marked and locked: both `static` flags of
`MakeFATEntry` are set, the table has `FAT_SIZE` slots of which slots 0 and 1
hold `FAT_EOF`, and the device holds the table block. -/
def FS.ReservedMarked (BLOCK_SIZE : Nat) (s : FS) : Prop :=
  s.rootCreated = true ∧ s.FATCreated = true ∧
  s.m_fat.get? 0 = some FAT_EOF ∧ s.m_fat.get? 1 = some FAT_EOF ∧
  s.m_fat.length = FAT_SIZE BLOCK_SIZE ∧ 2 ≤ s.m_disk.length

/-- The table, the flags and the number of blocks of `t` are those of `s`
(what an operation that only writes blocks leaves alone). -/
def FS.TableEq (s t : FS) : Prop :=
  t.m_fat = s.m_fat ∧ t.rootCreated = s.rootCreated ∧ t.FATCreated = s.FATCreated ∧
  t.m_disk.length = s.m_disk.length

/-- The calls `mkdir(n)` then `cd(n)` for each name of the list in turn, up
to the first call whose status is not 0: that status, or 0 after the last
call, and the state left. -/
def FS.mkdirAndEnter (BLOCK_SIZE : Nat) : List (List Nat) → FS → Run (Int × FS)
  | [], s => Run.ret (0, s)
  | n :: ns, s => do
    let m ← s.mkdir BLOCK_SIZE n
    if m.1 ≠ 0 then Run.ret m
    else do
      let c ← m.2.cd BLOCK_SIZE n
      if c.1 ≠ 0 then Run.ret c else FS.mkdirAndEnter BLOCK_SIZE ns c.2

/-- Block of the directory at depth `j` of a chain of directories made one
inside the other on a freshly formatted device: the root block at depth 0 and,
the allocation being first fit, block `j + 1` below it. -/
def FS.nestedBlock : Nat → Nat
  | 0 => 0
  | j + 1 => j + 2

/-- Directory block at depth `j` of the chain named `names`: the back
reference in slot 0 (none in the root block) followed by the record of the
next directory of the chain, if there is one. -/
def FS.nestedDir (BLOCK_SIZE : Nat) (names : List (List Nat)) (j : Nat) : List Nat :=
  let base := if j = 0 then List.replicate BLOCK_SIZE 0
    else setSlot (List.replicate BLOCK_SIZE 0) 0 (FS.backRefEntry (FS.nestedBlock (j - 1)))
  if j < names.length then
    setSlot base (if j = 0 then 0 else 1) (FS.mkdirEntry (names.getD j []) (j + 2))
  else base

/-- State in which the directories `names` have been made one inside the
other on a freshly formatted device and the last one is the working
directory. -/
def FS.NestedIn (BLOCK_SIZE : Nat) (s : FS) (names : List (List Nat)) : Prop :=
  s.ReservedMarked BLOCK_SIZE ∧
  s.m_cwdBlock = FS.nestedBlock names.length ∧
  (∀ b, 2 ≤ b → b < names.length + 2 → s.m_fat.get? b = some FAT_EOF) ∧
  (∀ b, names.length + 2 ≤ b → b < FAT_SIZE BLOCK_SIZE → s.m_fat.get? b = some FAT_FREE) ∧
  (∀ b, names.length + 2 ≤ b → b < s.m_disk.length →
    s.m_disk.get? b = some (List.replicate BLOCK_SIZE 0)) ∧
  (∀ j, j ≤ names.length →
    s.m_disk.get? (FS.nestedBlock j) = some (FS.nestedDir BLOCK_SIZE names j))

/-- One call of an operation, whatever its arguments and whatever status it
returns, takes the first state to the second. -/
inductive FS.Step (BLOCK_SIZE : Nat) : FS → FS → Prop
  | format (s : FS) (r : Int × FS) :
      s.format BLOCK_SIZE = Run.ret r → FS.Step BLOCK_SIZE s r.2
  | create (fuel : Nat) (s : FS) (filepath line : List Nat) (r : Int × FS) :
      s.create BLOCK_SIZE fuel filepath line = Run.ret r → FS.Step BLOCK_SIZE s r.2
  | cat (fuel : Nat) (s : FS) (filepath : List Nat) (r : Int × FS × List Nat) :
      s.cat BLOCK_SIZE fuel filepath = Run.ret r → FS.Step BLOCK_SIZE s r.2.1
  | cp (fuel : Nat) (s : FS) (sourcepath destpath : List Nat) (r : Int × FS) :
      s.cp BLOCK_SIZE fuel sourcepath destpath = Run.ret r → FS.Step BLOCK_SIZE s r.2
  | mv (s : FS) (sourcepath destpath : List Nat) (r : Int × FS) :
      s.mv BLOCK_SIZE sourcepath destpath = Run.ret r → FS.Step BLOCK_SIZE s r.2
  | rm (fuel : Nat) (s : FS) (filepath : List Nat) (r : Int × FS) :
      s.rm BLOCK_SIZE fuel filepath = Run.ret r → FS.Step BLOCK_SIZE s r.2
  | append (fuel : Nat) (s : FS) (filepath1 filepath2 : List Nat) (r : Int × FS) :
      s.append BLOCK_SIZE fuel filepath1 filepath2 = Run.ret r → FS.Step BLOCK_SIZE s r.2
  | mkdir (s : FS) (dirpath : List Nat) (r : Int × FS) :
      s.mkdir BLOCK_SIZE dirpath = Run.ret r → FS.Step BLOCK_SIZE s r.2
  | cd (s : FS) (dirpath : List Nat) (r : Int × FS) :
      s.cd BLOCK_SIZE dirpath = Run.ret r → FS.Step BLOCK_SIZE s r.2
  | chmod (s : FS) (accessrights filepath : List Nat) (r : Int × FS) :
      s.chmod BLOCK_SIZE accessrights filepath = Run.ret r → FS.Step BLOCK_SIZE s r.2

/-- States reachable from a successful `format` of an object whose table has
`FAT_SIZE` slots, by any sequence of operations (`pwd` and `ls` change no
state). -/
inductive FS.Reachable (BLOCK_SIZE : Nat) : FS → Prop
  | format (s0 s1 : FS) : s0.m_fat.length = FAT_SIZE BLOCK_SIZE →
      s0.format BLOCK_SIZE = Run.ret (0, s1) → FS.Reachable BLOCK_SIZE s1
  | step (s s1 : FS) : FS.Reachable BLOCK_SIZE s → FS.Step BLOCK_SIZE s s1 →
      FS.Reachable BLOCK_SIZE s1

/-- Every block of the device has `BLOCK_SIZE` bytes. -/
def FS.WellSized (BLOCK_SIZE : Nat) (s : FS) : Prop :=
  ∀ blk ∈ s.m_disk, blk.length = BLOCK_SIZE

namespace FS

/-- Blocks visited by the walk `for (b = start; b != FAT_EOF; b = GetChildBlock(b))`
that `cat`, `cp`, `rm` and `ReadFileToDataString` perform along a chain. -/
def chainFrom (BLOCK_SIZE : Nat) (s : FS) : Nat → Int → Run (List Nat)
  | 0, b => if b = FAT_EOF then Run.ret [] else Run.spin
  | fuel + 1, b =>
    if b = FAT_EOF then Run.ret []
    else do
      let child ← GetChildBlock BLOCK_SIZE s b
      let rest ← chainFrom BLOCK_SIZE s fuel child
      Run.ret (b.toNat :: rest)

/-- Blocks that the loop of `GetDirectoryBlock` reads, in order. -/
def GetDirectoryBlockLoopReads (BLOCK_SIZE : Nat) (s : FS) (pathType : PATH_TYPE) :
    Nat → List (List Nat) → Int → List Int
  | _, [], _ => []
  | i, name :: rest, currentBlock =>
    if i = 0 ∧ ((pathType = PATH_TYPE.RELATIVE ∧ name = str ".") ∨
        (pathType = PATH_TYPE.ABSOLUTE ∧ name = [])) then
      GetDirectoryBlockLoopReads BLOCK_SIZE s pathType (i + 1) rest currentBlock
    else
      currentBlock ::
        (match GetDirEntry BLOCK_SIZE s currentBlock name with
        | Run.ret r =>
          if !DirEntryExists r.2 || r.2.type ≠ TYPE_DIR then []
          else GetDirectoryBlockLoopReads BLOCK_SIZE s pathType (i + 1) rest (r.2.first_blk : Int)
        | _ => [])

/-- Blocks that `GetDirectoryBlock` reads while it resolves `dirPaths`. -/
def dirBlocksRead (BLOCK_SIZE : Nat) (s : FS) (dirPaths : List (List Nat)) : List Int :=
  if dirPaths.length = 0 then []
  else
    match EvaluatePathType dirPaths with
    | PATH_TYPE.INVALID => []
    | PATH_TYPE.ROOT => []
    | PATH_TYPE.RELATIVE =>
      GetDirectoryBlockLoopReads BLOCK_SIZE s PATH_TYPE.RELATIVE 0 dirPaths (s.m_cwdBlock : Int)
    | PATH_TYPE.ABSOLUTE =>
      GetDirectoryBlockLoopReads BLOCK_SIZE s PATH_TYPE.ABSOLUTE 0 dirPaths (ROOT_BLOCK : Int)

/-- Device after the lock-step copy loop of `cp` has copied the blocks of the
source chain onto the blocks of the destination chain. -/
def copyBlocks : List (List Nat) → List Nat → List Nat → List (List Nat)
  | d, c :: cs, f :: fs => copyBlocks (d.set f (d.getD c [])) cs fs
  | d, _, _ => d

/-- Number of block numbers that the scan of `GetFreeBlocks` finds free. -/
def freeCount (BLOCK_SIZE : Nat) (s : FS) : Nat :=
  ((List.range (FAT_SIZE BLOCK_SIZE)).filter (fun b => s.BlockIsFree b)).length

/-- The vector `GetFreeBlocks` fills for a request of `n` blocks: the `n`
lowest block numbers it finds free (all of them if there are fewer). -/
def freeList (BLOCK_SIZE : Nat) (s : FS) (n : Nat) : List Nat :=
  ((List.range (FAT_SIZE BLOCK_SIZE)).filter (fun b => s.BlockIsFree b)).take n

/-- Value linked into the slot of a block that is followed by `rest`. -/
def linkTarget : List Nat → Int
  | [] => FAT_EOF
  | c :: _ => (c : Int)

/-- Table obtained from `fat` by linking the blocks of a list in order, the
last one to `FAT_EOF`. -/
def linkFAT : List Nat → List Int → List Int
  | [], fat => fat
  | b :: rest, fat => linkFAT rest (fat.set b (linkTarget rest))

/-- State after a successful `cp`: the blocks `F` are linked into a chain, the
record `e` goes to slot `i` of the directory block `dirBlock` read as `blk`,
and the blocks of the chain `cs` are copied onto those of `F`. -/
def withCopy (s : FS) (cs F : List Nat) (dirBlock : Nat) (blk : List Nat) (i : Nat)
    (e : dir_entry) : FS :=
  { s with
    m_fat := linkFAT F s.m_fat,
    m_disk := copyBlocks
      (((s.m_disk.set 1 (fatBytes (linkFAT F s.m_fat))).set dirBlock (setSlot blk i e))) cs F }

end FS

/-- The table block of the device holds the bytes of the in-memory table. -/
def FS.TableOnDisk (s : FS) : Prop := s.m_disk.get? FAT_BLOCK = some (fatBytes s.m_fat)

/-- The walk of the specification of `GetDirectoryBlock` over the segments
that are looked up: each name in order is looked up in the current block; the
walk moves to the first block of the record found if that record exists and
is a Directory, and fails as soon as a lookup is absent or lands on anything
else. -/
def FS.lookupWalk (BLOCK_SIZE : Nat) (s : FS) : List (List Nat) → Int → Run Int
  | [], currentBlock => Run.ret currentBlock
  | name :: rest, currentBlock => do
    let r ← s.GetDirEntry BLOCK_SIZE currentBlock name
    if DirEntryExists r.2 = true ∧ r.2.type = TYPE_DIR then
      FS.lookupWalk BLOCK_SIZE s rest (r.2.first_blk : Int)
    else Run.ret ERROR_CODE

/-- Directory resolution in the words of the specification: the working
directory for an empty list, the root block for a Root path, failure for an
Invalid one; a Relative path is walked from the working directory and an
Absolute path from the root block, a `.` (an empty segment) at position 0
being skipped without a lookup. -/
def FS.GetDirectoryBlock_spec (BLOCK_SIZE : Nat) (s : FS) (dirPaths : List (List Nat)) :
    Run Int :=
  if dirPaths = [] then Run.ret (s.m_cwdBlock : Int)
  else
    match EvaluatePathType dirPaths with
    | PATH_TYPE.INVALID => Run.ret ERROR_CODE
    | PATH_TYPE.ROOT => Run.ret (ROOT_BLOCK : Int)
    | PATH_TYPE.RELATIVE =>
      FS.lookupWalk BLOCK_SIZE s
        (if dirPaths.head? = some (str ".") then dirPaths.tail else dirPaths) (s.m_cwdBlock : Int)
    | PATH_TYPE.ABSOLUTE =>
      FS.lookupWalk BLOCK_SIZE s
        (if dirPaths.head? = some [] then dirPaths.tail else dirPaths) (ROOT_BLOCK : Int)

/-- Device after the loop of `WriteDataStringToFile` has written `data` over
the blocks of a chain, `BLOCK_SIZE` bytes to a block, the last block written
being padded with NULs; blocks of the chain past the end of the data are not
written. -/
def FS.writeBlocks (BLOCK_SIZE : Nat) : List (List Nat) → List Nat → List Nat → List (List Nat)
  | d, c :: cs, data =>
    if data = [] then d
    else FS.writeBlocks BLOCK_SIZE
      (d.set c (data.take BLOCK_SIZE ++
        List.replicate (BLOCK_SIZE - (data.take BLOCK_SIZE).length) 0))
      cs (data.drop BLOCK_SIZE)
  | d, [], _ => d

/-! ## Sample states used to instantiate the theorems

A device of 64 blocks of 128 bytes: two directory slots per block and a table
of 64 slots. -/

/-- An object before any call of `format`, its table and device holding
arbitrary non-zero bytes. -/
def sampleRaw : FS :=
  { m_disk := List.replicate 64 (List.replicate 128 7), m_fat := List.replicate 64 7,
    m_cwdBlock := 0, rootCreated := false, FATCreated := false }

/-- An object before any call of `format` whose memory and device are zeroed. -/
def sampleBlank : FS :=
  { m_disk := List.replicate 64 (List.replicate 128 0), m_fat := List.replicate 64 0,
    m_cwdBlock := 0, rootCreated := false, FATCreated := false }

/-- State after `format` on `sampleRaw`. -/
def sampleFormatted : FS :=
  { m_disk := [List.replicate 128 0, fatBytes ([-1, -1] ++ List.replicate 62 0)] ++
      List.replicate 62 (List.replicate 128 0),
    m_fat := [-1, -1] ++ List.replicate 62 0,
    m_cwdBlock := 0, rootCreated := true, FATCreated := true }

/-- The record of a six-byte file `a` whose chain is block 2. -/
def sampleFileEntry : dir_entry :=
  { file_name := str "a" ++ List.replicate 55 0, size := 6, first_blk := 2, type := TYPE_FILE,
    access_rights := 6 }

/-- State after `create("a")` fed the line `hello` on `sampleFormatted`. -/
def sampleWithFile : FS :=
  { m_disk := [sampleFileEntry.encode ++ List.replicate 64 0,
      fatBytes ([-1, -1, -1] ++ List.replicate 61 0),
      str "hello" ++ [10] ++ List.replicate 122 0] ++ List.replicate 61 (List.replicate 128 0),
    m_fat := [-1, -1, -1] ++ List.replicate 61 0,
    m_cwdBlock := 0, rootCreated := true, FATCreated := true }

/-- The record `mkdir("d")` puts in the root directory. -/
def sampleDirEntry : dir_entry :=
  { file_name := str "d" ++ List.replicate 55 0, size := 0, first_blk := 2, type := TYPE_DIR,
    access_rights := 6 }

/-- The back reference `..` of a directory whose parent is the root. -/
def sampleBackRef : dir_entry :=
  { file_name := str ".." ++ List.replicate 54 0, size := 0, first_blk := 0, type := TYPE_DIR,
    access_rights := 0 }

/-- State after `mkdir("d")` on `sampleFormatted`. -/
def sampleWithDir : FS :=
  { m_disk := [sampleDirEntry.encode ++ List.replicate 64 0,
      fatBytes ([-1, -1, -1] ++ List.replicate 61 0),
      sampleBackRef.encode ++ List.replicate 64 0] ++ List.replicate 61 (List.replicate 128 0),
    m_fat := [-1, -1, -1] ++ List.replicate 61 0,
    m_cwdBlock := 0, rootCreated := true, FATCreated := true }

/-- A formatted object in which every block is in use. -/
def sampleFull : FS :=
  { sampleFormatted with m_fat := List.replicate 64 (-1) }

/-- The record of a two-byte file `b` whose chain is block 3. -/
def sampleSecondEntry : dir_entry :=
  { file_name := str "b" ++ List.replicate 55 0, size := 2, first_blk := 3, type := TYPE_FILE,
    access_rights := 6 }

/-- State after `create("b")` fed the line `x` on `sampleWithFile`: both slots
of the root directory are taken. -/
def sampleTwoFiles : FS :=
  { m_disk := [sampleFileEntry.encode ++ sampleSecondEntry.encode,
      fatBytes ([-1, -1, -1, -1] ++ List.replicate 60 0),
      str "hello" ++ [10] ++ List.replicate 122 0,
      str "x" ++ [10] ++ List.replicate 126 0] ++ List.replicate 60 (List.replicate 128 0),
    m_fat := [-1, -1, -1, -1] ++ List.replicate 60 0,
    m_cwdBlock := 0, rootCreated := true, FATCreated := true }

/-- The record `mkdir("d")` puts in the root directory of `sampleWithFile`. -/
def sampleSubdirEntry : dir_entry :=
  { file_name := str "d" ++ List.replicate 55 0, size := 0, first_blk := 3, type := TYPE_DIR,
    access_rights := 6 }

/-- State after `mkdir("d")` on `sampleWithFile`. -/
def sampleFileAndDir : FS :=
  { m_disk := [sampleFileEntry.encode ++ sampleSubdirEntry.encode,
      fatBytes ([-1, -1, -1, -1] ++ List.replicate 60 0),
      str "hello" ++ [10] ++ List.replicate 122 0,
      sampleBackRef.encode ++ List.replicate 64 0] ++ List.replicate 60 (List.replicate 128 0),
    m_fat := [-1, -1, -1, -1] ++ List.replicate 60 0,
    m_cwdBlock := 0, rootCreated := true, FATCreated := true }

/-- State after `format` on a device of 128 blocks of 256 bytes: four
directory slots per block and a table of 128 slots. -/
def sampleWide : FS :=
  { m_disk := [List.replicate 256 0, fatBytes ([-1, -1] ++ List.replicate 126 0)] ++
      List.replicate 126 (List.replicate 256 0),
    m_fat := [-1, -1] ++ List.replicate 126 0,
    m_cwdBlock := 0, rootCreated := true, FATCreated := true }

/-- An object before any call of `format` on a device of 128 blocks of 256
bytes. -/
def sampleWideRaw : FS :=
  { m_disk := List.replicate 128 (List.replicate 256 7), m_fat := List.replicate 128 7,
    m_cwdBlock := 0, rootCreated := false, FATCreated := false }

/-- A new session on the device that `sampleWithFile` left behind: the device
holds the File `a`, while the table of the new object is zeroed memory and
the two flags of `MakeFATEntry` are not set (no `format` in this session). -/
def sampleSecondSession : FS :=
  { sampleWithFile with m_fat := List.replicate 64 0, rootCreated := false, FATCreated := false }
/-! # Theorems -/

section RunLemmas

@[simp] theorem Run.ret_bind {α β : Type} (a : α) (f : α → Run β) :
    (Run.ret a >>= f) = f a := rfl

@[simp] theorem Run.undef_bind {α β : Type} (f : α → Run β) :
    ((Run.undef : Run α) >>= f) = Run.undef := rfl

@[simp] theorem Run.spin_bind {α β : Type} (f : α → Run β) :
    ((Run.spin : Run α) >>= f) = Run.spin := rfl

@[simp] theorem Run.thrown_bind {α β : Type} (f : α → Run β) :
    ((Run.thrown : Run α) >>= f) = Run.thrown := rfl

@[simp] theorem Run.pure_eq_ret {α : Type} (a : α) : (pure a : Run α) = Run.ret a := rfl

end RunLemmas

theorem sampleFormatted_eq : FS.format 128 sampleRaw = Run.ret (0, sampleFormatted) := by
  decide!

theorem FilenamesAreValid_root : FilenamesAreValid (str "/") = true := by decide

/-- C7: an argument that is empty, classifies as Invalid or fails name validity
makes each of the nine operations return `ERROR_CODE` with the state (disk,
table, working directory, flags) exactly as before; for the two-path
operations this holds whichever of the two arguments is the bad one. -/
theorem invalid_argument_rejected_unchanged (BLOCK_SIZE fuel : Nat) (s : FS)
    (p q line rights : List Nat)
    (h : p = [] ∨ EvaluatePathType (ParseDirPath p) = PATH_TYPE.INVALID ∨
      FilenamesAreValid p = false) :
    s.create BLOCK_SIZE fuel p line = Run.ret (ERROR_CODE, s) ∧
    s.cat BLOCK_SIZE fuel p = Run.ret (ERROR_CODE, s, []) ∧
    s.cp BLOCK_SIZE fuel p q = Run.ret (ERROR_CODE, s) ∧
    s.cp BLOCK_SIZE fuel q p = Run.ret (ERROR_CODE, s) ∧
    s.mv BLOCK_SIZE p q = Run.ret (ERROR_CODE, s) ∧
    s.mv BLOCK_SIZE q p = Run.ret (ERROR_CODE, s) ∧
    s.rm BLOCK_SIZE fuel p = Run.ret (ERROR_CODE, s) ∧
    s.append BLOCK_SIZE fuel p q = Run.ret (ERROR_CODE, s) ∧
    s.append BLOCK_SIZE fuel q p = Run.ret (ERROR_CODE, s) ∧
    s.mkdir BLOCK_SIZE p = Run.ret (ERROR_CODE, s) ∧
    s.cd BLOCK_SIZE p = Run.ret (ERROR_CODE, s) ∧
    s.chmod BLOCK_SIZE rights p = Run.ret (ERROR_CODE, s) := by
  have hv : FilenamesAreValid p = false := by
    rcases h with h | h | h
    · simp [FilenamesAreValid, h]
    · simp [FilenamesAreValid, h]
    · exact h
  have hne : p ≠ str "/" := by
    intro hp
    rw [hp, FilenamesAreValid_root] at hv
    exact Bool.noConfusion hv
  refine ⟨?_, ?_, ?_, ?_, ?_, ?_, ?_, ?_, ?_, ?_, ?_, ?_⟩ <;>
    simp [FS.create, FS.cat, FS.cp, FS.mv, FS.rm, FS.append, FS.mkdir, FS.cd, FS.chmod, hv, hne]

theorem invalid_argument_rejected_unchanged_witness :
    (str "a/b" = [] ∨ EvaluatePathType (ParseDirPath (str "a/b")) = PATH_TYPE.INVALID ∨
      FilenamesAreValid (str "a/b") = false) ∧
    sampleFormatted.mkdir 128 (str "a/b") = Run.ret (ERROR_CODE, sampleFormatted) :=
  ⟨Or.inr (Or.inl (by decide)),
   (invalid_argument_rejected_unchanged 128 0 sampleFormatted (str "a/b") [] [] []
      (Or.inr (Or.inl (by decide)))).2.2.2.2.2.2.2.2.2.1⟩

section FATLemmas

theorem toInt16_of_small (v : Int) (h1 : -32768 ≤ v) (h2 : v < 32768) : toInt16 v = v := by
  unfold toInt16; omega

theorem toUInt32_natCast (b : Nat) (h : b < 4294967296) : toUInt32 (b : Int) = b := by
  unfold toUInt32; omega

theorem Disk.read_natCast (d : List (List Nat)) (i : Nat) :
    Disk.read d (i : Int) = d.get? i := by
  unfold Disk.read
  by_cases h : i < d.length
  · have : (0 : Int) ≤ (i : Int) ∧ (i : Int) < (d.length : Int) := by omega
    simp [this]
  · have : ¬ ((0 : Int) ≤ (i : Int) ∧ (i : Int) < (d.length : Int)) := by omega
    simp only [this, if_false]
    exact (List.get?_eq_none.mpr (by omega)).symm

theorem Disk.write_natCast (d : List (List Nat)) (i : Nat) (buf : List Nat) (h : i < d.length) :
    Disk.write d (i : Int) buf = some (d.set i buf) := by
  unfold Disk.write
  have : (0 : Int) ≤ (i : Int) ∧ (i : Int) < (d.length : Int) := by omega
  simp [this]

theorem Disk.write_neg (d : List (List Nat)) (i : Int) (buf : List Nat) (h : i < 0) :
    Disk.write d i buf = none := by
  unfold Disk.write
  have : ¬ ((0 : Int) ≤ i ∧ i < (d.length : Int)) := by omega
  simp [this]

theorem FS.UpdateFAT_ok (s : FS) (hd : 2 ≤ s.m_disk.length) :
    s.UpdateFAT = (0, { s with m_disk := s.m_disk.set 1 (fatBytes s.m_fat) }) := by
  unfold FS.UpdateFAT FAT_BLOCK
  rw [Disk.write_natCast _ 1 _ (by omega)]

/-- Writing a slot that is neither reserved slot. -/
theorem FS.MakeFATEntry_plain (B : Nat) (s : FS) (b : Nat) (v : Int)
    (hB : B ≤ 65536) (hlen : s.m_fat.length = FAT_SIZE B) (hd : 2 ≤ s.m_disk.length)
    (hb2 : 2 ≤ b) (hbN : b < FAT_SIZE B) (hv1 : -32768 ≤ v) (hv2 : v < 32768) :
    FS.MakeFATEntry B s (b : Int) v =
      Run.ret (0, { s with m_fat := s.m_fat.set b v,
                           m_disk := s.m_disk.set 1 (fatBytes (s.m_fat.set b v)) }) := by
  have hN : FAT_SIZE B ≤ 32768 := by unfold FAT_SIZE; omega
  have hidx : toUInt32 (b : Int) = b := toUInt32_natCast b (by omega)
  unfold FS.MakeFATEntry
  simp only [hidx, ROOT_BLOCK, FAT_BLOCK]
  have h0 : b ≠ 0 := by omega
  have h1 : b ≠ 1 := by omega
  have h3 : ¬ b > FAT_SIZE B := by omega
  simp [h0, h1, h3, hlen, hbN, toInt16_of_small v hv1 hv2]
  rw [FS.UpdateFAT_ok _ (by simpa using hd)]

theorem FS.GetFreeBlocksLoop_eq (s : FS) (L : List Nat) (n : Nat) :
    s.GetFreeBlocksLoop L n = (L.filter (fun b => s.BlockIsFree b)).take n := by
  induction L generalizing n with
  | nil => simp [FS.GetFreeBlocksLoop]
  | cons b rest ih =>
    unfold FS.GetFreeBlocksLoop
    by_cases hn : n = 0
    · simp [hn]
    · obtain ⟨m, rfl⟩ := Nat.exists_eq_succ_of_ne_zero hn
      by_cases hf : s.BlockIsFree b = true
      · simp [hf, ih]
      · simp [hf, ih]

theorem FS.GetFreeBlocks_nat (B : Nat) (s : FS) (n : Nat) :
    s.GetFreeBlocks B (n : Int) = (0, s.freeList B n) := by
  unfold FS.GetFreeBlocks FS.freeList
  have : ¬ ((n : Int) < 0) := by omega
  simp [this, FS.GetFreeBlocksLoop_eq]

theorem FS.freeList_mem (B : Nat) (s : FS) (n b : Nat) (h : b ∈ s.freeList B n) :
    b < FAT_SIZE B ∧ s.m_fat.get? b = some FAT_FREE := by
  have h1 := List.mem_of_mem_take h
  rw [List.mem_filter] at h1
  refine ⟨List.mem_range.mp h1.1, ?_⟩
  have := h1.2
  simpa [FS.BlockIsFree] using this

theorem FS.freeList_sorted (B : Nat) (s : FS) (n : Nat) :
    (s.freeList B n).Pairwise (fun a b => a < b) := by
  unfold FS.freeList
  exact ((List.pairwise_lt_range _).sublist (List.filter_sublist _)).sublist (List.take_sublist _ _)

theorem FS.freeList_nodup (B : Nat) (s : FS) (n : Nat) : (s.freeList B n).Nodup :=
  (FS.freeList_sorted B s n).imp (fun h => Nat.ne_of_lt h)

theorem FS.freeList_length (B : Nat) (s : FS) (n : Nat) (h : n ≤ s.freeCount B) :
    (s.freeList B n).length = n := by
  unfold FS.freeList
  rw [List.length_take]
  exact Nat.min_eq_left h

theorem FS.linkFAT_length (F : List Nat) (fat : List Int) :
    (FS.linkFAT F fat).length = fat.length := by
  induction F generalizing fat with
  | nil => rfl
  | cons b rest ih => simp [FS.linkFAT, ih]

/-- State after the linking loop has run over the blocks `F`. -/
theorem FS.LinkLoop_ok (B : Nat) (F : List Nat) (hB : B ≤ 65536)
    (hF : ∀ b ∈ F, 2 ≤ b ∧ b < FAT_SIZE B) :
    ∀ (k : Nat) (s : FS), k ≤ F.length → s.m_fat.length = FAT_SIZE B → 2 ≤ s.m_disk.length →
      FS.LinkLoop B F F.length k s =
        Run.ret (0, { s with
          m_fat := FS.linkFAT (F.drop (F.length - k)) s.m_fat,
          m_disk := if k = 0 then s.m_disk
            else s.m_disk.set 1 (fatBytes (FS.linkFAT (F.drop (F.length - k)) s.m_fat)) }) := by
  intro k
  induction k with
  | zero =>
    intro s _ _ _
    simp [FS.LinkLoop, FS.linkFAT]
  | succ k ih =>
    intro s hk hlen hd
    have hi : F.length - (k + 1) < F.length := by omega
    have hN : FAT_SIZE B ≤ 32768 := by unfold FAT_SIZE; omega
    obtain ⟨b, hb⟩ : ∃ b, F.get? (F.length - (k + 1)) = some b :=
      ⟨F.get ⟨_, hi⟩, List.get?_eq_get hi⟩
    have hbF := hF b (List.get?_mem hb)
    have hdrop : F.drop (F.length - (k + 1)) = b :: F.drop (F.length - k) := by
      have h1 := List.drop_eq_getElem_cons hi
      have h2 : F[F.length - (k + 1)] = b := by
        have := List.get?_eq_get hi
        rw [hb] at this
        exact (Option.some.inj this).symm
      rw [h1, h2]
      congr 2
      omega
    unfold FS.LinkLoop
    simp only [hb]
    by_cases hk0 : k = 0
    · subst hk0
      have hlast : F.length - (0 + 1) = F.length - 1 := rfl
      simp only [hlast, if_true]
      rw [show (FAT_EOF : Int) = -1 from rfl,
        FS.MakeFATEntry_plain B s b (-1) hB hlen hd hbF.1 hbF.2 (by omega) (by omega)]
      simp only [ne_eq, not_true_eq_false, if_false]
      have hd0 : F.drop (F.length - 0) = [] := by simp
      rw [ih _ (by omega) (by simpa using hlen) (by simpa using hd)]
      simp [hdrop, hd0, FS.linkFAT, FS.linkTarget, FAT_EOF]
    · have hne : F.length - (k + 1) ≠ F.length - 1 := by omega
      have hi2 : F.length - (k + 1) + 1 < F.length := by omega
      obtain ⟨c, hc⟩ : ∃ c, F.get? (F.length - (k + 1) + 1) = some c :=
        ⟨F.get ⟨_, hi2⟩, List.get?_eq_get hi2⟩
      have hcF := hF c (List.get?_mem hc)
      have hdrop2 : F.drop (F.length - k) = c :: F.drop (F.length - k + 1) := by
        have hi3 : F.length - k < F.length := by omega
        have h1 := List.drop_eq_getElem_cons hi3
        have h2 : F[F.length - k] = c := by
          have := List.get?_eq_get hi3
          have e : F.length - (k + 1) + 1 = F.length - k := by omega
          rw [e] at hc
          rw [hc] at this
          exact (Option.some.inj this).symm
        rw [h1, h2]
      simp only [hne, if_false, hc, Option.map_some']
      rw [show Int.ofNat c = (c : Int) from rfl,
        FS.MakeFATEntry_plain B s b (c : Int) hB hlen hd hbF.1 hbF.2 (by omega) (by omega)]
      simp only [ne_eq, not_true_eq_false, if_false]
      rw [ih _ (by omega) (by simpa using hlen) (by simpa using hd)]
      simp [hdrop, hdrop2, FS.linkFAT, FS.linkTarget, hk0]

theorem FS.linkFAT_set_comm (F : List Nat) (fat : List Int) (b : Nat) (v : Int) (hb : b ∉ F) :
    (FS.linkFAT F fat).set b v = FS.linkFAT F (fat.set b v) := by
  induction F generalizing fat with
  | nil => rfl
  | cons c rest ih =>
    have hbc : b ≠ c := fun h => hb (by simp [h])
    have hbr : b ∉ rest := fun h => hb (by simp [h])
    simp only [FS.linkFAT]
    rw [ih _ hbr, List.set_comm _ _ _ (Ne.symm hbc)]

theorem FS.linkFAT_get_not_mem (F : List Nat) (fat : List Int) (b : Nat) (hb : b ∉ F) :
    (FS.linkFAT F fat).get? b = fat.get? b := by
  induction F generalizing fat with
  | nil => rfl
  | cons c rest ih =>
    have hbc : c ≠ b := fun h => hb (by simp [h])
    have hbr : b ∉ rest := fun h => hb (by simp [h])
    simp only [FS.linkFAT]
    rw [ih _ hbr]
    simp [List.getElem?_set, hbc]

theorem FS.GetChildBlock_natCast (B : Nat) (s : FS) (b : Nat) (v : Int)
    (hb : b < FAT_SIZE B) (hv : s.m_fat.get? b = some v) :
    FS.GetChildBlock B s (b : Int) = Run.ret v := by
  unfold FS.GetChildBlock
  have : (0 : Int) ≤ (b : Int) ∧ (b : Int) < (FAT_SIZE B : Int) := by omega
  rw [if_pos this, Int.toNat_ofNat, hv]
  rfl

/-- The entry of the first of the linked blocks. -/
theorem FS.linkFAT_head (b : Nat) (rest : List Nat) (fat : List Int)
    (hb : b ∉ rest) (hlt : b < fat.length) :
    (FS.linkFAT (b :: rest) fat).get? b = some (FS.linkTarget rest) := by
  simp only [FS.linkFAT]
  rw [FS.linkFAT_get_not_mem _ _ _ hb]
  simp [List.getElem?_set, hlt]

/-- Walking the table from the first linked block visits exactly the linked
blocks, in order. -/
theorem FS.chainFrom_linkFAT (B : Nat) (rest : List Nat) :
    ∀ (b : Nat) (fat : List Int) (s : FS) (fuel : Nat),
      (b :: rest).Nodup → (∀ x ∈ b :: rest, x < FAT_SIZE B) → fat.length = FAT_SIZE B →
      s.m_fat = FS.linkFAT (b :: rest) fat → (b :: rest).length ≤ fuel →
      FS.chainFrom B s fuel (b : Int) = Run.ret (b :: rest) := by
  induction rest with
  | nil =>
    intro b fat s fuel hnd hlt hlen hs hfuel
    obtain ⟨fuel, rfl⟩ : ∃ f, fuel = f + 1 := ⟨fuel - 1, by simp at hfuel; omega⟩
    have hb := hlt b (by simp)
    have hne : ((b : Int) = FAT_EOF) = False := eq_false (by unfold FAT_EOF; omega)
    have hget := FS.linkFAT_head b [] fat (by simp) (by omega)
    rw [← hs] at hget
    unfold FS.chainFrom
    simp only [hne, if_false]
    rw [FS.GetChildBlock_natCast B s b _ hb hget]
    cases fuel <;> simp [FS.chainFrom, FS.linkTarget]
  | cons c rest1 ih =>
    intro b fat s fuel hnd hlt hlen hs hfuel
    obtain ⟨fuel, rfl⟩ : ∃ f, fuel = f + 1 := ⟨fuel - 1, by simp at hfuel; omega⟩
    have hbn : b ∉ c :: rest1 := (List.nodup_cons.mp hnd).1
    have hndr : (c :: rest1).Nodup := (List.nodup_cons.mp hnd).2
    have hb := hlt b (by simp)
    have hne : ((b : Int) = FAT_EOF) = False := eq_false (by unfold FAT_EOF; omega)
    have hget := FS.linkFAT_head b (c :: rest1) fat hbn (by omega)
    rw [← hs] at hget
    unfold FS.chainFrom
    simp only [hne, if_false]
    rw [FS.GetChildBlock_natCast B s b _ hb hget]
    have hs2 : s.m_fat = FS.linkFAT (c :: rest1) (fat.set b (c : Int)) := by
      rw [hs]; rfl
    have := ih c (fat.set b (c : Int)) s fuel hndr
      (fun x hx => hlt x (List.mem_cons_of_mem _ hx)) (by simpa using hlen) hs2
      (by simp at hfuel ⊢; omega)
    simp [FS.linkTarget, this]

theorem FS.freeList_ge_two (B : Nat) (s : FS) (n b : Nat)
    (h0 : s.m_fat.get? 0 ≠ some FAT_FREE) (h1 : s.m_fat.get? 1 ≠ some FAT_FREE)
    (h : b ∈ s.freeList B n) : 2 ≤ b := by
  have hb := (FS.freeList_mem B s n b h).2
  by_contra hlt
  have : b = 0 ∨ b = 1 := by omega
  rcases this with rfl | rfl
  · exact h0 hb
  · exact h1 hb

/-- A request that the table can satisfy, the two reserved slots not being
free: the call succeeds and links the blocks of `freeList`. -/
theorem FS.AllocateNewFileOnFAT_ok (B : Nat) (s : FS) (n : Nat) (hB : B ≤ 65536)
    (hlen : s.m_fat.length = FAT_SIZE B) (hd : 2 ≤ s.m_disk.length) (hn : 1 ≤ n)
    (hfree : n ≤ s.freeCount B)
    (h0 : s.m_fat.get? 0 ≠ some FAT_FREE) (h1 : s.m_fat.get? 1 ≠ some FAT_FREE) :
    ∃ b rest, s.freeList B n = b :: rest ∧
      s.AllocateNewFileOnFAT B (n : Int) =
        Run.ret (0, { s with
          m_fat := FS.linkFAT (b :: rest) s.m_fat,
          m_disk := s.m_disk.set 1 (fatBytes (FS.linkFAT (b :: rest) s.m_fat)) }, (b : Int)) := by
  have hL := FS.freeList_length B s n hfree
  have hF : ∀ x ∈ s.freeList B n, 2 ≤ x ∧ x < FAT_SIZE B := fun x hx =>
    ⟨FS.freeList_ge_two B s n x h0 h1 hx, (FS.freeList_mem B s n x hx).1⟩
  have hloop := FS.LinkLoop_ok B (s.freeList B n) hB hF (s.freeList B n).length s (le_refl _) hlen hd
  rw [hL] at hloop
  cases hFl : s.freeList B n with
  | nil => rw [hFl] at hL; simp at hL; omega
  | cons b rest =>
    refine ⟨b, rest, rfl, ?_⟩
    rw [hFl] at hloop
    unfold FS.AllocateNewFileOnFAT
    rw [FS.GetFreeBlocks_nat, hFl]
    have hn0 : n ≠ 0 := by omega
    simp [hloop, hn0]

/-- The chain-freeing loop of `rm` run over freshly linked blocks. -/
theorem FS.rmLoop_linkFAT (B : Nat) (hB : B ≤ 65536) (rest : List Nat) :
    ∀ (b : Nat) (fat : List Int) (s : FS) (fuel : Nat),
      (b :: rest).Nodup → (∀ x ∈ b :: rest, 2 ≤ x ∧ x < FAT_SIZE B) → fat.length = FAT_SIZE B →
      2 ≤ s.m_disk.length → s.m_fat = FS.linkFAT (b :: rest) fat → (b :: rest).length ≤ fuel →
      ∃ s2, FS.rmLoop B fuel s (b : Int) = Run.ret (0, s2) ∧
        s2.m_fat = (b :: rest).foldl (fun t x => t.set x FAT_FREE) fat ∧
        s2.m_cwdBlock = s.m_cwdBlock ∧ s2.rootCreated = s.rootCreated ∧
        s2.FATCreated = s.FATCreated ∧ s2.m_disk.length = s.m_disk.length := by
  induction rest with
  | nil =>
    intro b fat s fuel hnd hlt hlen hd hs hfuel
    obtain ⟨fuel, rfl⟩ : ∃ f, fuel = f + 1 := ⟨fuel - 1, by simp at hfuel; omega⟩
    have hb := hlt b (by simp)
    have hne : ((b : Int) = FAT_EOF) = False := eq_false (by unfold FAT_EOF; omega)
    have hget := FS.linkFAT_head b [] fat (by simp) (by omega)
    rw [← hs] at hget
    have hslen : s.m_fat.length = FAT_SIZE B := by rw [hs, FS.linkFAT_length]; exact hlen
    unfold FS.rmLoop
    simp only [hne, if_false]
    generalize hs1 : (match Disk.write s.m_disk (b : Int) (List.replicate B 0) with
        | none => s
        | some d => { s with m_disk := d }) = s1
    have hs1fat : s1.m_fat = s.m_fat := by
      rw [← hs1]; cases Disk.write s.m_disk (b : Int) (List.replicate B 0) <;> rfl
    have hs1cwd : s1.m_cwdBlock = s.m_cwdBlock ∧ s1.rootCreated = s.rootCreated ∧
        s1.FATCreated = s.FATCreated := by
      rw [← hs1]; cases Disk.write s.m_disk (b : Int) (List.replicate B 0) <;> simp
    have hs1d : s1.m_disk.length = s.m_disk.length := by
      rw [← hs1]
      cases hw : Disk.write s.m_disk (b : Int) (List.replicate B 0) with
      | none => rfl
      | some d =>
        unfold Disk.write at hw
        split at hw
        · cases hw; simp
        · cases hw
    rw [FS.GetChildBlock_natCast B s1 b _ hb.2 (by rw [hs1fat]; exact hget)]
    rw [show (FAT_FREE : Int) = 0 from rfl,
      FS.MakeFATEntry_plain B s1 b 0 hB (by rw [hs1fat]; exact hslen) (by omega) hb.1 hb.2
        (by omega) (by omega)]
    refine ⟨{ s1 with m_fat := s1.m_fat.set b 0,
                      m_disk := s1.m_disk.set 1 (fatBytes (s1.m_fat.set b 0)) }, ?_, ?_⟩
    · cases fuel <;> simp [FS.rmLoop, FS.linkTarget]
    · simp [hs1fat, hs, FS.linkFAT, hs1cwd, hs1d, FAT_FREE]
  | cons c rest1 ih =>
    intro b fat s fuel hnd hlt hlen hd hs hfuel
    obtain ⟨fuel, rfl⟩ : ∃ f, fuel = f + 1 := ⟨fuel - 1, by simp at hfuel; omega⟩
    have hbn : b ∉ c :: rest1 := (List.nodup_cons.mp hnd).1
    have hndr : (c :: rest1).Nodup := (List.nodup_cons.mp hnd).2
    have hb := hlt b (by simp)
    have hne : ((b : Int) = FAT_EOF) = False := eq_false (by unfold FAT_EOF; omega)
    have hget := FS.linkFAT_head b (c :: rest1) fat hbn (by omega)
    rw [← hs] at hget
    have hslen : s.m_fat.length = FAT_SIZE B := by rw [hs, FS.linkFAT_length]; exact hlen
    unfold FS.rmLoop
    simp only [hne, if_false]
    generalize hs1 : (match Disk.write s.m_disk (b : Int) (List.replicate B 0) with
        | none => s
        | some d => { s with m_disk := d }) = s1
    have hs1fat : s1.m_fat = s.m_fat := by
      rw [← hs1]; cases Disk.write s.m_disk (b : Int) (List.replicate B 0) <;> rfl
    have hs1cwd : s1.m_cwdBlock = s.m_cwdBlock ∧ s1.rootCreated = s.rootCreated ∧
        s1.FATCreated = s.FATCreated := by
      rw [← hs1]; cases Disk.write s.m_disk (b : Int) (List.replicate B 0) <;> simp
    have hs1d : s1.m_disk.length = s.m_disk.length := by
      rw [← hs1]
      cases hw : Disk.write s.m_disk (b : Int) (List.replicate B 0) with
      | none => rfl
      | some d =>
        unfold Disk.write at hw
        split at hw
        · cases hw; simp
        · cases hw
    rw [FS.GetChildBlock_natCast B s1 b _ hb.2 (by rw [hs1fat]; exact hget)]
    rw [show (FAT_FREE : Int) = 0 from rfl,
      FS.MakeFATEntry_plain B s1 b 0 hB (by rw [hs1fat]; exact hslen) (by omega) hb.1 hb.2
        (by omega) (by omega)]
    simp only [Run.ret_bind, ne_eq, not_true_eq_false, if_false, FS.linkTarget]
    have hs2 : s1.m_fat.set b 0 = FS.linkFAT (c :: rest1) (fat.set b 0) := by
      rw [hs1fat, hs]
      show (FS.linkFAT (c :: rest1) (fat.set b (FS.linkTarget (c :: rest1)))).set b 0 = _
      rw [FS.linkFAT_set_comm _ _ _ _ hbn]
      simp
    obtain ⟨s2, h2, h3, h4, h5, h6, h7⟩ := ih c (fat.set b 0)
      { s1 with m_fat := s1.m_fat.set b 0,
                m_disk := s1.m_disk.set 1 (fatBytes (s1.m_fat.set b 0)) } fuel hndr
      (fun x hx => hlt x (List.mem_cons_of_mem _ hx)) (by simpa using hlen)
      (by simp; omega) hs2 (by simp at hfuel ⊢; omega)
    refine ⟨s2, h2, ?_, ?_, ?_, ?_, ?_⟩
    · rw [h3]; simp [FAT_FREE]
    · rw [h4]; exact hs1cwd.1
    · rw [h5]; exact hs1cwd.2.1
    · rw [h6]; exact hs1cwd.2.2
    · rw [h7]; simp [hs1d]

theorem List.foldl_set_free_self (F : List Nat) (fat : List Int)
    (h : ∀ b ∈ F, fat.get? b = some FAT_FREE) :
    F.foldl (fun t x => t.set x FAT_FREE) fat = fat := by
  induction F with
  | nil => rfl
  | cons b rest ih =>
    have hb := h b (by simp)
    have : fat.set b FAT_FREE = fat := by
      apply List.ext_get?
      intro i
      by_cases hi : i = b
      · subst hi
        rw [hb]
        have hlt : i < fat.length := by
          by_contra hge
          rw [List.get?_eq_none.mpr (by omega)] at hb
          cases hb
        simp [List.getElem?_set, hlt]
      · simp [List.getElem?_set, Ne.symm hi]
    simp only [List.foldl_cons, this]
    exact ih (fun x hx => h x (List.mem_cons_of_mem _ hx))

end FATLemmas

/-- C3, amended (allocation exclusivity): in a table whose slots 0 and 1 are
not FREE (as `format` leaves them) and whose live blocks have non-FREE
entries, a request for `n >= 1` blocks that the table can satisfy succeeds,
and the chain walked from the returned head has exactly `n` pairwise distinct
blocks, none of them live before the call and none of them block 0 or 1. -/
theorem allocation_exclusive (BLOCK_SIZE : Nat) (s : FS) (n : Nat) (live : List Nat)
    (hB : BLOCK_SIZE ≤ 65536) (hlen : s.m_fat.length = FAT_SIZE BLOCK_SIZE)
    (hd : 2 ≤ s.m_disk.length)
    (h0 : s.m_fat.get? 0 ≠ some FAT_FREE) (h1 : s.m_fat.get? 1 ≠ some FAT_FREE)
    (hlive : ∀ b ∈ live, s.m_fat.get? b ≠ some FAT_FREE)
    (hn : 1 ≤ n) (hfree : n ≤ s.freeCount BLOCK_SIZE) :
    ∃ s1 head chain,
      s.AllocateNewFileOnFAT BLOCK_SIZE (n : Int) = Run.ret (0, s1, head) ∧
      (∀ fuel, n ≤ fuel → FS.chainFrom BLOCK_SIZE s1 fuel head = Run.ret chain) ∧
      chain.length = n ∧ chain.Nodup ∧
      ∀ b ∈ chain, b ∉ live ∧ b ≠ 0 ∧ b ≠ 1 := by
  obtain ⟨b, rest, hF, hA⟩ := FS.AllocateNewFileOnFAT_ok BLOCK_SIZE s n hB hlen hd hn hfree h0 h1
  have hL := FS.freeList_length BLOCK_SIZE s n hfree
  have hnd := FS.freeList_nodup BLOCK_SIZE s n
  rw [hF] at hL hnd
  have hmem : ∀ x ∈ b :: rest, x < FAT_SIZE BLOCK_SIZE ∧ s.m_fat.get? x = some FAT_FREE :=
    fun x hx => FS.freeList_mem BLOCK_SIZE s n x (by rw [hF]; exact hx)
  refine ⟨_, _, b :: rest, hA, ?_, hL, hnd, ?_⟩
  · intro fuel hfuel
    exact FS.chainFrom_linkFAT BLOCK_SIZE rest b s.m_fat
      { s with m_fat := FS.linkFAT (b :: rest) s.m_fat,
               m_disk := s.m_disk.set 1 (fatBytes (FS.linkFAT (b :: rest) s.m_fat)) }
      fuel hnd (fun x hx => (hmem x hx).1) hlen rfl (by rw [hL]; exact hfuel)
  · intro y hy
    have hyf := (hmem y hy).2
    refine ⟨?_, ?_, ?_⟩
    · intro hl
      exact hlive y hl hyf
    · intro hEq
      subst hEq
      exact h0 hyf
    · intro hEq
      subst hEq
      exact h1 hyf

theorem allocation_exclusive_witness :
    (sampleTwoFiles.m_fat.get? 0 ≠ some FAT_FREE ∧
      sampleTwoFiles.m_fat.get? 1 ≠ some FAT_FREE) ∧
    (∀ b ∈ [2, 3], sampleTwoFiles.m_fat.get? b ≠ some FAT_FREE) ∧
    3 ≤ sampleTwoFiles.freeCount 128 ∧
    ∃ s1 head chain,
      sampleTwoFiles.AllocateNewFileOnFAT 128 ((3 : Nat) : Int) = Run.ret (0, s1, head) ∧
      (∀ fuel, 3 ≤ fuel → FS.chainFrom 128 s1 fuel head = Run.ret chain) ∧
      chain.length = 3 ∧ chain.Nodup ∧
      ∀ b ∈ chain, b ∉ [2, 3] ∧ b ≠ 0 ∧ b ≠ 1 :=
  ⟨⟨by decide, by decide⟩, by decide, by decide!,
   allocation_exclusive 128 sampleTwoFiles 3 [2, 3] (by decide) (by decide) (by decide!)
     (by decide) (by decide) (by decide) (by decide) (by decide!)⟩

/-- C3 as stated fails on a table whose slots 0 and 1 are FREE.  Before any
`format` the table is zeroed memory: every entry is FREE, so no chain is live
and the claim's condition on live chains holds.  `GetFreeBlocks` scans from
block 0, and `AllocateNewFileOnFAT(2)` succeeds with the chain 0, 1: the root
directory's block and the table's block.  After `format` the same request
gives the chain 2, 3. -/
theorem allocation_reserved_slot_counterexample :
    sampleBlank.m_fat = List.replicate 64 FAT_FREE ∧
    2 ≤ sampleBlank.freeCount 128 ∧
    (sampleBlank.AllocateNewFileOnFAT 128 2).bind (fun a =>
      (FS.chainFrom 128 a.2.1 5 a.2.2).bind (fun c => Run.ret (a.1, a.2.2, c))) =
      Run.ret (0, 0, [0, 1]) ∧
    (sampleFormatted.AllocateNewFileOnFAT 128 2).bind (fun a =>
      (FS.chainFrom 128 a.2.1 5 a.2.2).bind (fun c => Run.ret (a.1, a.2.2, c))) =
      Run.ret (0, 2, [2, 3]) := by
  refine ⟨by decide!, by decide!, by decide!, by decide!⟩

/-- C4, as stated, fails on a table whose slot 0 is FREE: the allocation takes
block 0 (setting the one-shot flag of the root slot), and the freeing loop is
then refused by that flag, so the table is left with slot 0 at `FAT_EOF`. -/
theorem allocate_then_free_reserved_slot_counterexample :
    1 ≤ sampleBlank.freeCount 128 ∧
    sampleBlank.AllocateNewFileOnFAT 128 1 =
      Run.ret (0, { sampleBlank with
        m_fat := [-1] ++ List.replicate 63 0,
        m_disk := sampleBlank.m_disk.set 1 (fatBytes ([-1] ++ List.replicate 63 0)),
        rootCreated := true }, 0) ∧
    FS.rmLoop 128 5 { sampleBlank with
        m_fat := [-1] ++ List.replicate 63 0,
        m_disk := sampleBlank.m_disk.set 1 (fatBytes ([-1] ++ List.replicate 63 0)),
        rootCreated := true } 0 =
      Run.ret (ERROR_CODE, { sampleBlank with
        m_fat := [-1] ++ List.replicate 63 0,
        m_disk := sampleBlank.m_disk.set 1 (fatBytes ([-1] ++ List.replicate 63 0)),
        rootCreated := true }) ∧
    ([-1] ++ List.replicate 63 0 : List Int) ≠ sampleBlank.m_fat := by
  decide!

/-- C4 (free-space conservation), amended: when the reserved slots 0 and 1 are
not FREE, a request for `n >= 1` blocks that the table can satisfy succeeds,
and running the chain-freeing loop of `rm` from the returned head succeeds and
leaves a table equal, slot for slot, to the table before the allocation. -/
theorem allocate_then_free_restores_table (BLOCK_SIZE : Nat) (s : FS) (n : Nat)
    (hB : BLOCK_SIZE ≤ 65536) (hlen : s.m_fat.length = FAT_SIZE BLOCK_SIZE)
    (hd : 2 ≤ s.m_disk.length)
    (h0 : s.m_fat.get? 0 ≠ some FAT_FREE) (h1 : s.m_fat.get? 1 ≠ some FAT_FREE)
    (hn : 1 ≤ n) (hfree : n ≤ s.freeCount BLOCK_SIZE) :
    ∃ s1 head,
      s.AllocateNewFileOnFAT BLOCK_SIZE (n : Int) = Run.ret (0, s1, head) ∧
      ∀ fuel, n ≤ fuel →
        ∃ s2, FS.rmLoop BLOCK_SIZE fuel s1 head = Run.ret (0, s2) ∧ s2.m_fat = s.m_fat := by
  obtain ⟨b, rest, hF, hA⟩ := FS.AllocateNewFileOnFAT_ok BLOCK_SIZE s n hB hlen hd hn hfree h0 h1
  have hL := FS.freeList_length BLOCK_SIZE s n hfree
  have hnd := FS.freeList_nodup BLOCK_SIZE s n
  rw [hF] at hL hnd
  have hmem : ∀ x ∈ b :: rest, x < FAT_SIZE BLOCK_SIZE ∧ s.m_fat.get? x = some FAT_FREE :=
    fun x hx => FS.freeList_mem BLOCK_SIZE s n x (by rw [hF]; exact hx)
  have hge : ∀ x ∈ b :: rest, 2 ≤ x := fun x hx =>
    FS.freeList_ge_two BLOCK_SIZE s n x h0 h1 (by rw [hF]; exact hx)
  refine ⟨_, _, hA, ?_⟩
  intro fuel hfuel
  obtain ⟨s2, h2, h3, -⟩ := FS.rmLoop_linkFAT BLOCK_SIZE hB rest b s.m_fat
    { s with m_fat := FS.linkFAT (b :: rest) s.m_fat,
             m_disk := s.m_disk.set 1 (fatBytes (FS.linkFAT (b :: rest) s.m_fat)) } fuel hnd
    (fun x hx => ⟨hge x hx, (hmem x hx).1⟩) hlen (by simpa using hd) rfl
    (by rw [hL]; exact hfuel)
  refine ⟨s2, h2, ?_⟩
  rw [h3]
  exact List.foldl_set_free_self _ _ (fun x hx => (hmem x hx).2)

theorem allocate_then_free_restores_table_witness :
    sampleFormatted.m_fat.get? 0 ≠ some FAT_FREE ∧ sampleFormatted.m_fat.get? 1 ≠ some FAT_FREE ∧
    3 ≤ sampleFormatted.freeCount 128 ∧
    ∃ s1 head,
      sampleFormatted.AllocateNewFileOnFAT 128 ((3 : Nat) : Int) = Run.ret (0, s1, head) ∧
      ∀ fuel, 3 ≤ fuel →
        ∃ s2, FS.rmLoop 128 fuel s1 head = Run.ret (0, s2) ∧ s2.m_fat = sampleFormatted.m_fat :=
  ⟨by decide, by decide, by decide!,
   allocate_then_free_restores_table 128 sampleFormatted 3 (by decide) (by decide) (by decide!)
     (by decide) (by decide) (by decide) (by decide!)⟩

/-- `GetFreeBlocks` reports failure for a negative request only. -/
theorem FS.GetFreeBlocks_status (B : Nat) (s : FS) (n : Int) (h : 0 ≤ n) :
    (s.GetFreeBlocks B n).1 = 0 := by
  unfold FS.GetFreeBlocks
  have : ¬ n < 0 := by omega
  simp [this]

/-- C5: with no FREE slot in the table and a request for one block,
`GetFreeBlocks` reports success with an empty vector, after which
`AllocateNewFileOnFAT` and `ExtendFileOnFAT` index that vector out of bounds
instead of reporting failure. -/
theorem capacity_shortage_not_reported :
    sampleFull.freeCount 128 = 0 ∧
    sampleFull.GetFreeBlocks 128 1 = (0, []) ∧
    sampleFull.AllocateNewFileOnFAT 128 1 = Run.undef ∧
    sampleFull.ExtendFileOnFAT 128 5 1 2 = Run.undef := by
  decide!

section SlotLemmas

theorem dir_entry.encode_length (e : dir_entry) : e.encode.length = e.file_name.length + 8 := by
  simp [dir_entry.encode]

theorem slotBytes_length (blk : List Nat) (i : Nat) (h : 64 * i + 64 ≤ blk.length) :
    (slotBytes blk i).length = 64 := by
  simp [slotBytes, DIR_ENTRY_SIZE]; omega

theorem dirEntries_length (B : Nat) (blk : List Nat) :
    (dirEntries B blk).length = DIR_BLOCK_SIZE B := by
  simp [dirEntries]

theorem dirEntries_get? (B : Nat) (blk : List Nat) (i : Nat) (h : i < DIR_BLOCK_SIZE B) :
    (dirEntries B blk).get? i = some (dir_entry.decode (slotBytes blk i)) := by
  simp [dirEntries, List.getElem?_map, List.getElem?_range h]

theorem slot_in_block (B i : Nat) (h : i < DIR_BLOCK_SIZE B) : 64 * i + 64 ≤ B := by
  unfold DIR_BLOCK_SIZE DIR_ENTRY_SIZE at h; omega

theorem setSlot_length (blk : List Nat) (i : Nat) (e : dir_entry)
    (h : 64 * i + 64 ≤ blk.length) (he : e.file_name.length = 56) :
    (setSlot blk i e).length = blk.length := by
  simp [setSlot, DIR_ENTRY_SIZE, dir_entry.encode_length, he]; omega

theorem slotBytes_setSlot_same (blk : List Nat) (i : Nat) (e : dir_entry)
    (h : 64 * i + 64 ≤ blk.length) (he : e.file_name.length = 56) :
    slotBytes (setSlot blk i e) i = e.encode := by
  have hl : (blk.take (DIR_ENTRY_SIZE * i)).length = DIR_ENTRY_SIZE * i := by
    simp [DIR_ENTRY_SIZE]; omega
  have hel : e.encode.length = DIR_ENTRY_SIZE := by
    simp [dir_entry.encode_length, he, DIR_ENTRY_SIZE]
  unfold slotBytes setSlot
  rw [List.append_assoc, List.drop_left' hl, List.take_left' hel]

theorem slotBytes_setSlot_other (blk : List Nat) (i j : Nat) (e : dir_entry)
    (h : 64 * i + 64 ≤ blk.length) (he : e.file_name.length = 56) (hij : j ≠ i) :
    slotBytes (setSlot blk i e) j = slotBytes blk j := by
  have hel : e.encode.length = 64 := by simp [dir_entry.encode_length, he]
  apply List.ext_getElem?
  intro k
  unfold slotBytes setSlot
  simp only [List.getElem?_take, List.getElem?_drop, DIR_ENTRY_SIZE]
  by_cases hk : k < 64
  · simp only [hk, if_true]
    rcases Nat.lt_or_gt_of_ne hij with hlt | hgt
    · have h1 : 64 * j + k < (List.take (64 * i) blk).length := by simp; omega
      rw [List.append_assoc, List.getElem?_append_left h1, List.getElem?_take]
      simp; omega
    · have h1 : (List.take (64 * i) blk ++ e.encode).length ≤ 64 * j + k := by simp [hel]; omega
      rw [List.getElem?_append_right h1, List.getElem?_drop]
      congr 1
      simp [hel]; omega
  · simp [hk]

theorem dir_entry.decode_encode (e : dir_entry) (hn : e.file_name.length = 56)
    (hs : e.size < 4294967296) (hf : e.first_blk < 65536) (ht : e.type < 256)
    (ha : e.access_rights < 256) : dir_entry.decode e.encode = e := by
  have hget : ∀ (k : Nat) (l : List Nat), (e.file_name ++ l).getD (56 + k) 0 = l.getD k 0 := by
    intro k l
    simp [List.getD_eq_getElem?_getD, List.getElem?_append_right, hn]
  have h56 := hget 0; have h57 := hget 1; have h58 := hget 2; have h59 := hget 3
  have h60 := hget 4; have h61 := hget 5; have h62 := hget 6; have h63 := hget 7
  simp only [Nat.add_zero, Nat.reduceAdd] at h56 h57 h58 h59 h60 h61 h62 h63
  cases e with
  | mk nm sz fb ty ar =>
    simp only [dir_entry.decode, dir_entry.encode, FILE_NAME_SIZE] at *
    simp only [h56, h57, h58, h59, h60, h61, h62, h63]
    simp only [List.getD_cons_zero, List.getD_cons_succ]
    have e1 : (nm ++ [sz % 256, sz / 256 % 256, sz / 65536 % 256, sz / 16777216 % 256,
        fb % 256, fb / 256 % 256, ty % 256, ar % 256]).take 56 = nm := by
      rw [List.take_left' hn]
    rw [e1]
    congr 1 <;> omega

theorem dir_entry.decode_wf (b : List Nat) (h : 56 ≤ b.length) :
    (dir_entry.decode b).file_name.length = 56 ∧ (dir_entry.decode b).size < 4294967296 ∧
    (dir_entry.decode b).first_blk < 65536 ∧ (dir_entry.decode b).type < 256 ∧
    (dir_entry.decode b).access_rights < 256 := by
  simp only [dir_entry.decode, FILE_NAME_SIZE, List.length_take]
  refine ⟨by omega, by omega, by omega, by omega, by omega⟩

theorem dirEntries_setSlot (B : Nat) (blk : List Nat) (i : Nat) (e : dir_entry)
    (hi : i < DIR_BLOCK_SIZE B) (hb : blk.length = B) (he : e.file_name.length = 56) :
    dirEntries B (setSlot blk i e) = (dirEntries B blk).set i (dir_entry.decode e.encode) := by
  have h64 := slot_in_block B i hi
  apply List.ext_getElem?
  intro k
  by_cases hk : k < DIR_BLOCK_SIZE B
  · have h1 := dirEntries_get? B (setSlot blk i e) k hk
    have h2 := dirEntries_get? B blk k hk
    rw [List.get?_eq_getElem?] at h1 h2
    rw [h1, List.getElem?_set]
    by_cases hki : i = k
    · subst hki
      simp [dirEntries_length, hk, slotBytes_setSlot_same blk i e (by omega) he]
    · simp [hki, h2, slotBytes_setSlot_other blk i k e (by omega) he (Ne.symm hki)]
  · have l1 : (dirEntries B (setSlot blk i e)).length ≤ k := by
      rw [dirEntries_length]; omega
    have l2 : ((dirEntries B blk).set i (dir_entry.decode e.encode)).length ≤ k := by
      rw [List.length_set, dirEntries_length]; omega
    rw [List.getElem?_eq_none l1, List.getElem?_eq_none l2]

theorem setSlot_setSlot (blk : List Nat) (i : Nat) (e1 e2 : dir_entry)
    (h : 64 * i + 64 ≤ blk.length) (he1 : e1.file_name.length = 56) :
    setSlot (setSlot blk i e1) i e2 = setSlot blk i e2 := by
  have hl : (blk.take (DIR_ENTRY_SIZE * i)).length = DIR_ENTRY_SIZE * i := by
    simp [DIR_ENTRY_SIZE]; omega
  have hel : e1.encode.length = DIR_ENTRY_SIZE := by
    simp [dir_entry.encode_length, he1, DIR_ENTRY_SIZE]
  have hl2 : (blk.take (DIR_ENTRY_SIZE * i) ++ e1.encode).length =
      DIR_ENTRY_SIZE * i + DIR_ENTRY_SIZE := by
    rw [List.length_append, hl, hel]
  unfold setSlot
  congr 1
  · congr 1
    rw [List.append_assoc, List.take_left' hl]
  · rw [List.drop_left' hl2]

/-- Writing back the bytes a slot already holds changes nothing. -/
theorem setSlot_self (blk : List Nat) (i : Nat) (e : dir_entry)
    (he : slotBytes blk i = e.encode) :
    setSlot blk i e = blk := by
  unfold setSlot
  rw [← he]
  unfold slotBytes
  rw [List.append_assoc, ← List.drop_drop, List.take_append_drop, List.take_append_drop]

end SlotLemmas

section NameLemmas

theorem c_str_cons (x : Nat) (a : List Nat) :
    c_str (x :: a) = if x = 0 then some [] else (c_str a).map (fun n => x :: n) := by
  unfold c_str
  by_cases hx : x = 0
  · subst hx; simp
  · have hx2 : ¬ (0 = x) := fun h => hx h.symm
    by_cases h0 : 0 ∈ a
    · simp [hx, hx2, h0, List.takeWhile_cons]
    · simp [hx, hx2, h0]

theorem c_str_nil : c_str [] = none := by simp [c_str]

/-- On two terminated arrays `strcmp` compares the C strings. -/
theorem strcmpEq_of_c_str (a : List Nat) :
    ∀ (b n m : List Nat), c_str a = some n → c_str b = some m →
      FS.strcmpEq a b = some (decide (n = m)) := by
  induction a with
  | nil => intro b n m ha; simp [c_str_nil] at ha
  | cons x as ih =>
    intro b n m ha hb
    cases b with
    | nil => simp [c_str_nil] at hb
    | cons y bs =>
      rw [c_str_cons] at ha hb
      unfold FS.strcmpEq
      by_cases hx : x = 0
      · subst hx
        simp only [if_true, Option.some.injEq] at ha
        subst ha
        by_cases hy : y = 0
        · subst hy
          simp only [if_true, Option.some.injEq] at hb
          subst hb
          simp
        · simp only [hy, if_false] at hb
          cases hcb : c_str bs with
          | none => rw [hcb] at hb; cases hb
          | some m1 =>
            rw [hcb] at hb
            simp only [Option.map_some', Option.some.injEq] at hb
            subst hb
            have : (0 : Nat) ≠ y := fun h => hy h.symm
            simp [this]
      · simp only [hx, if_false] at ha
        cases hca : c_str as with
        | none => rw [hca] at ha; cases ha
        | some n1 =>
          rw [hca] at ha
          simp only [Option.map_some', Option.some.injEq] at ha
          subst ha
          by_cases hy : y = 0
          · subst hy
            simp only [if_true, Option.some.injEq] at hb
            subst hb
            simp [hx]
          · simp only [hy, if_false] at hb
            cases hcb : c_str bs with
            | none => rw [hcb] at hb; cases hb
            | some m1 =>
              rw [hcb] at hb
              simp only [Option.map_some', Option.some.injEq] at hb
              subst hb
              by_cases hxy : x = y
              · subst hxy
                simp [hx, ih bs n1 m1 hca hcb]
              · simp [hxy]

theorem findName_ret_cons (name : List Nat) (e : dir_entry) (es : List dir_entry)
    (r : Option Nat) (h : FS.findName name (e :: es) = Run.ret r) :
    ∃ n, c_str e.file_name = some n ∧
      ((n = name ∧ r = some 0) ∨
       (n ≠ name ∧ ∃ r1, FS.findName name es = Run.ret r1 ∧ r = r1.map (fun i => i + 1))) := by
  unfold FS.findName at h
  cases hc : c_str e.file_name with
  | none => rw [hc] at h; cases h
  | some n =>
    rw [hc] at h
    refine ⟨n, rfl, ?_⟩
    by_cases hn : n = name
    · simp only [hn, if_true, Run.ret.injEq] at h
      exact Or.inl ⟨hn, h.symm⟩
    · simp only [hn, if_false] at h
      cases hf : FS.findName name es with
      | ret r1 =>
        rw [hf] at h
        simp only [Run.ret_bind, Run.ret.injEq] at h
        exact Or.inr ⟨hn, r1, rfl, h.symm⟩
      | undef => rw [hf] at h; cases h
      | spin => rw [hf] at h; cases h
      | thrown => rw [hf] at h; cases h

/-- When the old name is terminated, the `strcmp` scan of `UpdateDirEntry`
stops where the scan of `GetDirEntry` for that name stops. -/
theorem findStrcmp_eq_findName (old name : List Nat) (hold : c_str old = some name) :
    ∀ (es : List dir_entry) (r : Option Nat), FS.findName name es = Run.ret r →
      FS.findStrcmp old es = Run.ret r := by
  intro es
  induction es with
  | nil => intro r h; simpa [FS.findName, FS.findStrcmp] using h
  | cons e es ih =>
    intro r h
    obtain ⟨n, hc, hcase⟩ := findName_ret_cons name e es r h
    unfold FS.findStrcmp
    rw [strcmpEq_of_c_str e.file_name old n name hc hold]
    rcases hcase with ⟨hn, hr⟩ | ⟨hn, r1, hr1, hr⟩
    · simp [hn, hr]
    · simp [hn, ih r1 hr1, hr]

theorem findName_some_spec (name : List Nat) :
    ∀ (es : List dir_entry) (i : Nat), FS.findName name es = Run.ret (some i) →
      ∃ e, es.get? i = some e ∧ c_str e.file_name = some name := by
  intro es
  induction es with
  | nil => intro i h; simp [FS.findName] at h
  | cons e es ih =>
    intro i h
    obtain ⟨n, hc, hcase⟩ := findName_ret_cons name e es (some i) h
    rcases hcase with ⟨hn, hr⟩ | ⟨hn, r1, hr1, hr⟩
    · cases hr
      exact ⟨e, rfl, by rw [hc, hn]⟩
    · cases r1 with
      | none => cases hr
      | some j =>
        simp only [Option.map_some', Option.some.injEq] at hr
        subst hr
        obtain ⟨e1, h1, h2⟩ := ih j hr1
        exact ⟨e1, by simpa using h1, h2⟩

/-- The scan for a name depends on the name fields only. -/
theorem findName_congr (name : List Nat) :
    ∀ (es es1 : List dir_entry), List.Forall₂ (fun a b => a.file_name = b.file_name) es es1 →
      FS.findName name es = FS.findName name es1 := by
  intro es es1 h
  induction h with
  | nil => rfl
  | cons hab _ ih =>
    unfold FS.findName
    rw [hab, ih]

theorem findStrcmp_congr (old : List Nat) :
    ∀ (es es1 : List dir_entry), List.Forall₂ (fun a b => a.file_name = b.file_name) es es1 →
      FS.findStrcmp old es = FS.findStrcmp old es1 := by
  intro es es1 h
  induction h with
  | nil => rfl
  | cons hab _ ih =>
    unfold FS.findStrcmp
    rw [hab, ih]

end NameLemmas

section ResolutionLemmas

theorem Disk.read_some (d : List (List Nat)) (b : Int) (blk : List Nat)
    (h : Disk.read d b = some blk) :
    0 ≤ b ∧ b.toNat < d.length ∧ d.get? b.toNat = some blk := by
  unfold Disk.read at h
  split at h
  · rename_i hb
    exact ⟨hb.1, by omega, h⟩
  · cases h

theorem Disk.write_of_read (d : List (List Nat)) (b : Int) (blk buf : List Nat)
    (h : Disk.read d b = some blk) : Disk.write d b buf = some (d.set b.toNat buf) := by
  have hb := Disk.read_some d b blk h
  unfold Disk.write
  have : 0 ≤ b ∧ b < (d.length : Int) := ⟨hb.1, by omega⟩
  simp [this]

theorem DirEntryExists_empty : DirEntryExists dir_entry.empty = false := by decide

theorem FS.GetDirEntry_of_find (B : Nat) (s : FS) (pb : Int) (name blk : List Nat) (i : Nat)
    (hr : Disk.read s.m_disk pb = some blk)
    (hf : FS.findName name (dirEntries B blk) = Run.ret (some i)) :
    s.GetDirEntry B pb name = Run.ret (0, dir_entry.decode (slotBytes blk i)) := by
  unfold FS.GetDirEntry
  simp [hr, hf]

theorem FS.UpdateDirEntry_of_find (B : Nat) (s : FS) (pb : Int) (blk : List Nat) (i : Nat)
    (old new : dir_entry) (hr : Disk.read s.m_disk pb = some blk)
    (hf : FS.findStrcmp old.file_name (dirEntries B blk) = Run.ret (some i)) :
    s.UpdateDirEntry B pb old new =
      Run.ret (0, { s with m_disk := s.m_disk.set pb.toNat (setSlot blk i new) }) := by
  unfold FS.UpdateDirEntry
  simp [hr, hf, Disk.write_of_read _ _ _ _ hr]

/-- What it means for a path to end in an existing record. -/
theorem FS.GetDirEntryPath_exists (B : Nat) (s : FS) (segs : List (List Nat)) (st : Int)
    (e : dir_entry) (h : s.GetDirEntryPath B segs = Run.ret (st, e))
    (hex : DirEntryExists e = true) :
    ∃ last pb blk i, segs.getLast? = some last ∧
      s.GetDirectoryBlock B segs.dropLast = Run.ret pb ∧ pb ≠ ERROR_CODE ∧
      Disk.read s.m_disk pb = some blk ∧
      FS.findName last (dirEntries B blk) = Run.ret (some i) ∧ i < DIR_BLOCK_SIZE B ∧
      e = dir_entry.decode (slotBytes blk i) ∧ st = 0 := by
  unfold FS.GetDirEntryPath at h
  cases hl : segs.getLast? with
  | none => rw [hl] at h; cases h
  | some last =>
    rw [hl] at h
    simp only at h
    cases hg : s.GetDirectoryBlock B segs.dropLast with
    | ret pb =>
      rw [hg] at h
      simp only [Run.ret_bind] at h
      by_cases hpb : pb = ERROR_CODE
      · simp only [hpb, ne_eq, not_true_eq_false, if_false, Run.ret.injEq, Prod.mk.injEq] at h
        rw [← h.2, DirEntryExists_empty] at hex
        cases hex
      · simp only [ne_eq, hpb, not_false_eq_true, if_true] at h
        unfold FS.GetDirEntry at h
        cases hr : Disk.read s.m_disk pb with
        | none =>
          rw [hr] at h
          simp only [Run.ret_bind, Run.ret.injEq, Prod.mk.injEq] at h
          rw [← h.2, DirEntryExists_empty] at hex
          cases hex
        | some blk =>
          rw [hr] at h
          simp only at h
          cases hf : FS.findName last (dirEntries B blk) with
          | ret r =>
            rw [hf] at h
            cases r with
            | none =>
              simp only [Run.ret_bind, Run.ret.injEq, Prod.mk.injEq] at h
              rw [← h.2, DirEntryExists_empty] at hex
              cases hex
            | some i =>
              simp only [Run.ret_bind, Run.ret.injEq, Prod.mk.injEq] at h
              obtain ⟨e1, he1, -⟩ := findName_some_spec last _ i hf
              have hi : i < DIR_BLOCK_SIZE B := by
                have := List.get?_eq_some.mp he1
                obtain ⟨hlt, -⟩ := this
                rwa [dirEntries_length] at hlt
              exact ⟨last, pb, blk, i, rfl, rfl, hpb, hr, hf, hi, h.2.symm, h.1.symm⟩
          | undef => rw [hf] at h; cases h
          | spin => rw [hf] at h; cases h
          | thrown => rw [hf] at h; cases h
    | undef => rw [hg] at h; cases h
    | spin => rw [hg] at h; cases h
    | thrown => rw [hg] at h; cases h

theorem dir_entry.SameLink.refl (e : dir_entry) : dir_entry.SameLink e e := ⟨rfl, rfl, rfl⟩

theorem Disk.read_congr_length (d d1 : List (List Nat)) (b : Int)
    (hlen : d1.length = d.length) :
    (Disk.read d b = none ∧ Disk.read d1 b = none) ∨
    (∃ x y, Disk.read d b = some x ∧ Disk.read d1 b = some y ∧
      d.get? b.toNat = some x ∧ d1.get? b.toNat = some y) := by
  unfold Disk.read
  by_cases hb : 0 ≤ b ∧ b < (d.length : Int)
  · have hb1 : 0 ≤ b ∧ b < (d1.length : Int) := by rw [hlen]; exact hb
    have h1 : b.toNat < d.length := by omega
    have h2 : b.toNat < d1.length := by omega
    right
    refine ⟨d.get ⟨_, h1⟩, d1.get ⟨_, h2⟩, ?_, ?_, ?_, ?_⟩ <;>
      simp [hb, hb1, List.get?_eq_get, h1, h2]
  · have hb1 : ¬ (0 ≤ b ∧ b < (d1.length : Int)) := by rw [hlen]; exact hb
    left
    simp [hb, hb1]

/-- Looking a name up in two states whose directory blocks agree on names,
types and first blocks, seen through any continuation that looks at nothing
else. -/
theorem FS.GetDirEntry_bind_congr {α : Type} (B : Nat) (s s1 : FS)
    (hlenD : s1.m_disk.length = s.m_disk.length)
    (hrel : ∀ (j : Nat) (x y : List Nat), s.m_disk.get? j = some x → s1.m_disk.get? j = some y →
      List.Forall₂ dir_entry.SameLink (dirEntries B x) (dirEntries B y))
    (b : Int) (name : List Nat) (k k1 : Int × dir_entry → Run α)
    (hk : ∀ st e e1, dir_entry.SameLink e e1 → k (st, e) = k1 (st, e1)) :
    (s.GetDirEntry B b name >>= k) = (s1.GetDirEntry B b name >>= k1) := by
  unfold FS.GetDirEntry
  rcases Disk.read_congr_length s.m_disk s1.m_disk b hlenD with ⟨h1, h2⟩ | ⟨x, y, h1, h2, h3, h4⟩
  · rw [h1, h2]
    simp only [Run.ret_bind]
    exact hk _ _ _ (dir_entry.SameLink.refl _)
  · rw [h1, h2]
    have hF := hrel _ x y h3 h4
    have hfn := findName_congr name _ _ (hF.imp (fun _ _ h => h.1))
    simp only
    rw [← hfn]
    cases hf : FS.findName name (dirEntries B x) with
    | ret r =>
      cases r with
      | none =>
        simp only [Run.ret_bind]
        exact hk _ _ _ (dir_entry.SameLink.refl _)
      | some i =>
        simp only [Run.ret_bind]
        apply hk
        obtain ⟨e1, he1, -⟩ := findName_some_spec name _ i hf
        have hi : i < DIR_BLOCK_SIZE B := by
          obtain ⟨hlt, -⟩ := List.get?_eq_some.mp he1
          rwa [dirEntries_length] at hlt
        have hx : i < (dirEntries B x).length := by rw [dirEntries_length]; exact hi
        have hy : i < (dirEntries B y).length := by rw [dirEntries_length]; exact hi
        have := hF.get hx hy
        have ex := dirEntries_get? B x i hi
        have ey := dirEntries_get? B y i hi
        rw [List.get?_eq_get hx] at ex
        rw [List.get?_eq_get hy] at ey
        rw [Option.some.inj ex, Option.some.inj ey] at this
        exact this
    | undef => rfl
    | spin => rfl
    | thrown => rfl

theorem FS.GetDirectoryBlockLoop_congr (B : Nat) (s s1 : FS)
    (hlenD : s1.m_disk.length = s.m_disk.length)
    (hrel : ∀ (j : Nat) (x y : List Nat), s.m_disk.get? j = some x → s1.m_disk.get? j = some y →
      List.Forall₂ dir_entry.SameLink (dirEntries B x) (dirEntries B y))
    (pathType : PATH_TYPE) (path : List (List Nat)) :
    ∀ (i : Nat) (cur : Int),
      s.GetDirectoryBlockLoop B pathType i path cur = s1.GetDirectoryBlockLoop B pathType i path cur := by
  induction path with
  | nil => intro i cur; rfl
  | cons name rest ih =>
    intro i cur
    unfold FS.GetDirectoryBlockLoop
    split
    · exact ih _ _
    · apply FS.GetDirEntry_bind_congr B s s1 hlenD hrel
      intro st e e1 hee
      have hex : DirEntryExists e = DirEntryExists e1 := by
        unfold DirEntryExists; rw [hee.1]
      simp only [hex, hee.2.1, hee.2.2]
      split
      · rfl
      · exact ih _ _

theorem FS.GetDirectoryBlock_congr (B : Nat) (s s1 : FS)
    (hcwd : s1.m_cwdBlock = s.m_cwdBlock)
    (hlenD : s1.m_disk.length = s.m_disk.length)
    (hrel : ∀ (j : Nat) (x y : List Nat), s.m_disk.get? j = some x → s1.m_disk.get? j = some y →
      List.Forall₂ dir_entry.SameLink (dirEntries B x) (dirEntries B y))
    (path : List (List Nat)) :
    s.GetDirectoryBlock B path = s1.GetDirectoryBlock B path := by
  unfold FS.GetDirectoryBlock
  rw [hcwd]
  split
  · rfl
  · split
    · rfl
    · rfl
    · exact FS.GetDirectoryBlockLoop_congr B s s1 hlenD hrel _ _ _ _
    · exact FS.GetDirectoryBlockLoop_congr B s s1 hlenD hrel _ _ _ _

end ResolutionLemmas

section ChmodLemmas

theorem List.forall₂_self {α : Type} (R : α → α → Prop) (hrefl : ∀ a, R a a) :
    ∀ (l : List α), List.Forall₂ R l l := by
  intro l
  induction l with
  | nil => exact List.Forall₂.nil
  | cons a l ih => exact List.Forall₂.cons (hrefl a) ih

theorem List.forall₂_set_right {α : Type} (R : α → α → Prop) (hrefl : ∀ a, R a a) :
    ∀ (l : List α) (i : Nat) (x : α), (∀ a, l.get? i = some a → R a x) →
      List.Forall₂ R l (l.set i x) := by
  intro l
  induction l with
  | nil => intro i x _; exact List.Forall₂.nil
  | cons a l ih =>
    intro i x h
    cases i with
    | zero =>
      exact List.Forall₂.cons (h a rfl) (List.forall₂_self R hrefl l)
    | succ i =>
      exact List.Forall₂.cons (hrefl a) (ih i x (fun b hb => h b (by simpa using hb)))

/-- Overwriting one slot with a record of the same name, type and first block
keeps every directory block the same as far as path resolution can tell. -/
theorem FS.setSlot_sameLink (B : Nat) (s : FS) (pbn : Nat) (blk : List Nat) (i : Nat)
    (e1 : dir_entry) (hW : s.WellSized B) (hget : s.m_disk.get? pbn = some blk)
    (hi : i < DIR_BLOCK_SIZE B) (hn : e1.file_name.length = 56)
    (hl : dir_entry.SameLink (dir_entry.decode (slotBytes blk i)) (dir_entry.decode e1.encode)) :
    ∀ (j : Nat) (x y : List Nat), s.m_disk.get? j = some x →
      (s.m_disk.set pbn (setSlot blk i e1)).get? j = some y →
      List.Forall₂ dir_entry.SameLink (dirEntries B x) (dirEntries B y) := by
  intro j x y hx hy
  have hblk : blk.length = B := hW blk (List.get?_mem hget)
  by_cases hj : pbn = j
  · subst hj
    rw [hget] at hx
    cases hx
    have hlt : pbn < s.m_disk.length := (List.get?_eq_some.mp hget).1
    rw [List.get?_eq_getElem?, List.getElem?_set_self hlt] at hy
    cases hy
    rw [dirEntries_setSlot B blk i e1 hi hblk hn]
    apply List.forall₂_set_right _ dir_entry.SameLink.refl
    intro a ha
    rw [dirEntries_get? B blk i hi] at ha
    cases ha
    exact hl
  · rw [List.get?_eq_getElem?, List.getElem?_set_ne hj, ← List.get?_eq_getElem?, hx] at hy
    cases hy
    exact List.forall₂_self _ dir_entry.SameLink.refl _

theorem toUInt8_small (r : Int) (h0 : 0 ≤ r) (h7 : r ≤ 7) : toUInt8 r = r.toNat := by
  unfold toUInt8; omega

/-- Effect of `chmod` on an existing path: the slot that resolution finds is
rewritten with the new rights, and resolution of the path then yields the
record with the new rights. -/
theorem FS.chmod_core (B : Nat) (s : FS) (p rights : List Nat) (r st : Int) (e : dir_entry)
    (hW : s.WellSized B) (hv : FilenamesAreValid p = true)
    (hres : s.GetDirEntryPath B (ParseDirPath p) = Run.ret (st, e))
    (hex : DirEntryExists e = true)
    (hr : stoi rights = some r) (h0 : 0 ≤ r) (h7 : r ≤ 7) :
    ∃ (pb : Int) (blk : List Nat) (i : Nat),
      Disk.read s.m_disk pb = some blk ∧ i < DIR_BLOCK_SIZE B ∧
      e = dir_entry.decode (slotBytes blk i) ∧
      s.chmod B rights p =
        Run.ret (0, s.withSlot pb.toNat blk i { e with access_rights := r.toNat }) ∧
      FS.GetDirEntryPath B (s.withSlot pb.toNat blk i { e with access_rights := r.toNat })
        (ParseDirPath p) = Run.ret (0, { e with access_rights := r.toNat }) ∧
      (∃ last, (ParseDirPath p).getLast? = some last ∧
        FS.findName last (dirEntries B blk) = Run.ret (some i) ∧
        FS.findName last (dirEntries B (setSlot blk i { e with access_rights := r.toNat })) =
          Run.ret (some i)) ∧
      s.GetDirectoryBlock B (ParseDirPath p).dropLast = Run.ret pb ∧
      FS.GetDirectoryBlock B (s.withSlot pb.toNat blk i { e with access_rights := r.toNat })
        (ParseDirPath p).dropLast = Run.ret pb := by
  obtain ⟨last, pb, blk, i, hlast, hpb, hpbne, hread, hfind, hi, he, hst⟩ :=
    FS.GetDirEntryPath_exists B s _ st e hres hex
  obtain ⟨hpb0, hpblt, hget⟩ := Disk.read_some _ _ _ hread
  have hblk : blk.length = B := hW blk (List.get?_mem hget)
  have h64 := slot_in_block B i hi
  have hwf := dir_entry.decode_wf (slotBytes blk i) (by rw [slotBytes_length blk i (by omega)]; omega)
  rw [← he] at hwf
  obtain ⟨e1, he1, hc1⟩ := findName_some_spec last _ i hfind
  rw [dirEntries_get? B blk i hi] at he1
  cases he1
  rw [← he] at hc1
  have hfs := findStrcmp_eq_findName e.file_name last hc1 _ _ hfind
  have hde : dir_entry.decode ({ e with access_rights := r.toNat } : dir_entry).encode =
      { e with access_rights := r.toNat } :=
    dir_entry.decode_encode _ hwf.1 hwf.2.1 hwf.2.2.1 hwf.2.2.2.1 (by simp only; omega)
  have hrel := FS.setSlot_sameLink B s pb.toNat blk i { e with access_rights := r.toNat } hW
    hget hi hwf.1 (by rw [hde, ← he]; exact ⟨rfl, rfl, rfl⟩)
  have hcongr := FS.GetDirectoryBlock_congr B s
    (s.withSlot pb.toNat blk i { e with access_rights := r.toNat })
    rfl (by simp [FS.withSlot]) hrel (ParseDirPath p).dropLast
  have hfind1 : FS.findName last (dirEntries B (setSlot blk i { e with access_rights := r.toNat }))
      = Run.ret (some i) := by
    rw [← hfind]
    symm
    apply findName_congr
    exact (hrel pb.toNat blk _ hget (by simp [List.getElem?_set_self hpblt])).imp
      (fun _ _ h => h.1)
  refine ⟨pb, blk, i, hread, hi, he, ?_, ?_, ⟨last, hlast, hfind, hfind1⟩, hpb,
    by rw [← hcongr]; exact hpb⟩
  · have hexists : s.FilepathExists B p = Run.ret true := by
      unfold FS.FilepathExists
      rw [hres]
      simp [hex]
    have hrange : ¬ (r > (((READ ||| WRITE ||| EXECUTE : Nat)) : Int) ∨ r < 0) := by
      have : ((READ ||| WRITE ||| EXECUTE : Nat) : Int) = 7 := by decide
      rw [this]; omega
    unfold FS.chmod
    simp only [hv, Bool.not_true, Bool.false_eq_true, if_false, hexists, Run.ret_bind, hr,
      hrange, hres, hpb]
    rw [toUInt8_small r h0 h7, FS.UpdateDirEntry_of_find B s pb blk i _ _ hread hfs]
    rfl
  · have hread1 : Disk.read (s.m_disk.set pb.toNat (setSlot blk i { e with access_rights := r.toNat }))
        pb = some (setSlot blk i { e with access_rights := r.toNat }) := by
      unfold Disk.read
      have h1 : pb < (s.m_disk.length : Int) := by omega
      simp [hpb0, h1, List.getElem?_set_self hpblt]
    unfold FS.GetDirEntryPath
    rw [hlast]
    simp only
    rw [← hcongr, hpb]
    show (do
      let parentDirBlock ← Run.ret pb
      if parentDirBlock ≠ ERROR_CODE then do
        let r ← FS.GetDirEntry B (s.withSlot pb.toNat blk i { e with access_rights := r.toNat })
          parentDirBlock last
        Run.ret (0, r.2)
      else Run.ret (0, dir_entry.empty)) = _
    simp only [Run.ret_bind, ne_eq, hpbne, not_false_eq_true, if_true]
    rw [FS.GetDirEntry_of_find B _ pb last _ i hread1 hfind1]
    simp only [Run.ret_bind]
    rw [slotBytes_setSlot_same blk i { e with access_rights := r.toNat } (by omega) hwf.1, hde]

theorem FS.WellSized_withSlot (B : Nat) (s : FS) (pb : Nat) (blk : List Nat) (i : Nat)
    (e : dir_entry) (hW : s.WellSized B) (hblk : blk.length = B) (hi : i < DIR_BLOCK_SIZE B)
    (hn : e.file_name.length = 56) : (s.withSlot pb blk i e).WellSized B := by
  intro x hx
  have h64 := slot_in_block B i hi
  rcases List.mem_or_eq_of_mem_set hx with h | h
  · exact hW x h
  · rw [h, setSlot_length blk i e (by omega) hn, hblk]

end ChmodLemmas

theorem sampleWithFile_eq :
    sampleFormatted.create 128 1 (str "a") (str "hello") = Run.ret (0, sampleWithFile) := by
  decide!

theorem sampleWithFile_wellSized : sampleWithFile.WellSized 128 := by
  unfold FS.WellSized
  decide!

/-- C8: on an existing path a rights value in [0, 7] makes `chmod` succeed; the
record the path resolves to then has the new rights and its other fields as
before, every other slot of its directory block, every other block, the table,
the working directory and the flags are unchanged, and a second application
returns the very same state.  A value outside [0, 7] is rejected with the
state unchanged. -/
theorem chmod_sets_rights_idempotent (BLOCK_SIZE : Nat) (s : FS) (p rights : List Nat)
    (r st : Int) (e : dir_entry)
    (hW : s.WellSized BLOCK_SIZE) (hv : FilenamesAreValid p = true)
    (hres : s.GetDirEntryPath BLOCK_SIZE (ParseDirPath p) = Run.ret (st, e))
    (hex : DirEntryExists e = true) (hr : stoi rights = some r) :
    (0 ≤ r ∧ r ≤ 7 →
      ∃ (s1 : FS) (pb i : Nat) (blk blk1 : List Nat),
        s.chmod BLOCK_SIZE rights p = Run.ret (0, s1) ∧
        s1.GetDirEntryPath BLOCK_SIZE (ParseDirPath p) =
          Run.ret (0, { e with access_rights := r.toNat }) ∧
        s.m_disk.get? pb = some blk ∧ s1.m_disk.get? pb = some blk1 ∧
        dir_entry.decode (slotBytes blk i) = e ∧
        dir_entry.decode (slotBytes blk1 i) = { e with access_rights := r.toNat } ∧
        (∀ j, j ≠ i → slotBytes blk1 j = slotBytes blk j) ∧
        (∀ j, j ≠ pb → s1.m_disk.get? j = s.m_disk.get? j) ∧
        s1.m_disk.length = s.m_disk.length ∧ s1.m_fat = s.m_fat ∧
        s1.m_cwdBlock = s.m_cwdBlock ∧ s1.rootCreated = s.rootCreated ∧
        s1.FATCreated = s.FATCreated ∧
        s1.chmod BLOCK_SIZE rights p = Run.ret (0, s1)) ∧
    (r < 0 ∨ 7 < r → s.chmod BLOCK_SIZE rights p = Run.ret (ERROR_CODE, s)) := by
  constructor
  · rintro ⟨h0, h7⟩
    obtain ⟨pb, blk, i, hread, hi, he, hch, hres1, ⟨last, hlast, hfind, hfind1⟩, hg, hg1⟩ :=
      FS.chmod_core BLOCK_SIZE s p rights r st e hW hv hres hex hr h0 h7
    obtain ⟨hpb0, hpblt, hget⟩ := Disk.read_some _ _ _ hread
    have hblk : blk.length = BLOCK_SIZE := hW blk (List.get?_mem hget)
    have h64 := slot_in_block BLOCK_SIZE i hi
    have hwf := dir_entry.decode_wf (slotBytes blk i)
      (by rw [slotBytes_length blk i (by omega)]; omega)
    rw [← he] at hwf
    have hde : dir_entry.decode ({ e with access_rights := r.toNat } : dir_entry).encode =
        { e with access_rights := r.toNat } :=
      dir_entry.decode_encode _ hwf.1 hwf.2.1 hwf.2.2.1 hwf.2.2.2.1 (by simp only; omega)
    have hW1 := FS.WellSized_withSlot BLOCK_SIZE s pb.toNat blk i
      { e with access_rights := r.toNat } hW hblk hi hwf.1
    have hex1 : DirEntryExists ({ e with access_rights := r.toNat } : dir_entry) = true := hex
    obtain ⟨pb2, blk2, i2, hread2, -, -, hch2, -, ⟨last2, hlast2, hfind2, -⟩, hg2, -⟩ :=
      FS.chmod_core BLOCK_SIZE _ p rights r 0 _ hW1 hv hres1 hex1 hr h0 h7
    have hpb2 : pb2 = pb := by
      rw [hg1] at hg2
      exact (Run.ret.inj hg2).symm
    subst hpb2
    have hget1 : (s.withSlot pb2.toNat blk i { e with access_rights := r.toNat }).m_disk.get?
        pb2.toNat = some (setSlot blk i { e with access_rights := r.toNat }) := by
      simp [FS.withSlot, List.getElem?_set_self hpblt]
    have hblk2 : blk2 = setSlot blk i { e with access_rights := r.toNat } := by
      have := (Disk.read_some _ _ _ hread2).2.2
      rw [hget1] at this
      exact (Option.some.inj this).symm
    subst hblk2
    have hlast2' : last2 = last := by
      rw [hlast] at hlast2
      exact (Option.some.inj hlast2).symm
    subst hlast2'
    have hi2 : i2 = i := by
      rw [hfind1] at hfind2
      have := Run.ret.inj hfind2
      exact (Option.some.inj this).symm
    subst hi2
    refine ⟨_, pb2.toNat, i2, blk, _, hch, hres1, hget, hget1, he.symm, ?_, ?_, ?_, ?_, rfl, rfl,
      rfl, rfl, ?_⟩
    · rw [slotBytes_setSlot_same blk i2 { e with access_rights := r.toNat } (by omega) hwf.1, hde]
    · intro j hj
      exact slotBytes_setSlot_other blk i2 j { e with access_rights := r.toNat } (by omega) hwf.1 hj
    · intro j hj
      simp [FS.withSlot, List.getElem?_set_ne (Ne.symm hj)]
    · simp [FS.withSlot]
    · rw [hch2]
      congr 2
      simp only [FS.withSlot]
      rw [setSlot_setSlot blk i2 { e with access_rights := r.toNat } _ (by omega) hwf.1,
        List.set_set]
  · intro hout
    have hexists : s.FilepathExists BLOCK_SIZE p = Run.ret true := by
      unfold FS.FilepathExists
      rw [hres]
      simp [hex]
    have hrange : (r > (((READ ||| WRITE ||| EXECUTE : Nat)) : Int) ∨ r < 0) := by
      have : ((READ ||| WRITE ||| EXECUTE : Nat) : Int) = 7 := by decide
      rw [this]; omega
    unfold FS.chmod
    simp only [hv, Bool.not_true, Bool.false_eq_true, if_false, hexists, Run.ret_bind, hr,
      hrange, if_true]

theorem chmod_sets_rights_idempotent_witness :
    sampleWithFile.GetDirEntryPath 128 (ParseDirPath (str "a")) = Run.ret (0, sampleFileEntry) ∧
    stoi (str "5") = some 5 ∧
    ((0 : Int) ≤ 5 ∧ (5 : Int) ≤ 7 →
      ∃ (s1 : FS) (pb i : Nat) (blk blk1 : List Nat),
        sampleWithFile.chmod 128 (str "5") (str "a") = Run.ret (0, s1) ∧
        s1.GetDirEntryPath 128 (ParseDirPath (str "a")) =
          Run.ret (0, { sampleFileEntry with access_rights := (5 : Int).toNat }) ∧
        sampleWithFile.m_disk.get? pb = some blk ∧ s1.m_disk.get? pb = some blk1 ∧
        dir_entry.decode (slotBytes blk i) = sampleFileEntry ∧
        dir_entry.decode (slotBytes blk1 i) =
          { sampleFileEntry with access_rights := (5 : Int).toNat } ∧
        (∀ j, j ≠ i → slotBytes blk1 j = slotBytes blk j) ∧
        (∀ j, j ≠ pb → s1.m_disk.get? j = sampleWithFile.m_disk.get? j) ∧
        s1.m_disk.length = sampleWithFile.m_disk.length ∧ s1.m_fat = sampleWithFile.m_fat ∧
        s1.m_cwdBlock = sampleWithFile.m_cwdBlock ∧
        s1.rootCreated = sampleWithFile.rootCreated ∧
        s1.FATCreated = sampleWithFile.FATCreated ∧
        s1.chmod 128 (str "5") (str "a") = Run.ret (0, s1)) :=
  ⟨by decide!, by decide,
   (chmod_sets_rights_idempotent 128 sampleWithFile (str "a") (str "5") 5 0 sampleFileEntry
      sampleWithFile_wellSized (by decide) (by decide!) (by decide) (by decide)).1⟩

/-- `cat` hands back the state it was given. -/
theorem FS.cat_state (B fuel : Nat) (s : FS) (p : List Nat) (r : Int × FS × List Nat)
    (h : s.cat B fuel p = Run.ret r) : r.2.1 = s := by
  unfold FS.cat at h
  split at h
  · cases h; rfl
  · cases hfe : s.FilepathExists B p with
    | ret ex =>
      rw [hfe] at h
      simp only [Run.ret_bind] at h
      split at h
      · cases h; rfl
      · cases hg : s.GetDirEntryPath B (ParseDirPath p) with
        | ret g =>
          rw [hg] at h
          simp only [Run.ret_bind] at h
          split at h
          · cases h; rfl
          · cases hc : FS.catLoop B s fuel [] (g.2.first_blk : Int) with
            | ret out =>
              rw [hc] at h
              simp only [Run.ret_bind] at h
              split at h <;> (cases h; rfl)
            | undef => rw [hc] at h; cases h
            | spin => rw [hc] at h; cases h
            | thrown => rw [hc] at h; cases h
        | undef => rw [hg] at h; cases h
        | spin => rw [hg] at h; cases h
        | thrown => rw [hg] at h; cases h
    | undef => rw [hfe] at h; cases h
    | spin => rw [hfe] at h; cases h
    | thrown => rw [hfe] at h; cases h

theorem FS.FilepathExists_of_res (B : Nat) (s : FS) (p : List Nat) (st : Int) (e : dir_entry)
    (hres : s.GetDirEntryPath B (ParseDirPath p) = Run.ret (st, e)) :
    s.FilepathExists B p = Run.ret (DirEntryExists e) := by
  unfold FS.FilepathExists
  rw [hres]
  rfl

/-- `cat` on a path that resolves to the record `e`. -/
theorem FS.cat_of_res (B fuel : Nat) (s : FS) (p : List Nat) (st : Int) (e : dir_entry)
    (hres : s.GetDirEntryPath B (ParseDirPath p) = Run.ret (st, e)) :
    s.cat B fuel p =
      if FilenamesAreValid p = false ∨ DirEntryExists e = false ∨ e.type ≠ TYPE_FILE ∨
          HasValidAccess e READ = false then Run.ret (ERROR_CODE, s, [])
      else (do
        let out ← FS.catLoop B s fuel [] (e.first_blk : Int)
        if out.1 ≠ 0 then Run.ret (ERROR_CODE, s, []) else Run.ret (0, s, out.2 ++ [10])) := by
  unfold FS.cat
  rw [FS.FilepathExists_of_res B s p st e hres, hres]
  cases hv : FilenamesAreValid p <;> cases hx : DirEntryExists e <;>
    cases ha : HasValidAccess e READ <;> by_cases ht : e.type = TYPE_FILE <;>
    simp [hv, hx, ha, ht]

/-- C9: on a path that resolves to the record `e`, `cat` returns `ERROR_CODE`
when the record is absent, is not of type FILE (a Directory), or lacks the READ
bit; whatever it returns, the state is the state it was given.  For an
existing File, `cat` fails after a successful `chmod("0", p)`, and after a
`chmod` to a value holding the READ bit it passes the permission test and goes
on to read the chain. -/
theorem cat_rejects_and_preserves (BLOCK_SIZE fuel : Nat) (s : FS) (p : List Nat) (st : Int)
    (e : dir_entry) (hW : s.WellSized BLOCK_SIZE)
    (hres : s.GetDirEntryPath BLOCK_SIZE (ParseDirPath p) = Run.ret (st, e)) :
    (DirEntryExists e = false ∨ e.type = TYPE_DIR ∨ e.access_rights &&& READ ≠ READ →
      s.cat BLOCK_SIZE fuel p = Run.ret (ERROR_CODE, s, [])) ∧
    (∀ r, s.cat BLOCK_SIZE fuel p = Run.ret r → r.2.1 = s) ∧
    (FilenamesAreValid p = true → DirEntryExists e = true → e.type = TYPE_FILE →
      (∃ s1, s.chmod BLOCK_SIZE (str "0") p = Run.ret (0, s1) ∧
        s1.cat BLOCK_SIZE fuel p = Run.ret (ERROR_CODE, s1, [])) ∧
      (∀ (rights : List Nat) (r : Int), stoi rights = some r → 0 ≤ r → r ≤ 7 →
        r.toNat &&& READ = READ →
        ∃ s1 e1, s.chmod BLOCK_SIZE rights p = Run.ret (0, s1) ∧
          s1.GetDirEntryPath BLOCK_SIZE (ParseDirPath p) = Run.ret (0, e1) ∧
          HasValidAccess e1 READ = true ∧
          s1.cat BLOCK_SIZE fuel p = (do
            let out ← FS.catLoop BLOCK_SIZE s1 fuel [] (e1.first_blk : Int)
            if out.1 ≠ 0 then Run.ret (ERROR_CODE, s1, [])
            else Run.ret (0, s1, out.2 ++ [10])))) := by
  refine ⟨?_, fun r h => FS.cat_state BLOCK_SIZE fuel s p r h, ?_⟩
  · intro h
    rw [FS.cat_of_res BLOCK_SIZE fuel s p st e hres]
    have : FilenamesAreValid p = false ∨ DirEntryExists e = false ∨ e.type ≠ TYPE_FILE ∨
        HasValidAccess e READ = false := by
      rcases h with h | h | h
      · exact Or.inr (Or.inl h)
      · exact Or.inr (Or.inr (Or.inl (by rw [h]; decide)))
      · refine Or.inr (Or.inr (Or.inr ?_))
        unfold HasValidAccess
        simpa using h
    rw [if_pos this]
  · intro hv hex hty
    constructor
    · obtain ⟨pb, blk, i, -, -, -, hch, hres1, -⟩ :=
        FS.chmod_core BLOCK_SIZE s p (str "0") 0 st e hW hv hres hex (by decide) (by omega)
          (by omega)
      refine ⟨_, hch, ?_⟩
      rw [FS.cat_of_res BLOCK_SIZE fuel _ p 0 _ hres1]
      have : HasValidAccess ({ e with access_rights := (0 : Int).toNat } : dir_entry) READ
          = false := by
        show ((0 : Int).toNat &&& READ == READ) = false
        decide
      rw [if_pos (Or.inr (Or.inr (Or.inr this)))]
    · intro rights r hr h0 h7 hbit
      obtain ⟨pb, blk, i, -, -, -, hch, hres1, -⟩ :=
        FS.chmod_core BLOCK_SIZE s p rights r st e hW hv hres hex hr h0 h7
      have hacc : HasValidAccess ({ e with access_rights := r.toNat } : dir_entry) READ
          = true := by
        show (r.toNat &&& READ == READ) = true
        rw [hbit]
        exact beq_self_eq_true _
      refine ⟨_, _, hch, hres1, hacc, ?_⟩
      rw [FS.cat_of_res BLOCK_SIZE fuel _ p 0 _ hres1]
      have hx : DirEntryExists ({ e with access_rights := r.toNat } : dir_entry) = true := hex
      have : ¬ (FilenamesAreValid p = false ∨
          DirEntryExists ({ e with access_rights := r.toNat } : dir_entry) = false ∨
          ({ e with access_rights := r.toNat } : dir_entry).type ≠ TYPE_FILE ∨
          HasValidAccess ({ e with access_rights := r.toNat } : dir_entry) READ = false) := by
        rintro (h | h | h | h)
        · rw [hv] at h; cases h
        · rw [hx] at h; cases h
        · exact h hty
        · rw [hacc] at h; cases h
      rw [if_neg this]

theorem cat_rejects_and_preserves_witness :
    sampleWithFile.GetDirEntryPath 128 (ParseDirPath (str "a")) = Run.ret (0, sampleFileEntry) ∧
    ∃ s1, sampleWithFile.chmod 128 (str "0") (str "a") = Run.ret (0, s1) ∧
      s1.cat 128 3 (str "a") = Run.ret (ERROR_CODE, s1, []) :=
  ⟨by decide!,
   ((cat_rejects_and_preserves 128 3 sampleWithFile (str "a") 0 sampleFileEntry
      sampleWithFile_wellSized (by decide!)).2.2 (by decide) (by decide) (by decide)).1⟩

theorem sampleWithDir_eq :
    sampleFormatted.mkdir 128 (str "d") = Run.ret (0, sampleWithDir) := by
  decide!

theorem sampleWithDir_wellSized : sampleWithDir.WellSized 128 := by
  unfold FS.WellSized
  decide!

/-- What `DirectoryIsEmpty` tests: the block is readable and the slots from
index 1 on are absent. -/
theorem FS.DirectoryIsEmpty_iff (B : Nat) (s : FS) (e : dir_entry) :
    s.DirectoryIsEmpty B e = true ↔
      ∃ blk, Disk.read s.m_disk (e.first_blk : Int) = some blk ∧
        ∀ i, 1 ≤ i → i < DIR_BLOCK_SIZE B →
          DirEntryExists (dir_entry.decode (slotBytes blk i)) = false := by
  unfold FS.DirectoryIsEmpty
  cases hr : Disk.read s.m_disk (e.first_blk : Int) with
  | none => simp
  | some blk =>
    simp only [List.all_eq_true, Bool.not_eq_true', Option.some.injEq, exists_eq_left']
    constructor
    · intro h i h1 hi
      apply h
      have hg := dirEntries_get? B blk i hi
      have : ((dirEntries B blk).drop 1).get? (i - 1) =
          some (dir_entry.decode (slotBytes blk i)) := by
        rw [List.get?_eq_getElem?, List.getElem?_drop, ← List.get?_eq_getElem?]
        have : 1 + (i - 1) = i := by omega
        rw [this, hg]
      exact List.get?_mem this
    · intro h x hx
      obtain ⟨n, hn⟩ := List.get?_of_mem hx
      rw [List.get?_eq_getElem?, List.getElem?_drop, ← List.get?_eq_getElem?] at hn
      have hlt : 1 + n < DIR_BLOCK_SIZE B := by
        have := (List.get?_eq_some.mp hn).1
        rwa [dirEntries_length] at this
      rw [dirEntries_get? B blk (1 + n) hlt] at hn
      cases hn
      exact h (1 + n) (by omega) hlt

theorem List.set_get?_self {α : Type} (l : List α) (i : Nat) (a : α) (h : l.get? i = some a) :
    l.set i a = l := by
  apply List.ext_get?
  intro j
  by_cases hj : i = j
  · subst hj
    have hlt : i < l.length := (List.get?_eq_some.mp h).1
    rw [List.get?_eq_getElem?, List.getElem?_set_self hlt, ← h, List.get?_eq_getElem?]
  · rw [List.get?_eq_getElem?, List.getElem?_set_ne hj, List.get?_eq_getElem?]

/-- C6: `DirectoryIsEmpty` skips slot 0 whatever it holds.  After `format` and
`mkdir("d")`, the Directory record that `./d/..` resolves to has the root block
as its block; that block holds the occupied record `d` in slot 0, yet
`DirectoryIsEmpty` returns true, and `rm("./d/..")` goes on to erase the `..`
record of `d` and to zero the root block before it returns `ERROR_CODE`. -/
theorem directoryIsEmpty_skips_slot_zero :
    sampleFormatted.mkdir 128 (str "d") = Run.ret (0, sampleWithDir) ∧
    sampleWithDir.GetDirEntryPath 128 (ParseDirPath (str "./d/..")) =
      Run.ret (0, sampleBackRef) ∧
    sampleBackRef.type = TYPE_DIR ∧
    sampleWithDir.DirectoryIsEmpty 128 sampleBackRef = true ∧
    ∃ blk, Disk.read sampleWithDir.m_disk (sampleBackRef.first_blk : Int) = some blk ∧
      DirEntryExists (dir_entry.decode (slotBytes blk 0)) = true ∧
      c_str (dir_entry.decode (slotBytes blk 0)).file_name = some (str "d") ∧
      sampleWithDir.rm 128 5 (str "./d/..") =
        Run.ret (ERROR_CODE, { sampleWithDir with
          m_disk := (sampleWithDir.m_disk.set 0 (List.replicate 128 0)).set 2
            (List.replicate 128 0) }) := by
  refine ⟨by decide!, by decide!, by decide, by decide!, _, rfl, by decide!, by decide!,
    by decide!⟩

/-- The emptiness gate of `rm`: `DirectoryIsEmpty` returns true exactly when the
directory's block can be read and every slot of index 1 and above is absent
(slot 0, where `mkdir` puts `..`, is not looked at).  On a path that resolves
to a Directory record, `rm` returns `ERROR_CODE` with the state unchanged when
`DirectoryIsEmpty` is false, and succeeds when it is true and the directory's
chain is its one block, outside the reserved blocks. -/
theorem directory_emptiness_gate (BLOCK_SIZE fuel : Nat) (s : FS) (p : List Nat) (st : Int)
    (e : dir_entry) (hB : BLOCK_SIZE ≤ 65536) (hlen : s.m_fat.length = FAT_SIZE BLOCK_SIZE)
    (hd : 2 ≤ s.m_disk.length) (hv : FilenamesAreValid p = true)
    (hres : s.GetDirEntryPath BLOCK_SIZE (ParseDirPath p) = Run.ret (st, e))
    (hex : DirEntryExists e = true) (hty : e.type = TYPE_DIR) :
    (s.DirectoryIsEmpty BLOCK_SIZE e = true ↔
      ∃ blk, Disk.read s.m_disk (e.first_blk : Int) = some blk ∧
        ∀ i, 1 ≤ i → i < DIR_BLOCK_SIZE BLOCK_SIZE →
          DirEntryExists (dir_entry.decode (slotBytes blk i)) = false) ∧
    (s.DirectoryIsEmpty BLOCK_SIZE e = false →
      s.rm BLOCK_SIZE fuel p = Run.ret (ERROR_CODE, s)) ∧
    (s.DirectoryIsEmpty BLOCK_SIZE e = true → 2 ≤ e.first_blk →
      e.first_blk < FAT_SIZE BLOCK_SIZE → s.m_fat.get? e.first_blk = some FAT_EOF → 1 ≤ fuel →
      ∃ s2, s.rm BLOCK_SIZE fuel p = Run.ret (0, s2)) := by
  obtain ⟨last, pb, blk, i, hlast, hpb, hpbne, hread, hfind, hi, he, hst⟩ :=
    FS.GetDirEntryPath_exists BLOCK_SIZE s _ st e hres hex
  subst hst
  have hexists := FS.FilepathExists_of_res BLOCK_SIZE s p 0 e hres
  rw [hex] at hexists
  refine ⟨FS.DirectoryIsEmpty_iff BLOCK_SIZE s e, ?_, ?_⟩
  · intro hne
    unfold FS.rm
    simp [hv, hexists, hres, hty, hne]
  · intro hemp h2 hlt hEOF hfuel
    obtain ⟨e1, he1, hc1⟩ := findName_some_spec last _ i hfind
    rw [dirEntries_get? BLOCK_SIZE blk i hi] at he1
    cases he1
    rw [← he] at hc1
    have hfs := findStrcmp_eq_findName e.file_name last hc1 _ _ hfind
    have hup := FS.UpdateDirEntry_of_find BLOCK_SIZE s pb blk i e dir_entry.empty hread hfs
    have hlink : s.m_fat = FS.linkFAT [e.first_blk] s.m_fat := by
      simp only [FS.linkFAT, FS.linkTarget]
      exact (List.set_get?_self _ _ _ hEOF).symm
    obtain ⟨s2, h2', -⟩ := FS.rmLoop_linkFAT BLOCK_SIZE hB [] e.first_blk s.m_fat
      { s with m_disk := s.m_disk.set pb.toNat (setSlot blk i dir_entry.empty) } fuel
      (by simp) (by simpa using ⟨h2, hlt⟩) hlen (by simpa using hd) hlink (by simpa using hfuel)
    refine ⟨s2, ?_⟩
    unfold FS.rm
    simp only [hv, Bool.not_true, Bool.false_eq_true, if_false, hexists, Run.ret_bind, hres,
      ne_eq, not_true_eq_false, hemp, and_false, hpb, hup]
    exact h2'

theorem directory_emptiness_gate_witness :
    sampleWithDir.GetDirEntryPath 128 (ParseDirPath (str "d")) = Run.ret (0, sampleDirEntry) ∧
    sampleWithDir.DirectoryIsEmpty 128 sampleDirEntry = true ∧
    ∃ s2, sampleWithDir.rm 128 1 (str "d") = Run.ret (0, s2) :=
  ⟨by decide!, by decide!,
   (directory_emptiness_gate 128 1 sampleWithDir (str "d") 0 sampleDirEntry (by decide)
      (by decide) (by decide!) (by decide) (by decide!) (by decide) (by decide)).2.2
      (by decide!) (by decide) (by decide) (by decide) (by decide)⟩

section CreateLemmas

theorem ParseDirPathLoop_no_slash (cs : List Nat) :
    ∀ (cur : List Nat), (∀ c ∈ cs, c ≠ 47) → cur ++ cs ≠ [] →
      ParseDirPathLoop cs cur = [cur ++ cs] := by
  induction cs with
  | nil =>
    intro cur _ hne
    simp only [List.append_nil] at hne
    simp [ParseDirPathLoop, hne]
  | cons c cs ih =>
    intro cur hc _
    have hc47 : c ≠ 47 := hc c (by simp)
    unfold ParseDirPathLoop
    simp only [hc47, if_false]
    rw [ih (cur ++ [c]) (fun x hx => hc x (List.mem_cons_of_mem _ hx)) (by simp)]
    simp

theorem isalnum_ne_slash (c : Nat) (h : isalnum c = true) : c ≠ 47 := by
  intro hc; subst hc; revert h; decide

theorem isalnum_ne_zero (c : Nat) (h : isalnum c = true) : c ≠ 0 := by
  intro hc; subst hc; revert h; decide

theorem ParseDirPath_plain (name : List Nat) (hne : name ≠ [])
    (hal : ∀ c ∈ name, isalnum c = true) : ParseDirPath name = [name] := by
  unfold ParseDirPath
  rw [ParseDirPathLoop_no_slash name [] (fun c hc => isalnum_ne_slash c (hal c hc))
    (by simpa using hne)]
  simp

theorem HasSpecialCharacters_plain (name : List Nat) (hal : ∀ c ∈ name, isalnum c = true) :
    HasSpecialCharacters name = false := by
  unfold HasSpecialCharacters
  split
  · rfl
  · simp only [List.any_eq_false, Bool.not_eq_true', Bool.not_eq_false]
    intro c hc
    simpa using hal c hc

theorem FilenamesAreValid_plain (name : List Nat) (hne : name ≠ [])
    (hal : ∀ c ∈ name, isalnum c = true) (hlen : name.length ≤ 56) :
    FilenamesAreValid name = true := by
  have hev : EvaluatePathType [name] = PATH_TYPE.RELATIVE := by
    simp [EvaluatePathType, hne]
  unfold FilenamesAreValid
  rw [ParseDirPath_plain name hne hal, hev]
  have hl : ¬ name.length > FILE_NAME_SIZE := by unfold FILE_NAME_SIZE; omega
  simp [hne, FilenamesAreValidLoop, HasSpecialCharacters_plain name hal, hl]

theorem cstrOf_plain (name : List Nat) (h0 : ∀ c ∈ name, c ≠ 0) : cstrOf name = name := by
  unfold cstrOf
  rw [List.takeWhile_eq_self_iff]
  intro c hc
  simpa using h0 c hc

/-- `strcpy` of a short NUL-free name into a zeroed name field. -/
theorem strcpy_empty_plain (name : List Nat) (h0 : ∀ c ∈ name, c ≠ 0) (hlen : name.length ≤ 55) :
    strcpy dir_entry.empty.file_name name =
      some (name ++ List.replicate (56 - name.length) 0) := by
  unfold strcpy
  rw [cstrOf_plain name h0]
  have hl : name.length < dir_entry.empty.file_name.length := by
    simp [dir_entry.empty, FILE_NAME_SIZE]; omega
  rw [if_pos hl]
  simp only [dir_entry.empty, FILE_NAME_SIZE, List.drop_replicate,
    List.append_assoc, Option.some.injEq]
  congr 1
  have : 56 - name.length = (56 - (name.length + 1)) + 1 := by omega
  rw [this, List.replicate_succ]
  rfl

/-- C-string read of a terminated buffer. -/
theorem c_str_append_zero (t rest : List Nat) (h0 : ∀ c ∈ t, c ≠ 0) :
    c_str (t ++ 0 :: rest) = some t := by
  unfold c_str
  have hmem : 0 ∈ t ++ 0 :: rest := by simp
  rw [if_pos hmem]
  congr 1
  rw [List.takeWhile_append_of_pos (by intro c hc; simpa using h0 c hc)]
  simp

theorem FS.firstAbsent_some (es : List dir_entry) :
    ∀ i, FS.firstAbsent es = some i → i < es.length := by
  induction es with
  | nil => intro i h; simp [FS.firstAbsent] at h
  | cons e es ih =>
    intro i h
    unfold FS.firstAbsent at h
    split at h
    · cases hf : FS.firstAbsent es with
      | none => rw [hf] at h; cases h
      | some j =>
        rw [hf] at h
        cases h
        have := ih j hf
        simp; omega
    · cases h; simp

/-- Inserting a record under a name no record of the directory bears makes the
scan for that name stop at the slot used. -/
theorem findName_set_firstAbsent (name : List Nat) (x : dir_entry)
    (hx : c_str x.file_name = some name) :
    ∀ (es : List dir_entry) (i : Nat), FS.findName name es = Run.ret none →
      FS.firstAbsent es = some i → FS.findName name (es.set i x) = Run.ret (some i) := by
  intro es
  induction es with
  | nil => intro i _ h; simp [FS.firstAbsent] at h
  | cons e es ih =>
    intro i hf ha
    obtain ⟨n, hc, hcase⟩ := findName_ret_cons name e es none hf
    rcases hcase with ⟨-, h⟩ | ⟨hn, r1, hr1, hr⟩
    · cases h
    · cases r1 with
      | some j => cases hr
      | none =>
        unfold FS.firstAbsent at ha
        split at ha
        · cases hfa : FS.firstAbsent es with
          | none => rw [hfa] at ha; cases ha
          | some j =>
            rw [hfa] at ha
            cases ha
            simp only [List.set_cons_succ]
            unfold FS.findName
            rw [hc]
            simp only [hn, if_false]
            rw [ih j hr1 hfa]
            rfl
        · cases ha
          simp only [List.set_cons_zero]
          unfold FS.findName
          rw [hx]
          simp

theorem CalculateMinBlockCount_small (B n : Nat) (h1 : 0 < n) (h2 : n < B) :
    CalculateMinBlockCount B (n : Int) = 1 := by
  unfold CalculateMinBlockCount
  have hm : Int.tmod (n : Int) (B : Int) = (n : Int) := by
    rw [Int.tmod_eq_emod (by omega) (by omega)]
    exact Int.emod_eq_of_lt (by omega) (by omega)
  have hdv : Int.tdiv (n : Int) (B : Int) = 0 := by
    rw [Int.tdiv_eq_ediv (by omega) (by omega)]
    exact Int.ediv_eq_zero_of_lt (by omega) (by omega)
  rw [hm, hdv]
  have : (n : Int) ≠ 0 := by omega
  simp [this]

end CreateLemmas

section CreateCat

theorem FS.WriteLoop_nil (B fuel : Nat) (s : FS) (b : Int) :
    FS.WriteLoop B fuel s [] b = Run.ret (0, s) := by
  cases fuel <;> simp [FS.WriteLoop]

/-- Writing a payload shorter than a block into a one-block chain. -/
theorem FS.WriteLoop_single (B fuel : Nat) (s : FS) (data : List Nat) (f : Nat)
    (h1 : data ≠ []) (h2 : data.length < B) (hf : f < s.m_disk.length)
    (hfN : f < FAT_SIZE B) (hfat : s.m_fat.get? f = some FAT_EOF) :
    FS.WriteLoop B (fuel + 1) s data (f : Int) =
      Run.ret (0,
        { s with m_disk := s.m_disk.set f (data ++ List.replicate (B - data.length) 0) }) := by
  unfold FS.WriteLoop
  have hk : charactersToCopy B data.length = data.length := by
    unfold charactersToCopy
    have : ¬ B < data.length := by omega
    rw [if_neg this, Nat.mod_eq_of_lt h2]
  simp only [h1, if_false, hk, List.take_length, List.drop_length]
  rw [Disk.write_natCast _ f _ hf]
  simp only
  rw [FS.GetChildBlock_natCast B s f _ hfN hfat]
  simp only [Run.ret_bind]
  exact FS.WriteLoop_nil B fuel _ _

theorem FS.catLoop_EOF (B fuel : Nat) (s : FS) (acc : List Nat) :
    FS.catLoop B s fuel acc FAT_EOF = Run.ret (0, acc) := by
  cases fuel <;> simp [FS.catLoop]

/-- Reading a one-block chain whose block holds a terminated text. -/
theorem FS.catLoop_single (B fuel : Nat) (s : FS) (acc t rest : List Nat) (f : Nat)
    (hread : s.m_disk.get? f = some (t ++ 0 :: rest)) (h0 : ∀ c ∈ t, c ≠ 0)
    (hfN : f < FAT_SIZE B) (hfat : s.m_fat.get? f = some FAT_EOF) :
    FS.catLoop B s (fuel + 1) acc (f : Int) = Run.ret (0, acc ++ t) := by
  unfold FS.catLoop
  have hne : ((f : Int) = FAT_EOF) = False := eq_false (by unfold FAT_EOF; omega)
  simp only [hne, if_false]
  rw [Disk.read_natCast, hread]
  simp only [c_str_append_zero t rest h0, Run.ofOption, Run.ret_bind]
  rw [FS.GetChildBlock_natCast B s f _ hfN hfat]
  simp only [Run.ret_bind]
  exact FS.catLoop_EOF B fuel s _

theorem toInt32_small (n : Nat) (h : n < 2147483648) : toInt32 (n : Int) = n := by
  unfold toInt32; omega

theorem toUInt16_natCast (n : Nat) (h : n < 65536) : toUInt16 (n : Int) = n := by
  unfold toUInt16; omega

theorem FS.AddNewDirEntry_ok (B : Nat) (s : FS) (pb : Nat) (blk : List Nat) (i : Nat)
    (e : dir_entry) (he : DirEntryExists e = true) (hget : s.m_disk.get? pb = some blk)
    (hi : FS.firstAbsent (dirEntries B blk) = some i) :
    s.AddNewDirEntry B (pb : Int) e = (0, s.withSlot pb blk i e) := by
  unfold FS.AddNewDirEntry
  have hlt : pb < s.m_disk.length := (List.get?_eq_some.mp hget).1
  simp only [he, Bool.not_true, Bool.false_eq_true, if_false]
  rw [Disk.read_natCast, hget]
  simp only [hi]
  rw [Disk.write_natCast _ pb _ hlt]
  rfl

theorem FS.freeCount_of_freeList (B : Nat) (s : FS) (n : Nat) (F : List Nat)
    (h : s.freeList B n = F) : F.length ≤ s.freeCount B := by
  rw [← h]
  unfold FS.freeList FS.freeCount
  rw [List.length_take]
  exact Nat.min_le_right _ _

/-- `create` of a plain name with a payload that fits one block. -/
theorem FS.create_plain (B fuel : Nat) (s : FS) (name P : List Nat) (f : Nat) (blk : List Nat)
    (i : Nat) (hB : B ≤ 65536) (hlen : s.m_fat.length = FAT_SIZE B) (hd : 2 ≤ s.m_disk.length)
    (hne : name ≠ []) (hal : ∀ c ∈ name, isalnum c = true) (hn55 : name.length ≤ 55)
    (hnt : name ≠ str "testfile") (hPlen : P.length + 1 < B)
    (hnex : s.FilepathExists B name = Run.ret false)
    (h0 : s.m_fat.get? 0 ≠ some FAT_FREE) (h1 : s.m_fat.get? 1 ≠ some FAT_FREE)
    (hF : s.freeList B 1 = [f]) (hfd : f < s.m_disk.length)
    (hcwdf : s.m_cwdBlock ≠ f) (hcwd1 : s.m_cwdBlock ≠ 1)
    (hblk : s.m_disk.get? s.m_cwdBlock = some blk)
    (hi : FS.firstAbsent (dirEntries B blk) = some i) :
    s.create B (fuel + 1) name P =
      Run.ret (0, s.withNewFile B f (P ++ [10]) blk i (FS.createdEntry name (P.length + 1) f)) := by
  have hvalid := FilenamesAreValid_plain name hne hal (by omega)
  have hparse := ParseDirPath_plain name hne hal
  have hfmem := FS.freeList_mem B s 1 f (by rw [hF]; simp)
  have hf2 := FS.freeList_ge_two B s 1 f h0 h1 (by rw [hF]; simp)
  have hN : FAT_SIZE B ≤ 32768 := by unfold FAT_SIZE; omega
  have hfree : 1 ≤ s.freeCount B := by
    have := FS.freeCount_of_freeList B s 1 [f] hF
    simpa using this
  obtain ⟨b, rest, hF2, hA⟩ := FS.AllocateNewFileOnFAT_ok B s 1 hB hlen hd (le_refl 1) hfree h0 h1
  rw [hF] at hF2
  cases hF2
  simp only [Nat.cast_one, FS.linkFAT, FS.linkTarget] at hA
  have hlenI : (P ++ [10]).length = P.length + 1 := by simp
  have hcalc : CalculateMinBlockCount B (((P ++ [10]).length : Nat) : Int) = 1 :=
    CalculateMinBlockCount_small B _ (by rw [hlenI]; omega) (by rw [hlenI]; omega)
  have hstr := strcpy_empty_plain name (fun c hc => isalnum_ne_zero c (hal c hc)) hn55
  have hsz : toUInt32 (((P ++ [10]).length : Nat) : Int) = P.length + 1 := by
    rw [toUInt32_natCast _ (by rw [hlenI]; omega), hlenI]
  have hfb : toUInt16 (f : Int) = f := toUInt16_natCast f (by omega)
  have hfat : (s.m_fat.set f FAT_EOF).get? f = some FAT_EOF := by
    simp [List.getElem?_set, hlen, hfmem.1]
  have hwl := FS.WriteLoop_single B fuel
    { s with m_fat := s.m_fat.set f FAT_EOF,
             m_disk := s.m_disk.set 1 (fatBytes (s.m_fat.set f FAT_EOF)) }
    (P ++ [10]) f (by simp) (by rw [hlenI]; omega) (by simpa using hfd) hfmem.1 hfat
  have hwrite : FS.WriteDataStringToFile B (fuel + 1)
      { s with m_fat := s.m_fat.set f FAT_EOF,
               m_disk := s.m_disk.set 1 (fatBytes (s.m_fat.set f FAT_EOF)) }
      (P ++ [10]) (FS.createdEntry name (P.length + 1) f) =
      Run.ret (0, { s with
        m_fat := s.m_fat.set f FAT_EOF,
        m_disk := (s.m_disk.set 1 (fatBytes (s.m_fat.set f FAT_EOF))).set f
          (P ++ [10] ++ List.replicate (B - (P ++ [10]).length) 0) }) := by
    unfold FS.WriteDataStringToFile
    have ht : (FS.createdEntry name (P.length + 1) f).type = TYPE_FILE := rfl
    have hs : (FS.createdEntry name (P.length + 1) f).size = P.length + 1 := rfl
    have hc2 : CalculateMinBlockCount B (toInt32 ((P.length + 1 : Nat) : Int)) = 1 := by
      rw [toInt32_small _ (by omega)]
      exact CalculateMinBlockCount_small B _ (by omega) (by omega)
    simp only [ht, ne_eq, not_true_eq_false, if_false, hs, hc2, hcalc, lt_self_iff_false]
    exact hwl
  have hget2 : ((s.m_disk.set 1 (fatBytes (s.m_fat.set f FAT_EOF))).set f
      (P ++ [10] ++ List.replicate (B - (P ++ [10]).length) 0)).get? s.m_cwdBlock = some blk := by
    rw [List.get?_eq_getElem?, List.getElem?_set_ne (Ne.symm hcwdf),
      List.getElem?_set_ne (Ne.symm hcwd1), ← List.get?_eq_getElem?, hblk]
  have hexn : DirEntryExists (FS.createdEntry name (P.length + 1) f) = true := by
    cases name with
    | nil => exact absurd rfl hne
    | cons c cs =>
      have := isalnum_ne_zero c (hal c (by simp))
      simp [DirEntryExists, FS.createdEntry, this]
  have hadd := FS.AddNewDirEntry_ok B
    { s with
      m_fat := s.m_fat.set f FAT_EOF,
      m_disk := (s.m_disk.set 1 (fatBytes (s.m_fat.set f FAT_EOF))).set f
        (P ++ [10] ++ List.replicate (B - (P ++ [10]).length) 0) }
    s.m_cwdBlock blk i (FS.createdEntry name (P.length + 1) f) hexn hget2 hi
  unfold FS.create
  simp only [hvalid, Bool.not_true, Bool.false_eq_true, if_false, hnex, Run.ret_bind, hparse,
    List.getLast?_singleton, Run.ofOption, hnt, hcalc, hA, ne_eq, not_true_eq_false, hstr,
    hsz, hfb, List.dropLast_single]
  rw [show (dir_entry.mk (name ++ List.replicate (56 - name.length) 0) (P.length + 1) f TYPE_FILE
      FS.m_defaultPermissions) = FS.createdEntry name (P.length + 1) f from rfl, hwrite]
  simp only [Run.ret_bind, ne_eq, not_true_eq_false, if_false, FS.GetDirectoryBlock,
    List.length_nil, if_true]
  rw [hadd]
  rfl

end CreateCat

section CatAfterCreate

theorem c_str_head (a : List Nat) (c : Nat) (cs : List Nat) (h : c_str a = some (c :: cs)) :
    a.headD 0 = c ∧ c ≠ 0 := by
  cases a with
  | nil => simp [c_str_nil] at h
  | cons x xs =>
    rw [c_str_cons] at h
    by_cases hx : x = 0
    · simp [hx] at h
    · simp only [hx, if_false] at h
      cases hc : c_str xs with
      | none => rw [hc] at h; cases h
      | some n =>
        rw [hc] at h
        simp only [Option.map_some', Option.some.injEq, List.cons.injEq] at h
        exact ⟨by simpa using h.1, by rw [← h.1]; exact hx⟩

theorem DirEntryExists_of_c_str (e : dir_entry) (name : List Nat) (hne : name ≠ [])
    (h : c_str e.file_name = some name) : DirEntryExists e = true := by
  cases name with
  | nil => exact absurd rfl hne
  | cons c cs =>
    obtain ⟨h1, h2⟩ := c_str_head _ c cs h
    unfold DirEntryExists
    rw [h1]
    simpa using h2

theorem natCast_ne_ERROR_CODE (n : Nat) : ((n : Int) ≠ ERROR_CODE) := by
  unfold ERROR_CODE; omega

/-- Looking up a single-segment path is a scan of the working directory. -/
theorem FS.GetDirEntryPath_single (B : Nat) (s : FS) (name blk : List Nat)
    (hblk : s.m_disk.get? s.m_cwdBlock = some blk) :
    s.GetDirEntryPath B [name] = (do
      let r ← FS.findName name (dirEntries B blk)
      match r with
      | none => Run.ret (0, dir_entry.empty)
      | some i => Run.ret (0, dir_entry.decode (slotBytes blk i))) := by
  unfold FS.GetDirEntryPath
  simp only [List.getLast?_singleton, List.dropLast_single, FS.GetDirectoryBlock,
    List.length_nil, if_true, Run.ret_bind, natCast_ne_ERROR_CODE, ne_eq, not_false_eq_true]
  unfold FS.GetDirEntry
  rw [Disk.read_natCast, hblk]
  simp only
  cases FS.findName name (dirEntries B blk) with
  | ret r => cases r <;> rfl
  | undef => rfl
  | spin => rfl
  | thrown => rfl

theorem FS.findName_none_of_not_exists (B : Nat) (s : FS) (name blk : List Nat)
    (hne : name ≠ []) (hparse : ParseDirPath name = [name])
    (hblk : s.m_disk.get? s.m_cwdBlock = some blk)
    (hnex : s.FilepathExists B name = Run.ret false) :
    FS.findName name (dirEntries B blk) = Run.ret none := by
  unfold FS.FilepathExists at hnex
  rw [hparse, FS.GetDirEntryPath_single B s name blk hblk] at hnex
  cases hf : FS.findName name (dirEntries B blk) with
  | ret r =>
    cases r with
    | none => rfl
    | some j =>
      rw [hf] at hnex
      simp only [Run.ret_bind, Run.ret.injEq] at hnex
      obtain ⟨e1, he1, hc1⟩ := findName_some_spec name _ j hf
      have hj : j < DIR_BLOCK_SIZE B := by
        have := (List.get?_eq_some.mp he1).1
        rwa [dirEntries_length] at this
      rw [dirEntries_get? B blk j hj] at he1
      cases he1
      rw [DirEntryExists_of_c_str _ name hne hc1] at hnex
      cases hnex
  | undef => rw [hf] at hnex; cases hnex
  | spin => rw [hf] at hnex; cases hnex
  | thrown => rw [hf] at hnex; cases hnex

theorem FS.createdEntry_wf (name : List Nat) (size f : Nat) (hn : name.length ≤ 55)
    (hs : size < 4294967296) (hf : f < 65536) :
    dir_entry.decode (FS.createdEntry name size f).encode = FS.createdEntry name size f := by
  apply dir_entry.decode_encode
  · simp [FS.createdEntry]; omega
  · exact hs
  · exact hf
  · show TYPE_FILE < 256
    decide
  · show FS.m_defaultPermissions < 256
    decide

theorem FS.createdEntry_c_str (name : List Nat) (size f : Nat) (hn : name.length ≤ 55)
    (h0 : ∀ c ∈ name, c ≠ 0) : c_str (FS.createdEntry name size f).file_name = some name := by
  have : (FS.createdEntry name size f).file_name =
      name ++ 0 :: List.replicate (55 - name.length) 0 := by
    simp only [FS.createdEntry]
    have : 56 - name.length = (55 - name.length) + 1 := by omega
    rw [this, List.replicate_succ]
  rw [this]
  exact c_str_append_zero name _ h0

end CatAfterCreate

/-- After `create_plain`, `cat` of the same name returns the payload line, its
stored terminator and the `std::endl` that `cat` adds. -/
theorem FS.cat_after_create (B fuel : Nat) (s : FS) (name P : List Nat) (f : Nat)
    (blk : List Nat) (i : Nat) (hB : B ≤ 65536) (hW : s.WellSized B)
    (hlen : s.m_fat.length = FAT_SIZE B)
    (hne : name ≠ []) (hal : ∀ c ∈ name, isalnum c = true) (hn55 : name.length ≤ 55)
    (hP0 : ∀ c ∈ P, c ≠ 0) (hPlen : P.length + 1 < B)
    (hnex : s.FilepathExists B name = Run.ret false)
    (hfN : f < FAT_SIZE B) (hfd : f < s.m_disk.length)
    (hcwdf : s.m_cwdBlock ≠ f)
    (hblk : s.m_disk.get? s.m_cwdBlock = some blk)
    (hi : FS.firstAbsent (dirEntries B blk) = some i) :
    (s.withNewFile B f (P ++ [10]) blk i (FS.createdEntry name (P.length + 1) f)).cat B
        (fuel + 1) name =
      Run.ret (0, s.withNewFile B f (P ++ [10]) blk i (FS.createdEntry name (P.length + 1) f),
        P ++ [10] ++ [10]) := by
  have hvalid := FilenamesAreValid_plain name hne hal (by omega)
  have hparse := ParseDirPath_plain name hne hal
  have hN : FAT_SIZE B ≤ 32768 := by unfold FAT_SIZE; omega
  have hcwdlt : s.m_cwdBlock < s.m_disk.length := (List.get?_eq_some.mp hblk).1
  have hblkB : blk.length = B := hW blk (List.get?_mem hblk)
  have hiN : i < DIR_BLOCK_SIZE B := by
    have := FS.firstAbsent_some _ i hi
    rwa [dirEntries_length] at this
  have h64 := slot_in_block B i hiN
  have hnone := FS.findName_none_of_not_exists B s name blk hne hparse hblk hnex
  have hwf := FS.createdEntry_wf name (P.length + 1) f hn55 (by omega) (by omega)
  have hcs := FS.createdEntry_c_str name (P.length + 1) f hn55
    (fun c hc => isalnum_ne_zero c (hal c hc))
  have hnl : (FS.createdEntry name (P.length + 1) f).file_name.length = 56 := by
    simp [FS.createdEntry]; omega
  have hget1 : (s.withNewFile B f (P ++ [10]) blk i
      (FS.createdEntry name (P.length + 1) f)).m_disk.get? s.m_cwdBlock =
      some (setSlot blk i (FS.createdEntry name (P.length + 1) f)) := by
    simp only [FS.withNewFile, FS.withSlot]
    rw [List.get?_eq_getElem?, List.getElem?_set_self (by simpa using hcwdlt)]
  have hfind : FS.findName name
      (dirEntries B (setSlot blk i (FS.createdEntry name (P.length + 1) f))) =
      Run.ret (some i) := by
    rw [dirEntries_setSlot B blk i _ hiN hblkB hnl, hwf]
    exact findName_set_firstAbsent name _ hcs _ i hnone hi
  have hres : FS.GetDirEntryPath B (s.withNewFile B f (P ++ [10]) blk i
      (FS.createdEntry name (P.length + 1) f)) (ParseDirPath name) =
      Run.ret (0, FS.createdEntry name (P.length + 1) f) := by
    rw [hparse, FS.GetDirEntryPath_single B _ name _ hget1, hfind]
    simp only [Run.ret_bind]
    rw [slotBytes_setSlot_same blk i _ (by omega) hnl, hwf]
  have hdata : (s.withNewFile B f (P ++ [10]) blk i
      (FS.createdEntry name (P.length + 1) f)).m_disk.get? f =
      some ((P ++ [10]) ++ 0 :: List.replicate (B - (P.length + 1) - 1) 0) := by
    simp only [FS.withNewFile, FS.withSlot]
    rw [List.get?_eq_getElem?, List.getElem?_set_ne hcwdf,
      List.getElem?_set_self (by simpa using hfd)]
    congr 2
    have : B - (P ++ [10]).length = (B - (P.length + 1) - 1) + 1 := by
      simp; omega
    rw [this, List.replicate_succ]
  have hfat : (s.withNewFile B f (P ++ [10]) blk i
      (FS.createdEntry name (P.length + 1) f)).m_fat.get? f = some FAT_EOF := by
    simp [FS.withNewFile, FS.withSlot, List.getElem?_set, hlen, hfN]
  have hP10 : ∀ c ∈ P ++ [10], c ≠ 0 := by
    intro c hc
    rcases List.mem_append.mp hc with h | h
    · exact hP0 c h
    · simp at h; omega
  have hloop := FS.catLoop_single B fuel _ [] (P ++ [10]) _ f hdata hP10 hfN hfat
  rw [FS.cat_of_res B (fuel + 1) _ name 0 _ hres]
  have hx : DirEntryExists (FS.createdEntry name (P.length + 1) f) = true :=
    DirEntryExists_of_c_str _ name hne hcs
  have hcond : ¬ (FilenamesAreValid name = false ∨
      DirEntryExists (FS.createdEntry name (P.length + 1) f) = false ∨
      (FS.createdEntry name (P.length + 1) f).type ≠ TYPE_FILE ∨
      HasValidAccess (FS.createdEntry name (P.length + 1) f) READ = false) := by
    rintro (h | h | h | h)
    · rw [hvalid] at h; cases h
    · rw [hx] at h; cases h
    · exact h rfl
    · have : HasValidAccess (FS.createdEntry name (P.length + 1) f) READ = true := by
        show ((FS.m_defaultPermissions &&& READ) == READ) = true
        decide
      rw [this] at h; cases h
  rw [if_neg hcond]
  have hfb : (((FS.createdEntry name (P.length + 1) f).first_blk : Nat) : Int) = (f : Int) := rfl
  rw [hfb, hloop]
  simp

/-- The round trip of `create` and `cat` where the stored text does not fill
a block: for a plain name other than `testfile` of at most 55 bytes that does
not exist in the working directory, and a NUL-free payload line `P` with
`|P| + 1 < BLOCK_SIZE`, in a state with a FREE block on the device, the
reserved slots and the working directory's block in use and a free slot in the
working directory, `create` fed `P` succeeds and `cat` of the same name then
sends `P`, the stored line terminator and its own `std::endl`. -/
theorem create_cat_round_trip (BLOCK_SIZE fuel : Nat) (s : FS) (name P : List Nat)
    (hB : BLOCK_SIZE ≤ 65536) (hW : s.WellSized BLOCK_SIZE)
    (hlen : s.m_fat.length = FAT_SIZE BLOCK_SIZE) (hd : 2 ≤ s.m_disk.length)
    (hne : name ≠ []) (hal : ∀ c ∈ name, isalnum c = true) (hn55 : name.length ≤ 55)
    (hnt : name ≠ str "testfile")
    (hP0 : ∀ c ∈ P, c ≠ 0) (hPlen : P.length + 1 < BLOCK_SIZE)
    (hnex : s.FilepathExists BLOCK_SIZE name = Run.ret false)
    (h0 : s.m_fat.get? 0 ≠ some FAT_FREE) (h1 : s.m_fat.get? 1 ≠ some FAT_FREE)
    (hfree : 1 ≤ s.freeCount BLOCK_SIZE)
    (hfd : ∀ b ∈ s.freeList BLOCK_SIZE 1, b < s.m_disk.length)
    (hcwd : s.m_fat.get? s.m_cwdBlock ≠ some FAT_FREE) (hcwd1 : s.m_cwdBlock ≠ FAT_BLOCK)
    (hslot : ∃ blk, s.m_disk.get? s.m_cwdBlock = some blk ∧
      FS.firstAbsent (dirEntries BLOCK_SIZE blk) ≠ none)
    (hfuel : 1 ≤ fuel) :
    ∃ s1, s.create BLOCK_SIZE fuel name P = Run.ret (0, s1) ∧
      s1.cat BLOCK_SIZE fuel name = Run.ret (0, s1, P ++ [10] ++ [10]) := by
  obtain ⟨fuel, rfl⟩ : ∃ k, fuel = k + 1 := ⟨fuel - 1, by omega⟩
  obtain ⟨blk, hblk, hsl⟩ := hslot
  obtain ⟨i, hi⟩ := Option.ne_none_iff_exists'.mp hsl
  have hL := FS.freeList_length BLOCK_SIZE s 1 hfree
  obtain ⟨f, hF⟩ : ∃ f, s.freeList BLOCK_SIZE 1 = [f] := by
    cases hfl : s.freeList BLOCK_SIZE 1 with
    | nil => rw [hfl] at hL; cases hL
    | cons a l =>
      rw [hfl] at hL
      cases l with
      | nil => exact ⟨a, rfl⟩
      | cons b l => simp at hL
  have hfmem := FS.freeList_mem BLOCK_SIZE s 1 f (by rw [hF]; simp)
  have hfdl := hfd f (by rw [hF]; simp)
  have hcwdf : s.m_cwdBlock ≠ f := by
    intro h
    rw [h] at hcwd
    exact hcwd hfmem.2
  refine ⟨_, FS.create_plain BLOCK_SIZE fuel s name P f blk i hB hlen hd hne hal hn55 hnt hPlen
    hnex h0 h1 hF hfdl hcwdf hcwd1 hblk hi, ?_⟩
  exact FS.cat_after_create BLOCK_SIZE fuel s name P f blk i hB hW hlen hne hal hn55 hP0 hPlen
    hnex hfmem.1 hfdl hcwdf hblk hi

theorem sampleFormatted_wellSized : sampleFormatted.WellSized 128 := by
  unfold FS.WellSized
  decide!

theorem create_cat_round_trip_witness :
    sampleFormatted.FilepathExists 128 (str "a") = Run.ret false ∧
    ∃ s1, sampleFormatted.create 128 1 (str "a") (str "hello") = Run.ret (0, s1) ∧
      s1.cat 128 1 (str "a") = Run.ret (0, s1, str "hello" ++ [10] ++ [10]) :=
  ⟨by decide!,
   create_cat_round_trip 128 1 sampleFormatted (str "a") (str "hello") (by decide)
     sampleFormatted_wellSized (by decide) (by decide!) (by decide) (by decide) (by decide)
     (by decide) (by decide) (by decide) (by decide!) (by decide) (by decide) (by decide!)
     (by decide!) (by decide) (by decide) ⟨_, rfl, by decide!⟩ (by decide)⟩

/-- C1 fails when `|P| + 1` is an exact multiple of the block size, a length
the claim names: with 128-byte blocks and a 127-byte line, a valid name that
does not exist and 62 FREE blocks, `WriteDataStringToFile` copies
`128 % 128 = 0` bytes, never empties its string and returns `ERROR_CODE` when
the walk leaves the chain; `create` fails before the record is inserted (the
block stays allocated) and `cat` then finds no such file. -/
theorem create_exact_multiple_fails :
    (List.replicate 127 98).length + 1 = 128 ∧
    (∀ c ∈ List.replicate 127 98, c ≠ 10 ∧ c ≠ 0) ∧
    FilenamesAreValid (str "a") = true ∧
    sampleFormatted.FilepathExists 128 (str "a") = Run.ret false ∧
    sampleFormatted.freeCount 128 = 62 ∧
    sampleFormatted.create 128 5 (str "a") (List.replicate 127 98) =
      Run.ret (ERROR_CODE, { sampleFormatted with
        m_fat := [-1, -1, -1] ++ List.replicate 61 0,
        m_disk := sampleFormatted.m_disk.set 1 (fatBytes ([-1, -1, -1] ++ List.replicate 61 0)) }) ∧
    FS.cat 128 5 { sampleFormatted with
        m_fat := [-1, -1, -1] ++ List.replicate 61 0,
        m_disk := sampleFormatted.m_disk.set 1 (fatBytes ([-1, -1, -1] ++ List.replicate 61 0)) }
      (str "a") =
      Run.ret (ERROR_CODE, { sampleFormatted with
        m_fat := [-1, -1, -1] ++ List.replicate 61 0,
        m_disk := sampleFormatted.m_disk.set 1 (fatBytes ([-1, -1, -1] ++ List.replicate 61 0)) },
        []) := by
  decide!

/-- Further departures of `create` followed by `cat` from the round trip: the
file name `testfile` replaces the payload by `3 * BLOCK_SIZE + 1` letters `a`
(size 386 with 128-byte blocks); a NUL inside the payload ends what `cat`
sends; a payload of more than one block makes `cat` read a block holding no
NUL as a C string. -/
theorem create_cat_other_departures :
    (sampleFormatted.create 128 5 (str "testfile") (str "hi")).bind (fun r =>
      (r.2.GetDirEntryPath 128 [str "testfile"]).bind (fun e => Run.ret (r.1, e.2.size))) =
      Run.ret (0, 386) ∧
    (sampleFormatted.create 128 5 (str "a") [97, 0, 98]).bind (fun r =>
      (r.2.cat 128 5 (str "a")).bind (fun c => Run.ret (r.1, c.1, c.2.2))) =
      Run.ret (0, 0, [97, 10]) ∧
    (sampleFormatted.create 128 5 (str "a") (List.replicate 130 98)).bind (fun r =>
      (r.2.cat 128 5 (str "a")).bind (fun c => Run.ret (r.1, c.1))) = Run.undef := by
  decide!

/-- C2: `create` copies the whole path string, not its final segment, into the
name field.  After `format`, `create("/a")` fed `hello` succeeds, but
`FilepathExists("/a")` is then false and `cat("/a")` returns `ERROR_CODE`; a
second `create("/a")` succeeds, and the root directory then holds two records,
both named `/a`.  The same happens for `./x`. -/
theorem create_stores_whole_path_as_name :
    (sampleFormatted.create 128 5 (str "/a") (str "hello")).bind (fun r =>
      (r.2.FilepathExists 128 (str "/a")).bind (fun ex => Run.ret (r.1, ex))) =
      Run.ret (0, false) ∧
    (sampleFormatted.create 128 5 (str "/a") (str "hello")).bind (fun r =>
      (r.2.cat 128 5 (str "/a")).bind (fun c => Run.ret c.1)) = Run.ret ERROR_CODE ∧
    (sampleFormatted.create 128 5 (str "/a") (str "hello")).bind (fun r =>
      (r.2.create 128 5 (str "/a") (str "hello")).bind (fun r2 =>
        Run.ret (r2.1, (dirEntries 128 (r2.2.m_disk.getD 0 [])).map
          (fun e => c_str e.file_name)))) =
      Run.ret (0, [some (str "/a"), some (str "/a")]) ∧
    (sampleFormatted.create 128 5 (str "./x") (str "hello")).bind (fun r =>
      (r.2.FilepathExists 128 (str "./x")).bind (fun ex => Run.ret (r.1, ex))) =
      Run.ret (0, false) ∧
    (sampleFormatted.create 128 5 (str "./x") (str "hello")).bind (fun r =>
      (r.2.cat 128 5 (str "./x")).bind (fun c =>
        Run.ret (c.1, (dirEntries 128 (r.2.m_disk.getD 0 [])).map
          (fun e => c_str e.file_name)))) =
      Run.ret (ERROR_CODE, [some (str "./x"), some []]) := by
  decide!

section CopyLemmas

theorem FS.GetChildBlock_congr (B : Nat) (s s1 : FS) (h : s1.m_fat = s.m_fat) (b : Int) :
    FS.GetChildBlock B s1 b = FS.GetChildBlock B s b := by
  unfold FS.GetChildBlock
  rw [h]

theorem FS.chainFrom_congr (B : Nat) (s s1 : FS) (h : s1.m_fat = s.m_fat) :
    ∀ (fuel : Nat) (b : Int), FS.chainFrom B s1 fuel b = FS.chainFrom B s fuel b := by
  intro fuel
  induction fuel with
  | zero => intro b; rfl
  | succ fuel ih =>
    intro b
    unfold FS.chainFrom
    rw [FS.GetChildBlock_congr B s s1 h]
    simp only [ih]

theorem FS.GetChildBlock_ret (B : Nat) (s : FS) (b c : Int)
    (h : FS.GetChildBlock B s b = Run.ret c) :
    0 ≤ b ∧ b.toNat < FAT_SIZE B ∧ s.m_fat.get? b.toNat = some c := by
  unfold FS.GetChildBlock at h
  split at h
  · rename_i hb
    refine ⟨hb.1, by omega, ?_⟩
    cases hg : s.m_fat.get? b.toNat with
    | none => rw [hg] at h; cases h
    | some v => rw [hg] at h; cases h; rfl
  · cases h

/-- A walk that visits `x :: xs` starts at `x`, whose slot holds the block the
rest of the walk starts from. -/
theorem FS.chainFrom_cons (B : Nat) (s : FS) (fuel : Nat) (b : Int) (x : Nat) (xs : List Nat)
    (h : FS.chainFrom B s fuel b = Run.ret (x :: xs)) :
    b = (x : Int) ∧ x < FAT_SIZE B ∧
      ∃ c fuel1, s.m_fat.get? x = some c ∧ fuel = fuel1 + 1 ∧
        FS.chainFrom B s fuel1 c = Run.ret xs := by
  cases fuel with
  | zero =>
    unfold FS.chainFrom at h
    split at h <;> cases h
  | succ fuel =>
    unfold FS.chainFrom at h
    split at h
    · cases h
    · cases hg : FS.GetChildBlock B s b with
      | ret c =>
        rw [hg] at h
        simp only [Run.ret_bind] at h
        obtain ⟨hb0, hbN, hget⟩ := FS.GetChildBlock_ret B s b c hg
        cases hr : FS.chainFrom B s fuel c with
        | ret rest =>
          rw [hr] at h
          simp only [Run.ret_bind, Run.ret.injEq, List.cons.injEq] at h
          obtain ⟨h1, h2⟩ := h
          subst h1 h2
          exact ⟨by omega, hbN, c, fuel, hget, rfl, hr⟩
        | undef => rw [hr] at h; cases h
        | spin => rw [hr] at h; cases h
        | thrown => rw [hr] at h; cases h
      | undef => rw [hg] at h; cases h
      | spin => rw [hg] at h; cases h
      | thrown => rw [hg] at h; cases h

theorem FS.chainFrom_nil (B : Nat) (s : FS) (fuel : Nat) (b : Int)
    (h : FS.chainFrom B s fuel b = Run.ret []) : b = FAT_EOF := by
  cases fuel with
  | zero =>
    unfold FS.chainFrom at h
    split at h
    · assumption
    · cases h
  | succ fuel =>
    unfold FS.chainFrom at h
    by_cases hb : b = FAT_EOF
    · exact hb
    · simp only [hb, if_false] at h
      cases hg : FS.GetChildBlock B s b with
      | ret c =>
        rw [hg] at h
        simp only [Run.ret_bind] at h
        cases hr : FS.chainFrom B s fuel c with
        | ret rest => rw [hr] at h; cases h
        | undef => rw [hr] at h; cases h
        | spin => rw [hr] at h; cases h
        | thrown => rw [hr] at h; cases h
      | undef => rw [hg] at h; cases h
      | spin => rw [hg] at h; cases h
      | thrown => rw [hg] at h; cases h

/-- A walk is not affected by a change of the table outside the blocks it
visits. -/
theorem FS.chainFrom_frame (B : Nat) (s s1 : FS) :
    ∀ (cs : List Nat) (fuel : Nat) (b : Int), FS.chainFrom B s fuel b = Run.ret cs →
      (∀ x ∈ cs, s1.m_fat.get? x = s.m_fat.get? x) →
      FS.chainFrom B s1 fuel b = Run.ret cs := by
  intro cs
  induction cs with
  | nil =>
    intro fuel b h _
    have := FS.chainFrom_nil B s fuel b h
    subst this
    cases fuel <;> simp [FS.chainFrom]
  | cons x xs ih =>
    intro fuel b h hfr
    obtain ⟨hb, hxN, c, fuel1, hget, hfuel, hrest⟩ := FS.chainFrom_cons B s fuel b x xs h
    subst hb hfuel
    have hne : ((x : Int) = FAT_EOF) = False := eq_false (by unfold FAT_EOF; omega)
    unfold FS.chainFrom
    simp only [hne, if_false]
    rw [FS.GetChildBlock_natCast B s1 x c hxN (by rw [hfr x (by simp)]; exact hget)]
    simp only [Run.ret_bind]
    rw [ih fuel1 c hrest (fun y hy => hfr y (List.mem_cons_of_mem _ hy))]
    simp

theorem FS.cpLoop_EOF (B fuel : Nat) (s : FS) (d : Int) :
    FS.cpLoop B fuel s FAT_EOF d = Run.ret (0, s) := by
  cases fuel <;> simp [FS.cpLoop]

/-- The copy loop of `cp` along two chains of the same length. -/
theorem FS.cpLoop_copy (B : Nat) :
    ∀ (cs ds : List Nat) (s : FS) (fuel fuelS fuelD : Nat) (curS curD : Int),
      FS.chainFrom B s fuelS curS = Run.ret cs → FS.chainFrom B s fuelD curD = Run.ret ds →
      cs.length = ds.length → (∀ x ∈ cs, x < s.m_disk.length) →
      (∀ x ∈ ds, x < s.m_disk.length) → cs.length ≤ fuel →
      FS.cpLoop B fuel s curS curD =
        Run.ret (0, { s with m_disk := FS.copyBlocks s.m_disk cs ds }) := by
  intro cs
  induction cs with
  | nil =>
    intro ds s fuel fuelS fuelD curS curD hS _ _ _ _ _
    have := FS.chainFrom_nil B s fuelS curS hS
    subst this
    rw [FS.cpLoop_EOF]
    cases ds <;> rfl
  | cons x xs ih =>
    intro ds s fuel fuelS fuelD curS curD hS hD hlen hcs hds hfuel
    cases ds with
    | nil => simp at hlen
    | cons y ys =>
      obtain ⟨hb, hxN, c, fuel1, hget, hfuelS, hrest⟩ := FS.chainFrom_cons B s fuelS curS x xs hS
      obtain ⟨hb2, hyN, c2, fuel2, hget2, hfuelD, hrest2⟩ :=
        FS.chainFrom_cons B s fuelD curD y ys hD
      subst hb hb2
      obtain ⟨fuel, rfl⟩ : ∃ k, fuel = k + 1 := ⟨fuel - 1, by simp at hfuel; omega⟩
      have hx := hcs x (by simp)
      have hy := hds y (by simp)
      have hne : ((x : Int) = FAT_EOF) = False := eq_false (by unfold FAT_EOF; omega)
      unfold FS.cpLoop
      simp only [hne, if_false]
      rw [Disk.read_natCast, List.get?_eq_get hx]
      simp only
      rw [Disk.write_natCast _ y _ hy]
      simp only
      rw [FS.GetChildBlock_natCast B s x c hxN hget, FS.GetChildBlock_natCast B s y c2 hyN hget2]
      simp only [Run.ret_bind]
      rw [ih ys { s with m_disk := s.m_disk.set y (s.m_disk.get ⟨x, hx⟩) } fuel fuel1 fuel2 c c2
        (by rw [FS.chainFrom_congr B s
          { s with m_disk := s.m_disk.set y (s.m_disk.get ⟨x, hx⟩) } rfl]; exact hrest)
        (by rw [FS.chainFrom_congr B s
          { s with m_disk := s.m_disk.set y (s.m_disk.get ⟨x, hx⟩) } rfl]; exact hrest2)
        (by simpa using hlen)
        (fun z hz => by simpa using hcs z (List.mem_cons_of_mem _ hz))
        (fun z hz => by simpa using hds z (List.mem_cons_of_mem _ hz))
        (by simp at hfuel ⊢; omega)]
      have hgd : s.m_disk.getD x [] = s.m_disk.get ⟨x, hx⟩ := by
        rw [List.getD_eq_getElem?_getD, List.getElem?_eq_getElem hx]
        rfl
      simp only [FS.copyBlocks, hgd]

theorem FS.copyBlocks_length :
    ∀ (cs ds : List Nat) (d : List (List Nat)), (FS.copyBlocks d cs ds).length = d.length := by
  intro cs
  induction cs with
  | nil => intro ds d; rfl
  | cons c cs ih =>
    intro ds d
    cases ds with
    | nil => rfl
    | cons f fs => simp [FS.copyBlocks, ih]

theorem FS.copyBlocks_get_not_mem :
    ∀ (cs ds : List Nat) (d : List (List Nat)) (x : Nat), x ∉ ds →
      (FS.copyBlocks d cs ds).get? x = d.get? x := by
  intro cs
  induction cs with
  | nil => intro ds d x _; rfl
  | cons c cs ih =>
    intro ds d x hx
    cases ds with
    | nil => rfl
    | cons f fs =>
      have hxf : f ≠ x := fun h => hx (by simp [h])
      have hxfs : x ∉ fs := fun h => hx (by simp [h])
      simp only [FS.copyBlocks]
      rw [ih fs _ x hxfs, List.get?_eq_getElem?, List.getElem?_set_ne hxf, List.get?_eq_getElem?]

/-- After the copy, the `k`-th block of the destination chain holds what the
`k`-th block of the source chain held. -/
theorem FS.copyBlocks_get :
    ∀ (cs ds : List Nat) (d : List (List Nat)), cs.length = ds.length → ds.Nodup →
      (∀ x ∈ ds, x ∉ cs) → (∀ x ∈ ds, x < d.length) → (∀ x ∈ cs, x < d.length) →
      ∀ (k : Nat) (c f : Nat), cs.get? k = some c → ds.get? k = some f →
        (FS.copyBlocks d cs ds).get? f = d.get? c := by
  intro cs
  induction cs with
  | nil => intro ds d _ _ _ _ _ k c f hc; simp at hc
  | cons c0 cs ih =>
    intro ds d hlen hnd hdisj hds hcs k c f hc hf
    cases ds with
    | nil => simp at hlen
    | cons f0 fs =>
      have hf0 : f0 ∉ fs := (List.nodup_cons.mp hnd).1
      have hndt : fs.Nodup := (List.nodup_cons.mp hnd).2
      simp only [FS.copyBlocks]
      cases k with
      | zero =>
        simp only [List.get?_cons_zero, Option.some.injEq] at hc hf
        subst hc hf
        rw [FS.copyBlocks_get_not_mem cs fs _ f0 hf0]
        have h1 := hds f0 (by simp)
        have h2 := hcs c0 (by simp)
        rw [List.get?_eq_getElem?, List.getElem?_set_self h1, List.getD_eq_getElem?_getD,
          List.get?_eq_getElem?, List.getElem?_eq_getElem h2]
        rfl
      | succ k =>
        simp only [List.get?_cons_succ] at hc hf
        have hcmem : c ∈ cs := List.get?_mem hc
        have hne : f0 ≠ c := fun h => hdisj f0 (by simp) (by rw [h]; simp [hcmem])
        rw [ih fs _ (by simpa using hlen) hndt
          (fun x hx hxc => hdisj x (List.mem_cons_of_mem _ hx) (List.mem_cons_of_mem _ hxc))
          (fun x hx => by simpa using hds x (List.mem_cons_of_mem _ hx))
          (fun x hx => by simpa using hcs x (List.mem_cons_of_mem _ hx)) k c f hc hf]
        rw [List.get?_eq_getElem?, List.getElem?_set_ne hne, List.get?_eq_getElem?]

end CopyLemmas

section CpLemmas

theorem strcpy_plain (field name : List Nat) (h0 : ∀ c ∈ name, c ≠ 0)
    (hlen : name.length < field.length) :
    strcpy field name = some (name ++ 0 :: field.drop (name.length + 1)) := by
  unfold strcpy
  rw [cstrOf_plain name h0, if_pos hlen]
  simp

theorem strcpy_plain_length (field name : List Nat) (hlen : name.length < field.length) :
    (name ++ 0 :: field.drop (name.length + 1)).length = field.length := by
  simp only [List.length_append, List.length_cons, List.length_drop]
  omega

/-- A chain that starts at the first block of a record is not empty. -/
theorem FS.chainFrom_natCast_ne_nil (B : Nat) (s : FS) (fuel b : Nat) (cs : List Nat)
    (h : FS.chainFrom B s fuel (b : Int) = Run.ret cs) : 1 ≤ cs.length := by
  cases cs with
  | nil =>
    have := FS.chainFrom_nil B s fuel _ h
    unfold FAT_EOF at this
    omega
  | cons x xs => simp

/-- The second half of `cp`: allocation, insertion of the record and the copy
loop, with the state they leave. -/
theorem FS.cpFinish_ok (B fuel fuelS : Nat) (s : FS) (src : dir_entry) (dirBlock : Nat)
    (destName cs blk : List Nat) (i : Nat)
    (hB : B ≤ 65536) (hlen : s.m_fat.length = FAT_SIZE B) (hd : FAT_SIZE B ≤ s.m_disk.length)
    (hd2 : 2 ≤ s.m_disk.length)
    (h0 : s.m_fat.get? 0 ≠ some FAT_FREE) (h1 : s.m_fat.get? 1 ≠ some FAT_FREE)
    (hsn : src.file_name.length = 56)
    (hchain : s.chainFrom B fuelS (src.first_blk : Int) = Run.ret cs)
    (hcount : CalculateMinBlockCount B (toInt32 src.size) = (cs.length : Int))
    (hcs : ∀ x ∈ cs, x < s.m_disk.length ∧ s.m_fat.get? x ≠ some FAT_FREE)
    (hfree : cs.length ≤ s.freeCount B)
    (hne : destName ≠ []) (hn0 : ∀ c ∈ destName, c ≠ 0) (hn55 : destName.length ≤ 55)
    (hdir1 : dirBlock ≠ 1) (hblk : s.m_disk.get? dirBlock = some blk)
    (hi : FS.firstAbsent (dirEntries B blk) = some i)
    (hfuel : cs.length ≤ fuel) :
    s.cpFinish B fuel src (dirBlock : Int) destName =
      Run.ret (0, s.withCopy cs (s.freeList B cs.length) dirBlock blk i
        { src with
          file_name := destName ++ 0 :: src.file_name.drop (destName.length + 1),
          first_blk := (s.freeList B cs.length).headD 0 }) := by
  have hn1 := FS.chainFrom_natCast_ne_nil B s fuelS _ cs hchain
  obtain ⟨b, rest, hF, hA⟩ := FS.AllocateNewFileOnFAT_ok B s cs.length hB hlen hd2 hn1 hfree h0 h1
  have hN : FAT_SIZE B ≤ 32768 := by unfold FAT_SIZE; omega
  have hFmem : ∀ x ∈ b :: rest, x < FAT_SIZE B ∧ s.m_fat.get? x = some FAT_FREE := by
    intro x hx
    exact FS.freeList_mem B s cs.length x (by rw [hF]; exact hx)
  have hFnd : (b :: rest).Nodup := by rw [← hF]; exact FS.freeList_nodup B s cs.length
  have hFlen : (b :: rest).length = cs.length := by rw [← hF]; exact FS.freeList_length B s _ hfree
  have hb := (hFmem b (by simp)).1
  have hstr := strcpy_plain src.file_name destName hn0 (by omega)
  have hfb : toUInt16 (b : Int) = b := toUInt16_natCast b (by omega)
  have hex : DirEntryExists
      { src with
        file_name := destName ++ 0 :: src.file_name.drop (destName.length + 1),
        first_blk := b } = true :=
    DirEntryExists_of_c_str _ destName hne (c_str_append_zero destName _ hn0)
  have hblkA : (s.m_disk.set 1 (fatBytes (FS.linkFAT (b :: rest) s.m_fat))).get? dirBlock =
      some blk := by
    rw [List.get?_eq_getElem?, List.getElem?_set_ne (Ne.symm hdir1), ← List.get?_eq_getElem?]
    exact hblk
  have hadd := FS.AddNewDirEntry_ok B
    { s with
      m_fat := FS.linkFAT (b :: rest) s.m_fat,
      m_disk := s.m_disk.set 1 (fatBytes (FS.linkFAT (b :: rest) s.m_fat)) }
    dirBlock blk i _ hex hblkA hi
  have hdisj : ∀ x ∈ cs, x ∉ b :: rest := by
    intro x hx hxF
    exact (hcs x hx).2 (hFmem x hxF).2
  have hchainB : FS.chainFrom B
      (FS.withSlot
        { s with
          m_fat := FS.linkFAT (b :: rest) s.m_fat,
          m_disk := s.m_disk.set 1 (fatBytes (FS.linkFAT (b :: rest) s.m_fat)) }
        dirBlock blk i
        { src with
          file_name := destName ++ 0 :: src.file_name.drop (destName.length + 1),
          first_blk := b })
      fuelS (src.first_blk : Int) = Run.ret cs := by
    apply FS.chainFrom_frame B s _ cs fuelS _ hchain
    intro x hx
    exact FS.linkFAT_get_not_mem (b :: rest) s.m_fat x (hdisj x hx)
  have hchainF : FS.chainFrom B
      (FS.withSlot
        { s with
          m_fat := FS.linkFAT (b :: rest) s.m_fat,
          m_disk := s.m_disk.set 1 (fatBytes (FS.linkFAT (b :: rest) s.m_fat)) }
        dirBlock blk i
        { src with
          file_name := destName ++ 0 :: src.file_name.drop (destName.length + 1),
          first_blk := b })
      (b :: rest).length (b : Int) = Run.ret (b :: rest) :=
    FS.chainFrom_linkFAT B rest b s.m_fat _ _ hFnd (fun x hx => (hFmem x hx).1) hlen rfl
      (le_refl _)
  have hloop := FS.cpLoop_copy B cs (b :: rest) _ fuel fuelS (b :: rest).length _ _ hchainB hchainF
    hFlen.symm
    (fun x hx => by simpa [FS.withSlot] using (hcs x hx).1)
    (fun x hx => by
      have := (hFmem x hx).1
      simp only [FS.withSlot, List.length_set]
      omega)
    hfuel
  unfold FS.cpFinish
  rw [hcount, hA]
  simp only [Run.ret_bind, ne_eq, not_true_eq_false, if_false, hstr, Run.ofOption, hfb, hadd]
  rw [hF]
  rw [hloop]
  rfl

end CpLemmas

section CpState

theorem FS.firstAbsent_absent (es : List dir_entry) :
    ∀ i, FS.firstAbsent es = some i → ∃ e, es.get? i = some e ∧ DirEntryExists e = false := by
  induction es with
  | nil => intro i h; simp [FS.firstAbsent] at h
  | cons e es ih =>
    intro i h
    unfold FS.firstAbsent at h
    split at h
    · cases hf : FS.firstAbsent es with
      | none => rw [hf] at h; cases h
      | some j =>
        rw [hf] at h
        simp only [Option.map_some', Option.some.injEq] at h
        subst h
        obtain ⟨e1, h1, h2⟩ := ih j hf
        exact ⟨e1, by simpa using h1, h2⟩
    · rename_i hx
      simp only [Option.some.injEq] at h
      subst h
      exact ⟨e, rfl, by simpa using hx⟩

/-- A record that path resolution returns as existing is the decoded image of
a slot: its fields are in the ranges of their C types. -/
theorem FS.resolved_wf (B : Nat) (s : FS) (segs : List (List Nat)) (st : Int) (e : dir_entry)
    (hW : s.WellSized B) (h : s.GetDirEntryPath B segs = Run.ret (st, e))
    (hex : DirEntryExists e = true) :
    st = 0 ∧ e.file_name.length = 56 ∧ e.size < 4294967296 ∧ e.first_blk < 65536 ∧
      e.type < 256 ∧ e.access_rights < 256 := by
  obtain ⟨last, pb, blk, i, _, _, _, hread, _, hi, he, hst⟩ :=
    FS.GetDirEntryPath_exists B s _ st e h hex
  obtain ⟨_, _, hget⟩ := Disk.read_some _ _ _ hread
  have hblk : blk.length = B := hW blk (List.get?_mem hget)
  have h64 := slot_in_block B i hi
  have hwf := dir_entry.decode_wf (slotBytes blk i)
    (by rw [slotBytes_length blk i (by omega)]; omega)
  rw [← he] at hwf
  exact ⟨hst, hwf⟩

/-- The validations of `cp` pass for an existing readable File and a
destination that resolves to an absent record under a plain name. -/
theorem FS.cp_plain_dest (B fuel : Nat) (s : FS) (sourcepath destpath : List Nat) (st : Int)
    (src d : dir_entry) (hsv : FilenamesAreValid sourcepath = true)
    (hsrc : s.GetDirEntryPath B (ParseDirPath sourcepath) = Run.ret (st, src))
    (hsx : DirEntryExists src = true) (hst : src.type = TYPE_FILE)
    (hsr : HasValidAccess src READ = true)
    (hdv : FilenamesAreValid destpath = true)
    (hdst : s.GetDirEntryPath B (ParseDirPath destpath) = Run.ret (0, d))
    (hdt : d.type ≠ TYPE_DIR) (hdx : DirEntryExists d = false)
    (hsp : HasSpecialCharacters destpath = false) :
    s.cp B fuel sourcepath destpath = s.cpFinish B fuel src (s.m_cwdBlock : Int) destpath := by
  unfold FS.cp
  generalize FS.cpFinish B fuel s = K
  rw [FS.FilepathExists_of_res B s sourcepath st src hsrc]
  simp only [hsv, hdv, Bool.not_true, Bool.or_self, Bool.false_eq_true, if_false, Run.ret_bind,
    hsx]
  rw [hsrc]
  simp only [Run.ret_bind, hsx, hst, hsr, Bool.not_true, Bool.false_eq_true, if_false, ne_eq,
    not_true_eq_false, decide_False, Bool.or_self]
  rw [hdst]
  simp only [Run.ret_bind, ne_eq, not_true_eq_false, if_false, hdt, hdx, hsp, Bool.or_self,
    Bool.false_eq_true]

/-- The validations of `cp` pass for an existing readable File and a
destination that resolves to a Directory. -/
theorem FS.cp_dir_dest (B fuel : Nat) (s : FS) (sourcepath destpath : List Nat) (st : Int)
    (src d : dir_entry) (destName : List Nat) (hsv : FilenamesAreValid sourcepath = true)
    (hsrc : s.GetDirEntryPath B (ParseDirPath sourcepath) = Run.ret (st, src))
    (hsx : DirEntryExists src = true) (hst : src.type = TYPE_FILE)
    (hsr : HasValidAccess src READ = true)
    (hdv : FilenamesAreValid destpath = true)
    (hdst : s.GetDirEntryPath B (ParseDirPath destpath) = Run.ret (0, d))
    (hdt : d.type = TYPE_DIR) (hname : c_str src.file_name = some destName) :
    s.cp B fuel sourcepath destpath =
      s.cpFinish B fuel src (d.first_blk : Int) destName := by
  unfold FS.cp
  generalize FS.cpFinish B fuel s = K
  rw [FS.FilepathExists_of_res B s sourcepath st src hsrc]
  simp only [hsv, hdv, Bool.not_true, Bool.or_self, Bool.false_eq_true, if_false, Run.ret_bind,
    hsx]
  rw [hsrc]
  simp only [Run.ret_bind, hsx, hst, hsr, Bool.not_true, Bool.false_eq_true, if_false, ne_eq,
    not_true_eq_false, decide_False, Bool.or_self]
  rw [hdst]
  simp only [Run.ret_bind, ne_eq, not_true_eq_false, if_false]
  rw [if_pos hdt, hname]
  unfold Run.ofOption
  rw [Run.ret_bind]

theorem c_str_some_spec (a : List Nat) :
    ∀ name, c_str a = some name → (∀ c ∈ name, c ≠ 0) ∧ name.length < a.length := by
  induction a with
  | nil => intro name h; simp [c_str_nil] at h
  | cons x xs ih =>
    intro name h
    rw [c_str_cons] at h
    by_cases hx : x = 0
    · simp only [hx, if_true, Option.some.injEq] at h
      subst h
      simp
    · simp only [hx, if_false] at h
      cases hc : c_str xs with
      | none => rw [hc] at h; cases h
      | some t =>
        rw [hc] at h
        simp only [Option.map_some', Option.some.injEq] at h
        subst h
        obtain ⟨h1, h2⟩ := ih t hc
        refine ⟨?_, by simp only [List.length_cons]; omega⟩
        intro c hcm
        rcases List.mem_cons.mp hcm with rfl | hm
        · exact hx
        · exact h1 c hm

theorem c_str_ne_nil_of_exists (e : dir_entry) (name : List Nat)
    (hx : DirEntryExists e = true) (h : c_str e.file_name = some name) : name ≠ [] := by
  intro hn
  subst hn
  unfold DirEntryExists at hx
  cases hf : e.file_name with
  | nil => rw [hf] at hx; simp at hx
  | cons x xs =>
    rw [hf] at hx h
    rw [c_str_cons] at h
    by_cases hx0 : x = 0
    · simp [hx0] at hx
    · simp only [hx0, if_false] at h
      cases hc : c_str xs with
      | none => rw [hc] at h; cases h
      | some t => rw [hc] at h; cases h

end CpState

section CpMain

/-- What the state left by a successful `cp` holds: the new record, the fresh
chain with the copied blocks, and everything else as it was. -/
theorem FS.withCopy_spec (B fuel fuelS : Nat) (s : FS) (src e : dir_entry) (dirBlock : Nat)
    (cs blk : List Nat) (i b : Nat) (rest : List Nat)
    (hB : B ≤ 65536) (hW : s.WellSized B) (hlen : s.m_fat.length = FAT_SIZE B)
    (hd : FAT_SIZE B ≤ s.m_disk.length)
    (hchain : s.chainFrom B fuelS (src.first_blk : Int) = Run.ret cs)
    (hcs : ∀ x ∈ cs, x < s.m_disk.length ∧ s.m_fat.get? x ≠ some FAT_FREE ∧ x ≠ FAT_BLOCK ∧
      x ≠ dirBlock)
    (hF : s.freeList B cs.length = b :: rest) (hFlen : (b :: rest).length = cs.length)
    (hdirU : s.m_fat.get? dirBlock ≠ some FAT_FREE)
    (hblk : s.m_disk.get? dirBlock = some blk)
    (hi : FS.firstAbsent (dirEntries B blk) = some i)
    (hen : e.file_name.length = 56) (hes : e.size < 4294967296) (hef : e.first_blk = b)
    (het : e.type < 256) (hea : e.access_rights < 256)
    (hfuel : cs.length ≤ fuel) :
    (s.withCopy cs (b :: rest) dirBlock blk i e).m_disk.get? dirBlock = some (setSlot blk i e) ∧
    i < DIR_BLOCK_SIZE B ∧
    DirEntryExists (dir_entry.decode (slotBytes blk i)) = false ∧
    dir_entry.decode (slotBytes (setSlot blk i e) i) = e ∧
    FS.chainFrom B (s.withCopy cs (b :: rest) dirBlock blk i e) fuel (e.first_blk : Int) =
      Run.ret (b :: rest) ∧
    (∀ x ∈ b :: rest, s.m_fat.get? x = some FAT_FREE ∧ x ∉ cs) ∧
    (∀ k c f, cs.get? k = some c → (b :: rest).get? k = some f →
      (s.withCopy cs (b :: rest) dirBlock blk i e).m_disk.get? f = s.m_disk.get? c) ∧
    FS.chainFrom B (s.withCopy cs (b :: rest) dirBlock blk i e) fuelS (src.first_blk : Int) =
      Run.ret cs ∧
    (∀ c ∈ cs, (s.withCopy cs (b :: rest) dirBlock blk i e).m_disk.get? c = s.m_disk.get? c) ∧
    (∀ j, j < DIR_BLOCK_SIZE B → j ≠ i → slotBytes (setSlot blk i e) j = slotBytes blk j) ∧
    (∀ x, x ≠ FAT_BLOCK → x ≠ dirBlock → s.m_fat.get? x ≠ some FAT_FREE →
      (s.withCopy cs (b :: rest) dirBlock blk i e).m_disk.get? x = s.m_disk.get? x) := by
  have hN : FAT_SIZE B ≤ 32768 := by unfold FAT_SIZE; omega
  have hFmem : ∀ x ∈ b :: rest, x < FAT_SIZE B ∧ s.m_fat.get? x = some FAT_FREE := by
    intro x hx
    exact FS.freeList_mem B s cs.length x (by rw [hF]; exact hx)
  have hFnd : (b :: rest).Nodup := by rw [← hF]; exact FS.freeList_nodup B s cs.length
  have hdisj : ∀ x ∈ b :: rest, x ∉ cs := fun x hx hxc => (hcs x hxc).2.1 (hFmem x hx).2
  have hdirF : dirBlock ∉ b :: rest := fun h => hdirU (hFmem dirBlock h).2
  have hdlt : dirBlock < s.m_disk.length := (List.get?_eq_some.mp hblk).1
  have hblkB : blk.length = B := hW blk (List.get?_mem hblk)
  have hiB : i < DIR_BLOCK_SIZE B := by
    have := FS.firstAbsent_some _ i hi
    rwa [dirEntries_length] at this
  have h64 := slot_in_block B i hiB
  have hone : (1 : Nat) = FAT_BLOCK := rfl
  -- the device before the copy loop
  have hbase : ∀ x, x ≠ FAT_BLOCK → x ≠ dirBlock →
      (((s.m_disk.set 1 (fatBytes (FS.linkFAT (b :: rest) s.m_fat))).set dirBlock
        (setSlot blk i e))).get? x = s.m_disk.get? x := by
    intro x hx1 hxd
    rw [List.get?_eq_getElem?, List.getElem?_set_ne (Ne.symm hxd),
      List.getElem?_set_ne (by rw [hone]; exact Ne.symm hx1), List.get?_eq_getElem?]
  have hfat : (s.withCopy cs (b :: rest) dirBlock blk i e).m_fat = FS.linkFAT (b :: rest) s.m_fat :=
    rfl
  refine ⟨?_, hiB, ?_, ?_, ?_, fun x hx => ⟨(hFmem x hx).2, hdisj x hx⟩, ?_, ?_, ?_, ?_, ?_⟩
  · show (FS.copyBlocks _ cs (b :: rest)).get? dirBlock = _
    rw [FS.copyBlocks_get_not_mem cs (b :: rest) _ dirBlock hdirF, List.get?_eq_getElem?,
      List.getElem?_set_self (by simpa using hdlt)]
  · obtain ⟨e1, h1, h2⟩ := FS.firstAbsent_absent _ i hi
    rw [dirEntries_get? B blk i hiB] at h1
    cases h1
    exact h2
  · rw [slotBytes_setSlot_same blk i e (by omega) hen]
    exact dir_entry.decode_encode e hen hes (by rw [hef]; have := (hFmem b (by simp)).1; omega)
      het hea
  · rw [hef]
    exact FS.chainFrom_linkFAT B rest b s.m_fat _ fuel hFnd (fun x hx => (hFmem x hx).1) hlen hfat
      (by rw [hFlen]; exact hfuel)
  · intro k c f hc hf
    show (FS.copyBlocks _ cs (b :: rest)).get? f = _
    have hcm : c ∈ cs := List.get?_mem hc
    rw [FS.copyBlocks_get cs (b :: rest) _ hFlen.symm hFnd hdisj
      (fun x hx => by
        have := (hFmem x hx).1
        simp only [List.length_set]
        omega)
      (fun x hx => by simpa using (hcs x hx).1) k c f hc hf]
    exact hbase c (hcs c hcm).2.2.1 (hcs c hcm).2.2.2
  · apply FS.chainFrom_frame B s _ cs fuelS _ hchain
    intro x hx
    rw [hfat]
    exact FS.linkFAT_get_not_mem (b :: rest) s.m_fat x (fun h => hdisj x h hx)
  · intro c hc
    show (FS.copyBlocks _ cs (b :: rest)).get? c = _
    rw [FS.copyBlocks_get_not_mem cs (b :: rest) _ c (fun h => hdisj c h hc)]
    exact hbase c (hcs c hc).2.2.1 (hcs c hc).2.2.2
  · intro j _ hji
    exact slotBytes_setSlot_other blk i j e (by omega) hen hji
  · intro x hx1 hxd hxU
    show (FS.copyBlocks _ cs (b :: rest)).get? x = _
    rw [FS.copyBlocks_get_not_mem cs (b :: rest) _ x (fun h => hxU (hFmem x h).2)]
    exact hbase x hx1 hxd

end CpMain

theorem sampleTwoFiles_reached :
    sampleWithFile.create 128 5 (str "b") (str "x") = Run.ret (0, sampleTwoFiles) := by
  decide!

theorem sampleFileAndDir_reached :
    sampleWithFile.mkdir 128 (str "d") = Run.ret (0, sampleFileAndDir) := by
  decide!

theorem FS.firstAbsent_below (es : List dir_entry) :
    ∀ i, FS.firstAbsent es = some i →
      ∀ j, j < i → ∃ e, es.get? j = some e ∧ DirEntryExists e = true := by
  induction es with
  | nil => intro i h; simp [FS.firstAbsent] at h
  | cons a t ih =>
    intro i h j hj
    unfold FS.firstAbsent at h
    by_cases ha : DirEntryExists a = true
    · rw [if_pos ha] at h
      cases hf : FS.firstAbsent t with
      | none => rw [hf] at h; cases h
      | some k =>
        rw [hf] at h
        have hik : i = k + 1 := (Option.some.inj h).symm
        cases j with
        | zero => exact ⟨a, rfl, ha⟩
        | succ j =>
          obtain ⟨e, he, hx⟩ := ih k hf j (by omega)
          exact ⟨e, by simpa using he, hx⟩
    · rw [if_neg ha] at h
      have : i = 0 := (Option.some.inj h).symm
      omega

theorem FS.firstAbsent_lowest (B : Nat) (blk : List Nat) (i : Nat)
    (h : FS.firstAbsent (dirEntries B blk) = some i) :
    ∀ j, j < i → DirEntryExists (dir_entry.decode (slotBytes blk j)) = true := by
  intro j hj
  have hi := FS.firstAbsent_some _ i h
  have hlen : (dirEntries B blk).length = DIR_BLOCK_SIZE B := by simp [dirEntries]
  obtain ⟨e, he, hx⟩ := FS.firstAbsent_below _ i h j hj
  rw [dirEntries_get? B blk j (by omega)] at he
  cases he
  exact hx

/-- C10, amended: on a well-formed state (blocks of `BLOCK_SIZE` bytes, a table
of `FAT_SIZE` slots each with a block on the device, the reserved slots in
use), let `sourcepath` resolve to an existing readable File `src` whose chain
`cs` has `CalculateMinBlockCount(size)` blocks, all on the device, in use and
other than the table block and the destination directory's block.  Let the
destination be either a plain name of at most 55 bytes that does not exist
(directory: the working directory, name: the destination) or a path that
resolves to an existing Directory (directory: its first block, name: the
source's).  If the destination directory's block is in use, is not the table
block and has a free slot, and `|cs|` blocks are free, then `cp` succeeds; the
first free slot of that block (the lowest slot whose record is absent) then
holds a record with the source's size, type and rights under that name, whose
first block heads a chain of `|cs|` formerly free blocks, none of them in
`cs`, whose `k`-th block holds what the source's `k`-th block holds; the
source's chain and blocks, the other slots of the directory and every other
in-use block are as before. -/
theorem cp_copies_file (BLOCK_SIZE fuel fuelS : Nat) (s : FS) (sourcepath destpath : List Nat)
    (st : Int) (src d : dir_entry) (cs : List Nat) (dirBlock : Nat) (destName : List Nat)
    (hB : BLOCK_SIZE ≤ 65536) (hW : s.WellSized BLOCK_SIZE)
    (hlen : s.m_fat.length = FAT_SIZE BLOCK_SIZE)
    (hd : FAT_SIZE BLOCK_SIZE ≤ s.m_disk.length) (hd2 : 2 ≤ s.m_disk.length)
    (h0 : s.m_fat.get? 0 ≠ some FAT_FREE) (h1 : s.m_fat.get? 1 ≠ some FAT_FREE)
    (hsv : FilenamesAreValid sourcepath = true)
    (hsrc : s.GetDirEntryPath BLOCK_SIZE (ParseDirPath sourcepath) = Run.ret (st, src))
    (hsx : DirEntryExists src = true) (hst : src.type = TYPE_FILE)
    (hsr : HasValidAccess src READ = true)
    (hchain : s.chainFrom BLOCK_SIZE fuelS (src.first_blk : Int) = Run.ret cs)
    (hcount : CalculateMinBlockCount BLOCK_SIZE (toInt32 src.size) = (cs.length : Int))
    (hcs : ∀ x ∈ cs, x < s.m_disk.length ∧ s.m_fat.get? x ≠ some FAT_FREE ∧ x ≠ FAT_BLOCK ∧
      x ≠ dirBlock)
    (hdst :
      (destpath ≠ [] ∧ (∀ c ∈ destpath, isalnum c = true) ∧ destpath.length ≤ 55 ∧
        s.FilepathExists BLOCK_SIZE destpath = Run.ret false ∧
        dirBlock = s.m_cwdBlock ∧ destName = destpath) ∨
      (FilenamesAreValid destpath = true ∧
        (∃ st2, s.GetDirEntryPath BLOCK_SIZE (ParseDirPath destpath) = Run.ret (st2, d)) ∧
        DirEntryExists d = true ∧ d.type = TYPE_DIR ∧
        dirBlock = d.first_blk ∧ c_str src.file_name = some destName))
    (hfree : cs.length ≤ s.freeCount BLOCK_SIZE)
    (hdirU : s.m_fat.get? dirBlock ≠ some FAT_FREE) (hdir1 : dirBlock ≠ FAT_BLOCK)
    (hslot : ∃ blk, s.m_disk.get? dirBlock = some blk ∧
      FS.firstAbsent (dirEntries BLOCK_SIZE blk) ≠ none)
    (hfuel : cs.length ≤ fuel) :
    ∃ (s1 : FS) (F blk blk1 : List Nat) (i : Nat) (e : dir_entry),
      s.cp BLOCK_SIZE fuel sourcepath destpath = Run.ret (0, s1) ∧
      s.m_disk.get? dirBlock = some blk ∧ s1.m_disk.get? dirBlock = some blk1 ∧
      FS.firstAbsent (dirEntries BLOCK_SIZE blk) = some i ∧
      i < DIR_BLOCK_SIZE BLOCK_SIZE ∧
      DirEntryExists (dir_entry.decode (slotBytes blk i)) = false ∧
      (∀ j, j < i → DirEntryExists (dir_entry.decode (slotBytes blk j)) = true) ∧
      dir_entry.decode (slotBytes blk1 i) = e ∧
      e.size = src.size ∧ e.type = src.type ∧ e.access_rights = src.access_rights ∧
      c_str e.file_name = some destName ∧
      s1.chainFrom BLOCK_SIZE fuel (e.first_blk : Int) = Run.ret F ∧
      F.length = cs.length ∧
      (∀ x ∈ F, s.m_fat.get? x = some FAT_FREE ∧ x ∉ cs) ∧
      (∀ k c f, cs.get? k = some c → F.get? k = some f →
        s1.m_disk.get? f = s.m_disk.get? c) ∧
      s1.chainFrom BLOCK_SIZE fuelS (src.first_blk : Int) = Run.ret cs ∧
      (∀ c ∈ cs, s1.m_disk.get? c = s.m_disk.get? c) ∧
      (∀ j, j < DIR_BLOCK_SIZE BLOCK_SIZE → j ≠ i → slotBytes blk1 j = slotBytes blk j) ∧
      (∀ x, x ≠ FAT_BLOCK → x ≠ dirBlock → s.m_fat.get? x ≠ some FAT_FREE →
        s1.m_disk.get? x = s.m_disk.get? x) := by
  obtain ⟨blk, hblk, hsl⟩ := hslot
  obtain ⟨i, hi⟩ := Option.ne_none_iff_exists'.mp hsl
  obtain ⟨_, hsn, hss, hsf, hsty, hsa⟩ := FS.resolved_wf BLOCK_SIZE s _ st src hW hsrc hsx
  have hcs2 : ∀ x ∈ cs, x < s.m_disk.length ∧ s.m_fat.get? x ≠ some FAT_FREE :=
    fun x hx => ⟨(hcs x hx).1, (hcs x hx).2.1⟩
  have key : s.cp BLOCK_SIZE fuel sourcepath destpath =
        s.cpFinish BLOCK_SIZE fuel src (dirBlock : Int) destName ∧
      destName ≠ [] ∧ (∀ c ∈ destName, c ≠ 0) ∧ destName.length ≤ 55 := by
    rcases hdst with ⟨hne, hal, hn55, hnex, hdb, hdn⟩ | ⟨hdv, ⟨st2, hres⟩, hdx, hdt, hdb, hname⟩
    · subst hdb hdn
      have hparse := ParseDirPath_plain destName hne hal
      have hfind := FS.findName_none_of_not_exists BLOCK_SIZE s destName blk hne hparse hblk hnex
      have hres : s.GetDirEntryPath BLOCK_SIZE (ParseDirPath destName) =
          Run.ret (0, dir_entry.empty) := by
        rw [hparse, FS.GetDirEntryPath_single BLOCK_SIZE s destName blk hblk, hfind]
        rfl
      exact ⟨FS.cp_plain_dest BLOCK_SIZE fuel s sourcepath destName st src dir_entry.empty hsv
          hsrc hsx hst hsr (FilenamesAreValid_plain destName hne hal (by omega)) hres
          (by decide) DirEntryExists_empty (HasSpecialCharacters_plain destName hal),
        hne, fun c hc => isalnum_ne_zero c (hal c hc), hn55⟩
    · subst hdb
      obtain ⟨hst2, _⟩ := FS.resolved_wf BLOCK_SIZE s _ st2 d hW hres hdx
      subst hst2
      obtain ⟨hn0, hnl⟩ := c_str_some_spec _ _ hname
      exact ⟨FS.cp_dir_dest BLOCK_SIZE fuel s sourcepath destpath st src d destName hsv hsrc hsx
          hst hsr hdv hres hdt hname,
        c_str_ne_nil_of_exists src destName hsx hname, hn0, by omega⟩
  obtain ⟨hcp, hne, hn0, hn55⟩ := key
  have hfin := FS.cpFinish_ok BLOCK_SIZE fuel fuelS s src dirBlock destName cs blk i hB hlen hd hd2
    h0 h1 hsn hchain hcount hcs2 hfree hne hn0 hn55 hdir1 hblk hi hfuel
  have hn1 := FS.chainFrom_natCast_ne_nil BLOCK_SIZE s fuelS _ cs hchain
  have hFlen := FS.freeList_length BLOCK_SIZE s cs.length hfree
  obtain ⟨b, rest, hF⟩ : ∃ b rest, s.freeList BLOCK_SIZE cs.length = b :: rest := by
    cases hfl : s.freeList BLOCK_SIZE cs.length with
    | nil => rw [hfl] at hFlen; simp at hFlen; omega
    | cons b rest => exact ⟨b, rest, rfl⟩
  rw [hF] at hfin hFlen
  obtain ⟨p1, p2, p3, p4, p5, p6, p7, p8, p9, p10, p11⟩ :=
    FS.withCopy_spec BLOCK_SIZE fuel fuelS s src
      { src with
        file_name := destName ++ 0 :: src.file_name.drop (destName.length + 1),
        first_blk := b }
      dirBlock cs blk i b rest hB hW hlen hd hchain hcs hF hFlen hdirU hblk hi
      (by
        show (destName ++ 0 :: src.file_name.drop (destName.length + 1)).length = 56
        rw [strcpy_plain_length src.file_name destName (by omega)]
        exact hsn)
      hss rfl hsty hsa hfuel
  exact ⟨_, b :: rest, blk, _, i, _, by rw [hcp]; exact hfin, hblk, p1, hi, p2, p3,
    FS.firstAbsent_lowest BLOCK_SIZE blk i hi, p4, rfl, rfl, rfl,
    c_str_append_zero destName _ hn0, p5, hFlen, p6, p7, p8, p9, p10, p11⟩

theorem cp_copies_file_witness :
    sampleWithFile.FilepathExists 128 (str "b") = Run.ret false ∧
    ∃ (s1 : FS) (F blk blk1 : List Nat) (i : Nat) (e : dir_entry),
      sampleWithFile.cp 128 1 (str "a") (str "b") = Run.ret (0, s1) ∧
      sampleWithFile.m_disk.get? 0 = some blk ∧ s1.m_disk.get? 0 = some blk1 ∧
      FS.firstAbsent (dirEntries 128 blk) = some i ∧
      i < DIR_BLOCK_SIZE 128 ∧
      DirEntryExists (dir_entry.decode (slotBytes blk i)) = false ∧
      (∀ j, j < i → DirEntryExists (dir_entry.decode (slotBytes blk j)) = true) ∧
      dir_entry.decode (slotBytes blk1 i) = e ∧
      e.size = sampleFileEntry.size ∧ e.type = sampleFileEntry.type ∧
      e.access_rights = sampleFileEntry.access_rights ∧
      c_str e.file_name = some (str "b") ∧
      s1.chainFrom 128 1 (e.first_blk : Int) = Run.ret F ∧
      F.length = [2].length ∧
      (∀ x ∈ F, sampleWithFile.m_fat.get? x = some FAT_FREE ∧ x ∉ [2]) ∧
      (∀ k c f, [2].get? k = some c → F.get? k = some f →
        s1.m_disk.get? f = sampleWithFile.m_disk.get? c) ∧
      s1.chainFrom 128 1 (sampleFileEntry.first_blk : Int) = Run.ret [2] ∧
      (∀ c ∈ [2], s1.m_disk.get? c = sampleWithFile.m_disk.get? c) ∧
      (∀ j, j < DIR_BLOCK_SIZE 128 → j ≠ i → slotBytes blk1 j = slotBytes blk j) ∧
      (∀ x, x ≠ FAT_BLOCK → x ≠ 0 → sampleWithFile.m_fat.get? x ≠ some FAT_FREE →
        s1.m_disk.get? x = sampleWithFile.m_disk.get? x) :=
  ⟨by decide!,
   cp_copies_file 128 1 1 sampleWithFile (str "a") (str "b") 0 sampleFileEntry dir_entry.empty
     [2] 0 (str "b") (by decide) sampleWithFile_wellSized (by decide!) (by decide!) (by decide!)
     (by decide!) (by decide!) (by decide!) (by decide!) (by decide!) (by decide!) (by decide!)
     (by decide!) (by decide!) (by decide!)
     (Or.inl ⟨by decide, by decide, by decide, by decide!, rfl, rfl⟩)
     (by decide!) (by decide!) (by decide) ⟨_, rfl, by decide!⟩ (by decide)⟩

/-- C10 as stated fails for a plain destination name when the working
directory has no free slot, which the claim asks of a destination Directory
only.  With 128-byte blocks a directory has two slots; after `create("a")` and
`create("b")` the root is full.  The source `a` is an existing readable File
whose chain `[2]` has `ceil(6 / 128) = 1` block, `c` is a plain name that does
not exist and 60 blocks are free, yet `cp("a", "c")` returns `ERROR_CODE` and
no record `c` exists afterwards. -/
theorem cp_full_working_directory_counterexample :
    sampleWithFile.create 128 5 (str "b") (str "x") = Run.ret (0, sampleTwoFiles) ∧
    sampleTwoFiles.GetDirEntryPath 128 (ParseDirPath (str "a")) =
      Run.ret (0, sampleFileEntry) ∧
    (DirEntryExists sampleFileEntry = true ∧ sampleFileEntry.type = TYPE_FILE ∧
      HasValidAccess sampleFileEntry READ = true) ∧
    sampleTwoFiles.chainFrom 128 5 (sampleFileEntry.first_blk : Int) = Run.ret [2] ∧
    CalculateMinBlockCount 128 (toInt32 sampleFileEntry.size) = 1 ∧
    (FilenamesAreValid (str "c") = true ∧ HasSpecialCharacters (str "c") = false) ∧
    sampleTwoFiles.FilepathExists 128 (str "c") = Run.ret false ∧
    sampleTwoFiles.freeCount 128 = 60 ∧
    (sampleTwoFiles.cp 128 5 (str "a") (str "c")).bind (fun r => Run.ret r.1) =
      Run.ret ERROR_CODE ∧
    (sampleTwoFiles.cp 128 5 (str "a") (str "c")).bind
      (fun r => r.2.FilepathExists 128 (str "c")) = Run.ret false := by
  refine ⟨by decide!, by decide!, by decide!, by decide!, by decide!, by decide!, by decide!,
    by decide!, by decide!, by decide!⟩

/-- The Directory branch of `cp` on a concrete state: with the file `a` and the
directory `d` in the root, `cp("a", "d")` succeeds and `cat("/d/a")` then sends
the content of `a`. -/
theorem cp_into_directory_example :
    sampleWithFile.mkdir 128 (str "d") = Run.ret (0, sampleFileAndDir) ∧
    (sampleFileAndDir.cp 128 5 (str "a") (str "d")).bind (fun r =>
      (r.2.cat 128 5 (str "/d/a")).bind (fun c => Run.ret (r.1, c.1, c.2.2))) =
    Run.ret (0, 0, str "hello" ++ [10, 10]) := by
  refine ⟨by decide!, by decide!⟩

section PathLemmas

theorem HasSpecialCharacters_eq_false_iff (seg : List Nat) :
    HasSpecialCharacters seg = false ↔ seg = str ".." ∨ ∀ c ∈ seg, isalnum c = true := by
  unfold HasSpecialCharacters
  by_cases h : seg = str ".."
  · simp [h]
  · simp only [h, if_false, false_or, List.any_eq_false, Bool.not_eq_true', Bool.not_eq_false]

/-- The loop of `FilenamesAreValid` on an Absolute or Relative path: every
segment is at most 56 bytes long and free of special characters, except that
the first segment of a Relative path may be `.`. -/
theorem FilenamesAreValidLoop_iff (t : PATH_TYPE)
    (ht : t = PATH_TYPE.ABSOLUTE ∨ t = PATH_TYPE.RELATIVE) :
    ∀ (segs : List (List Nat)) (i : Nat),
      FilenamesAreValidLoop t i segs = true ↔
        ∀ k seg, segs.get? k = some seg →
          seg.length ≤ 56 ∧
            (HasSpecialCharacters seg = false ∨
              (seg = str "." ∧ i + k = 0 ∧ t = PATH_TYPE.RELATIVE)) := by
  intro segs
  induction segs with
  | nil => intro i; simp [FilenamesAreValidLoop]
  | cons seg rest ih =>
    intro i
    have hstep : (∀ k s, (seg :: rest).get? k = some s →
          s.length ≤ 56 ∧
            (HasSpecialCharacters s = false ∨
              (s = str "." ∧ i + k = 0 ∧ t = PATH_TYPE.RELATIVE))) ↔
        (seg.length ≤ 56 ∧
            (HasSpecialCharacters seg = false ∨
              (seg = str "." ∧ i = 0 ∧ t = PATH_TYPE.RELATIVE))) ∧
          ∀ k s, rest.get? k = some s →
            s.length ≤ 56 ∧
              (HasSpecialCharacters s = false ∨
                (s = str "." ∧ i + 1 + k = 0 ∧ t = PATH_TYPE.RELATIVE)) := by
      constructor
      · intro h
        refine ⟨by simpa using h 0 seg rfl, fun k s hk => ?_⟩
        have := h (k + 1) s (by simpa using hk)
        rwa [show i + (k + 1) = i + 1 + k by omega] at this
      · rintro ⟨h0, hr⟩ k s hk
        cases k with
        | zero =>
          simp only [List.get?_cons_zero, Option.some.injEq] at hk
          subst hk
          simpa using h0
        | succ k =>
          have := hr k s (by simpa using hk)
          rwa [show i + 1 + k = i + (k + 1) by omega] at this
    rw [hstep, ← ih (i + 1)]
    have hcons : FilenamesAreValidLoop t i (seg :: rest) =
        (if HasSpecialCharacters seg then
          if t ≠ PATH_TYPE.ABSOLUTE ∧ t ≠ PATH_TYPE.RELATIVE then false
          else if i ≠ 0 then false
          else if t = PATH_TYPE.ABSOLUTE ∧ seg ≠ [] then false
          else if t = PATH_TYPE.RELATIVE ∧ ¬ (seg = str ".") then false
          else if seg.length > FILE_NAME_SIZE then false
          else FilenamesAreValidLoop t (i + 1) rest
        else if seg.length > FILE_NAME_SIZE then false
        else FilenamesAreValidLoop t (i + 1) rest) := rfl
    rw [hcons]
    generalize FilenamesAreValidLoop t (i + 1) rest = R
    have hnil : HasSpecialCharacters [] = false := by decide
    have hdotlen : (str ".").length = 1 := rfl
    by_cases hsp : HasSpecialCharacters seg = true
    · have hsne : seg ≠ [] := by
        intro h
        rw [h, hnil] at hsp
        cases hsp
      have hspf : ¬ HasSpecialCharacters seg = false := by simp [hsp]
      simp only [hsp, if_true, FILE_NAME_SIZE, hspf, false_or]
      rcases ht with rfl | rfl
      · simp [hsne]
      · by_cases hi : i = 0
        · by_cases hd : seg = str "."
          · subst hd
            simp [hi, hdotlen]
          · simp [hi, hd]
        · simp [hi]
    · have hspf : HasSpecialCharacters seg = false := by simpa using hsp
      simp only [hspf, Bool.false_eq_true, if_false, FILE_NAME_SIZE, true_or, and_true]
      by_cases hl : seg.length > 56
      · have : ¬ seg.length ≤ 56 := by omega
        simp [hl, this]
      · have : seg.length ≤ 56 := by omega
        simp [hl, this]

theorem path_classification_aux (segs : List (List Nat)) :
    EvaluatePathType segs = PATH_TYPE.ROOT ↔ segs = [[]] := by
  cases segs with
  | nil => simp [EvaluatePathType]
  | cons a rest =>
    cases rest with
    | nil =>
      by_cases ha : a = []
      · simp [EvaluatePathType, ha]
      · simp [EvaluatePathType, ha]
    | cons b rest =>
      have hd1 : str "." ≠ ([] : List Nat) := by decide
      have hd2 : str ".." ≠ ([] : List Nat) := by decide
      by_cases h1 : a = str "."
      · subst h1
        simp [EvaluatePathType, hd1]
      · by_cases h2 : a = str ".."
        · subst h2
          simp [EvaluatePathType, hd2]
        · by_cases h3 : a = []
          · subst h3
            simp [EvaluatePathType, hd1.symm, hd2.symm]
          · simp [EvaluatePathType, h1, h2, h3]

end PathLemmas

/-- C19, amended: the class of a path is decided by its segment list alone.
It is Root iff the list is the single empty segment; Absolute iff there is
more than one segment and the first is empty; Relative iff there is exactly
one segment and it is not empty (whatever its characters), or there is more
than one segment and the first is `.` or `..`; Invalid otherwise, that is, for
no segment at all or for several segments whose first is anything else, a
plain name included. -/
theorem path_classification (p : List Nat) :
    (EvaluatePathType (ParseDirPath p) = PATH_TYPE.ROOT ↔ ParseDirPath p = [[]]) ∧
    (EvaluatePathType (ParseDirPath p) = PATH_TYPE.ABSOLUTE ↔
      1 < (ParseDirPath p).length ∧ (ParseDirPath p).head? = some []) ∧
    (EvaluatePathType (ParseDirPath p) = PATH_TYPE.RELATIVE ↔
      ((ParseDirPath p).length = 1 ∧ (ParseDirPath p).head? ≠ some []) ∨
      (1 < (ParseDirPath p).length ∧
        ((ParseDirPath p).head? = some (str ".") ∨ (ParseDirPath p).head? = some (str "..")))) ∧
    (EvaluatePathType (ParseDirPath p) = PATH_TYPE.INVALID ↔
      ParseDirPath p = [] ∨
      (1 < (ParseDirPath p).length ∧ (ParseDirPath p).head? ≠ some [] ∧
        (ParseDirPath p).head? ≠ some (str ".") ∧ (ParseDirPath p).head? ≠ some (str ".."))) := by
  generalize ParseDirPath p = segs
  have hd1 : str "." ≠ ([] : List Nat) := by decide
  have hd2 : str ".." ≠ ([] : List Nat) := by decide
  cases segs with
  | nil => simp [EvaluatePathType]
  | cons a rest =>
    cases rest with
    | nil =>
      by_cases ha : a = []
      · simp [EvaluatePathType, ha]
      · simp [EvaluatePathType, ha]
    | cons b rest =>
      by_cases h1 : a = str "."
      · subst h1
        simp [EvaluatePathType, hd1]
      · by_cases h2 : a = str ".."
        · subst h2
          simp [EvaluatePathType, hd2]
        · by_cases h3 : a = []
          · subst h3
            simp [EvaluatePathType, hd1.symm, hd2.symm]
          · simp [EvaluatePathType, h1, h2, h3]

/-- C19 as stated fails in both directions: `foo/bar`, several segments
beginning with a plain name, is Invalid and not Relative, and the single
segment `a.b`, which is neither `.`, `..` nor a plain name, is Relative. -/
theorem path_classification_counterexample :
    ParseDirPath (str "foo/bar") = [str "foo", str "bar"] ∧
    EvaluatePathType (ParseDirPath (str "foo/bar")) = PATH_TYPE.INVALID ∧
    ParseDirPath (str "a.b") = [str "a.b"] ∧
    HasSpecialCharacters (str "a.b") = true ∧
    EvaluatePathType (ParseDirPath (str "a.b")) = PATH_TYPE.RELATIVE := by
  decide

/-- C20: `FilenamesAreValid(p)` holds iff `p` is not empty, its class is not
Invalid, and either the class is Root or every segment is at most 56 bytes
long and alphanumeric only (the empty segment included), or is `..`, or is `.`
at position 0 of a Relative path.  In particular a segment at position 1 or
later that holds a non-alphanumeric character and is not `..` makes the path
invalid. -/
theorem filenamesAreValid_iff (p : List Nat) :
    (FilenamesAreValid p = true ↔
      p ≠ [] ∧ EvaluatePathType (ParseDirPath p) ≠ PATH_TYPE.INVALID ∧
      (EvaluatePathType (ParseDirPath p) = PATH_TYPE.ROOT ∨
        ∀ i seg, (ParseDirPath p).get? i = some seg →
          (seg.length ≤ 56 ∧ ∀ c ∈ seg, isalnum c = true) ∨ seg = str ".." ∨
          (seg = str "." ∧ i = 0 ∧
            EvaluatePathType (ParseDirPath p) = PATH_TYPE.RELATIVE))) ∧
    (∀ i seg, 1 ≤ i → (ParseDirPath p).get? i = some seg → seg ≠ str ".." →
      (∃ c ∈ seg, isalnum c = false) → FilenamesAreValid p = false) := by
  have hshape : ∀ seg : List Nat, ∀ i : Nat, ∀ t : PATH_TYPE,
      (seg.length ≤ 56 ∧
        (HasSpecialCharacters seg = false ∨ (seg = str "." ∧ 0 + i = 0 ∧ t = PATH_TYPE.RELATIVE))) ↔
      ((seg.length ≤ 56 ∧ ∀ c ∈ seg, isalnum c = true) ∨ seg = str ".." ∨
        (seg = str "." ∧ i = 0 ∧ t = PATH_TYPE.RELATIVE)) := by
    intro seg i t
    rw [HasSpecialCharacters_eq_false_iff, Nat.zero_add]
    constructor
    · rintro ⟨hl, (h | h) | h⟩
      · exact Or.inr (Or.inl h)
      · exact Or.inl ⟨hl, h⟩
      · exact Or.inr (Or.inr h)
    · rintro (⟨hl, h⟩ | h | h)
      · exact ⟨hl, Or.inl (Or.inr h)⟩
      · subst h
        exact ⟨by decide, Or.inl (Or.inl rfl)⟩
      · obtain ⟨h1, h2⟩ := h
        subst h1
        exact ⟨by decide, Or.inr ⟨rfl, h2⟩⟩
  have main : FilenamesAreValid p = true ↔
      p ≠ [] ∧ EvaluatePathType (ParseDirPath p) ≠ PATH_TYPE.INVALID ∧
      (EvaluatePathType (ParseDirPath p) = PATH_TYPE.ROOT ∨
        ∀ i seg, (ParseDirPath p).get? i = some seg →
          (seg.length ≤ 56 ∧ ∀ c ∈ seg, isalnum c = true) ∨ seg = str ".." ∨
          (seg = str "." ∧ i = 0 ∧
            EvaluatePathType (ParseDirPath p) = PATH_TYPE.RELATIVE)) := by
    unfold FilenamesAreValid
    by_cases hp : p = []
    · simp [hp]
    · rw [if_neg hp]
      by_cases hI : EvaluatePathType (ParseDirPath p) = PATH_TYPE.INVALID
      · simp [hI]
      · rw [if_neg hI]
        by_cases hR : EvaluatePathType (ParseDirPath p) = PATH_TYPE.ROOT
        · simp [hR, hp]
        · rw [if_neg hR]
          have ht : EvaluatePathType (ParseDirPath p) = PATH_TYPE.ABSOLUTE ∨
              EvaluatePathType (ParseDirPath p) = PATH_TYPE.RELATIVE := by
            cases h : EvaluatePathType (ParseDirPath p) with
            | INVALID => exact absurd h hI
            | ROOT => exact absurd h hR
            | RELATIVE => exact Or.inr rfl
            | ABSOLUTE => exact Or.inl rfl
          rw [FilenamesAreValidLoop_iff _ ht _ 0]
          constructor
          · intro h
            exact ⟨hp, hI, Or.inr (fun i seg hg => (hshape seg i _).mp (h i seg hg))⟩
          · rintro ⟨_, _, h | h⟩
            · exact absurd h hR
            · exact fun i seg hg => (hshape seg i _).mpr (h i seg hg)
  refine ⟨main, ?_⟩
  intro i seg hi hget hne hex
  by_contra hv
  have hv1 : FilenamesAreValid p = true := by simpa using hv
  obtain ⟨_, _, h3⟩ := main.mp hv1
  have hlen : i < (ParseDirPath p).length := (List.get?_eq_some.mp hget).1
  rcases h3 with h3 | h3
  · have hroot := ((path_classification_aux (ParseDirPath p)).mp h3)
    rw [hroot] at hlen
    simp at hlen
    omega
  · obtain ⟨c, hc, hcal⟩ := hex
    rcases h3 i seg hget with ⟨_, h⟩ | h | ⟨_, h, _⟩
    · rw [h c hc] at hcal
      cases hcal
    · exact hne h
    · omega

theorem sampleWide_reached : sampleWideRaw.format 256 = Run.ret (0, sampleWide) := by
  decide!

/-- C17 fails: `cp` into a Directory never looks for the name in that
Directory.  On a formatted device of 128 blocks of 256 bytes, `create("a")`,
`mkdir("d")` and two calls of `cp("a", "d")` all succeed, and the block of `d`
(block 3) then holds two occupied records named `a` after its `..` record. -/
theorem name_uniqueness_broken_by_cp :
    sampleWideRaw.format 256 = Run.ret (0, sampleWide) ∧
    (sampleWide.create 256 5 (str "a") (str "hello")).bind (fun r1 =>
      (r1.2.mkdir 256 (str "d")).bind (fun r2 =>
        (r2.2.cp 256 5 (str "a") (str "d")).bind (fun r3 =>
          (r3.2.cp 256 5 (str "a") (str "d")).bind (fun r4 =>
            Run.ret ([r1.1, r2.1, r3.1, r4.1],
              (dirEntries 256 (r4.2.m_disk.getD 3 [])).map
                (fun e => (DirEntryExists e, c_str e.file_name))))))) =
      Run.ret ([0, 0, 0, 0],
        [(true, some (str "..")), (true, some (str "a")), (true, some (str "a")),
          (false, some [])]) := by
  refine ⟨by decide!, by decide!⟩

/-- C14 fails when the sizes add up to an exact multiple of the block size.
With 128-byte blocks, `a` and `b` are created from lines of 63 bytes, so each
holds 64 bytes; `append("a", "b")` returns `ERROR_CODE`, and `cat("b")` then
sends only its own line end: the size field of `b` says 128 and its block has
been overwritten with zeros. -/
theorem append_exact_multiple_fails :
    (sampleFormatted.create 128 5 (str "a") (List.replicate 63 120)).bind (fun r1 =>
      (r1.2.create 128 5 (str "b") (List.replicate 63 121)).bind (fun r2 =>
        (r2.2.GetDirEntryPath 128 (ParseDirPath (str "a"))).bind (fun ea =>
          (r2.2.GetDirEntryPath 128 (ParseDirPath (str "b"))).bind (fun eb =>
            Run.ret ([r1.1, r2.1], [ea.2.size, eb.2.size, ea.2.type, eb.2.type,
              ea.2.access_rights, eb.2.access_rights]))))) =
      Run.ret ([0, 0], [64, 64, TYPE_FILE, TYPE_FILE, 6, 6]) ∧
    (sampleFormatted.create 128 5 (str "a") (List.replicate 63 120)).bind (fun r1 =>
      (r1.2.create 128 5 (str "b") (List.replicate 63 121)).bind (fun r2 =>
        (r2.2.cat 128 5 (str "b")).bind (fun c0 =>
          (r2.2.append 128 5 (str "a") (str "b")).bind (fun ap =>
            (ap.2.cat 128 5 (str "b")).bind (fun c =>
              (ap.2.GetDirEntryPath 128 (ParseDirPath (str "b"))).bind (fun eb =>
                Run.ret ([c0.1, ap.1, c.1], decide (c0.2.2 = List.replicate 63 121 ++ [10, 10]),
                  c.2.2, eb.2.size))))))) =
      Run.ret ([0, ERROR_CODE, 0], true, [10], 128) := by
  refine ⟨by decide!, by decide!⟩

/-- The scenario of the specification for `append`, away from the exact
multiples: `append("a", "b")` succeeds and `b` then reads as its old content
followed by the content of `a`. -/
theorem append_example :
    (sampleFormatted.create 128 5 (str "a") (str "hello")).bind (fun r1 =>
      (r1.2.create 128 5 (str "b") (str "world")).bind (fun r2 =>
        (r2.2.append 128 5 (str "a") (str "b")).bind (fun ap =>
          (ap.2.cat 128 5 (str "b")).bind (fun c =>
            Run.ret ([r1.1, r2.1, ap.1, c.1], c.2.2))))) =
      Run.ret ([0, 0, 0, 0], str "world" ++ [10] ++ str "hello" ++ [10] ++ [10]) := by
  decide!

/-- C11 as stated fails: on the state with the readable File `a` and the
Directory `d` in the root, `b` being a fresh plain name in `d`,
`cp("/a", "/d/b")` returns `ERROR_CODE` without changing anything, because the
destination does not resolve to a Directory and holds the special character
`/`; `cat("/d/b")` then fails, and `mv("/a", "/d/b")` is rejected the same way. -/
theorem cp_multi_segment_counterexample :
    sampleFileAndDir.GetDirEntryPath 128 (ParseDirPath (str "/a")) =
      Run.ret (0, sampleFileEntry) ∧
    sampleFileAndDir.GetDirEntryPath 128 (ParseDirPath (str "/d")) =
      Run.ret (0, sampleSubdirEntry) ∧
    (HasValidAccess sampleFileEntry READ = true ∧ sampleFileEntry.type = TYPE_FILE ∧
      sampleSubdirEntry.type = TYPE_DIR) ∧
    (FilenamesAreValid (str "/d/b") = true ∧
      sampleFileAndDir.FilepathExists 128 (str "/d/b") = Run.ret false) ∧
    sampleFileAndDir.cp 128 5 (str "/a") (str "/d/b") = Run.ret (ERROR_CODE, sampleFileAndDir) ∧
    sampleFileAndDir.cat 128 5 (str "/d/b") = Run.ret (ERROR_CODE, sampleFileAndDir, []) ∧
    sampleFileAndDir.mv 128 (str "/a") (str "/d/b") = Run.ret (ERROR_CODE, sampleFileAndDir) := by
  refine ⟨by decide!, by decide!, by decide!, by decide!, by decide!, by decide!, by decide!⟩

/-- What does work in place of the scenario of C11: naming the Directory
itself copies into it under the source's name, and a rename takes a plain
name: after `cp("/a", "/d")` and `mv("/d/a", "c")`, `cat("/d/c")` sends the
content of `a` and `cat("/d/a")` fails. -/
theorem cp_mv_into_directory_example :
    (sampleFileAndDir.cp 128 5 (str "/a") (str "/d")).bind (fun r =>
      (r.2.cat 128 5 (str "/d/a")).bind (fun c1 =>
        (r.2.mv 128 (str "/d/a") (str "c")).bind (fun m =>
          (m.2.cat 128 5 (str "/d/c")).bind (fun c2 =>
            (m.2.cat 128 5 (str "/d/a")).bind (fun c3 =>
              Run.ret ([r.1, c1.1, m.1, c2.1, c3.1], c1.2.2, c2.2.2)))))) =
      Run.ret ([0, 0, 0, 0, ERROR_CODE], str "hello" ++ [10, 10], str "hello" ++ [10, 10]) := by
  decide!

section RejectLemmas

theorem HasSpecialCharacters_of_slash (p : List Nat) (h : 47 ∈ p) :
    HasSpecialCharacters p = true := by
  unfold HasSpecialCharacters
  have hne : p ≠ str ".." := by
    intro hp
    rw [hp] at h
    revert h
    decide
  rw [if_neg hne]
  exact List.any_eq_true.mpr ⟨47, h, by decide⟩

/-- A path that resolves has a parent directory that resolves. -/
theorem FS.GetDirEntryPath_ret_parent (B : Nat) (s : FS) (segs : List (List Nat))
    (r : Int × dir_entry) (h : s.GetDirEntryPath B segs = Run.ret r) :
    ∃ pb, s.GetDirectoryBlock B segs.dropLast = Run.ret pb := by
  unfold FS.GetDirEntryPath at h
  cases hl : segs.getLast? with
  | none => rw [hl] at h; cases h
  | some last =>
    rw [hl] at h
    cases hp : s.GetDirectoryBlock B segs.dropLast with
    | ret pb => exact ⟨pb, rfl⟩
    | undef => rw [hp] at h; cases h
    | spin => rw [hp] at h; cases h
    | thrown => rw [hp] at h; cases h

/-- `cp` on a destination that does not resolve to a Directory and holds a
special character. -/
theorem FS.cp_special_dest (B fuel : Nat) (s : FS) (sourcepath destpath : List Nat)
    (st st2 : Int) (src d : dir_entry)
    (hsrc : s.GetDirEntryPath B (ParseDirPath sourcepath) = Run.ret (st, src))
    (hdst : s.GetDirEntryPath B (ParseDirPath destpath) = Run.ret (st2, d))
    (hdt : d.type ≠ TYPE_DIR) (hsp : HasSpecialCharacters destpath = true) :
    s.cp B fuel sourcepath destpath = Run.ret (ERROR_CODE, s) := by
  unfold FS.cp
  generalize FS.cpFinish B fuel s = K
  rw [FS.FilepathExists_of_res B s sourcepath st src hsrc]
  by_cases hv : (!FilenamesAreValid sourcepath || !FilenamesAreValid destpath) = true
  · rw [if_pos hv]
  · rw [if_neg hv]
    simp only [Run.ret_bind]
    by_cases hx : (!DirEntryExists src) = true
    · rw [if_pos hx]
    · rw [if_neg hx, hsrc]
      simp only [Run.ret_bind]
      rw [if_neg hx]
      by_cases ht : (decide (src.type ≠ TYPE_FILE) || !HasValidAccess src READ) = true
      · rw [if_pos ht]
      · rw [if_neg ht, hdst]
        simp only [Run.ret_bind]
        by_cases h0 : st2 ≠ 0
        · rw [if_pos h0]
        · rw [if_neg h0, if_neg hdt]
          have : (DirEntryExists d || HasSpecialCharacters destpath) = true := by
            rw [hsp]
            simp
          rw [if_pos this]

/-- `mv` on a destination that does not resolve to a Directory and holds a
special character or exists. -/
theorem FS.mv_rejected_dest (B : Nat) (s : FS) (sourcepath destpath : List Nat)
    (st st2 : Int) (src d : dir_entry)
    (hsrc : s.GetDirEntryPath B (ParseDirPath sourcepath) = Run.ret (st, src))
    (hdst : s.GetDirEntryPath B (ParseDirPath destpath) = Run.ret (st2, d))
    (hdt : d.type ≠ TYPE_DIR)
    (hsp : (DirEntryExists d || HasSpecialCharacters destpath) = true) :
    s.mv B sourcepath destpath = Run.ret (ERROR_CODE, s) := by
  obtain ⟨pb, hpb⟩ := FS.GetDirEntryPath_ret_parent B s _ _ hsrc
  unfold FS.mv
  rw [FS.FilepathExists_of_res B s sourcepath st src hsrc]
  by_cases hv : (!FilenamesAreValid sourcepath || !FilenamesAreValid destpath) = true
  · rw [if_pos hv]
  · rw [if_neg hv]
    simp only [Run.ret_bind]
    by_cases hx : (!DirEntryExists src) = true
    · rw [if_pos hx]
    · rw [if_neg hx, hsrc]
      simp only [Run.ret_bind]
      by_cases ht : src.type = TYPE_DIR
      · rw [if_pos ht]
      · rw [if_neg ht, hpb, hdst]
        simp only [Run.ret_bind]
        by_cases h0 : st2 ≠ 0
        · rw [if_pos h0]
        · rw [if_neg h0, if_neg hdt, if_pos hsp]

end RejectLemmas

/-- C11, amended: `cp` and `mv` take a destination holding `/` only when it
resolves to an existing Directory.  For every source path that resolves and
every destination path that holds a `/` and resolves to a record that is not a
Directory (as `/d/b` does for a name `b` that is fresh in `d`), `cp` and `mv`
return `ERROR_CODE` and leave the state as it was; if moreover the destination
does not exist, `cat` of it fails as before. -/
theorem multi_segment_destination_rejected (BLOCK_SIZE fuel : Nat) (s : FS)
    (sourcepath destpath : List Nat) (st st2 : Int) (src d : dir_entry)
    (hsrc : s.GetDirEntryPath BLOCK_SIZE (ParseDirPath sourcepath) = Run.ret (st, src))
    (hdst : s.GetDirEntryPath BLOCK_SIZE (ParseDirPath destpath) = Run.ret (st2, d))
    (hslash : 47 ∈ destpath) (hdt : d.type ≠ TYPE_DIR) :
    s.cp BLOCK_SIZE fuel sourcepath destpath = Run.ret (ERROR_CODE, s) ∧
    s.mv BLOCK_SIZE sourcepath destpath = Run.ret (ERROR_CODE, s) ∧
    (DirEntryExists d = false →
      s.cat BLOCK_SIZE fuel destpath = Run.ret (ERROR_CODE, s, [])) := by
  have hsp := HasSpecialCharacters_of_slash destpath hslash
  refine ⟨FS.cp_special_dest BLOCK_SIZE fuel s sourcepath destpath st st2 src d hsrc hdst hdt hsp,
    FS.mv_rejected_dest BLOCK_SIZE s sourcepath destpath st st2 src d hsrc hdst hdt
      (by rw [hsp]; simp), ?_⟩
  intro hx
  rw [FS.cat_of_res BLOCK_SIZE fuel s destpath st2 d hdst]
  exact if_pos (Or.inr (Or.inl hx))

theorem multi_segment_destination_rejected_witness :
    sampleFileAndDir.cp 128 5 (str "/a") (str "/d/b") = Run.ret (ERROR_CODE, sampleFileAndDir) ∧
    sampleFileAndDir.mv 128 (str "/a") (str "/d/b") = Run.ret (ERROR_CODE, sampleFileAndDir) ∧
    (DirEntryExists dir_entry.empty = false →
      sampleFileAndDir.cat 128 5 (str "/d/b") = Run.ret (ERROR_CODE, sampleFileAndDir, [])) :=
  multi_segment_destination_rejected 128 5 sampleFileAndDir (str "/a") (str "/d/b") 0 0
    sampleFileEntry dir_entry.empty (by decide!) (by decide!) (by decide) (by decide)

section RenameLemmas

theorem findName_none_of_all_ne (name : List Nat) :
    ∀ (es : List dir_entry),
      (∀ e ∈ es, ∃ n, c_str e.file_name = some n ∧ n ≠ name) →
      FS.findName name es = Run.ret none := by
  intro es
  induction es with
  | nil => intro _; rfl
  | cons e es ih =>
    intro h
    obtain ⟨n, hn, hne⟩ := h e (by simp)
    unfold FS.findName
    rw [hn]
    simp only [hne, if_false]
    rw [ih (fun x hx => h x (List.mem_cons_of_mem _ hx))]
    rfl

/-- A plain name that does not exist resolves to the all-zero record. -/
theorem FS.resolve_plain_absent (B : Nat) (s : FS) (name : List Nat) (hne : name ≠ [])
    (hal : ∀ c ∈ name, isalnum c = true)
    (hnex : s.FilepathExists B name = Run.ret false) :
    s.GetDirEntryPath B (ParseDirPath name) = Run.ret (0, dir_entry.empty) := by
  have hparse := ParseDirPath_plain name hne hal
  cases hblk : s.m_disk.get? s.m_cwdBlock with
  | some blk =>
    have hfind := FS.findName_none_of_not_exists B s name blk hne hparse hblk hnex
    rw [hparse, FS.GetDirEntryPath_single B s name blk hblk, hfind]
    rfl
  | none =>
    rw [hparse]
    unfold FS.GetDirEntryPath
    simp only [List.getLast?_singleton, List.dropLast_single, FS.GetDirectoryBlock,
      List.length_nil, if_true, Run.ret_bind, natCast_ne_ERROR_CODE, ne_eq, not_false_eq_true]
    unfold FS.GetDirEntry
    rw [Disk.read_natCast, hblk]
    rfl

end RenameLemmas

section RenameCore

/-- Entries of a directory block after one slot is overwritten. -/
theorem dirEntries_setSlot_mem (B : Nat) (blk : List Nat) (i : Nat) (e : dir_entry)
    (hi : i < DIR_BLOCK_SIZE B) (hb : blk.length = B) (he : e.file_name.length = 56)
    (x : dir_entry) (hx : x ∈ dirEntries B (setSlot blk i e)) :
    x = dir_entry.decode e.encode ∨
      ∃ j, j < DIR_BLOCK_SIZE B ∧ j ≠ i ∧ x = dir_entry.decode (slotBytes blk j) := by
  rw [dirEntries_setSlot B blk i e hi hb he] at hx
  obtain ⟨j, hj⟩ := List.get?_of_mem hx
  have hjl : j < DIR_BLOCK_SIZE B := by
    have := (List.get?_eq_some.mp hj).1
    simpa [dirEntries_length] using this
  by_cases hji : j = i
  · subst hji
    rw [List.get?_eq_getElem?, List.getElem?_set_self (by simpa [dirEntries_length] using hi)] at hj
    exact Or.inl (Option.some.inj hj).symm
  · rw [List.get?_eq_getElem?, List.getElem?_set_ne (Ne.symm hji), ← List.get?_eq_getElem?,
      dirEntries_get? B blk j hjl] at hj
    exact Or.inr ⟨j, hjl, hji, (Option.some.inj hj).symm⟩

/-- The rename branch of `mv`: the slot that resolution finds is rewritten
with the new name. -/
theorem FS.mv_rename_core (B : Nat) (s : FS) (sourcepath destpath : List Nat) (st : Int)
    (src : dir_entry) (hW : s.WellSized B)
    (hsv : FilenamesAreValid sourcepath = true)
    (hsrc : s.GetDirEntryPath B (ParseDirPath sourcepath) = Run.ret (st, src))
    (hsx : DirEntryExists src = true) (hst : src.type ≠ TYPE_DIR)
    (hne : destpath ≠ []) (hal : ∀ c ∈ destpath, isalnum c = true)
    (hn55 : destpath.length ≤ 55)
    (hnex : s.FilepathExists B destpath = Run.ret false) :
    ∃ (last : List Nat) (pb : Int) (blk : List Nat) (i : Nat),
      (ParseDirPath sourcepath).getLast? = some last ∧
      s.GetDirectoryBlock B (ParseDirPath sourcepath).dropLast = Run.ret pb ∧
      Disk.read s.m_disk pb = some blk ∧ blk.length = B ∧
      FS.findName last (dirEntries B blk) = Run.ret (some i) ∧ i < DIR_BLOCK_SIZE B ∧
      src = dir_entry.decode (slotBytes blk i) ∧ c_str src.file_name = some last ∧
      src.file_name.length = 56 ∧
      s.mv B sourcepath destpath =
        Run.ret (0, s.withSlot pb.toNat blk i
          { src with file_name := destpath ++ 0 :: src.file_name.drop (destpath.length + 1) }) ∧
      dir_entry.decode (slotBytes (setSlot blk i
          { src with file_name := destpath ++ 0 :: src.file_name.drop (destpath.length + 1) }) i) =
        { src with file_name := destpath ++ 0 :: src.file_name.drop (destpath.length + 1) } := by
  obtain ⟨last, pb, blk, i, hlast, hpb, hpbne, hread, hfind, hi, he, hst0⟩ :=
    FS.GetDirEntryPath_exists B s _ st src hsrc hsx
  obtain ⟨hpb0, hpblt, hget⟩ := Disk.read_some _ _ _ hread
  have hblk : blk.length = B := hW blk (List.get?_mem hget)
  have h64 := slot_in_block B i hi
  have hwf := dir_entry.decode_wf (slotBytes blk i)
    (by rw [slotBytes_length blk i (by omega)]; omega)
  rw [← he] at hwf
  obtain ⟨e1, he1, hc1⟩ := findName_some_spec last _ i hfind
  rw [dirEntries_get? B blk i hi] at he1
  cases he1
  rw [← he] at hc1
  have hfs := findStrcmp_eq_findName src.file_name last hc1 _ _ hfind
  have hn0 : ∀ c ∈ destpath, c ≠ 0 := fun c hc => isalnum_ne_zero c (hal c hc)
  have hstr := strcpy_plain src.file_name destpath hn0 (by omega)
  have hnl : (destpath ++ 0 :: src.file_name.drop (destpath.length + 1)).length = 56 := by
    rw [strcpy_plain_length src.file_name destpath (by omega)]
    exact hwf.1
  have hdst := FS.resolve_plain_absent B s destpath hne hal hnex
  refine ⟨last, pb, blk, i, hlast, hpb, hread, hblk, hfind, hi, he, hc1, hwf.1, ?_, ?_⟩
  · have hv : (!FilenamesAreValid sourcepath ||
        !FilenamesAreValid destpath) = false := by
      rw [hsv, FilenamesAreValid_plain destpath hne hal (by omega)]
      rfl
    have hspf : (DirEntryExists dir_entry.empty || HasSpecialCharacters destpath) = false := by
      rw [DirEntryExists_empty, HasSpecialCharacters_plain destpath hal]
      rfl
    have hety : ¬ dir_entry.empty.type = TYPE_DIR := by decide
    unfold FS.mv
    rw [FS.FilepathExists_of_res B s sourcepath st src hsrc, hv]
    simp only [Bool.false_eq_true, if_false, Run.ret_bind, hsx, Bool.not_true]
    rw [hsrc]
    simp only [Run.ret_bind]
    rw [if_neg hst, hpb, hdst]
    simp only [Run.ret_bind, ne_eq, not_true_eq_false, if_false]
    rw [if_neg hety, hspf]
    simp only [Bool.false_eq_true, if_false]
    rw [hstr]
    unfold Run.ofOption
    simp only [Run.ret_bind]
    rw [FS.UpdateDirEntry_of_find B s pb blk i _ _ hread hfs]
    simp only [Run.ret_bind, ne_eq, not_true_eq_false, if_false]
    rfl
  · rw [slotBytes_setSlot_same blk i _ (by omega) hnl]
    exact dir_entry.decode_encode _ hnl hwf.2.1 hwf.2.2.1 hwf.2.2.2.1 hwf.2.2.2.2

end RenameCore

/-- C12, amended: let `sourcepath` resolve to an existing File whose record
sits in slot `i` of its parent directory's block, on a device of well-sized
blocks, and let `destpath` be a plain (alphanumeric) name of 1 to 55 bytes
that does not exist in the working directory.  Then `mv` succeeds; slot `i`
then holds a record named `destpath` with the size, first block, type and
rights of the source; the other slots of that block, every other block, the
allocation table and the working directory are as before; and if `destpath`
differs from the old name and no other record of the directory bears the old
name, the old name is no longer found there.  If the destination resolves to
an existing File, `mv` returns `ERROR_CODE` and changes nothing. -/
theorem mv_renames_in_place (BLOCK_SIZE : Nat) (s : FS) (sourcepath destpath : List Nat)
    (st : Int) (src : dir_entry) (hW : s.WellSized BLOCK_SIZE)
    (hsv : FilenamesAreValid sourcepath = true)
    (hsrc : s.GetDirEntryPath BLOCK_SIZE (ParseDirPath sourcepath) = Run.ret (st, src))
    (hsx : DirEntryExists src = true) (hst : src.type = TYPE_FILE)
    (hne : destpath ≠ []) (hal : ∀ c ∈ destpath, isalnum c = true)
    (hn55 : destpath.length ≤ 55)
    (hnex : s.FilepathExists BLOCK_SIZE destpath = Run.ret false) :
    (∃ (last : List Nat) (pb i : Nat) (blk blk1 : List Nat) (s1 : FS) (e : dir_entry),
      (ParseDirPath sourcepath).getLast? = some last ∧
      s.GetDirectoryBlock BLOCK_SIZE (ParseDirPath sourcepath).dropLast = Run.ret (pb : Int) ∧
      s.m_disk.get? pb = some blk ∧ i < DIR_BLOCK_SIZE BLOCK_SIZE ∧
      dir_entry.decode (slotBytes blk i) = src ∧ c_str src.file_name = some last ∧
      s.mv BLOCK_SIZE sourcepath destpath = Run.ret (0, s1) ∧
      s1.m_disk.get? pb = some blk1 ∧ dir_entry.decode (slotBytes blk1 i) = e ∧
      c_str e.file_name = some destpath ∧ e.size = src.size ∧ e.first_blk = src.first_blk ∧
      e.type = src.type ∧ e.access_rights = src.access_rights ∧
      (∀ j, j < DIR_BLOCK_SIZE BLOCK_SIZE → j ≠ i → slotBytes blk1 j = slotBytes blk j) ∧
      (destpath ≠ last →
        (∀ j, j < DIR_BLOCK_SIZE BLOCK_SIZE → j ≠ i →
          ∃ n, c_str (dir_entry.decode (slotBytes blk j)).file_name = some n ∧ n ≠ last) →
        FS.findName last (dirEntries BLOCK_SIZE blk1) = Run.ret none) ∧
      s1.m_fat = s.m_fat ∧ s1.m_cwdBlock = s.m_cwdBlock ∧
      (∀ x, x ≠ pb → s1.m_disk.get? x = s.m_disk.get? x)) ∧
    (∀ (dest2 : List Nat) (st2 : Int) (d2 : dir_entry),
      s.GetDirEntryPath BLOCK_SIZE (ParseDirPath dest2) = Run.ret (st2, d2) →
      DirEntryExists d2 = true → d2.type = TYPE_FILE →
      s.mv BLOCK_SIZE sourcepath dest2 = Run.ret (ERROR_CODE, s)) := by
  have hsd : src.type ≠ TYPE_DIR := by rw [hst]; decide
  constructor
  · obtain ⟨last, pb, blk, i, hlast, hpb, hread, hblk, hfind, hi, he, hc, hsn, hmv, hdec⟩ :=
      FS.mv_rename_core BLOCK_SIZE s sourcepath destpath st src hW hsv hsrc hsx hsd hne hal hn55
        hnex
    obtain ⟨hpb0, hpblt, hget⟩ := Disk.read_some _ _ _ hread
    have hn0 : ∀ c ∈ destpath, c ≠ 0 := fun c hc => isalnum_ne_zero c (hal c hc)
    have hnl : (destpath ++ 0 :: src.file_name.drop (destpath.length + 1)).length = 56 := by
      rw [strcpy_plain_length src.file_name destpath (by omega)]
      exact hsn
    have h64 := slot_in_block BLOCK_SIZE i hi
    have hpbc : ((pb.toNat : Nat) : Int) = pb := Int.toNat_of_nonneg hpb0
    refine ⟨last, pb.toNat, i, blk, _, _, _, hlast, by rw [hpbc]; exact hpb, hget, hi, he.symm, hc,
      hmv, ?_, hdec, c_str_append_zero destpath _ hn0, rfl, rfl, rfl, rfl, ?_, ?_, rfl, rfl, ?_⟩
    · show (s.m_disk.set pb.toNat _).get? pb.toNat = _
      rw [List.get?_eq_getElem?, List.getElem?_set_self hpblt]
    · intro j _ hji
      exact slotBytes_setSlot_other blk i j _ (by omega) hnl hji
    · intro hdl hothers
      apply findName_none_of_all_ne
      intro x hx
      rcases dirEntries_setSlot_mem BLOCK_SIZE blk i _ hi hblk hnl x hx with h | ⟨j, hj, hji, h⟩
      · rw [slotBytes_setSlot_same blk i _ (by omega) hnl] at hdec
        rw [h, hdec]
        exact ⟨destpath, c_str_append_zero destpath _ hn0, hdl⟩
      · rw [h]
        exact hothers j hj hji
    · intro x hx
      show (s.m_disk.set pb.toNat _).get? x = _
      rw [List.get?_eq_getElem?, List.getElem?_set_ne (Ne.symm hx), List.get?_eq_getElem?]
  · intro dest2 st2 d2 hd2 hx2 ht2
    exact FS.mv_rejected_dest BLOCK_SIZE s sourcepath dest2 st st2 src d2 hsrc hd2
      (by rw [ht2]; decide) (by rw [hx2]; rfl)

theorem mv_renames_in_place_witness :
    sampleWithFile.FilepathExists 128 (str "b") = Run.ret false ∧
    ((∃ (last : List Nat) (pb i : Nat) (blk blk1 : List Nat) (s1 : FS) (e : dir_entry),
      (ParseDirPath (str "a")).getLast? = some last ∧
      sampleWithFile.GetDirectoryBlock 128 (ParseDirPath (str "a")).dropLast =
        Run.ret (pb : Int) ∧
      sampleWithFile.m_disk.get? pb = some blk ∧ i < DIR_BLOCK_SIZE 128 ∧
      dir_entry.decode (slotBytes blk i) = sampleFileEntry ∧
      c_str sampleFileEntry.file_name = some last ∧
      sampleWithFile.mv 128 (str "a") (str "b") = Run.ret (0, s1) ∧
      s1.m_disk.get? pb = some blk1 ∧ dir_entry.decode (slotBytes blk1 i) = e ∧
      c_str e.file_name = some (str "b") ∧ e.size = sampleFileEntry.size ∧
      e.first_blk = sampleFileEntry.first_blk ∧
      e.type = sampleFileEntry.type ∧ e.access_rights = sampleFileEntry.access_rights ∧
      (∀ j, j < DIR_BLOCK_SIZE 128 → j ≠ i → slotBytes blk1 j = slotBytes blk j) ∧
      (str "b" ≠ last →
        (∀ j, j < DIR_BLOCK_SIZE 128 → j ≠ i →
          ∃ n, c_str (dir_entry.decode (slotBytes blk j)).file_name = some n ∧ n ≠ last) →
        FS.findName last (dirEntries 128 blk1) = Run.ret none) ∧
      s1.m_fat = sampleWithFile.m_fat ∧ s1.m_cwdBlock = sampleWithFile.m_cwdBlock ∧
      (∀ x, x ≠ pb → s1.m_disk.get? x = sampleWithFile.m_disk.get? x)) ∧
    (∀ (dest2 : List Nat) (st2 : Int) (d2 : dir_entry),
      sampleWithFile.GetDirEntryPath 128 (ParseDirPath dest2) = Run.ret (st2, d2) →
      DirEntryExists d2 = true → d2.type = TYPE_FILE →
      sampleWithFile.mv 128 (str "a") dest2 = Run.ret (ERROR_CODE, sampleWithFile))) :=
  ⟨by decide!,
   mv_renames_in_place 128 sampleWithFile (str "a") (str "b") 0 sampleFileEntry
     sampleWithFile_wellSized (by decide) (by decide!) (by decide) (by decide) (by decide)
     (by decide) (by decide) (by decide!)⟩

/-- C12 as stated fails when the destination name is the source's own name:
with the File `a` moved into the Directory `d` and the root as working
directory, `/d/a` is an existing File and the plain name `a` does not exist
(in the root), `mv("/d/a", "a")` succeeds, and the old name is still found in
`d` afterwards.  The rename on a fresh name, `mv("/d/a", "c")`, does remove
the old name. -/
theorem mv_rename_same_name_counterexample :
    (sampleFileAndDir.mv 128 (str "a") (str "d")).bind (fun r =>
      (r.2.GetDirEntryPath 128 (ParseDirPath (str "/d/a"))).bind (fun e =>
        (r.2.FilepathExists 128 (str "a")).bind (fun x =>
          Run.ret (r.1, DirEntryExists e.2, e.2.type, x)))) =
      Run.ret (0, true, TYPE_FILE, false) ∧
    (sampleFileAndDir.mv 128 (str "a") (str "d")).bind (fun r =>
      (r.2.mv 128 (str "/d/a") (str "a")).bind (fun m =>
        (m.2.FilepathExists 128 (str "/d/a")).bind (fun x => Run.ret (m.1, x)))) =
      Run.ret (0, true) ∧
    (sampleFileAndDir.mv 128 (str "a") (str "d")).bind (fun r =>
      (r.2.mv 128 (str "/d/a") (str "c")).bind (fun m =>
        (m.2.FilepathExists 128 (str "/d/a")).bind (fun x =>
          (m.2.FilepathExists 128 (str "/d/c")).bind (fun y => Run.ret (m.1, x, y))))) =
      Run.ret (0, false, true) := by
  refine ⟨by decide!, by decide!, by decide!⟩

section RelocateLemmas

theorem dir_entry.empty_name_length : dir_entry.empty.file_name.length = 56 := by decide

theorem dir_entry.decode_encode_empty :
    dir_entry.decode dir_entry.empty.encode = dir_entry.empty :=
  dir_entry.decode_encode _ dir_entry.empty_name_length (by decide) (by decide) (by decide)
    (by decide)

theorem c_str_empty_name : c_str dir_entry.empty.file_name = some [] := by decide

/-- Inserting a record named `name` in the first absent slot of a directory in
which the scan for `name` stops at `i`: the scan then stops at the lower of
the two slots. -/
theorem findName_set_absent (name : List Nat) (x : dir_entry)
    (hx : c_str x.file_name = some name) :
    ∀ (es : List dir_entry) (i k : Nat), FS.findName name es = Run.ret (some i) →
      FS.firstAbsent es = some k → FS.findName name (es.set k x) = Run.ret (some (min i k)) := by
  intro es
  induction es with
  | nil => intro i k h; simp [FS.findName] at h
  | cons e es ih =>
    intro i k hf ha
    obtain ⟨n, hn, hcase⟩ := findName_ret_cons name e es (some i) hf
    unfold FS.firstAbsent at ha
    by_cases hex : DirEntryExists e = true
    · rw [if_pos hex] at ha
      cases hk : FS.firstAbsent es with
      | none => rw [hk] at ha; cases ha
      | some k1 =>
        rw [hk] at ha
        simp only [Option.map_some', Option.some.injEq] at ha
        subst ha
        rw [List.set_cons_succ]
        unfold FS.findName
        rw [hn]
        rcases hcase with ⟨hnn, hi⟩ | ⟨hnn, r1, hr1, hi⟩
        · simp only [Option.some.injEq] at hi
          subst hi
          simp [hnn]
        · cases r1 with
          | none => simp at hi
          | some i1 =>
            simp only [Option.map_some', Option.some.injEq] at hi
            subst hi
            simp only [hnn, if_false]
            rw [ih i1 k1 hr1 hk]
            simp only [Run.ret_bind, Option.map_some']
            congr 2
            omega
    · rw [if_neg hex] at ha
      simp only [Option.some.injEq] at ha
      subst ha
      rw [List.set_cons_zero]
      unfold FS.findName
      rw [hx]
      simp

end RelocateLemmas

section RelocateCore

/-- The relocation branch of `mv`, given what `UpdateDirEntry` reads in the
source's parent block after the insertion into the destination Directory. -/
theorem FS.mv_dir_eval (B : Nat) (s : FS) (sourcepath destpath : List Nat) (st : Int)
    (src d : dir_entry) (pb : Int) (dblk blkA : List Nat) (k m : Nat)
    (hsv : FilenamesAreValid sourcepath = true) (hdv : FilenamesAreValid destpath = true)
    (hsrc : s.GetDirEntryPath B (ParseDirPath sourcepath) = Run.ret (st, src))
    (hsx : DirEntryExists src = true) (hst : src.type ≠ TYPE_DIR)
    (hpb : s.GetDirectoryBlock B (ParseDirPath sourcepath).dropLast = Run.ret pb)
    (hdst : s.GetDirEntryPath B (ParseDirPath destpath) = Run.ret (0, d))
    (hdt : d.type = TYPE_DIR)
    (hdblk : s.m_disk.get? d.first_blk = some dblk)
    (hk : FS.firstAbsent (dirEntries B dblk) = some k)
    (hreadA : Disk.read (s.m_disk.set d.first_blk (setSlot dblk k src)) pb = some blkA)
    (hfindA : FS.findStrcmp src.file_name (dirEntries B blkA) = Run.ret (some m)) :
    s.mv B sourcepath destpath =
      Run.ret (0, (s.withSlot d.first_blk dblk k src).withSlot pb.toNat blkA m
        dir_entry.empty) := by
  have hadd := FS.AddNewDirEntry_ok B s d.first_blk dblk k src hsx hdblk hk
  have hupd := FS.UpdateDirEntry_of_find B (s.withSlot d.first_blk dblk k src) pb blkA m src
    dir_entry.empty hreadA hfindA
  have hv : (!FilenamesAreValid sourcepath || !FilenamesAreValid destpath) = false := by
    rw [hsv, hdv]
    rfl
  unfold FS.mv
  rw [FS.FilepathExists_of_res B s sourcepath st src hsrc, hv]
  simp only [Bool.false_eq_true, if_false, Run.ret_bind, hsx, Bool.not_true]
  rw [hsrc]
  simp only [Run.ret_bind]
  rw [if_neg hst, hpb, hdst]
  simp only [Run.ret_bind, ne_eq, not_true_eq_false, if_false]
  rw [if_pos hdt, hadd]
  simp only [ne_eq, not_true_eq_false, if_false]
  rw [hupd]
  simp only [Run.ret_bind, ne_eq, not_true_eq_false, if_false]
  rfl

end RelocateCore

/-- Relocation by `mv` where the name is unique in the source's parent: let
`sourcepath` resolve to an existing File whose record sits in
slot `i` of its parent directory's block, and `destpath` to an existing
Directory whose block has a free slot, on a device of well-sized blocks.  Then
`mv` succeeds and the Directory's block holds a record equal to the source
record.  When the parent is another block, that record went to the first free
slot, the source's slot in the parent is all-zero, the parent's other slots
are as before and, if no other record of the parent bears the name, the name
is no longer found there.  The allocation table, the working directory and
every block other than these two are as before.  A source that resolves to a
Directory is rejected with no change. -/
theorem mv_relocates_record (BLOCK_SIZE : Nat) (s : FS) (sourcepath destpath : List Nat)
    (st st2 : Int) (src d : dir_entry) (dblk : List Nat)
    (hW : s.WellSized BLOCK_SIZE)
    (hsv : FilenamesAreValid sourcepath = true) (hdv : FilenamesAreValid destpath = true)
    (hsrc : s.GetDirEntryPath BLOCK_SIZE (ParseDirPath sourcepath) = Run.ret (st, src))
    (hsx : DirEntryExists src = true) (hst : src.type = TYPE_FILE)
    (hdst : s.GetDirEntryPath BLOCK_SIZE (ParseDirPath destpath) = Run.ret (st2, d))
    (hdx : DirEntryExists d = true) (hdt : d.type = TYPE_DIR)
    (hdblk : s.m_disk.get? d.first_blk = some dblk)
    (hfree : FS.firstAbsent (dirEntries BLOCK_SIZE dblk) ≠ none) :
    (∃ (last : List Nat) (pb i k1 : Nat) (blk dblk1 : List Nat) (s1 : FS),
      (ParseDirPath sourcepath).getLast? = some last ∧
      s.GetDirectoryBlock BLOCK_SIZE (ParseDirPath sourcepath).dropLast = Run.ret (pb : Int) ∧
      s.m_disk.get? pb = some blk ∧ i < DIR_BLOCK_SIZE BLOCK_SIZE ∧
      dir_entry.decode (slotBytes blk i) = src ∧ c_str src.file_name = some last ∧
      s.mv BLOCK_SIZE sourcepath destpath = Run.ret (0, s1) ∧
      s1.m_disk.get? d.first_blk = some dblk1 ∧ k1 < DIR_BLOCK_SIZE BLOCK_SIZE ∧
      dir_entry.decode (slotBytes dblk1 k1) = src ∧
      (pb ≠ d.first_blk →
        FS.firstAbsent (dirEntries BLOCK_SIZE dblk) = some k1 ∧ dblk1 = setSlot dblk k1 src ∧
        ∃ blk1, s1.m_disk.get? pb = some blk1 ∧
          dir_entry.decode (slotBytes blk1 i) = dir_entry.empty ∧
          (∀ j, j < DIR_BLOCK_SIZE BLOCK_SIZE → j ≠ i → slotBytes blk1 j = slotBytes blk j) ∧
          ((∀ j, j < DIR_BLOCK_SIZE BLOCK_SIZE → j ≠ i →
              ∃ n, c_str (dir_entry.decode (slotBytes blk j)).file_name = some n ∧ n ≠ last) →
            FS.findName last (dirEntries BLOCK_SIZE blk1) = Run.ret none)) ∧
      s1.m_fat = s.m_fat ∧ s1.m_cwdBlock = s.m_cwdBlock ∧
      (∀ x, x ≠ pb → x ≠ d.first_blk → s1.m_disk.get? x = s.m_disk.get? x)) ∧
    (∀ (source2 dest2 : List Nat) (st3 : Int) (e : dir_entry),
      s.GetDirEntryPath BLOCK_SIZE (ParseDirPath source2) = Run.ret (st3, e) →
      e.type = TYPE_DIR → s.mv BLOCK_SIZE source2 dest2 = Run.ret (ERROR_CODE, s)) := by
  constructor
  · have hsd : src.type ≠ TYPE_DIR := by rw [hst]; decide
    obtain ⟨k, hk⟩ := Option.ne_none_iff_exists'.mp hfree
    obtain ⟨last, pb, blk, i, hlast, hpb, hpbne, hread, hfind, hi, he, _⟩ :=
      FS.GetDirEntryPath_exists BLOCK_SIZE s _ st src hsrc hsx
    obtain ⟨hpb0, hpblt, hget⟩ := Disk.read_some _ _ _ hread
    obtain ⟨hst2, _⟩ := FS.resolved_wf BLOCK_SIZE s _ st2 d hW hdst hdx
    subst hst2
    have hblk : blk.length = BLOCK_SIZE := hW blk (List.get?_mem hget)
    have hdl : dblk.length = BLOCK_SIZE := hW dblk (List.get?_mem hdblk)
    have hdlt : d.first_blk < s.m_disk.length := (List.get?_eq_some.mp hdblk).1
    have h64 := slot_in_block BLOCK_SIZE i hi
    have hkB : k < DIR_BLOCK_SIZE BLOCK_SIZE := by
      have := FS.firstAbsent_some _ k hk
      rwa [dirEntries_length] at this
    have h64k := slot_in_block BLOCK_SIZE k hkB
    have hwf := dir_entry.decode_wf (slotBytes blk i)
      (by rw [slotBytes_length blk i (by omega)]; omega)
    rw [← he] at hwf
    have hde : dir_entry.decode src.encode = src :=
      dir_entry.decode_encode src hwf.1 hwf.2.1 hwf.2.2.1 hwf.2.2.2.1 hwf.2.2.2.2
    obtain ⟨e1, he1, hc1⟩ := findName_some_spec last _ i hfind
    rw [dirEntries_get? BLOCK_SIZE blk i hi] at he1
    cases he1
    rw [← he] at hc1
    have hlne : last ≠ [] := c_str_ne_nil_of_exists src last hsx hc1
    have hpbc : ((pb.toNat : Nat) : Int) = pb := Int.toNat_of_nonneg hpb0
    have hXl : (setSlot dblk k src).length = BLOCK_SIZE := by
      rw [setSlot_length dblk k src (by omega) hwf.1, hdl]
    by_cases hpd : pb.toNat = d.first_blk
    · -- the source already lies in the destination Directory
      have hbd : blk = dblk := by
        rw [hpd, hdblk] at hget
        exact (Option.some.inj hget).symm
      subst hbd
      have hik : i ≠ k := by
        intro hik
        obtain ⟨e2, h2, h3⟩ := FS.firstAbsent_absent _ k hk
        rw [dirEntries_get? BLOCK_SIZE blk k hkB, ← hik, ← he] at h2
        cases h2
        rw [hsx] at h3
        cases h3
      have hreadA : Disk.read (s.m_disk.set d.first_blk (setSlot blk k src)) pb =
          some (setSlot blk k src) := by
        rw [← hpbc, Disk.read_natCast, hpd, List.get?_eq_getElem?, List.getElem?_set_self hdlt]
      have hfindA : FS.findName last (dirEntries BLOCK_SIZE (setSlot blk k src)) =
          Run.ret (some (min i k)) := by
        rw [dirEntries_setSlot BLOCK_SIZE blk k src hkB hblk hwf.1, hde]
        exact findName_set_absent last src hc1 _ i k hfind hk
      have hfs := findStrcmp_eq_findName src.file_name last hc1 _ _ hfindA
      have hmv := FS.mv_dir_eval BLOCK_SIZE s sourcepath destpath st src d pb blk
        (setSlot blk k src) k (min i k) hsv hdv hsrc hsx hsd hpb hdst hdt hdblk hk hreadA hfs
      have hfin : ((s.withSlot d.first_blk blk k src).withSlot pb.toNat (setSlot blk k src)
          (min i k) dir_entry.empty).m_disk.get? d.first_blk =
          some (setSlot (setSlot blk k src) (min i k) dir_entry.empty) := by
        show ((s.m_disk.set d.first_blk _).set pb.toNat _).get? d.first_blk = _
        rw [hpd, List.get?_eq_getElem?, List.getElem?_set_self (by simpa using hdlt)]
      have hkey : dir_entry.decode (slotBytes
          (setSlot (setSlot blk k src) (min i k) dir_entry.empty) (max i k)) = src := by
        rcases Nat.lt_or_gt_of_ne hik with hlt | hgt
        · rw [Nat.min_eq_left (by omega), Nat.max_eq_right (by omega),
            slotBytes_setSlot_other _ i k _ (by omega) dir_entry.empty_name_length
              (by omega),
            slotBytes_setSlot_same blk k src (by omega) hwf.1, hde]
        · rw [Nat.min_eq_right (by omega), Nat.max_eq_left (by omega),
            slotBytes_setSlot_other _ k i _ (by omega) dir_entry.empty_name_length
              (by omega),
            slotBytes_setSlot_other blk k i src (by omega) hwf.1 (by omega), ← he]
      refine ⟨last, pb.toNat, i, max i k, blk, _, _, hlast, by rw [hpbc]; exact hpb, hget, hi,
        he.symm, hc1, hmv, hfin, by omega, hkey, fun h => absurd hpd h, rfl, rfl, ?_⟩
      intro x hx1 hx2
      show ((s.m_disk.set d.first_blk _).set pb.toNat _).get? x = _
      rw [List.get?_eq_getElem?, List.getElem?_set_ne (Ne.symm hx1),
        List.getElem?_set_ne (Ne.symm hx2), List.get?_eq_getElem?]
    · -- the parent is another block
      have hreadA : Disk.read (s.m_disk.set d.first_blk (setSlot dblk k src)) pb = some blk := by
        rw [← hpbc, Disk.read_natCast, List.get?_eq_getElem?,
          List.getElem?_set_ne (Ne.symm hpd), ← List.get?_eq_getElem?]
        exact hget
      have hfs := findStrcmp_eq_findName src.file_name last hc1 _ _ hfind
      have hmv := FS.mv_dir_eval BLOCK_SIZE s sourcepath destpath st src d pb dblk blk k i
        hsv hdv hsrc hsx hsd hpb hdst hdt hdblk hk hreadA hfs
      have hfinD : ((s.withSlot d.first_blk dblk k src).withSlot pb.toNat blk i
          dir_entry.empty).m_disk.get? d.first_blk = some (setSlot dblk k src) := by
        show ((s.m_disk.set d.first_blk _).set pb.toNat _).get? d.first_blk = _
        rw [List.get?_eq_getElem?, List.getElem?_set_ne hpd, List.getElem?_set_self hdlt]
      have hfinP : ((s.withSlot d.first_blk dblk k src).withSlot pb.toNat blk i
          dir_entry.empty).m_disk.get? pb.toNat = some (setSlot blk i dir_entry.empty) := by
        show ((s.m_disk.set d.first_blk _).set pb.toNat _).get? pb.toNat = _
        rw [List.get?_eq_getElem?, List.getElem?_set_self (by simpa using hpblt)]
      have hdecE : dir_entry.decode (slotBytes (setSlot blk i dir_entry.empty) i) =
          dir_entry.empty := by
        rw [slotBytes_setSlot_same blk i _ (by omega) dir_entry.empty_name_length,
          dir_entry.decode_encode_empty]
      refine ⟨last, pb.toNat, i, k, blk, _, _, hlast, by rw [hpbc]; exact hpb, hget, hi,
        he.symm, hc1, hmv, hfinD, hkB, ?_, ?_, rfl, rfl, ?_⟩
      · rw [slotBytes_setSlot_same dblk k src (by omega) hwf.1, hde]
      · intro _
        refine ⟨hk, rfl, _, hfinP, hdecE, ?_, ?_⟩
        · intro j _ hji
          exact slotBytes_setSlot_other blk i j _ (by omega) dir_entry.empty_name_length hji
        · intro hothers
          apply findName_none_of_all_ne
          intro x hx
          rcases dirEntries_setSlot_mem BLOCK_SIZE blk i _ hi hblk
              dir_entry.empty_name_length x hx with h | ⟨j, hj, hji, h⟩
          · rw [h, dir_entry.decode_encode_empty]
            exact ⟨[], c_str_empty_name, fun h => hlne h.symm⟩
          · rw [h]
            exact hothers j hj hji
      · intro x hx1 hx2
        show ((s.m_disk.set d.first_blk _).set pb.toNat _).get? x = _
        rw [List.get?_eq_getElem?, List.getElem?_set_ne (Ne.symm hx1),
          List.getElem?_set_ne (Ne.symm hx2), List.get?_eq_getElem?]
  · intro source2 dest2 st3 e hres hty
    unfold FS.mv
    rw [FS.FilepathExists_of_res BLOCK_SIZE s source2 st3 e hres]
    by_cases hv : (!FilenamesAreValid source2 || !FilenamesAreValid dest2) = true
    · rw [if_pos hv]
    · rw [if_neg hv]
      simp only [Run.ret_bind]
      by_cases hx : (!DirEntryExists e) = true
      · rw [if_pos hx]
      · rw [if_neg hx, hres]
        simp only [Run.ret_bind]
        rw [if_pos hty]

theorem mv_relocates_record_witness :
    ∃ (last : List Nat) (pb i k1 : Nat) (blk dblk1 : List Nat) (s1 : FS),
      (ParseDirPath (str "a")).getLast? = some last ∧
      sampleFileAndDir.GetDirectoryBlock 128 (ParseDirPath (str "a")).dropLast =
        Run.ret (pb : Int) ∧
      sampleFileAndDir.m_disk.get? pb = some blk ∧ i < DIR_BLOCK_SIZE 128 ∧
      dir_entry.decode (slotBytes blk i) = sampleFileEntry ∧
      c_str sampleFileEntry.file_name = some last ∧
      sampleFileAndDir.mv 128 (str "a") (str "d") = Run.ret (0, s1) ∧
      s1.m_disk.get? sampleSubdirEntry.first_blk = some dblk1 ∧ k1 < DIR_BLOCK_SIZE 128 ∧
      dir_entry.decode (slotBytes dblk1 k1) = sampleFileEntry :=
  match (mv_relocates_record 128 sampleFileAndDir (str "a") (str "d") 0 0 sampleFileEntry
      sampleSubdirEntry (sampleBackRef.encode ++ List.replicate 64 0)
      (by unfold FS.WellSized; decide!) (by decide) (by decide) (by decide!) (by decide)
      (by decide) (by decide!) (by decide) (by decide) (by decide!) (by decide!)).1 with
  | ⟨last, pb, i, k1, blk, dblk1, s1, h1, h2, h3, h4, h5, h6, h7, h8, h9, h10, _⟩ =>
    ⟨last, pb, i, k1, blk, dblk1, s1, h1, h2, h3, h4, h5, h6, h7, h8, h9, h10⟩

/-- C13 fails where the source's parent directory holds the name twice, which
`cp` into a Directory allows (it never looks the name up there).  On a
formatted device of 128 blocks of 256 bytes, `create("a")`, `mkdir("d")`,
`mkdir("e")` and two calls of `cp("a", "d")` succeed and leave two records `a`
in `d` (block 3, after its `..`); `e` (block 4) holds its `..` only.  `/d/a`
is then an existing File and `/e` an existing Directory.  `mv("/d/a", "/e")`
returns 0 and `e` holds a record `a`, but `UpdateDirEntry` has cleared only
the first of the two records of `d`: a record `a` is still in `d`, the path
`/d/a` still exists and `cat("/d/a")` still sends the text. -/
theorem mv_leaves_duplicate_name :
    sampleWideRaw.format 256 = Run.ret (0, sampleWide) ∧
    (sampleWide.create 256 5 (str "a") (str "hello")).bind (fun r1 =>
      (r1.2.mkdir 256 (str "d")).bind (fun r2 =>
        (r2.2.mkdir 256 (str "e")).bind (fun r3 =>
          (r3.2.cp 256 5 (str "a") (str "d")).bind (fun r4 =>
            (r4.2.cp 256 5 (str "a") (str "d")).bind (fun r5 =>
              Run.ret ([r1.1, r2.1, r3.1, r4.1, r5.1],
                (dirEntries 256 (r5.2.m_disk.getD 3 [])).map (fun e => c_str e.file_name),
                (dirEntries 256 (r5.2.m_disk.getD 4 [])).map (fun e => c_str e.file_name))))))) =
      Run.ret ([0, 0, 0, 0, 0],
        [some (str ".."), some (str "a"), some (str "a"), some []],
        [some (str ".."), some [], some [], some []]) ∧
    (sampleWide.create 256 5 (str "a") (str "hello")).bind (fun r1 =>
      (r1.2.mkdir 256 (str "d")).bind (fun r2 =>
        (r2.2.mkdir 256 (str "e")).bind (fun r3 =>
          (r3.2.cp 256 5 (str "a") (str "d")).bind (fun r4 =>
            (r4.2.cp 256 5 (str "a") (str "d")).bind (fun r5 =>
              (r5.2.GetDirEntryPath 256 (ParseDirPath (str "/d/a"))).bind (fun src =>
                (r5.2.GetDirEntryPath 256 (ParseDirPath (str "/e"))).bind (fun dst =>
                  Run.ret (DirEntryExists src.2, src.2.type, DirEntryExists dst.2, dst.2.type,
                    dst.2.first_blk)))))))) =
      Run.ret (true, TYPE_FILE, true, TYPE_DIR, 4) ∧
    (sampleWide.create 256 5 (str "a") (str "hello")).bind (fun r1 =>
      (r1.2.mkdir 256 (str "d")).bind (fun r2 =>
        (r2.2.mkdir 256 (str "e")).bind (fun r3 =>
          (r3.2.cp 256 5 (str "a") (str "d")).bind (fun r4 =>
            (r4.2.cp 256 5 (str "a") (str "d")).bind (fun r5 =>
              (r5.2.mv 256 (str "/d/a") (str "/e")).bind (fun r6 =>
                Run.ret ([r6.1],
                  (dirEntries 256 (r6.2.m_disk.getD 3 [])).map (fun e => c_str e.file_name),
                  (dirEntries 256 (r6.2.m_disk.getD 4 [])).map
                    (fun e => c_str e.file_name)))))))) =
      Run.ret ([0],
        [some (str ".."), some [], some (str "a"), some []],
        [some (str ".."), some (str "a"), some [], some []]) ∧
    (sampleWide.create 256 5 (str "a") (str "hello")).bind (fun r1 =>
      (r1.2.mkdir 256 (str "d")).bind (fun r2 =>
        (r2.2.mkdir 256 (str "e")).bind (fun r3 =>
          (r3.2.cp 256 5 (str "a") (str "d")).bind (fun r4 =>
            (r4.2.cp 256 5 (str "a") (str "d")).bind (fun r5 =>
              (r5.2.mv 256 (str "/d/a") (str "/e")).bind (fun r6 =>
                (r6.2.FilepathExists 256 (str "/d/a")).bind (fun ex =>
                  (r6.2.cat 256 5 (str "/d/a")).bind (fun c =>
                    Run.ret (ex, c.1, c.2.2))))))))) =
      Run.ret (true, 0, str "hello" ++ [10, 10]) := by
  refine ⟨by decide!, by decide!, by decide!, by decide!, by decide!⟩

section FrameLemmas

theorem FS.GetDirEntry_of_read_eq (B : Nat) (s s1 : FS) (b : Int) (name : List Nat)
    (h : Disk.read s1.m_disk b = Disk.read s.m_disk b) :
    s1.GetDirEntry B b name = s.GetDirEntry B b name := by
  unfold FS.GetDirEntry
  rw [h]

/-- The loop of `GetDirectoryBlock` depends only on the blocks it reads. -/
theorem FS.GetDirectoryBlockLoop_frame (B : Nat) (s s1 : FS) (pathType : PATH_TYPE)
    (path : List (List Nat)) :
    ∀ (i : Nat) (cur : Int),
      (∀ b ∈ s.GetDirectoryBlockLoopReads B pathType i path cur,
        Disk.read s1.m_disk b = Disk.read s.m_disk b) →
      s1.GetDirectoryBlockLoop B pathType i path cur =
        s.GetDirectoryBlockLoop B pathType i path cur := by
  induction path with
  | nil => intro i cur _; rfl
  | cons name rest ih =>
    intro i cur h
    unfold FS.GetDirectoryBlockLoopReads at h
    unfold FS.GetDirectoryBlockLoop
    by_cases hskip : i = 0 ∧ ((pathType = PATH_TYPE.RELATIVE ∧ name = str ".") ∨
        (pathType = PATH_TYPE.ABSOLUTE ∧ name = []))
    · rw [if_pos hskip] at h ⊢
      rw [if_pos hskip]
      exact ih _ _ h
    · rw [if_neg hskip] at h ⊢
      rw [if_neg hskip]
      rw [FS.GetDirEntry_of_read_eq B s s1 cur name (h cur (by simp))]
      cases hg : s.GetDirEntry B cur name with
      | ret r =>
        rw [hg] at h
        simp only [Run.ret_bind]
        by_cases hc : (!DirEntryExists r.2 || decide (r.2.type ≠ TYPE_DIR)) = true
        · rw [if_pos hc, if_pos hc]
        · rw [if_neg hc, if_neg hc]
          apply ih
          intro b hb
          apply h b
          simp only [hc, if_false]
          exact List.mem_cons_of_mem _ hb
      | undef => rfl
      | spin => rfl
      | thrown => rfl

/-- `GetDirectoryBlock` depends only on the working directory and on the
blocks it reads. -/
theorem FS.GetDirectoryBlock_frame (B : Nat) (s s1 : FS) (path : List (List Nat))
    (hcwd : s1.m_cwdBlock = s.m_cwdBlock)
    (h : ∀ b ∈ s.dirBlocksRead B path, Disk.read s1.m_disk b = Disk.read s.m_disk b) :
    s1.GetDirectoryBlock B path = s.GetDirectoryBlock B path := by
  unfold FS.dirBlocksRead at h
  unfold FS.GetDirectoryBlock
  rw [hcwd]
  by_cases hl : path.length = 0
  · rw [if_pos hl, if_pos hl]
  · rw [if_neg hl] at h
    rw [if_neg hl, if_neg hl]
    cases ht : EvaluatePathType path with
    | INVALID => rfl
    | ROOT => rfl
    | RELATIVE =>
      rw [ht] at h
      exact FS.GetDirectoryBlockLoop_frame B s s1 _ _ _ _ h
    | ABSOLUTE =>
      rw [ht] at h
      exact FS.GetDirectoryBlockLoop_frame B s s1 _ _ _ _ h

end FrameLemmas

section MkdirLemmas

theorem Disk.read_set_ne (d : List (List Nat)) (j : Nat) (x : List Nat) (b : Int)
    (h : b ≠ (j : Int)) : Disk.read (d.set j x) b = Disk.read d b := by
  unfold Disk.read
  rw [List.length_set]
  by_cases hb : 0 ≤ b ∧ b < (d.length : Int)
  · rw [if_pos hb, if_pos hb, List.get?_eq_getElem?, List.get?_eq_getElem?,
      List.getElem?_set_ne (by omega)]
  · rw [if_neg hb, if_neg hb]

theorem FS.mkdirEntry_exists (name : List Nat) (f : Nat) (hne : name ≠ [])
    (hn0 : ∀ c ∈ name, c ≠ 0) : DirEntryExists (FS.mkdirEntry name f) = true := by
  cases name with
  | nil => exact absurd rfl hne
  | cons c cs =>
    have := hn0 c (by simp)
    simp [DirEntryExists, FS.mkdirEntry, this]

theorem FS.backRefEntry_exists (pb : Nat) : DirEntryExists (FS.backRefEntry pb) = true := by
  simp [DirEntryExists, FS.backRefEntry, str]

theorem strcpy_backRef :
    strcpy dir_entry.empty.file_name (str "..") = some (str ".." ++ List.replicate 54 0) := by
  decide

/-- `mkdir` step by step, with the state it leaves. -/
theorem FS.mkdir_eval (B : Nat) (s : FS) (p name : List Nat) (f pb i : Nat)
    (blk fblk : List Nat)
    (hB : B ≤ 65536) (hlen : s.m_fat.length = FAT_SIZE B) (hd : 2 ≤ s.m_disk.length)
    (h0 : s.m_fat.get? 0 ≠ some FAT_FREE) (h1 : s.m_fat.get? 1 ≠ some FAT_FREE)
    (hv : FilenamesAreValid p = true) (hnex : s.FilepathExists B p = Run.ret false)
    (hlast : (ParseDirPath p).getLast? = some name) (hne : name ≠ [])
    (hn0 : ∀ c ∈ name, c ≠ 0) (hn55 : name.length ≤ 55)
    (hF : s.freeList B 1 = [f])
    (hpb : s.GetDirectoryBlock B (ParseDirPath p).dropLast = Run.ret (pb : Int))
    (hreads : ∀ b ∈ s.dirBlocksRead B (ParseDirPath p).dropLast, b ≠ (FAT_BLOCK : Int))
    (hpb1 : pb ≠ FAT_BLOCK) (hpbf : pb ≠ f) (hpbN : pb < 65536)
    (hblk : s.m_disk.get? pb = some blk)
    (hi : FS.firstAbsent (dirEntries B blk) = some i)
    (hfblk : s.m_disk.get? f = some fblk)
    (hf0 : FS.firstAbsent (dirEntries B fblk) = some 0) :
    s.mkdir B p =
      Run.ret (0, s.withNewDir f pb blk fblk i (FS.mkdirEntry name f) (FS.backRefEntry pb)) := by
  have hfmem := FS.freeList_mem B s 1 f (by rw [hF]; simp)
  have hf2 := FS.freeList_ge_two B s 1 f h0 h1 (by rw [hF]; simp)
  have hN : FAT_SIZE B ≤ 32768 := by unfold FAT_SIZE; omega
  have hfree : 1 ≤ s.freeCount B := by
    have := FS.freeCount_of_freeList B s 1 [f] hF
    simpa using this
  obtain ⟨b, rest, hF2, hA⟩ := FS.AllocateNewFileOnFAT_ok B s 1 hB hlen hd (le_refl 1) hfree h0 h1
  rw [hF] at hF2
  cases hF2
  simp only [Nat.cast_one, FS.linkFAT, FS.linkTarget] at hA
  have hstr := strcpy_empty_plain name hn0 hn55
  have hfb : toUInt16 (f : Int) = f := toUInt16_natCast f (by omega)
  have hpbb : toUInt16 (pb : Int) = pb := toUInt16_natCast pb hpbN
  have hone : (1 : Nat) = FAT_BLOCK := rfl
  have hparent : FS.GetDirectoryBlock B
      { s with m_fat := s.m_fat.set f FAT_EOF,
               m_disk := s.m_disk.set 1 (fatBytes (s.m_fat.set f FAT_EOF)) }
      (ParseDirPath p).dropLast = Run.ret (pb : Int) := by
    rw [← hpb]
    exact FS.GetDirectoryBlock_frame B s
      { s with m_fat := s.m_fat.set f FAT_EOF,
               m_disk := s.m_disk.set 1 (fatBytes (s.m_fat.set f FAT_EOF)) }
      _ rfl (fun b hb => Disk.read_set_ne _ 1 _ b (hreads b hb))
  have hgetA : (s.m_disk.set 1 (fatBytes (s.m_fat.set f FAT_EOF))).get? pb = some blk := by
    rw [List.get?_eq_getElem?, List.getElem?_set_ne (by rw [hone]; exact Ne.symm hpb1),
      ← List.get?_eq_getElem?, hblk]
  have hadd := FS.AddNewDirEntry_ok B
    { s with m_fat := s.m_fat.set f FAT_EOF,
             m_disk := s.m_disk.set 1 (fatBytes (s.m_fat.set f FAT_EOF)) }
    pb blk i (FS.mkdirEntry name f) (FS.mkdirEntry_exists name f hne hn0) hgetA hi
  have hmk := FS.MakeFATEntry_plain B
    (FS.withSlot
      { s with m_fat := s.m_fat.set f FAT_EOF,
               m_disk := s.m_disk.set 1 (fatBytes (s.m_fat.set f FAT_EOF)) }
      pb blk i (FS.mkdirEntry name f))
    f FAT_EOF hB (by simp [FS.withSlot, hlen]) (by simpa [FS.withSlot] using hd) hf2 hfmem.1
    (by decide) (by decide)
  have hgetC : ((((s.m_disk.set 1 (fatBytes (s.m_fat.set f FAT_EOF))).set pb
      (setSlot blk i (FS.mkdirEntry name f))).set 1
      (fatBytes ((s.m_fat.set f FAT_EOF).set f FAT_EOF)))).get? f = some fblk := by
    rw [List.get?_eq_getElem?, List.getElem?_set_ne (by omega),
      List.getElem?_set_ne hpbf, List.getElem?_set_ne (by omega), ← List.get?_eq_getElem?,
      hfblk]
  have hadd2 := FS.AddNewDirEntry_ok B
    { s with
      m_fat := (s.m_fat.set f FAT_EOF).set f FAT_EOF,
      m_disk := (((s.m_disk.set 1 (fatBytes (s.m_fat.set f FAT_EOF))).set pb
        (setSlot blk i (FS.mkdirEntry name f))).set 1
        (fatBytes ((s.m_fat.set f FAT_EOF).set f FAT_EOF))) }
    f fblk 0 (FS.backRefEntry pb) (FS.backRefEntry_exists pb) hgetC hf0
  unfold FS.mkdir
  simp only [hv, Bool.not_true, Bool.false_eq_true, if_false, hnex, Run.ret_bind, hlast,
    Run.ofOption, hA, ne_eq, not_true_eq_false, hstr, hfb, hparent]
  rw [show (dir_entry.mk (name ++ List.replicate (56 - name.length) 0) 0 f TYPE_DIR
      FS.m_defaultPermissions) = FS.mkdirEntry name f from rfl, hadd]
  simp only [ne_eq, not_true_eq_false, if_false]
  rw [hmk]
  simp only [Run.ret_bind, ne_eq, not_true_eq_false, if_false, strcpy_backRef, hpbb]
  rw [show (dir_entry.mk (str ".." ++ List.replicate 54 0) 0 pb TYPE_DIR 0) =
      FS.backRefEntry pb from rfl]
  erw [hadd2]
  rfl

end MkdirLemmas

/-- C15, amended: on a well-formed state (blocks of `BLOCK_SIZE` bytes, a table
of `FAT_SIZE` slots, the reserved slots in use), let `p` be a valid path that
does not exist, whose final segment `name` is a NUL-free name of 1 to 55
bytes, and whose parent resolves, without reading the table block, to a block
`pb` that is in use, is not the table block and has a free slot.  If a block
is free and the first free block `f` holds no occupied record, `mkdir`
succeeds; the parent's first free slot then holds a record named `name` of
type DIR with size 0, first block `f` and the default rights READ | WRITE (not
0); the table entry of `f` is `FAT_EOF`; slot 0 of block `f` holds the record
`..` of type DIR with size 0, rights 0 and first block `pb`, and its other
slots are absent; the other table slots, the other slots of the parent and
every block other than the table block, `pb` and `f` are as before. -/
theorem mkdir_inserts_directory_record (BLOCK_SIZE : Nat) (s : FS) (p name : List Nat)
    (pb : Nat) (hB : BLOCK_SIZE ≤ 65536) (hW : s.WellSized BLOCK_SIZE)
    (hlen : s.m_fat.length = FAT_SIZE BLOCK_SIZE) (hd : 2 ≤ s.m_disk.length)
    (h0 : s.m_fat.get? 0 ≠ some FAT_FREE) (h1 : s.m_fat.get? 1 ≠ some FAT_FREE)
    (hv : FilenamesAreValid p = true) (hnex : s.FilepathExists BLOCK_SIZE p = Run.ret false)
    (hlast : (ParseDirPath p).getLast? = some name) (hne : name ≠ [])
    (hn0 : ∀ c ∈ name, c ≠ 0) (hn55 : name.length ≤ 55)
    (hpb : s.GetDirectoryBlock BLOCK_SIZE (ParseDirPath p).dropLast = Run.ret (pb : Int))
    (hreads : ∀ b ∈ s.dirBlocksRead BLOCK_SIZE (ParseDirPath p).dropLast,
      b ≠ (FAT_BLOCK : Int))
    (hpb1 : pb ≠ FAT_BLOCK) (hpbU : s.m_fat.get? pb ≠ some FAT_FREE) (hpbN : pb < 65536)
    (hslot : ∃ blk, s.m_disk.get? pb = some blk ∧
      FS.firstAbsent (dirEntries BLOCK_SIZE blk) ≠ none)
    (hfree : 1 ≤ s.freeCount BLOCK_SIZE)
    (hfz : ∀ f ∈ s.freeList BLOCK_SIZE 1, ∃ fblk, s.m_disk.get? f = some fblk ∧
      ∀ e ∈ dirEntries BLOCK_SIZE fblk, DirEntryExists e = false) :
    ∃ (s1 : FS) (f i : Nat) (blk blk1 fblk1 : List Nat) (e back : dir_entry),
      s.freeList BLOCK_SIZE 1 = [f] ∧
      s.m_disk.get? pb = some blk ∧ FS.firstAbsent (dirEntries BLOCK_SIZE blk) = some i ∧
      s.mkdir BLOCK_SIZE p = Run.ret (0, s1) ∧
      s1.m_disk.get? pb = some blk1 ∧ dir_entry.decode (slotBytes blk1 i) = e ∧
      c_str e.file_name = some name ∧ e.type = TYPE_DIR ∧ e.size = 0 ∧ e.first_blk = f ∧
      e.access_rights = (READ ||| WRITE) ∧
      s1.m_fat.get? f = some FAT_EOF ∧
      s1.m_disk.get? f = some fblk1 ∧ dir_entry.decode (slotBytes fblk1 0) = back ∧
      c_str back.file_name = some (str "..") ∧ back.type = TYPE_DIR ∧ back.size = 0 ∧
      back.first_blk = pb ∧ back.access_rights = 0 ∧
      (∀ j, 1 ≤ j → j < DIR_BLOCK_SIZE BLOCK_SIZE →
        DirEntryExists (dir_entry.decode (slotBytes fblk1 j)) = false) ∧
      (∀ j, j < DIR_BLOCK_SIZE BLOCK_SIZE → j ≠ i → slotBytes blk1 j = slotBytes blk j) ∧
      (∀ x, x ≠ f → s1.m_fat.get? x = s.m_fat.get? x) ∧
      (∀ x, x ≠ FAT_BLOCK → x ≠ pb → x ≠ f → s1.m_disk.get? x = s.m_disk.get? x) ∧
      s1.m_cwdBlock = s.m_cwdBlock := by
  obtain ⟨blk, hblk, hsl⟩ := hslot
  obtain ⟨i, hi⟩ := Option.ne_none_iff_exists'.mp hsl
  have hL := FS.freeList_length BLOCK_SIZE s 1 hfree
  obtain ⟨f, hF⟩ : ∃ f, s.freeList BLOCK_SIZE 1 = [f] := by
    cases hfl : s.freeList BLOCK_SIZE 1 with
    | nil => rw [hfl] at hL; cases hL
    | cons a l =>
      rw [hfl] at hL
      cases l with
      | nil => exact ⟨a, rfl⟩
      | cons b l => simp at hL
  have hfmem := FS.freeList_mem BLOCK_SIZE s 1 f (by rw [hF]; simp)
  have hf2 := FS.freeList_ge_two BLOCK_SIZE s 1 f h0 h1 (by rw [hF]; simp)
  have hN : FAT_SIZE BLOCK_SIZE ≤ 32768 := by unfold FAT_SIZE; omega
  obtain ⟨fblk, hfblk, hfabs⟩ := hfz f (by rw [hF]; simp)
  have hpbf : pb ≠ f := by
    intro h
    rw [h] at hpbU
    exact hpbU hfmem.2
  have hiB : i < DIR_BLOCK_SIZE BLOCK_SIZE := by
    have := FS.firstAbsent_some _ i hi
    rwa [dirEntries_length] at this
  have h64 := slot_in_block BLOCK_SIZE i hiB
  have hblkl : blk.length = BLOCK_SIZE := hW blk (List.get?_mem hblk)
  have hfblkl : fblk.length = BLOCK_SIZE := hW fblk (List.get?_mem hfblk)
  have hpblt : pb < s.m_disk.length := (List.get?_eq_some.mp hblk).1
  have hflt : f < s.m_disk.length := (List.get?_eq_some.mp hfblk).1
  have hf0 : FS.firstAbsent (dirEntries BLOCK_SIZE fblk) = some 0 := by
    have h0mem := dirEntries_get? BLOCK_SIZE fblk 0 (by omega)
    have hmem : dir_entry.decode (slotBytes fblk 0) ∈ dirEntries BLOCK_SIZE fblk :=
      List.get?_mem h0mem
    have habs := hfabs _ hmem
    cases hde : dirEntries BLOCK_SIZE fblk with
    | nil => rw [hde] at h0mem; simp at h0mem
    | cons x xs =>
      rw [hde] at h0mem
      simp only [List.get?_cons_zero, Option.some.injEq] at h0mem
      unfold FS.firstAbsent
      rw [h0mem, habs]
      rfl
  have hmk := FS.mkdir_eval BLOCK_SIZE s p name f pb i blk fblk hB hlen hd h0 h1 hv hnex hlast
    hne hn0 hn55 hF hpb hreads hpb1 hpbf hpbN hblk hi hfblk hf0
  have hen : (FS.mkdirEntry name f).file_name.length = 56 := by
    simp [FS.mkdirEntry]; omega
  have hbn : (FS.backRefEntry pb).file_name.length = 56 := by
    simp [FS.backRefEntry, str]
  have hde : dir_entry.decode (FS.mkdirEntry name f).encode = FS.mkdirEntry name f :=
    dir_entry.decode_encode _ hen (by show (0 : Nat) < 4294967296; decide)
      (by show f < 65536; omega) (by show TYPE_DIR < 256; decide)
      (by show FS.m_defaultPermissions < 256; decide)
  have hdb : dir_entry.decode (FS.backRefEntry pb).encode = FS.backRefEntry pb :=
    dir_entry.decode_encode _ hbn (by show (0 : Nat) < 4294967296; decide) hpbN
      (by show TYPE_DIR < 256; decide) (by show (0 : Nat) < 256; decide)
  have hcn : c_str (FS.mkdirEntry name f).file_name = some name := by
    have : (FS.mkdirEntry name f).file_name =
        name ++ 0 :: List.replicate (55 - name.length) 0 := by
      simp only [FS.mkdirEntry]
      have : 56 - name.length = (55 - name.length) + 1 := by omega
      rw [this, List.replicate_succ]
    rw [this]
    exact c_str_append_zero name _ hn0
  have hone : (1 : Nat) = FAT_BLOCK := rfl
  refine ⟨_, f, i, blk, setSlot blk i (FS.mkdirEntry name f),
    setSlot fblk 0 (FS.backRefEntry pb), FS.mkdirEntry name f, FS.backRefEntry pb, hF, hblk, hi,
    hmk, ?_, ?_, hcn, rfl, rfl, rfl, rfl, ?_, ?_, ?_,
    (by show c_str (str ".." ++ List.replicate 54 0) = some (str ".."); decide),
    rfl, rfl, rfl, rfl, ?_, ?_, ?_,
    ?_, rfl⟩
  · show ((((s.m_disk.set 1 _).set pb _).set 1 _).set f _).get? pb = _
    rw [List.get?_eq_getElem?, List.getElem?_set_ne (Ne.symm hpbf),
      List.getElem?_set_ne (by rw [hone]; exact Ne.symm hpb1),
      List.getElem?_set_self (by simpa using hpblt)]
  · rw [slotBytes_setSlot_same blk i _ (by omega) hen, hde]
  · show ((s.m_fat.set f FAT_EOF).set f FAT_EOF).get? f = _
    rw [List.get?_eq_getElem?, List.getElem?_set_self (by simp; omega)]
  · show ((((s.m_disk.set 1 _).set pb _).set 1 _).set f _).get? f = _
    rw [List.get?_eq_getElem?, List.getElem?_set_self (by simpa using hflt)]
  · rw [slotBytes_setSlot_same fblk 0 _ (by omega) hbn, hdb]
  · intro j hj1 hjB
    rw [slotBytes_setSlot_other fblk 0 j _ (by omega) hbn (by omega)]
    exact hfabs _ (List.get?_mem (dirEntries_get? BLOCK_SIZE fblk j hjB))
  · intro j _ hji
    exact slotBytes_setSlot_other blk i j _ (by omega) hen hji
  · intro x hx
    show ((s.m_fat.set f FAT_EOF).set f FAT_EOF).get? x = _
    rw [List.get?_eq_getElem?, List.getElem?_set_ne (Ne.symm hx),
      List.getElem?_set_ne (Ne.symm hx), List.get?_eq_getElem?]
  · intro x hx1 hxp hxf
    show ((((s.m_disk.set 1 _).set pb _).set 1 _).set f _).get? x = _
    rw [List.get?_eq_getElem?, List.getElem?_set_ne (Ne.symm hxf),
      List.getElem?_set_ne (by rw [hone]; exact Ne.symm hx1),
      List.getElem?_set_ne (Ne.symm hxp),
      List.getElem?_set_ne (by rw [hone]; exact Ne.symm hx1), List.get?_eq_getElem?]

theorem mkdir_inserts_directory_record_witness :
    sampleFormatted.FilepathExists 128 (str "/d") = Run.ret false ∧
    ∃ (s1 : FS) (f i : Nat) (blk blk1 fblk1 : List Nat) (e back : dir_entry),
      sampleFormatted.freeList 128 1 = [f] ∧
      sampleFormatted.m_disk.get? 0 = some blk ∧
      FS.firstAbsent (dirEntries 128 blk) = some i ∧
      sampleFormatted.mkdir 128 (str "/d") = Run.ret (0, s1) ∧
      s1.m_disk.get? 0 = some blk1 ∧ dir_entry.decode (slotBytes blk1 i) = e ∧
      c_str e.file_name = some (str "d") ∧ e.type = TYPE_DIR ∧ e.size = 0 ∧ e.first_blk = f ∧
      e.access_rights = (READ ||| WRITE) ∧
      s1.m_fat.get? f = some FAT_EOF ∧
      s1.m_disk.get? f = some fblk1 ∧ dir_entry.decode (slotBytes fblk1 0) = back ∧
      c_str back.file_name = some (str "..") ∧ back.type = TYPE_DIR ∧ back.size = 0 ∧
      back.first_blk = 0 ∧ back.access_rights = 0 ∧
      (∀ j, 1 ≤ j → j < DIR_BLOCK_SIZE 128 →
        DirEntryExists (dir_entry.decode (slotBytes fblk1 j)) = false) ∧
      (∀ j, j < DIR_BLOCK_SIZE 128 → j ≠ i → slotBytes blk1 j = slotBytes blk j) ∧
      (∀ x, x ≠ f → s1.m_fat.get? x = sampleFormatted.m_fat.get? x) ∧
      (∀ x, x ≠ FAT_BLOCK → x ≠ 0 → x ≠ f →
        s1.m_disk.get? x = sampleFormatted.m_disk.get? x) ∧
      s1.m_cwdBlock = sampleFormatted.m_cwdBlock :=
  ⟨by decide!,
   mkdir_inserts_directory_record 128 sampleFormatted (str "/d") (str "d") 0 (by decide)
     sampleFormatted_wellSized (by decide) (by decide) (by decide) (by decide) (by decide)
     (by decide!) (by decide) (by decide) (by decide) (by decide) (by decide!) (by decide!)
     (by decide) (by decide) (by decide) ⟨_, rfl, by decide!⟩ (by decide!) (by decide!)⟩

/-- C15 as stated fails on the access rights: the record `mkdir("d")` inserts
in the root of a freshly formatted device bears the default rights
READ | WRITE = 6, not 0.  `mkdir` assigns `m_defaultPermissions` before the
insertion; its later `newDir.access_rights = 0` changes a local copy that is
not written again.  Only the `..` record of the new block has rights 0. -/
theorem mkdir_record_rights_counterexample :
    sampleFormatted.mkdir 128 (str "d") = Run.ret (0, sampleWithDir) ∧
    sampleWithDir.GetDirEntryPath 128 (ParseDirPath (str "d")) = Run.ret (0, sampleDirEntry) ∧
    sampleDirEntry.type = TYPE_DIR ∧ sampleDirEntry.access_rights = 6 ∧
    sampleWithDir.GetDirEntryPath 128 (ParseDirPath (str "./d/..")) =
      Run.ret (0, sampleBackRef) ∧
    sampleBackRef.access_rights = 0 := by
  refine ⟨by decide!, by decide!, by decide, by decide, by decide!, by decide⟩

section HoldsLemmas

theorem Run.Holds_ret {α : Type} {P : α → Prop} {a : α} (h : P a) :
    Run.Holds P (Run.ret a) := by
  intro b hb
  cases hb
  exact h

theorem Run.Holds_undef {α : Type} (P : α → Prop) : Run.Holds P (Run.undef : Run α) := by
  intro b hb
  cases hb

theorem Run.Holds_spin {α : Type} (P : α → Prop) : Run.Holds P (Run.spin : Run α) := by
  intro b hb
  cases hb

theorem Run.Holds_thrown {α : Type} (P : α → Prop) : Run.Holds P (Run.thrown : Run α) := by
  intro b hb
  cases hb

theorem Run.Holds_bind {α β : Type} {P : β → Prop} (Q : α → Prop) (x : Run α)
    (f : α → Run β) (hx : Run.Holds Q x) (hf : ∀ a, Q a → Run.Holds P (f a)) :
    Run.Holds P (x >>= f) := by
  cases x with
  | ret a => exact hf a (hx a rfl)
  | undef => exact Run.Holds_undef P
  | spin => exact Run.Holds_spin P
  | thrown => exact Run.Holds_thrown P

theorem Run.Holds_bind_any {α β : Type} {P : β → Prop} (x : Run α) (f : α → Run β)
    (hf : ∀ a, Run.Holds P (f a)) : Run.Holds P (x >>= f) :=
  Run.Holds_bind (fun _ => True) x f (fun _ _ => trivial) (fun a _ => hf a)

theorem Run.Holds_ite {α : Type} {P : α → Prop} (c : Prop) [Decidable c] (x y : Run α)
    (hx : c → Run.Holds P x) (hy : ¬ c → Run.Holds P y) :
    Run.Holds P (if c then x else y) := by
  by_cases h : c
  · rw [if_pos h]; exact hx h
  · rw [if_neg h]; exact hy h

theorem Run.Holds_mono {α : Type} {P Q : α → Prop} (x : Run α) (h : Run.Holds P x)
    (hpq : ∀ a, P a → Q a) : Run.Holds Q x :=
  fun a ha => hpq a (h a ha)

end HoldsLemmas

section TableLemmas

theorem FS.TableEq_refl (s : FS) : FS.TableEq s s := ⟨rfl, rfl, rfl, rfl⟩

theorem FS.TableEq_trans {s t u : FS} (h1 : FS.TableEq s t) (h2 : FS.TableEq t u) :
    FS.TableEq s u :=
  ⟨h2.1.trans h1.1, h2.2.1.trans h1.2.1, h2.2.2.1.trans h1.2.2.1, h2.2.2.2.trans h1.2.2.2⟩

theorem FS.TableEq_cwd (s : FS) (c : Nat) : FS.TableEq s { s with m_cwdBlock := c } :=
  ⟨rfl, rfl, rfl, rfl⟩

theorem FS.ReservedMarked_of_tableEq (B : Nat) {s t : FS} (h : FS.TableEq s t)
    (hs : s.ReservedMarked B) : t.ReservedMarked B := by
  obtain ⟨a, b, c, d, e, f⟩ := hs
  obtain ⟨h1, h2, h3, h4⟩ := h
  exact ⟨by rw [h2]; exact a, by rw [h3]; exact b, by rw [h1]; exact c, by rw [h1]; exact d,
    by rw [h1]; exact e, by rw [h4]; exact f⟩

theorem Disk.write_length (d d1 : List (List Nat)) (b : Int) (buf : List Nat)
    (h : Disk.write d b buf = some d1) : d1.length = d.length := by
  unfold Disk.write at h
  split at h
  · cases h
    simp
  · cases h

theorem FS.TableEq_of_write (s : FS) (b : Int) (buf : List Nat) (d : List (List Nat))
    (h : Disk.write s.m_disk b buf = some d) : FS.TableEq s { s with m_disk := d } :=
  ⟨rfl, rfl, rfl, Disk.write_length _ _ _ _ h⟩

theorem FS.UpdateFAT_tableEq (s : FS) : FS.TableEq s s.UpdateFAT.2 := by
  unfold FS.UpdateFAT
  cases h : Disk.write s.m_disk FAT_BLOCK (fatBytes s.m_fat) with
  | none => exact FS.TableEq_refl s
  | some d => exact FS.TableEq_of_write s _ _ d h

theorem FS.UpdateDirEntry_tableEq (B : Nat) (s : FS) (pb : Int) (old new : dir_entry) :
    Run.Holds (fun r => FS.TableEq s r.2) (s.UpdateDirEntry B pb old new) := by
  unfold FS.UpdateDirEntry
  split
  · exact Run.Holds_ret (FS.TableEq_refl s)
  · refine Run.Holds_bind_any _ _ (fun r => ?_)
    simp only
    split
    · exact Run.Holds_ret (FS.TableEq_refl s)
    · rename_i d hw
      exact Run.Holds_ret (FS.TableEq_of_write s _ _ d hw)

theorem FS.AddNewDirEntry_tableEq (B : Nat) (s : FS) (pb : Int) (e : dir_entry) :
    FS.TableEq s (s.AddNewDirEntry B pb e).2 := by
  unfold FS.AddNewDirEntry
  split
  · exact FS.TableEq_refl s
  · split
    · exact FS.TableEq_refl s
    · split
      · exact FS.TableEq_refl s
      · split
        · exact FS.TableEq_refl s
        · rename_i d hw
          exact FS.TableEq_of_write s _ _ d hw

theorem FS.WriteLoop_tableEq (B : Nat) :
    ∀ (fuel : Nat) (s : FS) (data : List Nat) (b : Int),
      Run.Holds (fun r => FS.TableEq s r.2) (FS.WriteLoop B fuel s data b) := by
  intro fuel
  induction fuel with
  | zero =>
    intro s data b
    unfold FS.WriteLoop
    exact Run.Holds_ite _ _ _ (fun _ => Run.Holds_ret (FS.TableEq_refl s))
      (fun _ => Run.Holds_spin _)
  | succ fuel ih =>
    intro s data b
    unfold FS.WriteLoop
    refine Run.Holds_ite _ _ _ (fun _ => Run.Holds_ret (FS.TableEq_refl s)) (fun _ => ?_)
    simp only
    split
    · exact Run.Holds_ret (FS.TableEq_refl s)
    · rename_i d hw
      refine Run.Holds_bind_any _ _ (fun child => ?_)
      exact Run.Holds_mono _ (ih { s with m_disk := d } _ child)
        (fun a ha => FS.TableEq_trans (FS.TableEq_of_write s _ _ d hw) ha)

theorem FS.WriteDataStringToFile_tableEq (B fuel : Nat) (s : FS) (data : List Nat)
    (e : dir_entry) :
    Run.Holds (fun r => FS.TableEq s r.2) (FS.WriteDataStringToFile B fuel s data e) := by
  unfold FS.WriteDataStringToFile
  refine Run.Holds_ite _ _ _ (fun _ => Run.Holds_ret (FS.TableEq_refl s)) (fun _ => ?_)
  refine Run.Holds_ite _ _ _ (fun _ => Run.Holds_ret (FS.TableEq_refl s)) (fun _ => ?_)
  exact FS.WriteLoop_tableEq B fuel s data _

theorem FS.cpLoop_tableEq (B : Nat) :
    ∀ (fuel : Nat) (s : FS) (a b : Int),
      Run.Holds (fun r => FS.TableEq s r.2) (FS.cpLoop B fuel s a b) := by
  intro fuel
  induction fuel with
  | zero =>
    intro s a b
    unfold FS.cpLoop
    exact Run.Holds_ite _ _ _ (fun _ => Run.Holds_ret (FS.TableEq_refl s))
      (fun _ => Run.Holds_spin _)
  | succ fuel ih =>
    intro s a b
    unfold FS.cpLoop
    refine Run.Holds_ite _ _ _ (fun _ => Run.Holds_ret (FS.TableEq_refl s)) (fun _ => ?_)
    split
    · exact Run.Holds_ret (FS.TableEq_refl s)
    · split
      · exact Run.Holds_ret (FS.TableEq_refl s)
      · rename_i d hw
        refine Run.Holds_bind_any _ _ (fun x => ?_)
        refine Run.Holds_bind_any _ _ (fun y => ?_)
        exact Run.Holds_mono _ (ih { s with m_disk := d } x y)
          (fun r hr => FS.TableEq_trans (FS.TableEq_of_write s _ _ d hw) hr)

end TableLemmas

section MarkedLemmas

theorem FS.MakeFATEntry_marked (B : Nat) (s : FS) (index v : Int)
    (hs : s.ReservedMarked B) :
    Run.Holds (fun r => FS.ReservedMarked B r.2) (FS.MakeFATEntry B s index v) := by
  obtain ⟨hr, hf, h0, h1, hl, hd⟩ := hs
  unfold FS.MakeFATEntry
  simp only
  by_cases hi0 : toUInt32 index = ROOT_BLOCK
  · rw [if_pos ⟨hi0, hr⟩]
    exact Run.Holds_ret ⟨hr, hf, h0, h1, hl, hd⟩
  · rw [if_neg (fun h => hi0 h.1), if_neg hi0]
    by_cases hi1 : toUInt32 index = FAT_BLOCK
    · rw [if_pos ⟨hi1, hf⟩]
      exact Run.Holds_ret ⟨hr, hf, h0, h1, hl, hd⟩
    · rw [if_neg (fun h => hi1 h.1), if_neg hi1]
      refine Run.Holds_ite _ _ _ (fun _ => Run.Holds_ret ⟨hr, hf, h0, h1, hl, hd⟩) (fun _ => ?_)
      refine Run.Holds_ite _ _ _ (fun _ => ?_) (fun _ => Run.Holds_undef _)
      apply Run.Holds_ret
      apply FS.ReservedMarked_of_tableEq B (FS.UpdateFAT_tableEq _)
      have e0 : toUInt32 index ≠ 0 := hi0
      have e1 : toUInt32 index ≠ 1 := hi1
      refine ⟨hr, hf, ?_, ?_, ?_, hd⟩
      · show (s.m_fat.set (toUInt32 index) _).get? 0 = _
        rw [List.get?_eq_getElem?, List.getElem?_set_ne e0, ← List.get?_eq_getElem?]
        exact h0
      · show (s.m_fat.set (toUInt32 index) _).get? 1 = _
        rw [List.get?_eq_getElem?, List.getElem?_set_ne e1, ← List.get?_eq_getElem?]
        exact h1
      · show (s.m_fat.set (toUInt32 index) _).length = _
        rw [List.length_set]
        exact hl

theorem FS.LinkLoop_marked (B : Nat) (F : List Nat) (n : Nat) :
    ∀ (k : Nat) (s : FS), s.ReservedMarked B →
      Run.Holds (fun r => FS.ReservedMarked B r.2) (FS.LinkLoop B F n k s) := by
  intro k
  induction k with
  | zero =>
    intro s hs
    unfold FS.LinkLoop
    exact Run.Holds_ret hs
  | succ k ih =>
    intro s hs
    unfold FS.LinkLoop
    simp only
    split
    · exact Run.Holds_undef _
    · split
      · exact Run.Holds_undef _
      · split
        · rename_i st s1 heq
          have hs1 : FS.ReservedMarked B s1 :=
            FS.MakeFATEntry_marked B s _ _ hs (st, s1) heq
          exact Run.Holds_ite _ _ _ (fun _ => Run.Holds_ret hs1) (fun _ => ih s1 hs1)
        · exact Run.Holds_undef _
        · exact Run.Holds_spin _
        · exact Run.Holds_thrown _

theorem FS.AllocateNewFileOnFAT_marked (B : Nat) (s : FS) (n : Int)
    (hs : s.ReservedMarked B) :
    Run.Holds (fun r => FS.ReservedMarked B r.2.1) (FS.AllocateNewFileOnFAT B s n) := by
  unfold FS.AllocateNewFileOnFAT
  split
  rename_i st F _
  refine Run.Holds_ite _ _ _ (fun _ => Run.Holds_ret hs) (fun _ => ?_)
  refine Run.Holds_bind _ _ _ (FS.LinkLoop_marked B F _ _ s hs) (fun r hr => ?_)
  refine Run.Holds_ite _ _ _ (fun _ => Run.Holds_ret hr) (fun _ => ?_)
  split
  · exact Run.Holds_undef _
  · exact Run.Holds_ret hr

theorem FS.ExtendFileOnFAT_marked (B fuel : Nat) (s : FS) (n start : Int)
    (hs : s.ReservedMarked B) :
    Run.Holds (fun r => FS.ReservedMarked B r.2) (FS.ExtendFileOnFAT B fuel s n start) := by
  unfold FS.ExtendFileOnFAT
  split
  rename_i st F _
  refine Run.Holds_ite _ _ _ (fun _ => Run.Holds_ret hs) (fun _ => ?_)
  refine Run.Holds_bind_any _ _ (fun e => ?_)
  refine Run.Holds_bind_any _ _ (fun first => ?_)
  refine Run.Holds_bind _ _ _ (FS.MakeFATEntry_marked B s e first hs) (fun r hr => ?_)
  refine Run.Holds_ite _ _ _ (fun _ => Run.Holds_ret hr) (fun _ => ?_)
  refine Run.Holds_bind _ _ _ (FS.LinkLoop_marked B F _ _ r.2 hr) (fun r2 hr2 => ?_)
  exact Run.Holds_ite _ _ _ (fun _ => Run.Holds_ret hr2) (fun _ => Run.Holds_ret hr2)

theorem FS.rmLoop_marked (B : Nat) :
    ∀ (fuel : Nat) (s : FS) (b : Int), s.ReservedMarked B →
      Run.Holds (fun r => FS.ReservedMarked B r.2) (FS.rmLoop B fuel s b) := by
  intro fuel
  induction fuel with
  | zero =>
    intro s b hs
    unfold FS.rmLoop
    exact Run.Holds_ite _ _ _ (fun _ => Run.Holds_ret hs) (fun _ => Run.Holds_spin _)
  | succ fuel ih =>
    intro s b hs
    unfold FS.rmLoop
    refine Run.Holds_ite _ _ _ (fun _ => Run.Holds_ret hs) (fun _ => ?_)
    have hs1 : FS.ReservedMarked B
        (match Disk.write s.m_disk b (List.replicate B 0) with
        | none => s
        | some d => { s with m_disk := d }) := by
      split
      · exact hs
      · rename_i d hw
        exact FS.ReservedMarked_of_tableEq B (FS.TableEq_of_write s _ _ d hw) hs
    simp only
    refine Run.Holds_bind_any _ _ (fun nextBlock => ?_)
    refine Run.Holds_bind _ _ _ (FS.MakeFATEntry_marked B _ b FAT_FREE hs1) (fun r hr => ?_)
    exact Run.Holds_ite _ _ _ (fun _ => Run.Holds_ret hr) (fun _ => ih r.2 nextBlock hr)

theorem FS.formatLoop_marked (B : Nat) :
    ∀ (l : List Nat) (s : FS), s.ReservedMarked B →
      Run.Holds (fun r => FS.ReservedMarked B r.2) (FS.formatLoop B l s) := by
  intro l
  induction l with
  | nil =>
    intro s hs
    unfold FS.formatLoop
    exact Run.Holds_ret hs
  | cons i rest ih =>
    intro s hs
    unfold FS.formatLoop
    refine Run.Holds_bind _ _ _ (FS.MakeFATEntry_marked B s i FAT_FREE hs) (fun r hr => ?_)
    exact Run.Holds_ite _ _ _ (fun _ => Run.Holds_ret hr) (fun _ => ih r.2 hr)

end MarkedLemmas

section OperationLemmas

theorem FS.marked_of_holds_tableEq (B : Nat) (s : FS) (hs : s.ReservedMarked B)
    (x : Run (Int × FS)) (h : Run.Holds (fun r => FS.TableEq s r.2) x) :
    Run.Holds (fun r => FS.ReservedMarked B r.2) x :=
  Run.Holds_mono x h (fun _ ha => FS.ReservedMarked_of_tableEq B ha hs)

theorem FS.create_marked (B fuel : Nat) (s : FS) (filepath line : List Nat)
    (hs : s.ReservedMarked B) :
    Run.Holds (fun r => FS.ReservedMarked B r.2) (s.create B fuel filepath line) := by
  unfold FS.create
  refine Run.Holds_ite _ _ _ (fun _ => Run.Holds_ret hs) (fun _ => ?_)
  refine Run.Holds_bind_any _ _ (fun ex => ?_)
  refine Run.Holds_ite _ _ _ (fun _ => Run.Holds_ret hs) (fun _ => ?_)
  refine Run.Holds_bind_any _ _ (fun newFilename => ?_)
  refine Run.Holds_bind _ _ _ (FS.AllocateNewFileOnFAT_marked B s _ hs) (fun a ha => ?_)
  refine Run.Holds_ite _ _ _ (fun _ => Run.Holds_ret ha) (fun _ => ?_)
  refine Run.Holds_bind_any _ _ (fun name => ?_)
  refine Run.Holds_bind _ _ _
    (FS.marked_of_holds_tableEq B a.2.1 ha _ (FS.WriteDataStringToFile_tableEq B fuel a.2.1 _ _))
    (fun w hw => ?_)
  refine Run.Holds_ite _ _ _ (fun _ => Run.Holds_ret hw) (fun _ => ?_)
  refine Run.Holds_bind_any _ _ (fun parent => ?_)
  have hadd := FS.ReservedMarked_of_tableEq B (FS.AddNewDirEntry_tableEq B w.2 parent
    { file_name := name,
      size := toUInt32 ((if newFilename = str "testfile" then List.replicate (B * 3 + 1) 97
        else line) ++ [10]).length,
      first_blk := toUInt16 a.2.2, type := TYPE_FILE,
      access_rights := FS.m_defaultPermissions }) hw
  exact Run.Holds_ite _ _ _ (fun _ => Run.Holds_ret hadd) (fun _ => Run.Holds_ret hadd)

theorem FS.cat_same_state (B fuel : Nat) (s : FS) (filepath : List Nat) :
    Run.Holds (fun r => r.2.1 = s) (s.cat B fuel filepath) :=
  fun r hr => FS.cat_state B fuel s filepath r hr

theorem FS.cpFinish_marked (B fuel : Nat) (s : FS) (src : dir_entry) (dirBlock : Int)
    (destName : List Nat) (hs : s.ReservedMarked B) :
    Run.Holds (fun r => FS.ReservedMarked B r.2) (s.cpFinish B fuel src dirBlock destName) := by
  unfold FS.cpFinish
  refine Run.Holds_bind _ _ _ (FS.AllocateNewFileOnFAT_marked B s _ hs) (fun a ha => ?_)
  refine Run.Holds_ite _ _ _ (fun _ => Run.Holds_ret ha) (fun _ => ?_)
  refine Run.Holds_bind_any _ _ (fun name => ?_)
  have hadd := FS.ReservedMarked_of_tableEq B (FS.AddNewDirEntry_tableEq B a.2.1 dirBlock
    { src with file_name := name, first_blk := toUInt16 a.2.2 }) ha
  refine Run.Holds_ite _ _ _ (fun _ => Run.Holds_ret hadd) (fun _ => ?_)
  exact FS.marked_of_holds_tableEq B _ hadd _ (FS.cpLoop_tableEq B fuel _ _ _)

theorem FS.cp_marked (B fuel : Nat) (s : FS) (sourcepath destpath : List Nat)
    (hs : s.ReservedMarked B) :
    Run.Holds (fun r => FS.ReservedMarked B r.2) (s.cp B fuel sourcepath destpath) := by
  unfold FS.cp
  refine Run.Holds_ite _ _ _ (fun _ => Run.Holds_ret hs) (fun _ => ?_)
  refine Run.Holds_bind_any _ _ (fun ex => ?_)
  refine Run.Holds_ite _ _ _ (fun _ => Run.Holds_ret hs) (fun _ => ?_)
  refine Run.Holds_bind_any _ _ (fun src => ?_)
  refine Run.Holds_ite _ _ _ (fun _ => Run.Holds_ret hs) (fun _ => ?_)
  refine Run.Holds_ite _ _ _ (fun _ => Run.Holds_ret hs) (fun _ => ?_)
  refine Run.Holds_bind_any _ _ (fun dst => ?_)
  refine Run.Holds_ite _ _ _ (fun _ => Run.Holds_ret hs) (fun _ => ?_)
  refine Run.Holds_ite _ _ _ (fun _ => ?_) (fun _ => ?_)
  · refine Run.Holds_bind_any _ _ (fun destFileName => ?_)
    exact FS.cpFinish_marked B fuel s _ _ _ hs
  · refine Run.Holds_ite _ _ _ (fun _ => Run.Holds_ret hs) (fun _ => ?_)
    exact FS.cpFinish_marked B fuel s _ _ _ hs

theorem FS.mv_marked (B : Nat) (s : FS) (sourcepath destpath : List Nat)
    (hs : s.ReservedMarked B) :
    Run.Holds (fun r => FS.ReservedMarked B r.2) (s.mv B sourcepath destpath) := by
  unfold FS.mv
  refine Run.Holds_ite _ _ _ (fun _ => Run.Holds_ret hs) (fun _ => ?_)
  refine Run.Holds_bind_any _ _ (fun ex => ?_)
  refine Run.Holds_ite _ _ _ (fun _ => Run.Holds_ret hs) (fun _ => ?_)
  refine Run.Holds_bind_any _ _ (fun src => ?_)
  refine Run.Holds_ite _ _ _ (fun _ => Run.Holds_ret hs) (fun _ => ?_)
  refine Run.Holds_bind_any _ _ (fun pb => ?_)
  refine Run.Holds_bind_any _ _ (fun dst => ?_)
  refine Run.Holds_ite _ _ _ (fun _ => Run.Holds_ret hs) (fun _ => ?_)
  refine Run.Holds_ite _ _ _ (fun _ => ?_) (fun _ => ?_)
  · have hadd := FS.ReservedMarked_of_tableEq B
      (FS.AddNewDirEntry_tableEq B s (dst.2.first_blk : Int) src.2) hs
    refine Run.Holds_ite _ _ _ (fun _ => Run.Holds_ret hadd) (fun _ => ?_)
    refine Run.Holds_bind _ _ _
      (FS.marked_of_holds_tableEq B _ hadd _ (FS.UpdateDirEntry_tableEq B _ pb src.2 _))
      (fun u hu => ?_)
    exact Run.Holds_ite _ _ _ (fun _ => Run.Holds_ret hu) (fun _ => Run.Holds_ret hu)
  · refine Run.Holds_ite _ _ _ (fun _ => Run.Holds_ret hs) (fun _ => ?_)
    refine Run.Holds_bind_any _ _ (fun name => ?_)
    refine Run.Holds_bind _ _ _
      (FS.marked_of_holds_tableEq B _ hs _ (FS.UpdateDirEntry_tableEq B s pb src.2 _))
      (fun u hu => ?_)
    exact Run.Holds_ite _ _ _ (fun _ => Run.Holds_ret hu) (fun _ => Run.Holds_ret hu)

theorem FS.rm_marked (B fuel : Nat) (s : FS) (filepath : List Nat)
    (hs : s.ReservedMarked B) :
    Run.Holds (fun r => FS.ReservedMarked B r.2) (s.rm B fuel filepath) := by
  unfold FS.rm
  refine Run.Holds_ite _ _ _ (fun _ => Run.Holds_ret hs) (fun _ => ?_)
  refine Run.Holds_bind_any _ _ (fun ex => ?_)
  refine Run.Holds_ite _ _ _ (fun _ => Run.Holds_ret hs) (fun _ => ?_)
  refine Run.Holds_bind_any _ _ (fun t => ?_)
  refine Run.Holds_ite _ _ _ (fun _ => Run.Holds_ret hs) (fun _ => ?_)
  refine Run.Holds_ite _ _ _ (fun _ => Run.Holds_ret hs) (fun _ => ?_)
  refine Run.Holds_bind_any _ _ (fun parent => ?_)
  refine Run.Holds_bind _ _ _
    (FS.marked_of_holds_tableEq B _ hs _ (FS.UpdateDirEntry_tableEq B s parent t.2 _))
    (fun u hu => ?_)
  exact Run.Holds_ite _ _ _ (fun _ => Run.Holds_ret hu) (fun _ => FS.rmLoop_marked B fuel u.2 _ hu)

theorem FS.append_marked (B fuel : Nat) (s : FS) (filepath1 filepath2 : List Nat)
    (hs : s.ReservedMarked B) :
    Run.Holds (fun r => FS.ReservedMarked B r.2) (s.append B fuel filepath1 filepath2) := by
  unfold FS.append
  refine Run.Holds_ite _ _ _ (fun _ => Run.Holds_ret hs) (fun _ => ?_)
  refine Run.Holds_bind_any _ _ (fun ex1 => ?_)
  refine Run.Holds_bind_any _ _ (fun ex2 => ?_)
  refine Run.Holds_ite _ _ _ (fun _ => Run.Holds_ret hs) (fun _ => ?_)
  refine Run.Holds_bind_any _ _ (fun src => ?_)
  refine Run.Holds_bind_any _ _ (fun dst => ?_)
  refine Run.Holds_ite _ _ _ (fun _ => Run.Holds_ret hs) (fun _ => ?_)
  refine Run.Holds_ite _ _ _ (fun _ => Run.Holds_ret hs) (fun _ => ?_)
  refine Run.Holds_bind_any _ _ (fun r1 => ?_)
  refine Run.Holds_ite _ _ _ (fun _ => Run.Holds_ret hs) (fun _ => ?_)
  refine Run.Holds_bind_any _ _ (fun r2 => ?_)
  refine Run.Holds_ite _ _ _ (fun _ => Run.Holds_ret hs) (fun _ => ?_)
  refine Run.Holds_bind (fun x => FS.ReservedMarked B x.2) _ _ ?_ (fun x hx => ?_)
  · exact Run.Holds_ite _ _ _ (fun _ => FS.ExtendFileOnFAT_marked B fuel s _ _ hs)
      (fun _ => Run.Holds_ret hs)
  · refine Run.Holds_ite _ _ _ (fun _ => Run.Holds_ret hx) (fun _ => ?_)
    refine Run.Holds_bind_any _ _ (fun parent => ?_)
    refine Run.Holds_bind _ _ _
      (FS.marked_of_holds_tableEq B _ hx _ (FS.UpdateDirEntry_tableEq B x.2 parent dst.2 _))
      (fun u hu => ?_)
    refine Run.Holds_ite _ _ _ (fun _ => Run.Holds_ret hu) (fun _ => ?_)
    exact FS.marked_of_holds_tableEq B _ hu _ (FS.WriteDataStringToFile_tableEq B fuel u.2 _ _)

theorem FS.mkdir_marked (B : Nat) (s : FS) (dirpath : List Nat) (hs : s.ReservedMarked B) :
    Run.Holds (fun r => FS.ReservedMarked B r.2) (s.mkdir B dirpath) := by
  unfold FS.mkdir
  refine Run.Holds_ite _ _ _ (fun _ => Run.Holds_ret hs) (fun _ => ?_)
  refine Run.Holds_bind_any _ _ (fun ex => ?_)
  refine Run.Holds_ite _ _ _ (fun _ => Run.Holds_ret hs) (fun _ => ?_)
  refine Run.Holds_bind_any _ _ (fun dirName => ?_)
  refine Run.Holds_bind _ _ _ (FS.AllocateNewFileOnFAT_marked B s _ hs) (fun a ha => ?_)
  refine Run.Holds_ite _ _ _ (fun _ => Run.Holds_ret ha) (fun _ => ?_)
  refine Run.Holds_bind_any _ _ (fun name => ?_)
  refine Run.Holds_bind_any _ _ (fun parentDirBlock => ?_)
  have hadd := FS.ReservedMarked_of_tableEq B (FS.AddNewDirEntry_tableEq B a.2.1 parentDirBlock
    { file_name := name, size := 0, first_blk := toUInt16 a.2.2, type := TYPE_DIR,
      access_rights := FS.m_defaultPermissions }) ha
  refine Run.Holds_ite _ _ _ (fun _ => Run.Holds_ret hadd) (fun _ => ?_)
  refine Run.Holds_bind _ _ _ (FS.MakeFATEntry_marked B _ a.2.2 FAT_EOF hadd) (fun m hm => ?_)
  refine Run.Holds_ite _ _ _ (fun _ => Run.Holds_ret hm) (fun _ => ?_)
  refine Run.Holds_bind_any _ _ (fun backName => ?_)
  have hadd2 := FS.ReservedMarked_of_tableEq B (FS.AddNewDirEntry_tableEq B m.2 a.2.2
    { file_name := backName, size := 0, first_blk := toUInt16 parentDirBlock,
      type := TYPE_DIR, access_rights := 0 }) hm
  exact Run.Holds_ite _ _ _ (fun _ => Run.Holds_ret hadd2) (fun _ => Run.Holds_ret hadd2)

theorem FS.cd_marked (B : Nat) (s : FS) (dirpath : List Nat) (hs : s.ReservedMarked B) :
    Run.Holds (fun r => FS.ReservedMarked B r.2) (s.cd B dirpath) := by
  unfold FS.cd
  refine Run.Holds_ite _ _ _
    (fun _ => Run.Holds_ret (FS.ReservedMarked_of_tableEq B (FS.TableEq_cwd s _) hs))
    (fun _ => ?_)
  refine Run.Holds_ite _ _ _ (fun _ => Run.Holds_ret hs) (fun _ => ?_)
  refine Run.Holds_bind_any _ _ (fun r => ?_)
  exact Run.Holds_ite _ _ _ (fun _ => Run.Holds_ret hs)
    (fun _ => Run.Holds_ret (FS.ReservedMarked_of_tableEq B (FS.TableEq_cwd s _) hs))

theorem FS.chmod_marked (B : Nat) (s : FS) (accessrights filepath : List Nat)
    (hs : s.ReservedMarked B) :
    Run.Holds (fun r => FS.ReservedMarked B r.2) (s.chmod B accessrights filepath) := by
  unfold FS.chmod
  refine Run.Holds_ite _ _ _ (fun _ => Run.Holds_ret hs) (fun _ => ?_)
  refine Run.Holds_bind_any _ _ (fun ex => ?_)
  refine Run.Holds_ite _ _ _ (fun _ => Run.Holds_ret hs) (fun _ => ?_)
  split
  · exact Run.Holds_thrown _
  · refine Run.Holds_ite _ _ _ (fun _ => Run.Holds_ret hs) (fun _ => ?_)
    refine Run.Holds_bind_any _ _ (fun r => ?_)
    refine Run.Holds_bind_any _ _ (fun pb => ?_)
    refine Run.Holds_bind _ _ _
      (FS.marked_of_holds_tableEq B _ hs _ (FS.UpdateDirEntry_tableEq B s pb r.2 _))
      (fun u hu => ?_)
    exact Run.Holds_ret hu

theorem FS.format_marked (B : Nat) (s : FS) (hs : s.ReservedMarked B) :
    Run.Holds (fun r => FS.ReservedMarked B r.2) (s.format B) := by
  unfold FS.format
  have ht : FS.TableEq s { s with m_disk := s.m_disk.map (fun _ => List.replicate B 0) } :=
    ⟨rfl, rfl, rfl, by simp⟩
  have hs0 := FS.ReservedMarked_of_tableEq B ht hs
  simp only
  refine Run.Holds_bind _ _ _ (FS.MakeFATEntry_marked B _ _ FAT_EOF hs0) (fun r hr => ?_)
  refine Run.Holds_ite _ _ _ (fun _ => Run.Holds_ret hr) (fun _ => ?_)
  refine Run.Holds_bind _ _ _ (FS.MakeFATEntry_marked B _ _ FAT_EOF hr) (fun r1 hr1 => ?_)
  refine Run.Holds_ite _ _ _ (fun _ => Run.Holds_ret hr1) (fun _ => ?_)
  exact FS.formatLoop_marked B _ r1.2 hr1

/-- Every operation keeps the reserved slots marked. -/
theorem FS.Step_marked (B : Nat) (s s1 : FS) (h : FS.Step B s s1) (hs : s.ReservedMarked B) :
    s1.ReservedMarked B := by
  cases h with
  | format _ r h => exact FS.format_marked B s hs r h
  | create fuel _ filepath line r h => exact FS.create_marked B fuel s filepath line hs r h
  | cat fuel _ filepath r h =>
    rw [FS.cat_state B fuel s filepath r h]
    exact hs
  | cp fuel _ sourcepath destpath r h => exact FS.cp_marked B fuel s sourcepath destpath hs r h
  | mv _ sourcepath destpath r h => exact FS.mv_marked B s sourcepath destpath hs r h
  | rm fuel _ filepath r h => exact FS.rm_marked B fuel s filepath hs r h
  | append fuel _ filepath1 filepath2 r h =>
    exact FS.append_marked B fuel s filepath1 filepath2 hs r h
  | mkdir _ dirpath r h => exact FS.mkdir_marked B s dirpath hs r h
  | cd _ dirpath r h => exact FS.cd_marked B s dirpath hs r h
  | chmod _ accessrights filepath r h => exact FS.chmod_marked B s accessrights filepath hs r h

end OperationLemmas

section FormatLemmas

theorem ERROR_CODE_ne_zero : ERROR_CODE ≠ 0 := by decide

theorem FS.UpdateFAT_success (s s1 : FS) (h : s.UpdateFAT = (0, s1)) :
    2 ≤ s.m_disk.length ∧ s1.m_fat = s.m_fat ∧ s1.rootCreated = s.rootCreated ∧
      s1.FATCreated = s.FATCreated ∧ s1.m_disk.length = s.m_disk.length := by
  unfold FS.UpdateFAT at h
  split at h
  · rename_i d hw
    have hl := Disk.write_length _ _ _ _ hw
    have h2 : 2 ≤ s.m_disk.length := by
      unfold Disk.write at hw
      split at hw
      · rename_i hb
        have : ((FAT_BLOCK : Nat) : Int) = 1 := rfl
        omega
      · cases hw
    cases h
    exact ⟨h2, rfl, rfl, rfl, hl⟩
  · exact absurd (congrArg Prod.fst h) ERROR_CODE_ne_zero

/-- What a successful `MakeFATEntry` did. -/
theorem FS.MakeFATEntry_success (B : Nat) (s s1 : FS) (index v : Int)
    (h : FS.MakeFATEntry B s index v = Run.ret (0, s1)) :
    toUInt32 index < s.m_fat.length ∧ toUInt32 index < FAT_SIZE B ∧
      s1.m_fat = s.m_fat.set (toUInt32 index) (toInt16 v) ∧ 2 ≤ s.m_disk.length ∧
      s1.m_disk.length = s.m_disk.length ∧
      (toUInt32 index = 0 → s.rootCreated = false ∧ s1.rootCreated = true) ∧
      (toUInt32 index ≠ 0 → s1.rootCreated = s.rootCreated) ∧
      (toUInt32 index = 1 → s.FATCreated = false ∧ s1.FATCreated = true) ∧
      (toUInt32 index ≠ 1 → s1.FATCreated = s.FATCreated) := by
  have hbad : ∀ t : FS, ¬ (Run.ret (ERROR_CODE, t) = Run.ret ((0 : Int), s1)) := by
    intro t ht
    exact ERROR_CODE_ne_zero (congrArg Prod.fst (Run.ret.inj ht))
  unfold FS.MakeFATEntry at h
  simp only [ROOT_BLOCK, FAT_BLOCK] at h ⊢
  generalize toUInt32 index = i at h ⊢
  have hfin : ∀ (t : FS), i < t.m_fat.length ∧ i < FAT_SIZE B →
      Run.ret (FS.UpdateFAT { t with m_fat := t.m_fat.set i (toInt16 v) }) = Run.ret (0, s1) →
      i < t.m_fat.length ∧ i < FAT_SIZE B ∧ s1.m_fat = t.m_fat.set i (toInt16 v) ∧
        2 ≤ t.m_disk.length ∧ s1.m_disk.length = t.m_disk.length ∧
        s1.rootCreated = t.rootCreated ∧ s1.FATCreated = t.FATCreated := by
    intro t c4 hu
    have hu2 := FS.UpdateFAT_success _ _ (Run.ret.inj hu)
    exact ⟨c4.1, c4.2, hu2.2.1, hu2.1, hu2.2.2.2.2, hu2.2.2.1, hu2.2.2.2.1⟩
  by_cases r0 : i = 0
  · subst r0
    by_cases c : s.rootCreated = true
    · rw [if_pos ⟨rfl, c⟩] at h
      exact absurd h (hbad _)
    · rw [if_neg (fun hc => c hc.2)] at h
      have z01 : ((0 : Nat) = 1) = False := by decide
      simp only [if_true, z01, false_and, if_false] at h
      by_cases c3 : 0 > FAT_SIZE B
      · exact absurd c3 (by omega)
      · by_cases c4 : 0 < s.m_fat.length ∧ 0 < FAT_SIZE B
        · simp only [c4, and_self, if_true, gt_iff_lt, not_lt_zero', if_false] at h
          obtain ⟨a1, a2, a3, a4, a5, a6, a7⟩ := hfin { s with rootCreated := true } c4 h
          have hrc : s.rootCreated = false := by simpa using c
          exact ⟨a1, a2, a3, a4, a5, fun _ => ⟨hrc, a6⟩, fun hh => absurd rfl hh,
            fun hh => absurd hh (by decide), fun _ => a7⟩
        · simp only [c4, if_false, gt_iff_lt, not_lt_zero'] at h
          cases h
  · rw [if_neg (fun hc => r0 hc.1)] at h
    simp only [r0, if_false] at h
    by_cases r1 : i = 1
    · subst r1
      by_cases c : s.FATCreated = true
      · rw [if_pos ⟨rfl, c⟩] at h
        exact absurd h (hbad _)
      · rw [if_neg (fun hc => c hc.2)] at h
        simp only [if_true] at h
        by_cases c3 : 1 > FAT_SIZE B
        · rw [if_pos c3] at h
          exact absurd h (hbad _)
        · rw [if_neg c3] at h
          by_cases c4 : 1 < s.m_fat.length ∧ 1 < FAT_SIZE B
          · rw [if_pos c4] at h
            obtain ⟨a1, a2, a3, a4, a5, a6, a7⟩ := hfin { s with FATCreated := true } c4 h
            have hfc : s.FATCreated = false := by simpa using c
            exact ⟨a1, a2, a3, a4, a5, fun hh => absurd hh (by decide), fun _ => a6,
              fun _ => ⟨hfc, a7⟩, fun hh => absurd rfl hh⟩
          · rw [if_neg c4] at h
            cases h
    · rw [if_neg (fun hc => r1 hc.1)] at h
      simp only [r1, if_false] at h
      by_cases c3 : i > FAT_SIZE B
      · rw [if_pos c3] at h
        exact absurd h (hbad _)
      · rw [if_neg c3] at h
        by_cases c4 : i < s.m_fat.length ∧ i < FAT_SIZE B
        · rw [if_pos c4] at h
          obtain ⟨a1, a2, a3, a4, a5, a6, a7⟩ := hfin s c4 h
          exact ⟨a1, a2, a3, a4, a5, fun hh => absurd hh r0, fun _ => a6,
            fun hh => absurd hh r1, fun _ => a7⟩
        · rw [if_neg c4] at h
          cases h

/-- A successful `format` leaves the reserved slots marked. -/
theorem FS.format_success_marked (B : Nat) (s0 s1 : FS)
    (hlen : s0.m_fat.length = FAT_SIZE B) (h : s0.format B = Run.ret (0, s1)) :
    s1.ReservedMarked B := by
  unfold FS.format at h
  simp only at h
  cases h1 : FS.MakeFATEntry B
      { s0 with m_disk := s0.m_disk.map (fun _ => List.replicate B 0) }
      (ROOT_BLOCK : Int) FAT_EOF with
  | ret r =>
    rw [h1] at h
    simp only [Run.ret_bind] at h
    by_cases c : r.1 ≠ 0
    · rw [if_pos c] at h
      exact absurd (congrArg Prod.fst (Run.ret.inj h)) ERROR_CODE_ne_zero
    · rw [if_neg c] at h
      have hr1 : r.1 = 0 := by simpa using c
      have hr : r = (0, r.2) := by rw [← hr1]
      rw [hr] at h1
      obtain ⟨a1, a2, a3, a4, a5, a6, a7, a8, a9⟩ := FS.MakeFATEntry_success B _ _ _ _ h1
      cases h2 : FS.MakeFATEntry B r.2 (FAT_BLOCK : Int) FAT_EOF with
      | ret q =>
        rw [h2] at h
        simp only [Run.ret_bind] at h
        by_cases c2 : q.1 ≠ 0
        · rw [if_pos c2] at h
          exact absurd (congrArg Prod.fst (Run.ret.inj h)) ERROR_CODE_ne_zero
        · rw [if_neg c2] at h
          have hq1 : q.1 = 0 := by simpa using c2
          have hq : q = (0, q.2) := by rw [← hq1]
          rw [hq] at h2
          obtain ⟨b1, b2, b3, b4, b5, b6, b7, b8, b9⟩ := FS.MakeFATEntry_success B _ _ _ _ h2
          have t0 : toUInt32 ((ROOT_BLOCK : Nat) : Int) = 0 := by decide
          have t1 : toUInt32 ((FAT_BLOCK : Nat) : Int) = 1 := by decide
          have tv : toInt16 FAT_EOF = FAT_EOF := by decide
          rw [t0] at a1 a3 a6
          rw [t1] at b1 b2 b3 b7 b8
          have hmarked : FS.ReservedMarked B q.2 := by
            refine ⟨?_, (b8 rfl).2, ?_, ?_, ?_, ?_⟩
            · rw [b7 (by decide)]
              exact (a6 rfl).2
            · rw [b3, a3, tv, List.get?_eq_getElem?, List.getElem?_set_ne (by decide),
                List.getElem?_set_self (by simpa using a1)]
            · rw [b3, tv, List.get?_eq_getElem?, List.getElem?_set_self b1]
            · rw [b3, a3, List.length_set, List.length_set]
              exact hlen
            · rw [b5, a5]
              exact a4
          exact FS.formatLoop_marked B _ q.2 hmarked (0, s1) h
      | undef => rw [h2] at h; cases h
      | spin => rw [h2] at h; cases h
      | thrown => rw [h2] at h; cases h
  | undef => rw [h1] at h; cases h
  | spin => rw [h1] at h; cases h
  | thrown => rw [h1] at h; cases h

theorem FS.Reachable_marked (B : Nat) (s : FS) (h : FS.Reachable B s) : s.ReservedMarked B := by
  induction h with
  | format s0 s1 hlen hf => exact FS.format_success_marked B s0 s1 hlen hf
  | step s s1 _ hstep ih => exact FS.Step_marked B s s1 hstep ih

end FormatLemmas

section ReservedLemmas

theorem FS.GetFreeBlocks_ge_two (B : Nat) (s : FS) (n : Int)
    (h0 : s.m_fat.get? 0 = some FAT_EOF) (h1 : s.m_fat.get? 1 = some FAT_EOF) :
    ∀ b ∈ (s.GetFreeBlocks B n).2, 2 ≤ b := by
  intro b hb
  unfold FS.GetFreeBlocks at hb
  by_cases hn : n < 0
  · rw [if_pos hn] at hb
    simp at hb
  · rw [if_neg hn] at hb
    have hb2 : b ∈ s.freeList B n.toNat := by
      unfold FS.freeList
      rw [← FS.GetFreeBlocksLoop_eq]
      exact hb
    exact FS.freeList_ge_two B s n.toNat b (by rw [h0]; decide) (by rw [h1]; decide) hb2

/-- The block at which a chain ends is the block `GetEOFBlockFromStartBlock`
finds. -/
theorem FS.GetEOFBlock_of_chain (B : Nat) (s : FS) :
    ∀ (cs : List Nat) (fuelS : Nat) (b : Int), FS.chainFrom B s fuelS b = Run.ret cs →
      ∀ x ∈ cs, s.m_fat.get? x = some FAT_EOF →
      ∀ (fuel : Nat) (e : Int), FS.GetEOFBlockFromStartBlock B s fuel b = Run.ret e →
        e = (x : Int) := by
  intro cs
  induction cs with
  | nil => intro fuelS b _ x hx; simp at hx
  | cons y ys ih =>
    intro fuelS b hch x hx hxe fuel e he
    obtain ⟨hb, hyN, c, fuel1, hget, hfuel, hrest⟩ := FS.chainFrom_cons B s fuelS b y ys hch
    subst hb
    cases fuel with
    | zero =>
      unfold FS.GetEOFBlockFromStartBlock at he
      cases he
    | succ fuel =>
      unfold FS.GetEOFBlockFromStartBlock at he
      rw [FS.GetChildBlock_natCast B s y c hyN hget] at he
      simp only [Run.ret_bind] at he
      by_cases hc : c ≠ FAT_EOF
      · rw [if_pos hc] at he
        rcases List.mem_cons.mp hx with hxy | hxys
        · subst hxy
          rw [hget] at hxe
          exact absurd (Option.some.inj hxe) hc
        · exact ih fuel1 c hrest x hxys hxe fuel e he
      · rw [if_neg hc] at he
        have hceq : c = FAT_EOF := by
          by_contra h
          exact hc h
        subst hceq
        have hys : ys = [] := by
          cases ys with
          | nil => rfl
          | cons z zs =>
            obtain ⟨hz, _⟩ := FS.chainFrom_cons B s fuel1 FAT_EOF z zs hrest
            unfold FAT_EOF at hz
            omega
        subst hys
        simp only [List.mem_singleton] at hx
        subst hx
        exact (Run.ret.inj he).symm

/-- `ExtendFileOnFAT` succeeds only when the block at which the chain ends is
neither reserved block. -/
theorem FS.ExtendFileOnFAT_success_eof (B fuel : Nat) (s : FS) (n start : Int)
    (r : Int × FS) (hs : s.ReservedMarked B)
    (h : FS.ExtendFileOnFAT B fuel s n start = Run.ret r) (hr : r.1 = 0) :
    ∃ e, FS.GetEOFBlockFromStartBlock B s fuel start = Run.ret e ∧ e ≠ 0 ∧ e ≠ 1 := by
  unfold FS.ExtendFileOnFAT at h
  split at h
  rename_i st F _
  by_cases c : st ≠ 0
  · rw [if_pos c] at h
    have := congrArg Prod.fst (Run.ret.inj h)
    rw [hr] at this
    exact absurd this ERROR_CODE_ne_zero
  · rw [if_neg c] at h
    cases he : FS.GetEOFBlockFromStartBlock B s fuel start with
    | ret e =>
      rw [he] at h
      simp only [Run.ret_bind] at h
      cases hf : F.get? 0 with
      | none => rw [hf] at h; cases h
      | some first =>
        rw [hf] at h
        simp only [Run.ofOption, Run.ret_bind] at h
        cases hm : FS.MakeFATEntry B s e (first : Int) with
        | ret q =>
          rw [hm] at h
          simp only [Run.ret_bind] at h
          by_cases c2 : q.1 ≠ 0
          · rw [if_pos c2] at h
            have := congrArg Prod.fst (Run.ret.inj h)
            rw [hr] at this
            exact absurd this ERROR_CODE_ne_zero
          · have hq1 : q.1 = 0 := by simpa using c2
            have hq : q = (0, q.2) := by rw [← hq1]
            rw [hq] at hm
            obtain ⟨_, _, _, _, _, a6, _, a8, _⟩ := FS.MakeFATEntry_success B _ _ _ _ hm
            refine ⟨e, rfl, ?_, ?_⟩
            · intro h0
              subst h0
              have := (a6 (by decide)).1
              rw [hs.1] at this
              cases this
            · intro h1
              subst h1
              have := (a8 (by decide)).1
              rw [hs.2.1] at this
              cases this
        | undef => rw [hm] at h; cases h
        | spin => rw [hm] at h; cases h
        | thrown => rw [hm] at h; cases h
    | undef => rw [he] at h; cases h
    | spin => rw [he] at h; cases h
    | thrown => rw [he] at h; cases h

end ReservedLemmas

section NestedEntryLemmas

theorem dir_entry.decode_zero : dir_entry.decode (List.replicate 64 0) = dir_entry.empty := by
  decide

theorem dirEntries_zero (B : Nat) :
    dirEntries B (List.replicate B 0) = List.replicate (DIR_BLOCK_SIZE B) dir_entry.empty := by
  rw [List.eq_replicate_iff]
  refine ⟨dirEntries_length B _, ?_⟩
  intro e he
  unfold dirEntries at he
  rw [List.mem_map] at he
  obtain ⟨i, hi, rfl⟩ := he
  rw [List.mem_range] at hi
  have h64 : 64 * i + 64 ≤ B := by
    unfold DIR_BLOCK_SIZE DIR_ENTRY_SIZE at hi
    have := Nat.div_mul_le_self B 64
    omega
  unfold slotBytes DIR_ENTRY_SIZE
  rw [List.drop_replicate, List.take_replicate]
  have : min 64 (B - 64 * i) = 64 := by omega
  rw [this]
  exact dir_entry.decode_zero

theorem DIR_BLOCK_SIZE_two (B : Nat) (hB : 128 ≤ B) : ∃ d, DIR_BLOCK_SIZE B = d + 2 := by
  have : 2 ≤ DIR_BLOCK_SIZE B := by
    unfold DIR_BLOCK_SIZE DIR_ENTRY_SIZE
    omega
  exact ⟨DIR_BLOCK_SIZE B - 2, by omega⟩

theorem FS.mkdirEntry_decode (name : List Nat) (f : Nat) (hn : name.length ≤ 55)
    (hf : f < 65536) :
    dir_entry.decode (FS.mkdirEntry name f).encode = FS.mkdirEntry name f := by
  apply dir_entry.decode_encode
  · show (name ++ List.replicate (56 - name.length) 0).length = 56
    rw [List.length_append, List.length_replicate]
    omega
  · show (0 : Nat) < 4294967296
    decide
  · exact hf
  · show TYPE_DIR < 256
    decide
  · show FS.m_defaultPermissions < 256
    decide

theorem FS.backRefEntry_decode (p : Nat) (hp : p < 65536) :
    dir_entry.decode (FS.backRefEntry p).encode = FS.backRefEntry p := by
  apply dir_entry.decode_encode
  · show (str ".." ++ List.replicate 54 0).length = 56
    decide
  · show (0 : Nat) < 4294967296
    decide
  · exact hp
  · show TYPE_DIR < 256
    decide
  · show (0 : Nat) < 256
    decide

theorem FS.mkdirEntry_name_length (name : List Nat) (f : Nat) (hn : name.length ≤ 55) :
    (FS.mkdirEntry name f).file_name.length = 56 := by
  show (name ++ List.replicate (56 - name.length) 0).length = 56
  rw [List.length_append, List.length_replicate]
  omega

theorem FS.backRefEntry_name_length (p : Nat) : (FS.backRefEntry p).file_name.length = 56 := by
  show (str ".." ++ List.replicate 54 0).length = 56
  decide

theorem FS.mkdirEntry_c_str (name : List Nat) (f : Nat) (hn : name.length ≤ 55)
    (hn0 : ∀ c ∈ name, c ≠ 0) : c_str (FS.mkdirEntry name f).file_name = some name := by
  show c_str (name ++ List.replicate (56 - name.length) 0) = some name
  have : 56 - name.length = (55 - name.length) + 1 := by omega
  rw [this, List.replicate_succ]
  exact c_str_append_zero name _ hn0

theorem FS.backRefEntry_c_str (p : Nat) : c_str (FS.backRefEntry p).file_name = some (str "..") := by
  show c_str (str ".." ++ List.replicate 54 0) = some (str "..")
  decide

/-- Records of a block that holds one record in slot 0 and nothing else. -/
theorem dirEntries_one (B : Nat) (d : Nat) (hd : DIR_BLOCK_SIZE B = d + 2) (a : dir_entry)
    (ha : dir_entry.decode a.encode = a) (hal : a.file_name.length = 56) :
    dirEntries B (setSlot (List.replicate B 0) 0 a) =
      a :: dir_entry.empty :: List.replicate d dir_entry.empty := by
  rw [dirEntries_setSlot B _ 0 a (by omega) (List.length_replicate _ _) hal, dirEntries_zero, hd,
    ha]
  rfl

/-- Records of a block that holds records in slots 0 and 1 and nothing else. -/
theorem dirEntries_pair (B : Nat) (d : Nat) (hd : DIR_BLOCK_SIZE B = d + 2) (a b : dir_entry)
    (ha : dir_entry.decode a.encode = a) (hal : a.file_name.length = 56)
    (hb : dir_entry.decode b.encode = b) (hbl : b.file_name.length = 56) :
    dirEntries B (setSlot (setSlot (List.replicate B 0) 0 a) 1 b) =
      a :: b :: List.replicate d dir_entry.empty := by
  have hB : 128 ≤ B := by
    unfold DIR_BLOCK_SIZE DIR_ENTRY_SIZE at hd
    have := Nat.div_mul_le_self B 64
    omega
  have hlen : (setSlot (List.replicate B 0) 0 a).length = B := by
    rw [setSlot_length _ _ _ (by rw [List.length_replicate]; omega) hal]
    exact List.length_replicate _ _
  rw [dirEntries_setSlot B _ 1 b (by omega) hlen hbl, dirEntries_one B d hd a ha hal, hb]
  rfl

theorem findName_replicate_empty (name : List Nat) (hne : name ≠ []) (m : Nat) :
    FS.findName name (List.replicate m dir_entry.empty) = Run.ret none := by
  apply findName_none_of_all_ne
  intro e he
  rw [List.eq_of_mem_replicate he]
  exact ⟨[], c_str_empty_name, fun h => hne h.symm⟩

theorem findName_cons_eq (name : List Nat) (e : dir_entry) (es : List dir_entry)
    (h : c_str e.file_name = some name) : FS.findName name (e :: es) = Run.ret (some 0) := by
  unfold FS.findName
  rw [h]
  simp

theorem findName_cons_ne (name n : List Nat) (e : dir_entry) (es : List dir_entry)
    (r : Option Nat) (h : c_str e.file_name = some n) (hn : n ≠ name)
    (hr : FS.findName name es = Run.ret r) :
    FS.findName name (e :: es) = Run.ret (r.map (fun i => i + 1)) := by
  unfold FS.findName
  rw [h]
  simp only [if_neg hn, hr, Run.ret_bind]

theorem firstAbsent_cons_empty (es : List dir_entry) :
    FS.firstAbsent (dir_entry.empty :: es) = some 0 := by
  unfold FS.firstAbsent
  rw [DirEntryExists_empty]
  rfl

theorem firstAbsent_cons_exists (e : dir_entry) (es : List dir_entry)
    (h : DirEntryExists e = true) :
    FS.firstAbsent (e :: dir_entry.empty :: es) = some 1 := by
  rw [FS.firstAbsent, if_pos h, firstAbsent_cons_empty]
  rfl

theorem pwdFind_cons_eq (c : Int) (name : List Nat) (e : dir_entry) (es : List dir_entry)
    (h : (e.first_blk : Int) = c) (hn : c_str e.file_name = some name) :
    FS.pwdFind c (e :: es) = Run.ret (some name) := by
  unfold FS.pwdFind
  rw [if_pos h, hn]
  rfl

theorem pwdFind_cons_ne (c : Int) (e : dir_entry) (es : List dir_entry)
    (h : (e.first_blk : Int) ≠ c) : FS.pwdFind c (e :: es) = FS.pwdFind c es := by
  rw [FS.pwdFind, if_neg h]

/-- The request for one free block finds the lowest free block number. -/
theorem FS.freeList_one_aux (p : Nat → Bool) (m : Nat) (hm : p m = true) :
    ∀ (n a : Nat), (∀ b, a ≤ b → b < m → p b = false) → a ≤ m → m < a + n →
      ((List.range' a n).filter p).take 1 = [m] := by
  intro n
  induction n with
  | zero => intro a _ h1 h2; omega
  | succ n ih =>
    intro a hlow h1 h2
    rw [List.range'_succ]
    by_cases ham : a = m
    · subst ham
      rw [List.filter_cons_of_pos hm]
      rfl
    · have hpa : p a = false := hlow a (le_refl a) (by omega)
      rw [List.filter_cons_of_neg (by rw [hpa]; simp)]
      exact ih (a + 1) (fun b hb1 hb2 => hlow b (by omega) hb2) (by omega) (by omega)

theorem FS.freeList_one (B : Nat) (s : FS) (m : Nat) (hm : m < FAT_SIZE B)
    (hfree : s.m_fat.get? m = some FAT_FREE)
    (hused : ∀ b, b < m → s.m_fat.get? b = some FAT_EOF) :
    s.freeList B 1 = [m] := by
  unfold FS.freeList
  rw [List.range_eq_range']
  apply FS.freeList_one_aux (fun b => s.BlockIsFree b) m
  · show s.BlockIsFree m = true
    unfold FS.BlockIsFree
    rw [hfree]
    simp
  · intro b _ hb
    show s.BlockIsFree b = false
    unfold FS.BlockIsFree
    rw [hused b hb]
    decide
  · omega
  · omega

end NestedEntryLemmas

section FormatFresh

theorem FS.UpdateFAT_frame (t : FS) :
    t.UpdateFAT.2.m_cwdBlock = t.m_cwdBlock ∧
      ∀ b : Nat, b ≠ 1 → t.UpdateFAT.2.m_disk.get? b = t.m_disk.get? b := by
  unfold FS.UpdateFAT
  cases h : Disk.write t.m_disk FAT_BLOCK (fatBytes t.m_fat) with
  | none => exact ⟨rfl, fun _ _ => rfl⟩
  | some d =>
    refine ⟨rfl, fun b hb => ?_⟩
    unfold Disk.write at h
    split at h
    · cases h
      show (t.m_disk.set _ _).get? b = _
      have h1 : ((FAT_BLOCK : Nat) : Int).toNat = 1 := rfl
      rw [h1, List.get?_eq_getElem?, List.get?_eq_getElem?, List.getElem?_set_ne (by omega)]
    · cases h

/-- `MakeFATEntry` leaves the working directory and every block but the
table block as they were. -/
theorem FS.MakeFATEntry_frame (B : Nat) (s : FS) (index v : Int) :
    Run.Holds (fun r => r.2.m_cwdBlock = s.m_cwdBlock ∧
      ∀ b : Nat, b ≠ 1 → r.2.m_disk.get? b = s.m_disk.get? b)
      (FS.MakeFATEntry B s index v) := by
  unfold FS.MakeFATEntry
  simp only
  refine Run.Holds_ite _ _ _ (fun _ => Run.Holds_ret ⟨rfl, fun _ _ => rfl⟩) (fun _ => ?_)
  refine Run.Holds_ite _ _ _ (fun _ => Run.Holds_ret ?_) (fun _ => ?_)
  · constructor
    · split <;> rfl
    · intro b _
      split <;> rfl
  refine Run.Holds_ite _ _ _ (fun _ => Run.Holds_ret ?_) (fun _ => ?_)
  · constructor
    · split <;> split <;> rfl
    · intro b _
      split <;> split <;> rfl
  refine Run.Holds_ite _ _ _ (fun _ => Run.Holds_ret ?_) (fun _ => Run.Holds_undef _)
  obtain ⟨h1, h2⟩ := FS.UpdateFAT_frame
    { (if toUInt32 index = FAT_BLOCK then
        { (if toUInt32 index = ROOT_BLOCK then { s with rootCreated := true } else s) with
          FATCreated := true }
      else (if toUInt32 index = ROOT_BLOCK then { s with rootCreated := true } else s)) with
      m_fat := (if toUInt32 index = FAT_BLOCK then
        { (if toUInt32 index = ROOT_BLOCK then { s with rootCreated := true } else s) with
          FATCreated := true }
      else (if toUInt32 index = ROOT_BLOCK then { s with rootCreated := true } else s)).m_fat.set
        (toUInt32 index) (toInt16 v) }
  constructor
  · rw [h1]
    show FS.m_cwdBlock _ = _
    split <;> split <;> rfl
  · intro b hb
    rw [h2 b hb]
    show List.get? (FS.m_disk _) b = _
    split <;> split <;> rfl

theorem FS.formatLoop_frame (B : Nat) :
    ∀ (l : List Nat) (s : FS),
      Run.Holds (fun r => r.2.m_cwdBlock = s.m_cwdBlock ∧
        ∀ b : Nat, b ≠ 1 → r.2.m_disk.get? b = s.m_disk.get? b) (FS.formatLoop B l s) := by
  intro l
  induction l with
  | nil =>
    intro s
    unfold FS.formatLoop
    exact Run.Holds_ret ⟨rfl, fun _ _ => rfl⟩
  | cons i rest ih =>
    intro s
    unfold FS.formatLoop
    refine Run.Holds_bind _ _ _ (FS.MakeFATEntry_frame B s i FAT_FREE) (fun r hr => ?_)
    refine Run.Holds_ite _ _ _ (fun _ => Run.Holds_ret hr) (fun _ => ?_)
    refine Run.Holds_mono _ (ih r.2) (fun a ha => ?_)
    exact ⟨ha.1.trans hr.1, fun b hb => (ha.2 b hb).trans (hr.2 b hb)⟩

/-- After a successful `formatLoop` every block number of the list is free. -/
theorem FS.formatLoop_free (B : Nat) :
    ∀ (l : List Nat) (s s1 : FS), FS.formatLoop B l s = Run.ret (0, s1) →
      (∀ b ∈ l, b < 4294967296) →
      ∀ b : Nat, (b ∈ l ∨ (b < s.m_fat.length ∧ s.m_fat.get? b = some FAT_FREE)) →
        s1.m_fat.get? b = some FAT_FREE := by
  intro l
  induction l with
  | nil =>
    intro s s1 h _ b hb
    unfold FS.formatLoop at h
    cases h
    rcases hb with hb | hb
    · simp at hb
    · exact hb.2
  | cons i rest ih =>
    intro s s1 h hl b hb
    unfold FS.formatLoop at h
    cases hm : FS.MakeFATEntry B s (i : Int) FAT_FREE with
    | ret r =>
      rw [hm] at h
      simp only [Run.ret_bind] at h
      by_cases c : r.1 ≠ 0
      · rw [if_pos c] at h
        exact absurd (congrArg Prod.fst (Run.ret.inj h)) ERROR_CODE_ne_zero
      · rw [if_neg c] at h
        have hr1 : r.1 = 0 := by simpa using c
        have hr : r = (0, r.2) := by rw [← hr1]
        rw [hr] at hm
        obtain ⟨a1, a2, a3, _⟩ := FS.MakeFATEntry_success B _ _ _ _ hm
        have hi : toUInt32 (i : Int) = i :=
          toUInt32_natCast i (hl i (List.mem_cons_self _ _))
        rw [hi] at a1 a3
        apply ih r.2 s1 h (fun x hx => hl x (List.mem_cons_of_mem _ hx)) b
        by_cases hbr : b ∈ rest
        · exact Or.inl hbr
        · right
          rw [a3, List.length_set]
          by_cases hbi : b = i
          · subst hbi
            refine ⟨a1, ?_⟩
            rw [List.get?_eq_getElem?, List.getElem?_set_self a1]
            rfl
          · rcases hb with hb | hb
            · rcases List.mem_cons.mp hb with hb | hb
              · exact absurd hb hbi
              · exact absurd hb hbr
            · refine ⟨hb.1, ?_⟩
              rw [List.get?_eq_getElem?, List.getElem?_set_ne (fun h => hbi h.symm),
                ← List.get?_eq_getElem?]
              exact hb.2
    | undef => rw [hm] at h; cases h
    | spin => rw [hm] at h; cases h
    | thrown => rw [hm] at h; cases h

theorem FS.nestedDir_nil_zero (B : Nat) : FS.nestedDir B [] 0 = List.replicate B 0 := rfl

/-- A successful `format` of an object whose working directory is the root
leaves the state in which no directory has been made. -/
theorem FS.format_fresh (B : Nat) (s0 s : FS) (hB : B ≤ 65536)
    (hlen : s0.m_fat.length = FAT_SIZE B) (hcwd : s0.m_cwdBlock = ROOT_BLOCK)
    (h : s0.format B = Run.ret (0, s)) : FS.NestedIn B s [] := by
  have hm := FS.format_success_marked B s0 s hlen h
  have hdl := hm.2.2.2.2.2
  unfold FS.format at h
  simp only at h
  have hframe : s.m_cwdBlock = s0.m_cwdBlock ∧ ∀ b : Nat, b ≠ 1 →
      s.m_disk.get? b = (s0.m_disk.map (fun _ => List.replicate B 0)).get? b := by
    have hH : Run.Holds (fun r : Int × FS => r.2.m_cwdBlock = s0.m_cwdBlock ∧ ∀ b : Nat, b ≠ 1 →
        r.2.m_disk.get? b = (s0.m_disk.map (fun _ => List.replicate B 0)).get? b)
        (FS.format B s0) := by
      unfold FS.format
      simp only
      refine Run.Holds_bind _ _ _ (FS.MakeFATEntry_frame B _ _ _) (fun r hr => ?_)
      refine Run.Holds_ite _ _ _ (fun _ => Run.Holds_ret hr) (fun _ => ?_)
      refine Run.Holds_bind _ _ _ (FS.MakeFATEntry_frame B _ _ _) (fun r1 hr1 => ?_)
      have h2 : r1.2.m_cwdBlock = s0.m_cwdBlock ∧ ∀ b : Nat, b ≠ 1 →
          r1.2.m_disk.get? b = (s0.m_disk.map (fun _ => List.replicate B 0)).get? b :=
        ⟨hr1.1.trans hr.1, fun b hb => (hr1.2 b hb).trans (hr.2 b hb)⟩
      refine Run.Holds_ite _ _ _ (fun _ => Run.Holds_ret h2) (fun _ => ?_)
      refine Run.Holds_mono _ (FS.formatLoop_frame B _ r1.2) (fun a ha => ?_)
      exact ⟨ha.1.trans h2.1, fun b hb => (ha.2 b hb).trans (h2.2 b hb)⟩
    exact hH (0, s) (by unfold FS.format; simp only; exact h)
  have hzero : ∀ b : Nat, b ≠ 1 → b < s.m_disk.length →
      s.m_disk.get? b = some (List.replicate B 0) := by
    intro b hb hbl
    rw [hframe.2 b hb]
    have hsome : ∃ x, s.m_disk.get? b = some x := by
      rw [List.get?_eq_getElem?, List.getElem?_eq_getElem hbl]
      exact ⟨_, rfl⟩
    obtain ⟨x, hx⟩ := hsome
    rw [hframe.2 b hb, List.get?_eq_getElem?, List.getElem?_map] at hx
    rw [List.get?_eq_getElem?, List.getElem?_map]
    cases hg : s0.m_disk[b]? with
    | none => rw [hg] at hx; cases hx
    | some y => rfl
  have hfree : ∀ b, 2 ≤ b → b < FAT_SIZE B → s.m_fat.get? b = some FAT_FREE := by
    intro b hb2 hbF
    cases h1 : FS.MakeFATEntry B
        { s0 with m_disk := s0.m_disk.map (fun _ => List.replicate B 0) }
        (ROOT_BLOCK : Int) FAT_EOF with
    | ret r =>
      rw [h1] at h
      simp only [Run.ret_bind] at h
      by_cases c : r.1 ≠ 0
      · rw [if_pos c] at h
        exact absurd (congrArg Prod.fst (Run.ret.inj h)) ERROR_CODE_ne_zero
      · rw [if_neg c] at h
        cases h2 : FS.MakeFATEntry B r.2 (FAT_BLOCK : Int) FAT_EOF with
        | ret r1 =>
          rw [h2] at h
          simp only [Run.ret_bind] at h
          by_cases c2 : r1.1 ≠ 0
          · rw [if_pos c2] at h
            exact absurd (congrArg Prod.fst (Run.ret.inj h)) ERROR_CODE_ne_zero
          · rw [if_neg c2] at h
            apply FS.formatLoop_free B _ r1.2 s h
            · intro x hx
              rw [List.mem_range'_1] at hx
              unfold FAT_SIZE at hx
              omega
            · left
              rw [List.mem_range'_1]
              unfold FAT_BLOCK
              omega
        | undef => rw [h2] at h; cases h
        | spin => rw [h2] at h; cases h
        | thrown => rw [h2] at h; cases h
    | undef => rw [h1] at h; cases h
    | spin => rw [h1] at h; cases h
    | thrown => rw [h1] at h; cases h
  refine ⟨hm, ?_, ?_, ?_, ?_, ?_⟩
  · rw [hframe.1, hcwd]
    rfl
  · intro b hb1 hb2
    simp only [List.length_nil] at hb2
    omega
  · intro b hb1 hb2
    exact hfree b (by simpa using hb1) hb2
  · intro b hb1 hb2
    exact hzero b (by simp only [List.length_nil] at hb1; omega) hb2
  · intro j hj
    have hj0 : j = 0 := by simpa using hj
    subst hj0
    rw [FS.nestedDir_nil_zero]
    exact hzero 0 (by decide) (by show 0 < s.m_disk.length; omega)

end FormatFresh

section NestedStep

theorem FS.nestedBlock_eq (j : Nat) : FS.nestedBlock j = if j = 0 then 0 else j + 1 := by
  cases j <;> rfl

theorem FS.nestedDir_leaf (B : Nat) (names : List (List Nat)) :
    FS.nestedDir B names names.length =
      if names.length = 0 then List.replicate B 0
      else setSlot (List.replicate B 0) 0
        (FS.backRefEntry (FS.nestedBlock (names.length - 1))) := by
  unfold FS.nestedDir
  simp only [lt_irrefl, if_false]

theorem plain_ne_dotdot (n : List Nat) (hal : ∀ c ∈ n, isalnum c = true) : str ".." ≠ n := by
  intro h
  have h46 : (46 : Nat) ∈ n := by
    rw [← h]
    decide
  have := hal 46 h46
  revert this
  decide

theorem plain_ne_slash (n : List Nat) (hal : ∀ c ∈ n, isalnum c = true) : n ≠ str "/" := by
  intro h
  have h47 : (47 : Nat) ∈ n := by
    rw [h]
    decide
  have := hal 47 h47
  revert this
  decide

/-- The block of the innermost directory: its size, its first free slot, and
that it holds no record of a plain name. -/
theorem FS.nestedDir_leaf_facts (B d : Nat) (names : List (List Nat)) (n : List Nat)
    (hd : DIR_BLOCK_SIZE B = d + 2) (hk : names.length + 1 < 65536)
    (hne : n ≠ []) (hal : ∀ c ∈ n, isalnum c = true) :
    (FS.nestedDir B names names.length).length = B ∧
    FS.firstAbsent (dirEntries B (FS.nestedDir B names names.length)) =
      some (if names.length = 0 then 0 else 1) ∧
    FS.findName n (dirEntries B (FS.nestedDir B names names.length)) = Run.ret none := by
  have hB : 128 ≤ B := by
    unfold DIR_BLOCK_SIZE DIR_ENTRY_SIZE at hd
    have := Nat.div_mul_le_self B 64
    omega
  rw [FS.nestedDir_leaf]
  by_cases h0 : names.length = 0
  · rw [if_pos h0, if_pos h0, dirEntries_zero, hd]
    refine ⟨List.length_replicate _ _, ?_, findName_replicate_empty n hne _⟩
    rw [List.replicate_succ]
    exact firstAbsent_cons_empty _
  · rw [if_neg h0, if_neg h0]
    have hp : FS.nestedBlock (names.length - 1) < 65536 := by
      have := FS.nestedBlock_eq (names.length - 1)
      split at this <;> omega
    rw [dirEntries_one B d hd _ (FS.backRefEntry_decode _ hp) (FS.backRefEntry_name_length _)]
    refine ⟨?_, ?_, ?_⟩
    · rw [setSlot_length _ _ _ (by rw [List.length_replicate]; omega)
        (FS.backRefEntry_name_length _)]
      exact List.length_replicate _ _
    · exact firstAbsent_cons_exists _ _ (FS.backRefEntry_exists _)
    · have hrest : FS.findName n (dir_entry.empty :: List.replicate d dir_entry.empty) =
          Run.ret none := findName_replicate_empty n hne (d + 1)
      exact findName_cons_ne n (str "..") _ _ none (FS.backRefEntry_c_str _)
        (plain_ne_dotdot n hal) hrest

theorem FS.GetDirectoryBlock_nil (B : Nat) (s : FS) :
    s.GetDirectoryBlock B [] = Run.ret (s.m_cwdBlock : Int) := by
  unfold FS.GetDirectoryBlock
  rfl

theorem FS.dirBlocksRead_nil (B : Nat) (s : FS) : s.dirBlocksRead B [] = [] := by
  unfold FS.dirBlocksRead
  rfl

/-- Looking a plain name up in the working directory when its block holds no
record of that name. -/
theorem FS.FilepathExists_plain_absent (B : Nat) (s : FS) (n blk : List Nat)
    (hne : n ≠ []) (hal : ∀ c ∈ n, isalnum c = true)
    (hblk : s.m_disk.get? s.m_cwdBlock = some blk)
    (hf : FS.findName n (dirEntries B blk) = Run.ret none) :
    s.FilepathExists B n = Run.ret false := by
  have hres : s.GetDirEntryPath B (ParseDirPath n) = Run.ret (0, dir_entry.empty) := by
    rw [ParseDirPath_plain n hne hal, FS.GetDirEntryPath_single B s n blk hblk, hf]
    rfl
  rw [FS.FilepathExists_of_res B s n 0 dir_entry.empty hres, DirEntryExists_empty]

/-- The call `cd(n)` on a plain name whose record is in the working
directory's block. -/
theorem FS.cd_plain (B : Nat) (s : FS) (n blk : List Nat) (i : Nat) (e : dir_entry)
    (hne : n ≠ []) (hal : ∀ c ∈ n, isalnum c = true) (h56 : n.length ≤ 56)
    (hblk : s.m_disk.get? s.m_cwdBlock = some blk)
    (hf : FS.findName n (dirEntries B blk) = Run.ret (some i))
    (he : dir_entry.decode (slotBytes blk i) = e)
    (hex : DirEntryExists e = true) (ht : e.type = TYPE_DIR) :
    s.cd B n = Run.ret (0, { s with m_cwdBlock := e.first_blk }) := by
  unfold FS.cd
  rw [if_neg (plain_ne_slash n hal), FilenamesAreValid_plain n hne hal h56]
  rw [ParseDirPath_plain n hne hal, FS.GetDirEntryPath_single B s n blk hblk, hf]
  simp only [Run.ret_bind, he, hex, ht]
  rfl

end NestedStep

section NestedStepMain

theorem FS.withNewDir_disk (s : FS) (f pb : Nat) (blk fblk : List Nat) (i : Nat)
    (e back : dir_entry) (hf : f < s.m_disk.length) (hpb : pb < s.m_disk.length)
    (hpb1 : pb ≠ 1) (hpbf : pb ≠ f) :
    (s.withNewDir f pb blk fblk i e back).m_disk.length = s.m_disk.length ∧
    (s.withNewDir f pb blk fblk i e back).m_disk.get? f = some (setSlot fblk 0 back) ∧
    (s.withNewDir f pb blk fblk i e back).m_disk.get? pb = some (setSlot blk i e) ∧
    (∀ b : Nat, b ≠ 1 → b ≠ pb → b ≠ f →
      (s.withNewDir f pb blk fblk i e back).m_disk.get? b = s.m_disk.get? b) := by
  unfold FS.withNewDir
  refine ⟨?_, ?_, ?_, ?_⟩
  · simp only [List.length_set]
  · simp only [List.get?_eq_getElem?]
    rw [List.getElem?_set_self (by simp only [List.length_set]; exact hf)]
  · simp only [List.get?_eq_getElem?]
    rw [List.getElem?_set_ne (fun h => hpbf h.symm), List.getElem?_set_ne (fun h => hpb1 h.symm),
      List.getElem?_set_self (by simp only [List.length_set]; exact hpb)]
  · intro b hb1 hbp hbf
    simp only [List.get?_eq_getElem?]
    rw [List.getElem?_set_ne (fun h => hbf h.symm), List.getElem?_set_ne (fun h => hb1 h.symm),
      List.getElem?_set_ne (fun h => hbp h.symm), List.getElem?_set_ne (fun h => hb1 h.symm)]

theorem FS.nestedDir_append_lt (B : Nat) (names : List (List Nat)) (n : List Nat) (j : Nat)
    (hj : j < names.length) : FS.nestedDir B (names ++ [n]) j = FS.nestedDir B names j := by
  unfold FS.nestedDir
  have h1 : j < (names ++ [n]).length := by
    rw [List.length_append]
    exact Nat.lt_add_right _ hj
  have h2 : (names ++ [n]).getD j [] = names.getD j [] := by
    rw [List.getD_eq_getElem?_getD, List.getD_eq_getElem?_getD, List.getElem?_append_left hj]
  simp only [if_pos h1, if_pos hj, h2]

theorem FS.nestedDir_append_eq (B : Nat) (names : List (List Nat)) (n : List Nat) :
    FS.nestedDir B (names ++ [n]) names.length =
      setSlot (FS.nestedDir B names names.length) (if names.length = 0 then 0 else 1)
        (FS.mkdirEntry n (names.length + 2)) := by
  have h2 : (names ++ [n]).getD names.length [] = n := by
    rw [List.getD_eq_getElem?_getD, List.getElem?_append_right (le_refl _)]
    simp
  have h1 : names.length < (names ++ [n]).length := by
    rw [List.length_append]
    simp
  rw [FS.nestedDir_leaf]
  unfold FS.nestedDir
  simp only [if_pos h1, h2]

theorem FS.nestedDir_append_new (B : Nat) (names : List (List Nat)) (n : List Nat) :
    FS.nestedDir B (names ++ [n]) (names.length + 1) =
      setSlot (List.replicate B 0) 0 (FS.backRefEntry (FS.nestedBlock names.length)) := by
  have h := FS.nestedDir_leaf B (names ++ [n])
  have hl : (names ++ [n]).length = names.length + 1 := by
    rw [List.length_append]
    rfl
  rw [hl] at h
  rw [h, if_neg (Nat.succ_ne_zero _)]
  rfl

/-- One more directory: `mkdir(n)` then `cd(n)` in the innermost directory
of a chain succeed and leave the chain one directory longer. -/
theorem FS.NestedIn_step (B : Nat) (s : FS) (names : List (List Nat)) (n : List Nat)
    (hB1 : 128 ≤ B) (hB2 : B ≤ 65536) (hin : FS.NestedIn B s names)
    (hne : n ≠ []) (h55 : n.length ≤ 55) (hal : ∀ c ∈ n, isalnum c = true)
    (hcap : names.length + 2 < FAT_SIZE B) (hdisk : names.length + 2 < s.m_disk.length) :
    ∃ s1 s2, s.mkdir B n = Run.ret (0, s1) ∧ s1.cd B n = Run.ret (0, s2) ∧
      FS.NestedIn B s2 (names ++ [n]) ∧ s2.m_disk.length = s.m_disk.length := by
  obtain ⟨hm, hcwd, hEOF, hFREE, hzero, hdirs⟩ := hin
  obtain ⟨hr, hfc, h0, h1, hlen, hd2⟩ := hm
  obtain ⟨d, hd⟩ := DIR_BLOCK_SIZE_two B hB1
  have hF : FAT_SIZE B ≤ 32768 := by unfold FAT_SIZE; omega
  have hpbv := FS.nestedBlock_eq names.length
  have hpb1 : FS.nestedBlock names.length ≠ 1 := by split at hpbv <;> omega
  have hpbf : FS.nestedBlock names.length ≠ names.length + 2 := by split at hpbv <;> omega
  have hpble : FS.nestedBlock names.length ≤ names.length + 1 := by split at hpbv <;> omega
  obtain ⟨hbl, hfa, hfn⟩ :=
    FS.nestedDir_leaf_facts B d names n hd (by omega) hne hal
  have hblk : s.m_disk.get? (FS.nestedBlock names.length) =
      some (FS.nestedDir B names names.length) := hdirs _ (le_refl _)
  have hblkc : s.m_disk.get? s.m_cwdBlock = some (FS.nestedDir B names names.length) := by
    rw [hcwd]
    exact hblk
  have hslot : (if names.length = 0 then 0 else 1) < DIR_BLOCK_SIZE B := by
    split <;> omega
  have hslot64 : 64 * (if names.length = 0 then 0 else 1) + 64 ≤ B := by
    split <;> omega
  have hn0 : ∀ c ∈ n, c ≠ 0 := fun c hc => isalnum_ne_zero c (hal c hc)
  have hzf : s.m_disk.get? (names.length + 2) = some (List.replicate B 0) :=
    hzero _ (le_refl _) hdisk
  have hmk : s.mkdir B n = Run.ret (0, s.withNewDir (names.length + 2)
      (FS.nestedBlock names.length) (FS.nestedDir B names names.length) (List.replicate B 0)
      (if names.length = 0 then 0 else 1) (FS.mkdirEntry n (names.length + 2))
      (FS.backRefEntry (FS.nestedBlock names.length))) := by
    apply FS.mkdir_eval B s n n (names.length + 2) (FS.nestedBlock names.length)
      (if names.length = 0 then 0 else 1) _ _ hB2 hlen hd2
      (by rw [h0]; decide) (by rw [h1]; decide)
      (FilenamesAreValid_plain n hne hal (by omega))
      (FS.FilepathExists_plain_absent B s n _ hne hal hblkc hfn)
      (by rw [ParseDirPath_plain n hne hal]; rfl) hne hn0 h55
    · apply FS.freeList_one B s _ hcap (hFREE _ (le_refl _) hcap)
      intro b hb
      by_cases hb0 : b = 0
      · rw [hb0]; exact h0
      · by_cases hb1 : b = 1
        · rw [hb1]; exact h1
        · exact hEOF b (by omega) hb
    · rw [ParseDirPath_plain n hne hal]
      show s.GetDirectoryBlock B [] = _
      rw [FS.GetDirectoryBlock_nil, hcwd]
    · rw [ParseDirPath_plain n hne hal]
      show ∀ b ∈ s.dirBlocksRead B [], _
      rw [FS.dirBlocksRead_nil]
      intro b hb
      simp at hb
    · exact hpb1
    · exact hpbf
    · omega
    · exact hblk
    · exact hfa
    · exact hzf
    · rw [dirEntries_zero, hd, List.replicate_succ]
      exact firstAbsent_cons_empty _
  obtain ⟨g1, g2, g3, g4⟩ := FS.withNewDir_disk s (names.length + 2)
    (FS.nestedBlock names.length) (FS.nestedDir B names names.length) (List.replicate B 0)
    (if names.length = 0 then 0 else 1) (FS.mkdirEntry n (names.length + 2))
    (FS.backRefEntry (FS.nestedBlock names.length)) hdisk (by omega) hpb1 hpbf
  generalize hs1 : s.withNewDir (names.length + 2)
    (FS.nestedBlock names.length) (FS.nestedDir B names names.length) (List.replicate B 0)
    (if names.length = 0 then 0 else 1) (FS.mkdirEntry n (names.length + 2))
    (FS.backRefEntry (FS.nestedBlock names.length)) = s1 at hmk g1 g2 g3 g4
  have hs1cwd : s1.m_cwdBlock = s.m_cwdBlock := by rw [← hs1]; rfl
  have hs1fat : s1.m_fat = (s.m_fat.set (names.length + 2) FAT_EOF).set (names.length + 2)
      FAT_EOF := by rw [← hs1]; rfl
  have hs1m : s1.ReservedMarked B :=
    FS.mkdir_marked B s n ⟨hr, hfc, h0, h1, hlen, hd2⟩ (0, s1) hmk
  have hedec := FS.mkdirEntry_decode n (names.length + 2) h55 (by omega)
  have helen := FS.mkdirEntry_name_length n (names.length + 2) h55
  have hcd : s1.cd B n = Run.ret (0, { s1 with m_cwdBlock :=
      (FS.mkdirEntry n (names.length + 2)).first_blk }) := by
    apply FS.cd_plain B s1 n (setSlot (FS.nestedDir B names names.length)
      (if names.length = 0 then 0 else 1) (FS.mkdirEntry n (names.length + 2)))
      (if names.length = 0 then 0 else 1) _ hne hal (by omega)
    · rw [hs1cwd, hcwd]
      exact g3
    · rw [dirEntries_setSlot B _ _ _ hslot hbl helen, hedec]
      exact findName_set_firstAbsent n _ (FS.mkdirEntry_c_str n _ h55 hn0) _ _ hfn hfa
    · rw [slotBytes_setSlot_same _ _ _ (by rw [hbl]; exact hslot64) helen, hedec]
    · exact FS.mkdirEntry_exists n _ hne hn0
    · rfl
  refine ⟨s1, _, hmk, hcd, ?_, g1⟩
  have hl : (names ++ [n]).length = names.length + 1 := by
    rw [List.length_append]
    rfl
  refine ⟨FS.ReservedMarked_of_tableEq B (FS.TableEq_cwd s1 _) hs1m, ?_, ?_, ?_, ?_, ?_⟩
  · rw [hl]
    rfl
  · intro b hb2 hb
    rw [hl] at hb
    show s1.m_fat.get? b = _
    rw [hs1fat, List.get?_eq_getElem?]
    by_cases hbf : b = names.length + 2
    · rw [hbf, List.getElem?_set_self (by rw [List.length_set, hlen]; exact hcap)]
    · rw [List.getElem?_set_ne (fun h => hbf h.symm), List.getElem?_set_ne (fun h => hbf h.symm),
        ← List.get?_eq_getElem?]
      exact hEOF b hb2 (by omega)
  · intro b hb hbF
    rw [hl] at hb
    show s1.m_fat.get? b = _
    rw [hs1fat, List.get?_eq_getElem?, List.getElem?_set_ne (by omega),
      List.getElem?_set_ne (by omega), ← List.get?_eq_getElem?]
    exact hFREE b (by omega) hbF
  · intro b hb hbl2
    rw [hl] at hb
    show s1.m_disk.get? b = _
    rw [g4 b (by omega) (by omega) (by omega)]
    apply hzero b (by omega)
    rw [← g1]
    exact hbl2
  · intro j hj
    rw [hl] at hj
    show s1.m_disk.get? _ = _
    by_cases hj1 : j = names.length + 1
    · rw [hj1, FS.nestedDir_append_new]
      exact g2
    · by_cases hj2 : j = names.length
      · rw [hj2, FS.nestedDir_append_eq]
        exact g3
      · have hjlt : j < names.length := by omega
        rw [FS.nestedDir_append_lt B names n j hjlt]
        have hjv := FS.nestedBlock_eq j
        rw [g4 _ (by split at hjv <;> omega)
          (by split at hjv <;> split at hpbv <;> omega)
          (by split at hjv <;> omega)]
        exact hdirs j (by omega)

end NestedStepMain

section NestedPwd

theorem FS.mkdirAndEnter_nested (B : Nat) (hB1 : 128 ≤ B) (hB2 : B ≤ 65536) :
    ∀ (ns names : List (List Nat)) (s : FS), FS.NestedIn B s names →
      (∀ n ∈ ns, n ≠ [] ∧ n.length ≤ 55 ∧ ∀ c ∈ n, isalnum c = true) →
      names.length + ns.length + 2 ≤ FAT_SIZE B →
      names.length + ns.length + 2 ≤ s.m_disk.length →
      ∃ s1, FS.mkdirAndEnter B ns s = Run.ret (0, s1) ∧ FS.NestedIn B s1 (names ++ ns) := by
  intro ns
  induction ns with
  | nil =>
    intro names s hin _ _ _
    refine ⟨s, rfl, ?_⟩
    rw [List.append_nil]
    exact hin
  | cons n ns ih =>
    intro names s hin hv hcap hdisk
    rw [List.length_cons] at hcap hdisk
    obtain ⟨hne, h55, hal⟩ := hv n (List.mem_cons_self _ _)
    obtain ⟨s1, s2, hmk, hcd, hin2, hlen2⟩ :=
      FS.NestedIn_step B s names n hB1 hB2 hin hne h55 hal (by omega) (by omega)
    have hl : (names ++ [n]).length = names.length + 1 := by
      rw [List.length_append]
      rfl
    obtain ⟨s3, hrest, hin3⟩ := ih (names ++ [n]) s2 hin2
      (fun x hx => hv x (List.mem_cons_of_mem _ hx)) (by rw [hl]; omega)
      (by rw [hl, hlen2]; omega)
    refine ⟨s3, ?_, ?_⟩
    · unfold FS.mkdirAndEnter
      rw [hmk]
      simp only [Run.ret_bind, ne_eq, not_true_eq_false, if_false]
      rw [hcd]
      simp only [Run.ret_bind, ne_eq, not_true_eq_false, if_false]
      exact hrest
    · rw [List.append_assoc] at hin3
      exact hin3

/-- The block of a directory of the chain below the root starts with the back
reference to its parent. -/
theorem FS.nestedDir_backRef (B d : Nat) (names : List (List Nat)) (j : Nat)
    (hd : DIR_BLOCK_SIZE B = d + 2) (hj : j + 1 ≤ names.length)
    (hk : names.length + 2 < 65536)
    (hv : ∀ n ∈ names, n.length ≤ 55) :
    ∃ rest, dirEntries B (FS.nestedDir B names (j + 1)) =
      FS.backRefEntry (FS.nestedBlock j) :: rest := by
  have hp : FS.nestedBlock j < 65536 := by
    have := FS.nestedBlock_eq j
    split at this <;> omega
  unfold FS.nestedDir
  simp only [Nat.succ_ne_zero, if_false, Nat.add_sub_cancel]
  by_cases hlt : j + 1 < names.length
  · rw [if_pos hlt]
    have hmem : names.getD (j + 1) [] ∈ names := by
      rw [List.getD_eq_getElem?_getD, List.getElem?_eq_getElem hlt]
      exact List.getElem_mem _
    rw [dirEntries_pair B d hd _ _ (FS.backRefEntry_decode _ hp) (FS.backRefEntry_name_length _)
      (FS.mkdirEntry_decode _ _ (hv _ hmem) (by omega))
      (FS.mkdirEntry_name_length _ _ (hv _ hmem))]
    exact ⟨_, rfl⟩
  · rw [if_neg hlt, dirEntries_one B d hd _ (FS.backRefEntry_decode _ hp)
      (FS.backRefEntry_name_length _)]
    exact ⟨_, rfl⟩

/-- The scan of `pwd` over the parent's block finds the name of the next
directory of the chain. -/
theorem FS.nestedDir_pwdFind (B d : Nat) (names : List (List Nat)) (j : Nat)
    (hd : DIR_BLOCK_SIZE B = d + 2) (hj : j < names.length)
    (hk : names.length + 2 < 65536)
    (hv : ∀ n ∈ names, n.length ≤ 55 ∧ ∀ c ∈ n, c ≠ 0) :
    FS.pwdFind ((j + 2 : Nat) : Int) (dirEntries B (FS.nestedDir B names j)) =
      Run.ret (some (names.getD j [])) := by
  have hmem : names.getD j [] ∈ names := by
    rw [List.getD_eq_getElem?_getD, List.getElem?_eq_getElem hj]
    exact List.getElem_mem _
  obtain ⟨h55, hn0⟩ := hv _ hmem
  unfold FS.nestedDir
  simp only [if_pos hj]
  cases j with
  | zero =>
    simp only [if_true]
    rw [dirEntries_one B d hd _ (FS.mkdirEntry_decode _ _ h55 (by omega))
      (FS.mkdirEntry_name_length _ _ h55)]
    exact pwdFind_cons_eq _ _ _ _ rfl (FS.mkdirEntry_c_str _ _ h55 hn0)
  | succ i =>
    have hp : FS.nestedBlock i < 65536 := by
      have := FS.nestedBlock_eq i
      split at this <;> omega
    simp only [Nat.succ_ne_zero, if_false, Nat.add_sub_cancel]
    rw [dirEntries_pair B d hd _ _ (FS.backRefEntry_decode _ hp) (FS.backRefEntry_name_length _)
      (FS.mkdirEntry_decode _ _ h55 (by omega)) (FS.mkdirEntry_name_length _ _ h55)]
    rw [pwdFind_cons_ne]
    · exact pwdFind_cons_eq _ _ _ _ rfl (FS.mkdirEntry_c_str _ _ h55 hn0)
    · show ((FS.nestedBlock i : Nat) : Int) ≠ ((i + 1 + 2 : Nat) : Int)
      have := FS.nestedBlock_eq i
      split at this <;> omega

/-- The loop of `pwd` started at the directory at depth `j` collects the
names of the chain from that directory up to the root. -/
theorem FS.pwdLoop_nested (B : Nat) (s : FS) (names : List (List Nat)) (hB1 : 128 ≤ B)
    (hin : FS.NestedIn B s names) (hk : names.length + 2 < 65536)
    (hv : ∀ n ∈ names, n.length ≤ 55 ∧ ∀ c ∈ n, c ≠ 0) :
    ∀ (j : Nat), j ≤ names.length → ∀ (fuel : Nat), j ≤ fuel → ∀ acc : List (List Nat),
      FS.pwdLoop B s fuel (FS.nestedBlock j : Int) acc =
        Run.ret (0, acc ++ ((names.take j).reverse.map (fun n => str "/" ++ n))) := by
  obtain ⟨d, hd⟩ := DIR_BLOCK_SIZE_two B hB1
  obtain ⟨hm, hcwd, hEOF, hFREE, hzero, hdirs⟩ := hin
  intro j
  induction j with
  | zero =>
    intro _ fuel _ acc
    have hroot : ((FS.nestedBlock 0 : Nat) : Int) = (ROOT_BLOCK : Int) := rfl
    cases fuel with
    | zero =>
      unfold FS.pwdLoop
      rw [if_pos hroot]
      simp
    | succ f =>
      unfold FS.pwdLoop
      rw [if_pos hroot]
      simp
  | succ j ih =>
    intro hj fuel hfuel acc
    cases fuel with
    | zero => omega
    | succ f =>
      have hcur : ¬ (((FS.nestedBlock (j + 1) : Nat) : Int) = (ROOT_BLOCK : Int)) := by
        show ¬ (((j + 2 : Nat) : Int) = ((0 : Nat) : Int))
        omega
      obtain ⟨rest, hents⟩ := FS.nestedDir_backRef B d names j hd hj hk (fun n hn => (hv n hn).1)
      have hread : Disk.read s.m_disk ((FS.nestedBlock (j + 1) : Nat) : Int) =
          some (FS.nestedDir B names (j + 1)) := by
        rw [Disk.read_natCast]
        exact hdirs (j + 1) hj
      have hfind : FS.findName (str "..") (dirEntries B (FS.nestedDir B names (j + 1))) =
          Run.ret (some 0) := by
        rw [hents]
        exact findName_cons_eq _ _ _ (FS.backRefEntry_c_str _)
      have hdec : dir_entry.decode (slotBytes (FS.nestedDir B names (j + 1)) 0) =
          FS.backRefEntry (FS.nestedBlock j) := by
        have h1 := dirEntries_get? B (FS.nestedDir B names (j + 1)) 0 (by omega)
        rw [hents] at h1
        exact (Option.some.inj h1).symm
      have hget := FS.GetDirEntry_of_find B s _ _ _ 0 hread hfind
      rw [hdec] at hget
      have hread2 : Disk.read s.m_disk (((FS.backRefEntry (FS.nestedBlock j)).first_blk : Nat) : Int)
          = some (FS.nestedDir B names j) := by
        rw [Disk.read_natCast]
        exact hdirs j (by omega)
      have hpf := FS.nestedDir_pwdFind B d names j hd (by omega) hk hv
      have hsame : ((FS.nestedBlock (j + 1) : Nat) : Int) = ((j + 2 : Nat) : Int) := rfl
      unfold FS.pwdLoop
      rw [if_neg hcur, hget]
      simp only [Run.ret_bind, ne_eq, not_true_eq_false, if_false]
      rw [hread2]
      simp only
      rw [hsame, hpf]
      simp only [Run.ret_bind]
      have hih := ih (by omega) f (by omega) (acc ++ [str "/" ++ names.getD j []])
      have hfb : (((FS.backRefEntry (FS.nestedBlock j)).first_blk : Nat) : Int) =
          ((FS.nestedBlock j : Nat) : Int) := rfl
      rw [hfb, hih]
      have htake : names.take (j + 1) = names.take j ++ [names.getD j []] := by
        rw [List.take_succ, List.getD_eq_getElem?_getD, List.getElem?_eq_getElem (by omega)]
        rfl
      rw [htake, List.reverse_append, List.map_append, List.append_assoc]
      rfl

theorem flatten_slash_ne_nil (names : List (List Nat)) (h : names ≠ []) :
    (names.map (fun n => str "/" ++ n)).flatten ≠ [] := by
  cases names with
  | nil => exact absurd rfl h
  | cons n ns =>
    intro hc
    have : ((n :: ns).map (fun n => str "/" ++ n)).flatten = 47 :: (n ++
        (ns.map (fun n => str "/" ++ n)).flatten) := rfl
    rw [this] at hc
    cases hc

/-- What `pwd` returns in the innermost directory of a chain. -/
theorem FS.pwd_nested (B : Nat) (s : FS) (names : List (List Nat)) (hB1 : 128 ≤ B)
    (hin : FS.NestedIn B s names) (hk : names.length + 2 < 65536) (hne : names ≠ [])
    (hv : ∀ n ∈ names, n.length ≤ 55 ∧ ∀ c ∈ n, c ≠ 0) (fuel : Nat)
    (hfuel : names.length ≤ fuel) :
    s.pwd B fuel = Run.ret (0, str "'" ++ (names.map (fun n => str "/" ++ n)).flatten ++
      str "'" ++ [10]) := by
  have hloop := FS.pwdLoop_nested B s names hB1 hin hk hv names.length (le_refl _) fuel hfuel []
  unfold FS.pwd
  rw [hin.2.1, hloop]
  simp only [Run.ret_bind, ne_eq, not_true_eq_false, if_false, List.nil_append, List.take_length,
    List.map_reverse, List.reverse_reverse]
  rw [if_neg (flatten_slash_ne_nil names hne)]

end NestedPwd

/-- C16: on a device just formatted (block size from 128 to 65536 bytes,
working directory the root), for every sequence `names` of one or more names
of 1 to 55 alphanumeric bytes, no longer than the number of blocks after the
two reserved ones, the calls `mkdir(n)`, `cd(n)` made for each name in turn
all return 0, and `pwd` then returns 0 and sends the apostrophe-quoted line
of the names in root-to-leaf order, each preceded by one slash; its loop ends
within as many rounds as there are names. -/
theorem pwd_after_nested_mkdir_cd (BLOCK_SIZE : Nat) (s0 s : FS) (names : List (List Nat))
    (hB1 : 128 ≤ BLOCK_SIZE) (hB2 : BLOCK_SIZE ≤ 65536)
    (hlen : s0.m_fat.length = FAT_SIZE BLOCK_SIZE) (hcwd : s0.m_cwdBlock = ROOT_BLOCK)
    (hfmt : s0.format BLOCK_SIZE = Run.ret (0, s))
    (hk : names ≠ [])
    (hvalid : ∀ n ∈ names, n ≠ [] ∧ n.length ≤ 55 ∧ ∀ c ∈ n, isalnum c = true)
    (hcap : names.length + 2 ≤ FAT_SIZE BLOCK_SIZE)
    (hdisk : names.length + 2 ≤ s.m_disk.length) :
    ∃ s1, FS.mkdirAndEnter BLOCK_SIZE names s = Run.ret (0, s1) ∧
      ∀ fuel, names.length ≤ fuel →
        s1.pwd BLOCK_SIZE fuel =
          Run.ret (0, str "'" ++ (names.map (fun n => str "/" ++ n)).flatten ++ str "'" ++ [10]) := by
  have hfresh := FS.format_fresh BLOCK_SIZE s0 s hB2 hlen hcwd hfmt
  obtain ⟨s1, hrun, hin⟩ := FS.mkdirAndEnter_nested BLOCK_SIZE hB1 hB2 names [] s hfresh hvalid
    (by simpa using hcap) (by simpa using hdisk)
  rw [List.nil_append] at hin
  refine ⟨s1, hrun, fun fuel hfuel => ?_⟩
  have hF : FAT_SIZE BLOCK_SIZE ≤ 32768 := by unfold FAT_SIZE; omega
  exact FS.pwd_nested BLOCK_SIZE s1 names hB1 hin (by omega) hk
    (fun n hn => ⟨(hvalid n hn).2.1, fun c hc => isalnum_ne_zero c ((hvalid n hn).2.2 c hc)⟩)
    fuel hfuel

theorem pwd_after_nested_mkdir_cd_witness :
    ∃ s1, FS.mkdirAndEnter 128 [str "d", str "e"] sampleFormatted = Run.ret (0, s1) ∧
      ∀ fuel, [str "d", str "e"].length ≤ fuel →
        s1.pwd 128 fuel = Run.ret (0, str "'" ++
          ([str "d", str "e"].map (fun n => str "/" ++ n)).flatten ++ str "'" ++ [10]) :=
  pwd_after_nested_mkdir_cd 128 sampleRaw sampleFormatted [str "d", str "e"]
    (by decide) (by decide) (by decide) (by decide) sampleFormatted_eq (by decide) (by decide)
    (by decide) (by decide)

/-- C16, a sequence of distinct valid names for which the calls do not all
succeed: `..` passes the name check, and after `mkdir("a")`, `cd("a")` the
call `mkdir("..")` returns the error status, the back reference of `a`
bearing that name. -/
theorem pwd_nested_dotdot_counterexample :
    FilenamesAreValid (str "a") = true ∧ FilenamesAreValid (str "..") = true ∧
    str "a" ≠ str ".." ∧
    (sampleFormatted.mkdir 128 (str "a")).bind (fun m =>
      (m.2.cd 128 (str "a")).bind (fun c =>
        (c.2.mkdir 128 (str "..")).bind (fun m2 => Run.ret [m.1, c.1, m2.1]))) =
      Run.ret [0, 0, ERROR_CODE] ∧
    (FS.mkdirAndEnter 128 [str "a", str ".."] sampleFormatted).bind (fun r => Run.ret r.1) =
      Run.ret ERROR_CODE := by
  refine ⟨by decide, by decide, by decide, by decide!, by decide!⟩

/-- C16, the scenario with absolute paths: `mkdir("/d")`, `cd("/d")`, `pwd()`
on the formatted sample return 0 and `pwd` sends the line `'/d'`. -/
theorem pwd_absolute_example :
    (sampleFormatted.mkdir 128 (str "/d")).bind (fun m =>
      (m.2.cd 128 (str "/d")).bind (fun c =>
        (c.2.pwd 128 1).bind (fun p => Run.ret ([m.1, c.1, p.1], p.2)))) =
      Run.ret ([0, 0, 0], str "'/d'" ++ [10]) := by
  decide!

section SecondFormat

theorem sampleWithDir_reached : FS.Reachable 128 sampleWithDir :=
  FS.Reachable.step sampleFormatted sampleWithDir
    (FS.Reachable.format sampleRaw sampleFormatted (by decide) (by decide!))
    (FS.Step.mkdir sampleFormatted (str "d") (0, sampleWithDir) (by decide!))

/-- Once the flag of the root slot is set, `format` zeroes the device and
stops at its first `MakeFATEntry`. -/
theorem FS.format_again (B : Nat) (s : FS) (hr : s.rootCreated = true) :
    s.format B = Run.ret (ERROR_CODE,
      { s with m_disk := s.m_disk.map (fun _ => List.replicate B 0) }) := by
  unfold FS.format
  simp only
  have hm : FS.MakeFATEntry B
      { s with m_disk := s.m_disk.map (fun _ => List.replicate B 0) } (ROOT_BLOCK : Int) FAT_EOF =
      Run.ret (ERROR_CODE, { s with m_disk := s.m_disk.map (fun _ => List.replicate B 0) }) := by
    unfold FS.MakeFATEntry
    simp only
    have h0 : toUInt32 ((ROOT_BLOCK : Nat) : Int) = ROOT_BLOCK := by decide
    rw [if_pos ⟨h0, hr⟩]
  rw [hm]
  simp only [Run.ret_bind]
  rw [if_pos ERROR_CODE_ne_zero]

end SecondFormat

/-- C21: in every state reached after a successful `format` by any sequence
of operations, a further `format` returns the error status; the state it
leaves has every block of the device, blocks 0 and 1 included, overwritten
with zeros, and the in-memory table, the working directory and the two flags
as they were. -/
theorem second_format_fails (BLOCK_SIZE : Nat) (s : FS) (h : FS.Reachable BLOCK_SIZE s) :
    ∃ s1, s.format BLOCK_SIZE = Run.ret (ERROR_CODE, s1) ∧
      s1.m_disk.length = s.m_disk.length ∧
      (∀ b, b < s.m_disk.length → s1.m_disk.get? b = some (List.replicate BLOCK_SIZE 0)) ∧
      s1.m_fat = s.m_fat ∧ s1.m_cwdBlock = s.m_cwdBlock ∧
      s1.rootCreated = s.rootCreated ∧ s1.FATCreated = s.FATCreated := by
  have hm := FS.Reachable_marked BLOCK_SIZE s h
  refine ⟨_, FS.format_again BLOCK_SIZE s hm.1, ?_, ?_, rfl, rfl, rfl, rfl⟩
  · show (s.m_disk.map _).length = _
    rw [List.length_map]
  · intro b hb
    show (s.m_disk.map _).get? b = _
    rw [List.get?_eq_getElem?, List.getElem?_map, List.getElem?_eq_getElem hb]
    rfl

theorem second_format_fails_witness :
    FS.Reachable 128 sampleWithDir ∧
    ∃ s1, sampleWithDir.format 128 = Run.ret (ERROR_CODE, s1) ∧
      s1.m_disk.length = sampleWithDir.m_disk.length ∧
      (∀ b, b < sampleWithDir.m_disk.length →
        s1.m_disk.get? b = some (List.replicate 128 0)) ∧
      s1.m_fat = sampleWithDir.m_fat ∧ s1.m_cwdBlock = sampleWithDir.m_cwdBlock ∧
      s1.rootCreated = sampleWithDir.rootCreated ∧ s1.FATCreated = sampleWithDir.FATCreated :=
  ⟨sampleWithDir_reached, second_format_fails 128 sampleWithDir sampleWithDir_reached⟩

section RangeGuard

/-- For an index that is neither reserved slot, `MakeFATEntry` is its range
test followed by the write. -/
theorem FS.MakeFATEntry_unreserved (B : Nat) (s : FS) (index v : Int)
    (h0 : toUInt32 index ≠ 0) (h1 : toUInt32 index ≠ 1) :
    FS.MakeFATEntry B s index v =
      if toUInt32 index > FAT_SIZE B then Run.ret (ERROR_CODE, s)
      else if toUInt32 index < s.m_fat.length ∧ toUInt32 index < FAT_SIZE B then
        Run.ret (FS.UpdateFAT { s with m_fat := s.m_fat.set (toUInt32 index) (toInt16 v) })
      else Run.undef := by
  unfold FS.MakeFATEntry
  simp only [ROOT_BLOCK, FAT_BLOCK]
  rw [if_neg (fun h => h0 h.1), if_neg h0, if_neg (fun h => h1 h.1), if_neg h1]

theorem FS.UpdateFAT_fat (s : FS) : s.UpdateFAT.2.m_fat = s.m_fat := by
  unfold FS.UpdateFAT
  split <;> rfl

end RangeGuard

/-- C24: the range test of `MakeFATEntry` is `index > FAT_SIZE`, so the index
`FAT_SIZE` itself, one past the last slot of the table, is let through to the
write `m_fat[index]`, an access outside the array.  Every index above
`FAT_SIZE`, and every negative `int` (converted to `uint32_t`), is refused
with the state as it was; every index from 2 to `FAT_SIZE - 1` has its own
slot written and no other. -/
theorem makeFATEntry_guard_lets_FAT_SIZE_through (BLOCK_SIZE : Nat) (s : FS) (v : Int)
    (hB : BLOCK_SIZE ≤ 65536) (hF : 2 ≤ FAT_SIZE BLOCK_SIZE)
    (hlen : s.m_fat.length = FAT_SIZE BLOCK_SIZE) :
    FS.MakeFATEntry BLOCK_SIZE s (FAT_SIZE BLOCK_SIZE : Int) v = Run.undef ∧
    (∀ index : Int, FAT_SIZE BLOCK_SIZE < toUInt32 index →
      FS.MakeFATEntry BLOCK_SIZE s index v = Run.ret (ERROR_CODE, s)) ∧
    (∀ index : Int, index < 0 → -2147483648 ≤ index →
      FS.MakeFATEntry BLOCK_SIZE s index v = Run.ret (ERROR_CODE, s)) ∧
    (∀ b : Nat, 2 ≤ b → b < FAT_SIZE BLOCK_SIZE →
      ∃ r, FS.MakeFATEntry BLOCK_SIZE s (b : Int) v = Run.ret r ∧
        r.2.m_fat = s.m_fat.set b (toInt16 v)) := by
  have hFs : FAT_SIZE BLOCK_SIZE ≤ 32768 := by unfold FAT_SIZE; omega
  have hgt : ∀ index : Int, FAT_SIZE BLOCK_SIZE < toUInt32 index →
      FS.MakeFATEntry BLOCK_SIZE s index v = Run.ret (ERROR_CODE, s) := by
    intro index hi
    rw [FS.MakeFATEntry_unreserved BLOCK_SIZE s index v (by omega) (by omega), if_pos hi]
  refine ⟨?_, hgt, ?_, ?_⟩
  · have hu : toUInt32 (FAT_SIZE BLOCK_SIZE : Int) = FAT_SIZE BLOCK_SIZE :=
      toUInt32_natCast _ (by omega)
    rw [FS.MakeFATEntry_unreserved BLOCK_SIZE s _ v (by rw [hu]; omega) (by rw [hu]; omega), hu,
      if_neg (lt_irrefl _), if_neg (fun h => lt_irrefl _ h.2)]
  · intro index hneg hlow
    apply hgt
    have : toUInt32 index = (index + 4294967296).toNat := by
      unfold toUInt32
      congr 1
      omega
    rw [this]
    omega
  · intro b hb2 hbF
    have hu : toUInt32 (b : Int) = b := toUInt32_natCast _ (by omega)
    rw [FS.MakeFATEntry_unreserved BLOCK_SIZE s _ v (by rw [hu]; omega) (by rw [hu]; omega), hu,
      if_neg (by omega), if_pos ⟨by rw [hlen]; exact hbF, hbF⟩]
    exact ⟨_, rfl, FS.UpdateFAT_fat _⟩

theorem makeFATEntry_guard_lets_FAT_SIZE_through_witness :
    FS.MakeFATEntry 128 sampleFormatted ((FAT_SIZE 128 : Nat) : Int) 7 = Run.undef ∧
    (∀ index : Int, FAT_SIZE 128 < toUInt32 index →
      FS.MakeFATEntry 128 sampleFormatted index 7 = Run.ret (ERROR_CODE, sampleFormatted)) ∧
    (∀ index : Int, index < 0 → -2147483648 ≤ index →
      FS.MakeFATEntry 128 sampleFormatted index 7 = Run.ret (ERROR_CODE, sampleFormatted)) ∧
    (∀ b : Nat, 2 ≤ b → b < FAT_SIZE 128 →
      ∃ r, FS.MakeFATEntry 128 sampleFormatted (b : Int) 7 = Run.ret r ∧
        r.2.m_fat = sampleFormatted.m_fat.set b (toInt16 7)) :=
  makeFATEntry_guard_lets_FAT_SIZE_through 128 sampleFormatted 7 (by decide) (by decide)
    (by decide)

section WriteThrough

theorem fatBytes_length (fat : List Int) : (fatBytes fat).length = 2 * fat.length := by
  unfold fatBytes
  induction fat with
  | nil => rfl
  | cons a t ih =>
    rw [List.map_cons, List.flatten_cons, List.length_append, ih, List.length_cons]
    unfold int16Bytes
    simp only [List.length_cons, List.length_nil]
    omega

theorem FS.UpdateFAT_onDisk (t : FS) (h : t.UpdateFAT.1 = 0) : t.UpdateFAT.2.TableOnDisk := by
  unfold FS.UpdateFAT at h ⊢
  cases hw : Disk.write t.m_disk FAT_BLOCK (fatBytes t.m_fat) with
  | none =>
    rw [hw] at h
    exact absurd h ERROR_CODE_ne_zero
  | some d =>
    unfold Disk.write at hw
    split at hw
    · rename_i hb
      cases hw
      show (t.m_disk.set _ _).get? FAT_BLOCK = _
      have h1 : ((FAT_BLOCK : Nat) : Int).toNat = FAT_BLOCK := rfl
      have hlt : FAT_BLOCK < t.m_disk.length := by
        have := hb.2
        omega
      rw [h1, List.get?_eq_getElem?, List.getElem?_set_self hlt]
    · cases hw

theorem FS.MakeFATEntry_onDisk (B : Nat) (s : FS) (index v : Int) :
    Run.Holds (fun r => r.1 = 0 → r.2.TableOnDisk) (FS.MakeFATEntry B s index v) := by
  have hbad : ∀ t : FS, (ERROR_CODE, t).1 = 0 → t.TableOnDisk :=
    fun t h => absurd h ERROR_CODE_ne_zero
  unfold FS.MakeFATEntry
  simp only
  refine Run.Holds_ite _ _ _ (fun _ => Run.Holds_ret (hbad _)) (fun _ => ?_)
  refine Run.Holds_ite _ _ _ (fun _ => Run.Holds_ret (hbad _)) (fun _ => ?_)
  refine Run.Holds_ite _ _ _ (fun _ => Run.Holds_ret (hbad _)) (fun _ => ?_)
  refine Run.Holds_ite _ _ _ (fun _ => Run.Holds_ret ?_) (fun _ => Run.Holds_undef _)
  exact FS.UpdateFAT_onDisk _

theorem FS.LinkLoop_onDisk (B : Nat) (F : List Nat) (n : Nat) :
    ∀ (k : Nat) (s : FS), (k = 0 → s.TableOnDisk) →
      Run.Holds (fun r => r.1 = 0 → r.2.TableOnDisk) (FS.LinkLoop B F n k s) := by
  intro k
  induction k with
  | zero =>
    intro s hs
    unfold FS.LinkLoop
    exact Run.Holds_ret (fun _ => hs rfl)
  | succ k ih =>
    intro s _
    unfold FS.LinkLoop
    simp only
    split
    · exact Run.Holds_undef _
    · split
      · exact Run.Holds_undef _
      · split
        · rename_i st s1 heq
          have hs1 : st = 0 → s1.TableOnDisk := FS.MakeFATEntry_onDisk B s _ _ (st, s1) heq
          refine Run.Holds_ite _ _ _
            (fun _ => Run.Holds_ret (fun h => absurd h ERROR_CODE_ne_zero)) (fun hst => ?_)
          exact ih s1 (fun _ => hs1 (by simpa using hst))
        · exact Run.Holds_undef _
        · exact Run.Holds_spin _
        · exact Run.Holds_thrown _

theorem FS.GetFreeBlocks_zero (B : Nat) (s : FS) (n : Int) (h : n.toNat = 0) :
    (s.GetFreeBlocks B n).2 = [] := by
  unfold FS.GetFreeBlocks
  split
  · rfl
  · show s.GetFreeBlocksLoop _ _ = []
    rw [FS.GetFreeBlocksLoop_eq, h]
    rfl

theorem FS.AllocateNewFileOnFAT_onDisk (B : Nat) (s : FS) (n : Int) :
    Run.Holds (fun r => r.1 = 0 → r.2.1.TableOnDisk) (s.AllocateNewFileOnFAT B n) := by
  unfold FS.AllocateNewFileOnFAT
  have hz := FS.GetFreeBlocks_zero B s n
  split
  rename_i st F heq
  have hF : F = (s.GetFreeBlocks B n).2 := by rw [heq]
  refine Run.Holds_ite _ _ _
    (fun _ => Run.Holds_ret (fun h => absurd h ERROR_CODE_ne_zero)) (fun _ => ?_)
  by_cases hn : n.toNat = 0
  · have hF0 : F = [] := by rw [hF]; exact hz hn
    rw [hn, hF0]
    unfold FS.LinkLoop
    simp only [Run.ret_bind, ne_eq, not_true_eq_false, if_false]
    exact Run.Holds_undef _
  · refine Run.Holds_bind _ _ _ (FS.LinkLoop_onDisk B F n.toNat n.toNat s (fun h => absurd h hn))
      (fun r hr => ?_)
    refine Run.Holds_ite _ _ _
      (fun _ => Run.Holds_ret (fun h => absurd h ERROR_CODE_ne_zero)) (fun hst => ?_)
    split
    · exact Run.Holds_undef _
    · exact Run.Holds_ret (fun _ => hr (by simpa using hst))

theorem FS.ExtendFileOnFAT_onDisk (B fuel : Nat) (s : FS) (n start : Int) :
    Run.Holds (fun r => r.1 = 0 → r.2.TableOnDisk) (s.ExtendFileOnFAT B fuel n start) := by
  unfold FS.ExtendFileOnFAT
  split
  rename_i st F _
  refine Run.Holds_ite _ _ _
    (fun _ => Run.Holds_ret (fun h => absurd h ERROR_CODE_ne_zero)) (fun _ => ?_)
  refine Run.Holds_bind_any _ _ (fun e => ?_)
  refine Run.Holds_bind_any _ _ (fun first => ?_)
  refine Run.Holds_bind _ _ _ (FS.MakeFATEntry_onDisk B s e _) (fun r hr => ?_)
  refine Run.Holds_ite _ _ _
    (fun _ => Run.Holds_ret (fun h => absurd h ERROR_CODE_ne_zero)) (fun hst => ?_)
  refine Run.Holds_bind _ _ _
    (FS.LinkLoop_onDisk B F n.toNat n.toNat r.2 (fun _ => hr (by simpa using hst)))
    (fun r2 hr2 => ?_)
  refine Run.Holds_ite _ _ _
    (fun _ => Run.Holds_ret (fun h => absurd h ERROR_CODE_ne_zero)) (fun hst2 => ?_)
  exact Run.Holds_ret (fun _ => hr2 (by simpa using hst2))

theorem FS.rmLoop_onDisk (B : Nat) :
    ∀ (fuel : Nat) (s : FS) (b : Int), (b = FAT_EOF → s.TableOnDisk) →
      Run.Holds (fun r => r.1 = 0 → r.2.TableOnDisk) (FS.rmLoop B fuel s b) := by
  intro fuel
  induction fuel with
  | zero =>
    intro s b hs
    unfold FS.rmLoop
    exact Run.Holds_ite _ _ _ (fun hb => Run.Holds_ret (fun _ => hs hb))
      (fun _ => Run.Holds_spin _)
  | succ fuel ih =>
    intro s b hs
    unfold FS.rmLoop
    refine Run.Holds_ite _ _ _ (fun hb => Run.Holds_ret (fun _ => hs hb)) (fun _ => ?_)
    simp only
    refine Run.Holds_bind_any _ _ (fun nextBlock => ?_)
    refine Run.Holds_bind _ _ _ (FS.MakeFATEntry_onDisk B _ b FAT_FREE) (fun r hr => ?_)
    refine Run.Holds_ite _ _ _
      (fun _ => Run.Holds_ret (fun h => absurd h ERROR_CODE_ne_zero)) (fun hst => ?_)
    exact ih r.2 nextBlock (fun _ => hr (by simpa using hst))

theorem FS.formatLoop_onDisk (B : Nat) :
    ∀ (l : List Nat) (s : FS), s.TableOnDisk →
      Run.Holds (fun r => r.1 = 0 → r.2.TableOnDisk) (FS.formatLoop B l s) := by
  intro l
  induction l with
  | nil =>
    intro s hs
    unfold FS.formatLoop
    exact Run.Holds_ret (fun _ => hs)
  | cons i rest ih =>
    intro s _
    unfold FS.formatLoop
    refine Run.Holds_bind _ _ _ (FS.MakeFATEntry_onDisk B s i FAT_FREE) (fun r hr => ?_)
    refine Run.Holds_ite _ _ _
      (fun _ => Run.Holds_ret (fun h => absurd h ERROR_CODE_ne_zero)) (fun hst => ?_)
    exact ih r.2 (hr (by simpa using hst))

theorem FS.format_onDisk (B : Nat) (s : FS) :
    Run.Holds (fun r => r.1 = 0 → r.2.TableOnDisk) (s.format B) := by
  unfold FS.format
  simp only
  refine Run.Holds_bind_any _ _ (fun r => ?_)
  refine Run.Holds_ite _ _ _
    (fun _ => Run.Holds_ret (fun h => absurd h ERROR_CODE_ne_zero)) (fun _ => ?_)
  refine Run.Holds_bind _ _ _ (FS.MakeFATEntry_onDisk B r.2 _ _) (fun r1 hr1 => ?_)
  refine Run.Holds_ite _ _ _
    (fun _ => Run.Holds_ret (fun h => absurd h ERROR_CODE_ne_zero)) (fun hst => ?_)
  exact FS.formatLoop_onDisk B _ r1.2 (hr1 (by simpa using hst))

end WriteThrough

/-- C25: a successful `MakeFATEntry(index, value)` leaves an in-memory table
that is the previous one with slot `index` replaced by `value` and nothing
else changed, and block 1 of the device holding exactly the bytes of that
table, two per slot.  Hence the table on the device and the table in memory
agree after a successful `format`, after a successful `AllocateNewFileOnFAT`,
after a successful `ExtendFileOnFAT` and after the chain-freeing loop of `rm`
has run to its end on a chain. -/
theorem table_write_through (BLOCK_SIZE : Nat) (s : FS) :
    (∀ (index v : Int) (s1 : FS),
      FS.MakeFATEntry BLOCK_SIZE s index v = Run.ret (0, s1) →
      s1.m_fat = s.m_fat.set (toUInt32 index) (toInt16 v) ∧
      (∀ j, j ≠ toUInt32 index → s1.m_fat.get? j = s.m_fat.get? j) ∧
      s1.m_disk.get? FAT_BLOCK = some (fatBytes s1.m_fat) ∧
      (fatBytes s1.m_fat).length = 2 * s.m_fat.length) ∧
    (∀ s1, s.format BLOCK_SIZE = Run.ret (0, s1) → s1.TableOnDisk) ∧
    (∀ (n : Int) (s1 : FS) (head : Int),
      s.AllocateNewFileOnFAT BLOCK_SIZE n = Run.ret (0, s1, head) → s1.TableOnDisk) ∧
    (∀ (fuel : Nat) (n start : Int) (s1 : FS),
      s.ExtendFileOnFAT BLOCK_SIZE fuel n start = Run.ret (0, s1) → s1.TableOnDisk) ∧
    (∀ (fuel : Nat) (start : Int) (s1 : FS), start ≠ FAT_EOF →
      FS.rmLoop BLOCK_SIZE fuel s start = Run.ret (0, s1) → s1.TableOnDisk) := by
  refine ⟨?_, ?_, ?_, ?_, ?_⟩
  · intro index v s1 h
    obtain ⟨_, _, a3, _⟩ := FS.MakeFATEntry_success BLOCK_SIZE s s1 index v h
    refine ⟨a3, ?_, FS.MakeFATEntry_onDisk BLOCK_SIZE s index v (0, s1) h rfl, ?_⟩
    · intro j hj
      rw [a3, List.get?_eq_getElem?, List.get?_eq_getElem?,
        List.getElem?_set_ne (fun h => hj h.symm)]
    · rw [fatBytes_length, a3, List.length_set]
  · intro s1 h
    exact FS.format_onDisk BLOCK_SIZE s (0, s1) h rfl
  · intro n s1 head h
    exact FS.AllocateNewFileOnFAT_onDisk BLOCK_SIZE s n (0, s1, head) h rfl
  · intro fuel n start s1 h
    exact FS.ExtendFileOnFAT_onDisk BLOCK_SIZE fuel s n start (0, s1) h rfl
  · intro fuel start s1 hne h
    exact FS.rmLoop_onDisk BLOCK_SIZE fuel s start (fun h => absurd h hne) (0, s1) h rfl

/-- C25 on the samples: the table is on the device after `format` of the raw
object and after `mkdir("d")`, whose last table write is a `MakeFATEntry`. -/
theorem table_write_through_witness :
    sampleFormatted.TableOnDisk ∧ sampleWithDir.TableOnDisk ∧
    (fatBytes sampleFormatted.m_fat).length = 128 :=
  ⟨(table_write_through 128 sampleRaw).2.1 sampleFormatted sampleFormatted_eq,
    by unfold FS.TableOnDisk; decide!, by decide!⟩

section SlotScans

theorem FS.firstAbsent_none_of_all (es : List dir_entry)
    (h : ∀ e ∈ es, DirEntryExists e = true) : FS.firstAbsent es = none := by
  induction es with
  | nil => rfl
  | cons a t ih =>
    rw [FS.firstAbsent, if_pos (h a (List.mem_cons_self _ _)),
      ih (fun e he => h e (List.mem_cons_of_mem _ he))]
    rfl

theorem FS.firstAbsent_eq_some_of :
    ∀ (es : List dir_entry) (i : Nat),
      (∀ j, j < i → ∃ e, es.get? j = some e ∧ DirEntryExists e = true) →
      (∃ e, es.get? i = some e ∧ DirEntryExists e = false) →
      FS.firstAbsent es = some i := by
  intro es
  induction es with
  | nil =>
    intro i _ hi
    obtain ⟨e, he, _⟩ := hi
    cases he
  | cons a t ih =>
    intro i hlow hi
    cases i with
    | zero =>
      obtain ⟨e, he, hex⟩ := hi
      have hae : a = e := by
        have : (a :: t).get? 0 = some a := rfl
        rw [this] at he
        exact Option.some.inj he
      rw [FS.firstAbsent, if_neg (by rw [hae, hex]; decide)]
    | succ k =>
      obtain ⟨e0, he0, hex0⟩ := hlow 0 (Nat.succ_pos _)
      have hae : a = e0 := by
        have : (a :: t).get? 0 = some a := rfl
        rw [this] at he0
        exact Option.some.inj he0
      rw [FS.firstAbsent, if_pos (by rw [hae]; exact hex0),
        ih k (fun j hj => hlow (j + 1) (Nat.succ_lt_succ hj)) hi]
      rfl

theorem FS.findName_eq_some_of (name : List Nat) :
    ∀ (es : List dir_entry) (i : Nat),
      (∀ j, j < i → ∃ e n, es.get? j = some e ∧ c_str e.file_name = some n ∧ n ≠ name) →
      (∃ e, es.get? i = some e ∧ c_str e.file_name = some name) →
      FS.findName name es = Run.ret (some i) := by
  intro es
  induction es with
  | nil =>
    intro i _ hi
    obtain ⟨e, he, _⟩ := hi
    cases he
  | cons a t ih =>
    intro i hlow hi
    cases i with
    | zero =>
      obtain ⟨e, he, hex⟩ := hi
      have hae : a = e := by
        have : (a :: t).get? 0 = some a := rfl
        rw [this] at he
        exact Option.some.inj he
      exact findName_cons_eq name a t (by rw [hae]; exact hex)
    | succ k =>
      obtain ⟨e0, n0, he0, hn0, hne0⟩ := hlow 0 (Nat.succ_pos _)
      have hae : a = e0 := by
        have : (a :: t).get? 0 = some a := rfl
        rw [this] at he0
        exact Option.some.inj he0
      have hrec := ih k (fun j hj => hlow (j + 1) (Nat.succ_lt_succ hj)) hi
      exact findName_cons_ne name n0 a t (some k) (by rw [hae]; exact hn0) hne0 hrec

theorem Disk.read_set_same (d : List (List Nat)) (b : Int) (blk x : List Nat)
    (h : Disk.read d b = some blk) : Disk.read (d.set b.toNat x) b = some x := by
  obtain ⟨h0, hlt, _⟩ := Disk.read_some d b blk h
  unfold Disk.read
  rw [List.length_set, if_pos ⟨h0, by omega⟩, List.get?_eq_getElem?,
    List.getElem?_set_self hlt]

end SlotScans

/-- C27: let the directory block `pb` be readable as `blk`, a block of
`BLOCK_SIZE` bytes, and let `e` be a record (a 56-byte name field and field
values in their ranges).  If `e` is absent, or if every slot of the block is
occupied, `AddNewDirEntry` returns the error status and the state is as it
was.  Otherwise, `i` being the lowest absent slot, it returns 0; slot `i` of
the block then holds `e`, every other slot of the block holds the bytes it
held, and every other block, the table and the working directory are as
before. -/
theorem addNewDirEntry_contract (BLOCK_SIZE : Nat) (s : FS) (pb : Int) (blk : List Nat)
    (e : dir_entry) (hread : Disk.read s.m_disk pb = some blk)
    (hblk : blk.length = BLOCK_SIZE)
    (hname : e.file_name.length = 56) (hsize : e.size < 4294967296)
    (hfirst : e.first_blk < 65536) (htype : e.type < 256) (hrights : e.access_rights < 256) :
    (DirEntryExists e = false → s.AddNewDirEntry BLOCK_SIZE pb e = (ERROR_CODE, s)) ∧
    ((∀ j, j < DIR_BLOCK_SIZE BLOCK_SIZE →
        DirEntryExists (dir_entry.decode (slotBytes blk j)) = true) →
      s.AddNewDirEntry BLOCK_SIZE pb e = (ERROR_CODE, s)) ∧
    (DirEntryExists e = true →
      ∀ i, i < DIR_BLOCK_SIZE BLOCK_SIZE →
        DirEntryExists (dir_entry.decode (slotBytes blk i)) = false →
        (∀ j, j < i → DirEntryExists (dir_entry.decode (slotBytes blk j)) = true) →
        ∃ s1 blk1, s.AddNewDirEntry BLOCK_SIZE pb e = (0, s1) ∧
          Disk.read s1.m_disk pb = some blk1 ∧ blk1.length = BLOCK_SIZE ∧
          dir_entry.decode (slotBytes blk1 i) = e ∧
          (∀ j, j < DIR_BLOCK_SIZE BLOCK_SIZE → j ≠ i → slotBytes blk1 j = slotBytes blk j) ∧
          (∀ b : Int, b ≠ pb → Disk.read s1.m_disk b = Disk.read s.m_disk b) ∧
          s1.m_fat = s.m_fat ∧ s1.m_cwdBlock = s.m_cwdBlock) := by
  refine ⟨?_, ?_, ?_⟩
  · intro hab
    unfold FS.AddNewDirEntry
    rw [hab]
    rfl
  · intro hall
    have hnone : FS.firstAbsent (dirEntries BLOCK_SIZE blk) = none := by
      apply FS.firstAbsent_none_of_all
      intro x hx
      unfold dirEntries at hx
      rw [List.mem_map] at hx
      obtain ⟨j, hj, rfl⟩ := hx
      exact hall j (List.mem_range.mp hj)
    unfold FS.AddNewDirEntry
    rw [hread]
    simp only [hnone]
    split <;> rfl
  · intro hex i hi habs hlow
    have hfa : FS.firstAbsent (dirEntries BLOCK_SIZE blk) = some i := by
      apply FS.firstAbsent_eq_some_of
      · intro j hj
        exact ⟨_, dirEntries_get? BLOCK_SIZE blk j (by omega), hlow j hj⟩
      · exact ⟨_, dirEntries_get? BLOCK_SIZE blk i hi, habs⟩
    have h64 : 64 * i + 64 ≤ blk.length := by
      rw [hblk]
      exact slot_in_block BLOCK_SIZE i hi
    obtain ⟨hp0, hplt, _⟩ := Disk.read_some s.m_disk pb blk hread
    refine ⟨{ s with m_disk := s.m_disk.set pb.toNat (setSlot blk i e) }, setSlot blk i e,
      ?_, ?_, ?_, ?_, ?_, ?_, rfl, rfl⟩
    · unfold FS.AddNewDirEntry
      rw [hex, hread]
      simp only [hfa, Disk.write_of_read _ _ _ _ hread]
      rfl
    · exact Disk.read_set_same _ _ _ _ hread
    · rw [setSlot_length _ _ _ h64 hname]
      exact hblk
    · rw [slotBytes_setSlot_same _ _ _ h64 hname]
      exact dir_entry.decode_encode e hname hsize hfirst htype hrights
    · intro j _ hji
      exact slotBytes_setSlot_other _ _ _ _ h64 hname hji
    · intro b hb
      have hbe : b = ((pb.toNat : Nat) : Int) ∨ b ≠ ((pb.toNat : Nat) : Int) := by
        by_cases h : b = ((pb.toNat : Nat) : Int)
        · exact Or.inl h
        · exact Or.inr h
      rcases hbe with h | h
      · exact absurd (by omega) hb
      · exact Disk.read_set_ne _ _ _ _ h

theorem addNewDirEntry_contract_witness :
    ∃ s1 blk1, sampleFormatted.AddNewDirEntry 128 0 sampleDirEntry = (0, s1) ∧
      Disk.read s1.m_disk 0 = some blk1 ∧ blk1.length = 128 ∧
      dir_entry.decode (slotBytes blk1 0) = sampleDirEntry ∧
      (∀ j, j < DIR_BLOCK_SIZE 128 → j ≠ 0 →
        slotBytes blk1 j = slotBytes (List.replicate 128 0) j) ∧
      (∀ b : Int, b ≠ 0 → Disk.read s1.m_disk b = Disk.read sampleFormatted.m_disk b) ∧
      s1.m_fat = sampleFormatted.m_fat ∧ s1.m_cwdBlock = sampleFormatted.m_cwdBlock :=
  (addNewDirEntry_contract 128 sampleFormatted 0 (List.replicate 128 0) sampleDirEntry
    (by decide!) (List.length_replicate _ _) (by decide!) (by decide!) (by decide!) (by decide!)
    (by decide!)).2.2 (by decide!) 0 (by decide) (by decide!)
    (fun j hj => absurd hj (Nat.not_lt_zero j))

/-- C28: let the directory block `pb` be readable as `blk`, a block of
`BLOCK_SIZE` bytes, and let the name field of the old record hold a C string
`oname`.  If every slot bears a name other than `oname`, `UpdateDirEntry`
returns 0 and the state, the block included, is as it was.  If slot `i` is the
lowest slot whose name is `oname`, it returns 0; slot `i` then holds the new
record (absent, if the new record is all-zero), every other slot of the block
holds the bytes it held, and every other block, the table and the working
directory are as before. -/
theorem updateDirEntry_contract (BLOCK_SIZE : Nat) (s : FS) (pb : Int) (blk : List Nat)
    (old new : dir_entry) (oname : List Nat)
    (hread : Disk.read s.m_disk pb = some blk) (hblk : blk.length = BLOCK_SIZE)
    (hold : c_str old.file_name = some oname)
    (hname : new.file_name.length = 56) (hsize : new.size < 4294967296)
    (hfirst : new.first_blk < 65536) (htype : new.type < 256)
    (hrights : new.access_rights < 256) :
    ((∀ j, j < DIR_BLOCK_SIZE BLOCK_SIZE →
        ∃ n, c_str (dir_entry.decode (slotBytes blk j)).file_name = some n ∧ n ≠ oname) →
      s.UpdateDirEntry BLOCK_SIZE pb old new = Run.ret (0, s)) ∧
    (∀ i, i < DIR_BLOCK_SIZE BLOCK_SIZE →
      c_str (dir_entry.decode (slotBytes blk i)).file_name = some oname →
      (∀ j, j < i →
        ∃ n, c_str (dir_entry.decode (slotBytes blk j)).file_name = some n ∧ n ≠ oname) →
      ∃ s1 blk1, s.UpdateDirEntry BLOCK_SIZE pb old new = Run.ret (0, s1) ∧
        Disk.read s1.m_disk pb = some blk1 ∧ blk1.length = BLOCK_SIZE ∧
        dir_entry.decode (slotBytes blk1 i) = new ∧
        (new = dir_entry.empty →
          DirEntryExists (dir_entry.decode (slotBytes blk1 i)) = false) ∧
        (∀ j, j < DIR_BLOCK_SIZE BLOCK_SIZE → j ≠ i → slotBytes blk1 j = slotBytes blk j) ∧
        (∀ b : Int, b ≠ pb → Disk.read s1.m_disk b = Disk.read s.m_disk b) ∧
        s1.m_fat = s.m_fat ∧ s1.m_cwdBlock = s.m_cwdBlock) := by
  obtain ⟨hp0, hplt, hget⟩ := Disk.read_some s.m_disk pb blk hread
  refine ⟨?_, ?_⟩
  · intro hall
    have hfn : FS.findName oname (dirEntries BLOCK_SIZE blk) = Run.ret none := by
      apply findName_none_of_all_ne
      intro x hx
      unfold dirEntries at hx
      rw [List.mem_map] at hx
      obtain ⟨j, hj, rfl⟩ := hx
      exact hall j (List.mem_range.mp hj)
    have hfs := findStrcmp_eq_findName old.file_name oname hold _ _ hfn
    unfold FS.UpdateDirEntry
    rw [hread]
    simp only [hfs, Run.ret_bind, Disk.write_of_read _ _ _ _ hread]
    rw [List.set_get?_self _ _ _ hget]
  · intro i hi hin hlow
    have hfn : FS.findName oname (dirEntries BLOCK_SIZE blk) = Run.ret (some i) := by
      apply FS.findName_eq_some_of
      · intro j hj
        obtain ⟨n, hn, hne⟩ := hlow j hj
        exact ⟨_, n, dirEntries_get? BLOCK_SIZE blk j (by omega), hn, hne⟩
      · exact ⟨_, dirEntries_get? BLOCK_SIZE blk i hi, hin⟩
    have hfs := findStrcmp_eq_findName old.file_name oname hold _ _ hfn
    have h64 : 64 * i + 64 ≤ blk.length := by
      rw [hblk]
      exact slot_in_block BLOCK_SIZE i hi
    have hdec : dir_entry.decode (slotBytes (setSlot blk i new) i) = new := by
      rw [slotBytes_setSlot_same _ _ _ h64 hname]
      exact dir_entry.decode_encode new hname hsize hfirst htype hrights
    refine ⟨{ s with m_disk := s.m_disk.set pb.toNat (setSlot blk i new) }, setSlot blk i new,
      FS.UpdateDirEntry_of_find BLOCK_SIZE s pb blk i old new hread hfs, ?_, ?_, hdec, ?_, ?_, ?_,
      rfl, rfl⟩
    · exact Disk.read_set_same _ _ _ _ hread
    · rw [setSlot_length _ _ _ h64 hname]
      exact hblk
    · intro hne
      rw [hdec, hne]
      exact DirEntryExists_empty
    · intro j _ hji
      exact slotBytes_setSlot_other _ _ _ _ h64 hname hji
    · intro b hb
      by_cases h : b = ((pb.toNat : Nat) : Int)
      · exact absurd (by omega) hb
      · exact Disk.read_set_ne _ _ _ _ h

theorem updateDirEntry_contract_witness :
    (sampleWithDir.UpdateDirEntry 128 0 sampleFileEntry dir_entry.empty =
      Run.ret (0, sampleWithDir)) ∧
    ∃ s1 blk1, sampleWithDir.UpdateDirEntry 128 0 sampleDirEntry dir_entry.empty =
        Run.ret (0, s1) ∧
      Disk.read s1.m_disk 0 = some blk1 ∧ blk1.length = 128 ∧
      dir_entry.decode (slotBytes blk1 0) = dir_entry.empty ∧
      (dir_entry.empty = dir_entry.empty →
        DirEntryExists (dir_entry.decode (slotBytes blk1 0)) = false) ∧
      (∀ j, j < DIR_BLOCK_SIZE 128 → j ≠ 0 →
        slotBytes blk1 j = slotBytes (sampleDirEntry.encode ++ List.replicate 64 0) j) ∧
      (∀ b : Int, b ≠ 0 → Disk.read s1.m_disk b = Disk.read sampleWithDir.m_disk b) ∧
      s1.m_fat = sampleWithDir.m_fat ∧ s1.m_cwdBlock = sampleWithDir.m_cwdBlock :=
  ⟨(updateDirEntry_contract 128 sampleWithDir 0 (sampleDirEntry.encode ++ List.replicate 64 0)
      sampleFileEntry dir_entry.empty (str "a") (by decide!) (by decide!) (by decide!)
      (by decide!) (by decide!) (by decide!) (by decide!) (by decide!)).1
      (by
        intro j hj
        have hj2 : j = 0 ∨ j = 1 := by
          have : DIR_BLOCK_SIZE 128 = 2 := by decide
          omega
        rcases hj2 with h | h
        · subst h
          exact ⟨str "d", by decide!, by decide⟩
        · subst h
          exact ⟨[], by decide!, by decide⟩),
    (updateDirEntry_contract 128 sampleWithDir 0 (sampleDirEntry.encode ++ List.replicate 64 0)
      sampleDirEntry dir_entry.empty (str "d") (by decide!) (by decide!) (by decide!)
      (by decide!) (by decide!) (by decide!) (by decide!) (by decide!)).2 0 (by decide)
      (by decide!) (fun j hj => absurd hj (Nat.not_lt_zero j))⟩

section Resolution

/-- From position 1 on, the loop of `GetDirectoryBlock` is the walk. -/
theorem FS.GetDirectoryBlockLoop_eq_walk (B : Nat) (s : FS) (t : PATH_TYPE) :
    ∀ (l : List (List Nat)) (i : Nat) (cur : Int), 1 ≤ i →
      s.GetDirectoryBlockLoop B t i l cur = FS.lookupWalk B s l cur := by
  intro l
  induction l with
  | nil =>
    intro i cur _
    unfold FS.GetDirectoryBlockLoop FS.lookupWalk
    rfl
  | cons name rest ih =>
    intro i cur hi
    unfold FS.GetDirectoryBlockLoop FS.lookupWalk
    rw [if_neg (fun h => by omega)]
    congr 1
    funext r
    rw [ih (i + 1) _ (by omega)]
    by_cases hx : DirEntryExists r.2 = true
    · by_cases ht : r.2.type = TYPE_DIR
      · simp [hx, ht]
      · simp [hx, ht]
    · simp [hx]

/-- At position 0 the loop skips the segment or starts the walk with it. -/
theorem FS.GetDirectoryBlockLoop_zero (B : Nat) (s : FS) (t : PATH_TYPE)
    (name : List Nat) (rest : List (List Nat)) (cur : Int) :
    s.GetDirectoryBlockLoop B t 0 (name :: rest) cur =
      if (t = PATH_TYPE.RELATIVE ∧ name = str ".") ∨ (t = PATH_TYPE.ABSOLUTE ∧ name = []) then
        FS.lookupWalk B s rest cur
      else FS.lookupWalk B s (name :: rest) cur := by
  unfold FS.GetDirectoryBlockLoop
  by_cases hc : (t = PATH_TYPE.RELATIVE ∧ name = str ".") ∨ (t = PATH_TYPE.ABSOLUTE ∧ name = [])
  · rw [if_pos ⟨rfl, hc⟩, if_pos hc]
    exact FS.GetDirectoryBlockLoop_eq_walk B s t rest 1 cur (le_refl 1)
  · rw [if_neg (fun h => hc h.2), if_neg hc]
    unfold FS.lookupWalk
    congr 1
    funext r
    rw [FS.GetDirectoryBlockLoop_eq_walk B s t rest (0 + 1) _ (le_refl 1)]
    by_cases hx : DirEntryExists r.2 = true
    · by_cases ht : r.2.type = TYPE_DIR
      · simp [hx, ht]
      · simp [hx, ht]
    · simp [hx]

theorem FS.lookupWalk_cwd (B : Nat) (s : FS) (c : Nat) :
    ∀ (l : List (List Nat)) (cur : Int),
      FS.lookupWalk B { s with m_cwdBlock := c } l cur = FS.lookupWalk B s l cur := by
  intro l
  induction l with
  | nil => intro cur; rfl
  | cons name rest ih =>
    intro cur
    unfold FS.lookupWalk
    have hg : FS.GetDirEntry B { s with m_cwdBlock := c } cur name =
        FS.GetDirEntry B s cur name := rfl
    rw [hg]
    congr 1
    funext r
    rw [ih]

end Resolution

/-- C26: for every state and every segment list, `GetDirectoryBlock` returns
what the resolution described by the specification returns: the working
directory block for the empty list, the root block for a Root path, failure
for an Invalid one, and otherwise the result of the walk from the working
directory (Relative) or from the root block (Absolute), a `.` (resp. empty)
segment at position 0 skipped without a lookup.  The walk returns the block
it is at when no segment is left, and the result for an Absolute path is the
same whatever the working directory. -/
theorem getDirectoryBlock_resolution (BLOCK_SIZE : Nat) (s : FS)
    (dirPaths : List (List Nat)) :
    s.GetDirectoryBlock BLOCK_SIZE dirPaths = s.GetDirectoryBlock_spec BLOCK_SIZE dirPaths ∧
    (∀ cur, FS.lookupWalk BLOCK_SIZE s [] cur = Run.ret cur) ∧
    (∀ (c : Nat), EvaluatePathType dirPaths = PATH_TYPE.ABSOLUTE →
      FS.GetDirectoryBlock BLOCK_SIZE { s with m_cwdBlock := c } dirPaths =
        s.GetDirectoryBlock BLOCK_SIZE dirPaths) := by
  have hmain : ∀ (t : FS), t.GetDirectoryBlock BLOCK_SIZE dirPaths =
      t.GetDirectoryBlock_spec BLOCK_SIZE dirPaths := by
    intro t
    unfold FS.GetDirectoryBlock FS.GetDirectoryBlock_spec
    cases dirPaths with
    | nil => rfl
    | cons first rest =>
      rw [if_neg (by simp), if_neg (by simp)]
      cases ht : EvaluatePathType (first :: rest) with
      | INVALID => rfl
      | ROOT => rfl
      | RELATIVE =>
        simp only
        rw [FS.GetDirectoryBlockLoop_zero]
        by_cases hf : first = str "."
        · simp [hf]
        · simp [hf]
      | ABSOLUTE =>
        simp only
        rw [FS.GetDirectoryBlockLoop_zero]
        by_cases hf : first = []
        · simp [hf]
        · simp [hf]
  refine ⟨hmain s, fun cur => rfl, ?_⟩
  intro c habs
  rw [hmain, hmain]
  unfold FS.GetDirectoryBlock_spec
  by_cases hn : dirPaths = []
  · rw [hn] at habs
    simp [EvaluatePathType] at habs
  · rw [if_neg hn, if_neg hn]
    simp only [habs]
    exact FS.lookupWalk_cwd BLOCK_SIZE s c _ _

/-- C26 on the sample with a Directory `d` and a File `a` in the root: the
resolution reaches block 3 of `d` by name and by absolute path, skips `.`,
fails on the File, on an absent name and on an Invalid list, and `..` is
looked up like any other name. -/
theorem getDirectoryBlock_resolution_example :
    sampleFileAndDir.GetDirectoryBlock 128 [str "d"] = Run.ret 3 ∧
    sampleFileAndDir.GetDirectoryBlock 128 [[], str "d"] = Run.ret 3 ∧
    sampleFileAndDir.GetDirectoryBlock 128 [str ".", str "d"] = Run.ret 3 ∧
    sampleFileAndDir.GetDirectoryBlock 128 [str ".", str "d", str ".."] = Run.ret 0 ∧
    sampleFileAndDir.GetDirectoryBlock 128 [str "."] = Run.ret 0 ∧
    sampleFileAndDir.GetDirectoryBlock 128 [str ".."] = Run.ret ERROR_CODE ∧
    sampleFileAndDir.GetDirectoryBlock 128 [[], str "a"] = Run.ret ERROR_CODE ∧
    sampleFileAndDir.GetDirectoryBlock 128 [[], str "x", str "d"] = Run.ret ERROR_CODE ∧
    sampleFileAndDir.GetDirectoryBlock 128 [str "d", str "x"] = Run.ret ERROR_CODE ∧
    sampleFileAndDir.GetDirectoryBlock 128 [[]] = Run.ret 0 ∧
    sampleFileAndDir.GetDirectoryBlock 128 [] = Run.ret 0 := by
  refine ⟨by decide!, by decide!, by decide!, by decide!, by decide!, by decide!, by decide!,
    by decide!, by decide!, by decide!, by decide!⟩

section FirstFit

/-- A free block that a request leaves out lies above every block it takes. -/
theorem FS.freeList_lowest (B : Nat) (s : FS) (n x : Nat) (hx : x < FAT_SIZE B)
    (hfree : s.m_fat.get? x = some FAT_FREE) (hnot : x ∉ s.freeList B n) :
    ∀ c ∈ s.freeList B n, c < x := by
  unfold FS.freeList at hnot ⊢
  have hxL : x ∈ (List.range (FAT_SIZE B)).filter (fun b => s.BlockIsFree b) := by
    rw [List.mem_filter]
    refine ⟨List.mem_range.mpr hx, ?_⟩
    unfold FS.BlockIsFree
    rw [hfree]
    simp
  have hsorted : ((List.range (FAT_SIZE B)).filter (fun b => s.BlockIsFree b)).Pairwise
      (fun a b => a < b) :=
    (List.pairwise_lt_range _).sublist (List.filter_sublist _)
  rw [← List.take_append_drop n ((List.range (FAT_SIZE B)).filter (fun b => s.BlockIsFree b))]
    at hxL hsorted
  rcases List.mem_append.mp hxL with h | h
  · exact absurd h hnot
  · intro c hc
    exact (List.pairwise_append.mp hsorted).2.2 c hc x h

/-- The table entry of the last block of a chain is `FAT_EOF`. -/
theorem FS.chainFrom_last (B : Nat) (s : FS) :
    ∀ (cs : List Nat) (fuel : Nat) (b : Int) (hne : cs ≠ []),
      FS.chainFrom B s fuel b = Run.ret cs → s.m_fat.get? (cs.getLast hne) = some FAT_EOF := by
  intro cs
  induction cs with
  | nil => intro _ _ hne; exact absurd rfl hne
  | cons x xs ih =>
    intro fuel b hne h
    obtain ⟨_, _, c, fuel1, hget, _, hrest⟩ := FS.chainFrom_cons B s fuel b x xs h
    cases xs with
    | nil =>
      have := FS.chainFrom_nil B s fuel1 c hrest
      rw [this] at hget
      exact hget
    | cons y ys =>
      rw [List.getLast_cons (by simp)]
      exact ih fuel1 c (by simp) hrest

end FirstFit

/-- C22, amended: on a table whose slots 0 and 1 are not FREE (as after
`format`), with at least `n >= 1` FREE slots, `AllocateNewFileOnFAT(n)`
returns 0 and the head of a chain of `n` blocks: these were FREE before the
call, they are in strictly ascending order, the head is the first of them,
every FREE block that is not among them lies above all of them, the walk
along the table from the head visits exactly them in that order, the entry of
the last one is `FAT_EOF`, and every other table slot is as before. -/
theorem first_fit_allocation (BLOCK_SIZE : Nat) (s : FS) (n : Nat)
    (hB : BLOCK_SIZE ≤ 65536) (hlen : s.m_fat.length = FAT_SIZE BLOCK_SIZE)
    (hd : 2 ≤ s.m_disk.length)
    (h0 : s.m_fat.get? 0 ≠ some FAT_FREE) (h1 : s.m_fat.get? 1 ≠ some FAT_FREE)
    (hn : 1 ≤ n) (hfree : n ≤ s.freeCount BLOCK_SIZE) :
    ∃ (s1 : FS) (head : Nat) (rest : List Nat),
      s.AllocateNewFileOnFAT BLOCK_SIZE (n : Int) = Run.ret (0, s1, (head : Int)) ∧
      (head :: rest).length = n ∧
      (head :: rest).Pairwise (fun a b => a < b) ∧
      (∀ c ∈ head :: rest, c < FAT_SIZE BLOCK_SIZE ∧ s.m_fat.get? c = some FAT_FREE) ∧
      (∀ x, x < FAT_SIZE BLOCK_SIZE → s.m_fat.get? x = some FAT_FREE → x ∉ head :: rest →
        ∀ c ∈ head :: rest, c < x) ∧
      (∀ fuel, n ≤ fuel →
        FS.chainFrom BLOCK_SIZE s1 fuel (head : Int) = Run.ret (head :: rest)) ∧
      s1.m_fat.get? ((head :: rest).getLast (List.cons_ne_nil _ _)) = some FAT_EOF ∧
      (∀ x, x ∉ head :: rest → s1.m_fat.get? x = s.m_fat.get? x) := by
  obtain ⟨b, rest, hF, hA⟩ :=
    FS.AllocateNewFileOnFAT_ok BLOCK_SIZE s n hB hlen hd hn hfree h0 h1
  have hFlen := FS.freeList_length BLOCK_SIZE s n hfree
  have hsorted := FS.freeList_sorted BLOCK_SIZE s n
  have hnd := FS.freeList_nodup BLOCK_SIZE s n
  rw [hF] at hFlen hsorted hnd
  have hmem : ∀ c ∈ b :: rest, c < FAT_SIZE BLOCK_SIZE ∧ s.m_fat.get? c = some FAT_FREE := by
    intro c hc
    rw [← hF] at hc
    exact FS.freeList_mem BLOCK_SIZE s n c hc
  have hchain : ∀ fuel, n ≤ fuel →
      FS.chainFrom BLOCK_SIZE
        { s with m_fat := FS.linkFAT (b :: rest) s.m_fat,
                 m_disk := s.m_disk.set 1 (fatBytes (FS.linkFAT (b :: rest) s.m_fat)) }
        fuel (b : Int) = Run.ret (b :: rest) := by
    intro fuel hfuel
    exact FS.chainFrom_linkFAT BLOCK_SIZE rest b s.m_fat _ fuel hnd
      (fun x hx => (hmem x hx).1) hlen rfl (by rw [hFlen]; exact hfuel)
  refine ⟨_, b, rest, hA, hFlen, hsorted, hmem, ?_, hchain, ?_, ?_⟩
  · intro x hx hxf hnot
    rw [← hF] at hnot ⊢
    exact FS.freeList_lowest BLOCK_SIZE s n x hx hxf hnot
  · exact FS.chainFrom_last BLOCK_SIZE _ (b :: rest) n (b : Int) (List.cons_ne_nil _ _)
      (hchain n (le_refl n))
  · intro x hx
    exact FS.linkFAT_get_not_mem (b :: rest) s.m_fat x hx

theorem first_fit_allocation_witness :
    ∃ (s1 : FS) (head : Nat) (rest : List Nat),
      sampleWithFile.AllocateNewFileOnFAT 128 ((3 : Nat) : Int) = Run.ret (0, s1, (head : Int)) ∧
      (head :: rest).length = 3 ∧
      (head :: rest).Pairwise (fun a b => a < b) ∧
      (∀ c ∈ head :: rest, c < FAT_SIZE 128 ∧ sampleWithFile.m_fat.get? c = some FAT_FREE) ∧
      (∀ x, x < FAT_SIZE 128 → sampleWithFile.m_fat.get? x = some FAT_FREE →
        x ∉ head :: rest → ∀ c ∈ head :: rest, c < x) ∧
      (∀ fuel, 3 ≤ fuel → FS.chainFrom 128 s1 fuel (head : Int) = Run.ret (head :: rest)) ∧
      s1.m_fat.get? ((head :: rest).getLast (List.cons_ne_nil _ _)) = some FAT_EOF ∧
      (∀ x, x ∉ head :: rest → s1.m_fat.get? x = sampleWithFile.m_fat.get? x) :=
  first_fit_allocation 128 sampleWithFile 3 (by decide) (by decide!) (by decide!) (by decide!)
    (by decide!) (by decide) (by decide!)

/-- C22 as stated, for every table, fails on a table whose slot 0 is FREE
after the flag of that slot has been set.  In a session on a device that holds
the File `a` and in which `format` has not been called, the table being zeroed
memory, `rm("a")` frees block 2, goes on to block 0 (the successor read in the
zeroed table), sets slot 0 to FREE, which sets the flag, and is then refused.
All 64 slots are FREE afterwards, yet `AllocateNewFileOnFAT(1)` returns the
error status: the lowest FREE block is block 0 and `MakeFATEntry` refuses it. -/
theorem first_fit_reserved_slot_counterexample :
    (sampleSecondSession.rm 128 5 (str "a")).bind (fun r =>
      Run.ret (r.1, r.2.m_fat.get? 0, r.2.rootCreated, r.2.freeCount 128)) =
      Run.ret (ERROR_CODE, some FAT_FREE, true, 64) ∧
    (sampleSecondSession.rm 128 5 (str "a")).bind (fun r =>
      (r.2.AllocateNewFileOnFAT 128 1).bind (fun a =>
        Run.ret (a.1, decide (a.2.1.m_fat = r.2.m_fat)))) =
      Run.ret (ERROR_CODE, true) := by
  refine ⟨by decide!, by decide!⟩

section ChainExtension

theorem FS.chainFrom_intro (B : Nat) (s : FS) (x : Nat) (c : Int) (k : Nat) (rest : List Nat)
    (hx : x < FAT_SIZE B) (hget : s.m_fat.get? x = some c)
    (hrest : FS.chainFrom B s k c = Run.ret rest) :
    FS.chainFrom B s (k + 1) (x : Int) = Run.ret (x :: rest) := by
  unfold FS.chainFrom
  have hne : ¬ ((x : Int) = FAT_EOF) := by
    unfold FAT_EOF
    omega
  rw [if_neg hne, FS.GetChildBlock_natCast B s x c hx hget]
  simp only [Run.ret_bind, hrest, Int.toNat_ofNat]

/-- More loop budget does not change the result of a walk. -/
theorem FS.chainFrom_fuel (B : Nat) (s : FS) :
    ∀ (cs : List Nat) (fuel : Nat) (b : Int), FS.chainFrom B s fuel b = Run.ret cs →
      ∀ fuel1, cs.length ≤ fuel1 → FS.chainFrom B s fuel1 b = Run.ret cs := by
  intro cs
  induction cs with
  | nil =>
    intro fuel b h fuel1 _
    have hb := FS.chainFrom_nil B s fuel b h
    cases fuel1 with
    | zero => unfold FS.chainFrom; rw [if_pos hb]
    | succ k => unfold FS.chainFrom; rw [if_pos hb]
  | cons x xs ih =>
    intro fuel b h fuel1 hf
    obtain ⟨hb, hx, c, fuel0, hget, _, hrest⟩ := FS.chainFrom_cons B s fuel b x xs h
    cases fuel1 with
    | zero => simp at hf
    | succ k =>
      rw [hb]
      exact FS.chainFrom_intro B s x c k xs hx hget
        (ih fuel0 c hrest k (by simpa using hf))

/-- A chain that does not run through block 0 holds no FREE slot. -/
theorem FS.chainFrom_not_free (B : Nat) (s : FS) :
    ∀ (cs : List Nat) (fuel : Nat) (b : Int), FS.chainFrom B s fuel b = Run.ret cs →
      0 ∉ cs → ∀ x ∈ cs, s.m_fat.get? x ≠ some FAT_FREE := by
  intro cs
  induction cs with
  | nil => intro _ _ _ _ x hx; simp at hx
  | cons y ys ih =>
    intro fuel b h h0 x hx
    obtain ⟨_, _, c, fuel1, hget, _, hrest⟩ := FS.chainFrom_cons B s fuel b y ys h
    rcases List.mem_cons.mp hx with hxy | hxys
    · subst hxy
      rw [hget]
      intro hc
      have hc0 : c = FAT_FREE := Option.some.inj hc
      cases ys with
      | nil =>
        have := FS.chainFrom_nil B s fuel1 c hrest
        rw [this] at hc0
        revert hc0
        decide
      | cons z zs =>
        obtain ⟨hcz, _⟩ := FS.chainFrom_cons B s fuel1 c z zs hrest
        have hz0 : z = 0 := by
          rw [hc0] at hcz
          unfold FAT_FREE at hcz
          omega
        exact h0 (by rw [hz0]; simp)
    · exact ih fuel1 c hrest (fun h => h0 (List.mem_cons_of_mem _ h)) x hxys

/-- The walk from a member of a chain visits the rest of the chain. -/
theorem FS.chainFrom_member (B : Nat) (s : FS) :
    ∀ (cs : List Nat) (fuel : Nat) (b : Int) (hne : cs ≠ []),
      FS.chainFrom B s fuel b = Run.ret cs →
      ∀ x ∈ cs, ∃ post fuel1, FS.chainFrom B s fuel1 (x : Int) = Run.ret (x :: post) ∧
        (x :: post).getLast (List.cons_ne_nil _ _) = cs.getLast hne ∧
        (x :: post).length ≤ cs.length := by
  intro cs
  induction cs with
  | nil => intro _ _ hne; exact absurd rfl hne
  | cons y ys ih =>
    intro fuel b hne h x hx
    obtain ⟨hb, _, c, fuel1, hget, _, hrest⟩ := FS.chainFrom_cons B s fuel b y ys h
    rcases List.mem_cons.mp hx with hxy | hxys
    · subst hxy
      rw [hb] at h
      exact ⟨ys, fuel, h, rfl, le_refl _⟩
    · have hys : ys ≠ [] := List.ne_nil_of_mem hxys
      obtain ⟨post, fuel2, hp, hl, hlen⟩ := ih fuel1 c hys hrest x hxys
      refine ⟨post, fuel2, hp, ?_, ?_⟩
      · rw [hl, List.getLast_cons hys]
      · simp only [List.length_cons] at hlen ⊢
        omega

/-- The block `GetEOFBlockFromStartBlock` finds is the last block of the
chain, within a loop budget of the length of the chain. -/
theorem FS.GetEOFBlock_of_chainFrom (B : Nat) (s : FS) :
    ∀ (xs : List Nat) (x : Nat) (fuel0 : Nat) (b : Int),
      FS.chainFrom B s fuel0 b = Run.ret (x :: xs) →
      ∀ fuel, (x :: xs).length ≤ fuel →
        FS.GetEOFBlockFromStartBlock B s fuel b =
          Run.ret (((x :: xs).getLast (List.cons_ne_nil _ _) : Nat) : Int) := by
  intro xs
  induction xs with
  | nil =>
    intro x fuel0 b h fuel hf
    obtain ⟨hb, hx, c, fuel1, hget, _, hrest⟩ := FS.chainFrom_cons B s fuel0 b x [] h
    have hc := FS.chainFrom_nil B s fuel1 c hrest
    cases fuel with
    | zero => simp at hf
    | succ k =>
      unfold FS.GetEOFBlockFromStartBlock
      rw [hb, FS.GetChildBlock_natCast B s x c hx hget, hc]
      simp
  | cons y ys ih =>
    intro x fuel0 b h fuel hf
    obtain ⟨hb, hx, c, fuel1, hget, _, hrest⟩ := FS.chainFrom_cons B s fuel0 b x (y :: ys) h
    obtain ⟨hcy, _⟩ := FS.chainFrom_cons B s fuel1 c y ys hrest
    cases fuel with
    | zero => simp at hf
    | succ k =>
      unfold FS.GetEOFBlockFromStartBlock
      rw [hb, FS.GetChildBlock_natCast B s x c hx hget]
      have hne : c ≠ FAT_EOF := by
        rw [hcy]
        unfold FAT_EOF
        omega
      simp only [Run.ret_bind, if_pos hne]
      rw [List.getLast_cons (List.cons_ne_nil _ _)]
      exact ih y fuel1 c hrest k (by simpa using hf)

/-- The walk along a chain whose last block has been linked to a further
chain visits both in turn. -/
theorem FS.chainFrom_append (B : Nat) (s s1 : FS) (F : List Nat) (f0 e : Nat)
    (he : s1.m_fat.get? e = some (f0 : Int))
    (hF : ∀ fuel, F.length ≤ fuel → FS.chainFrom B s1 fuel (f0 : Int) = Run.ret F) :
    ∀ (cs : List Nat) (fuel0 : Nat) (b : Int) (hne : cs ≠ []),
      FS.chainFrom B s fuel0 b = Run.ret cs → cs.getLast hne = e →
      (∀ x ∈ cs, x ≠ e → s1.m_fat.get? x = s.m_fat.get? x) →
      ∀ fuel, cs.length + F.length ≤ fuel →
        FS.chainFrom B s1 fuel b = Run.ret (cs ++ F) := by
  intro cs
  induction cs with
  | nil => intro _ _ hne; exact absurd rfl hne
  | cons x xs ih =>
    intro fuel0 b hne h hlast hsame fuel hf
    obtain ⟨hb, hx, c, fuel1, hget, _, hrest⟩ := FS.chainFrom_cons B s fuel0 b x xs h
    have heof := FS.chainFrom_last B s (x :: xs) fuel0 b hne h
    rw [hlast] at heof
    cases fuel with
    | zero => simp at hf
    | succ k =>
      rw [hb]
      cases xs with
      | nil =>
        have hxe : x = e := hlast
        rw [hxe]
        rw [hxe] at hx
        exact FS.chainFrom_intro B s1 e (f0 : Int) k F hx he
          (hF k (by simp at hf; omega))
      | cons y ys =>
        obtain ⟨hcy, _⟩ := FS.chainFrom_cons B s fuel1 c y ys hrest
        have hxe : x ≠ e := by
          intro hxe
          rw [hxe, heof] at hget
          have : FAT_EOF = c := Option.some.inj hget
          rw [hcy] at this
          unfold FAT_EOF at this
          omega
        have hget1 : s1.m_fat.get? x = some c := by
          rw [hsame x (List.mem_cons_self _ _) hxe]
          exact hget
        have hl2 : (y :: ys).getLast (List.cons_ne_nil _ _) = e := by
          rw [← hlast, List.getLast_cons (List.cons_ne_nil _ _)]
        have hrec := ih fuel1 c (List.cons_ne_nil _ _) hrest hl2
          (fun z hz hze => hsame z (List.mem_cons_of_mem _ hz) hze) k
          (by simp at hf ⊢; omega)
        exact FS.chainFrom_intro B s1 x c k _ hx hget1 hrec

/-- `ExtendFileOnFAT` step by step, with the state it leaves. -/
theorem FS.ExtendFileOnFAT_eval (B : Nat) (s : FS) (n e : Nat) (start : Int) (fuel : Nat)
    (hB : B ≤ 65536) (hlen : s.m_fat.length = FAT_SIZE B) (hd : 2 ≤ s.m_disk.length)
    (h0 : s.m_fat.get? 0 ≠ some FAT_FREE) (h1 : s.m_fat.get? 1 ≠ some FAT_FREE)
    (hn : 1 ≤ n) (hfree : n ≤ s.freeCount B)
    (hEOF : FS.GetEOFBlockFromStartBlock B s fuel start = Run.ret (e : Int))
    (he2 : 2 ≤ e) (heF : e < FAT_SIZE B) :
    ∃ f0 frest, s.freeList B n = f0 :: frest ∧
      s.ExtendFileOnFAT B fuel (n : Int) start =
        Run.ret (0, { s with
          m_fat := FS.linkFAT (f0 :: frest) (s.m_fat.set e (f0 : Int)),
          m_disk := (s.m_disk.set 1 (fatBytes (s.m_fat.set e (f0 : Int)))).set 1
            (fatBytes (FS.linkFAT (f0 :: frest) (s.m_fat.set e (f0 : Int)))) }) := by
  have hFs : FAT_SIZE B ≤ 32768 := by unfold FAT_SIZE; omega
  have hL := FS.freeList_length B s n hfree
  have hF : ∀ x ∈ s.freeList B n, 2 ≤ x ∧ x < FAT_SIZE B := fun x hx =>
    ⟨FS.freeList_ge_two B s n x h0 h1 hx, (FS.freeList_mem B s n x hx).1⟩
  cases hFl : s.freeList B n with
  | nil => rw [hFl] at hL; simp at hL; omega
  | cons f0 frest =>
    refine ⟨f0, frest, rfl, ?_⟩
    rw [hFl] at hL hF
    have hf0 := hF f0 (List.mem_cons_self _ _)
    have hmk := FS.MakeFATEntry_plain B s e (f0 : Int) hB hlen hd he2 heF (by omega) (by omega)
    have hloop := FS.LinkLoop_ok B (f0 :: frest) hB hF (f0 :: frest).length
      { s with m_fat := s.m_fat.set e (f0 : Int),
               m_disk := s.m_disk.set 1 (fatBytes (s.m_fat.set e (f0 : Int))) }
      (le_refl _) (by show (s.m_fat.set e _).length = _; rw [List.length_set]; exact hlen)
      (by show 2 ≤ (s.m_disk.set 1 _).length; rw [List.length_set]; exact hd)
    rw [hL] at hloop
    have hn0 : n ≠ 0 := by omega
    unfold FS.ExtendFileOnFAT
    rw [FS.GetFreeBlocks_nat, hFl]
    simp only [ne_eq, not_true_eq_false, if_false, hEOF, Run.ret_bind]
    have hget0 : (f0 :: frest).get? 0 = some f0 := rfl
    rw [hget0]
    simp only [Run.ofOption, Run.ret_bind, hmk, ne_eq, not_true_eq_false, if_false,
      Int.toNat_ofNat, hloop]
    simp [hn0]

end ChainExtension

/-- The chain that `ExtendFileOnFAT` leaves: the blocks of the chain it was
given, in their order, followed by the blocks it linked. -/
theorem FS.ExtendFileOnFAT_chain (BLOCK_SIZE : Nat) (s : FS) (n : Nat) (head : Int) (cs : List Nat)
    (start fuel0 : Nat)
    (hB : BLOCK_SIZE ≤ 65536) (hlen : s.m_fat.length = FAT_SIZE BLOCK_SIZE)
    (hd : 2 ≤ s.m_disk.length)
    (h0 : s.m_fat.get? 0 ≠ some FAT_FREE) (h1 : s.m_fat.get? 1 ≠ some FAT_FREE)
    (hcs : FS.chainFrom BLOCK_SIZE s fuel0 head = Run.ret cs)
    (hstart : start ∈ cs) (hc0 : 0 ∉ cs) (hc1 : 1 ∉ cs)
    (hn : 1 ≤ n) (hfree : n ≤ s.freeCount BLOCK_SIZE) :
    ∃ (s1 : FS) (f0 : Nat) (frest : List Nat),
      (∀ fuel, cs.length ≤ fuel →
        s.ExtendFileOnFAT BLOCK_SIZE fuel (n : Int) (start : Int) = Run.ret (0, s1)) ∧
      (∀ fuel, cs.length + n ≤ fuel →
        FS.chainFrom BLOCK_SIZE s1 fuel head = Run.ret (cs ++ f0 :: frest)) ∧
      (f0 :: frest).length = n ∧
      (f0 :: frest).Pairwise (fun a b => a < b) ∧
      (∀ c ∈ f0 :: frest, c < FAT_SIZE BLOCK_SIZE ∧ s.m_fat.get? c = some FAT_FREE) ∧
      (∀ x, x < FAT_SIZE BLOCK_SIZE → s.m_fat.get? x = some FAT_FREE → x ∉ f0 :: frest →
        ∀ c ∈ f0 :: frest, c < x) ∧
      s1.m_fat.get? ((f0 :: frest).getLast (List.cons_ne_nil _ _)) = some FAT_EOF ∧
      (∀ x, x ≠ cs.getLast (List.ne_nil_of_mem hstart) → x ∉ f0 :: frest →
        s1.m_fat.get? x = s.m_fat.get? x) := by
  have hne : cs ≠ [] := List.ne_nil_of_mem hstart
  have helast : cs.getLast hne ∈ cs := List.getLast_mem hne
  have heof := FS.chainFrom_last BLOCK_SIZE s cs fuel0 head hne hcs
  have hnotfree := FS.chainFrom_not_free BLOCK_SIZE s cs fuel0 head hcs hc0
  obtain ⟨post, fuel1, hpost, hpl, hplen⟩ :=
    FS.chainFrom_member BLOCK_SIZE s cs fuel0 head hne hcs start hstart
  obtain ⟨poste, fuele, hposte, _, _⟩ :=
    FS.chainFrom_member BLOCK_SIZE s cs fuel0 head hne hcs _ helast
  obtain ⟨_, heF, _⟩ := FS.chainFrom_cons BLOCK_SIZE s fuele _ _ poste hposte
  have he2 : 2 ≤ cs.getLast hne := by
    have a0 : cs.getLast hne ≠ 0 := fun h => hc0 (h ▸ helast)
    have a1 : cs.getLast hne ≠ 1 := fun h => hc1 (h ▸ helast)
    omega
  have hEOF : ∀ fuel, cs.length ≤ fuel →
      FS.GetEOFBlockFromStartBlock BLOCK_SIZE s fuel (start : Int) =
        Run.ret ((cs.getLast hne : Nat) : Int) := by
    intro fuel hf
    rw [← hpl]
    exact FS.GetEOFBlock_of_chainFrom BLOCK_SIZE s post start fuel1 _ hpost fuel (by omega)
  obtain ⟨f0, frest, hFl, hE0⟩ := FS.ExtendFileOnFAT_eval BLOCK_SIZE s n (cs.getLast hne)
    (start : Int) cs.length hB hlen hd h0 h1 hn hfree (hEOF _ (le_refl _)) he2 heF
  have hFlen := FS.freeList_length BLOCK_SIZE s n hfree
  have hsorted := FS.freeList_sorted BLOCK_SIZE s n
  have hnd := FS.freeList_nodup BLOCK_SIZE s n
  rw [hFl] at hFlen hsorted hnd
  have hmem : ∀ c ∈ f0 :: frest, c < FAT_SIZE BLOCK_SIZE ∧ s.m_fat.get? c = some FAT_FREE := by
    intro c hc
    rw [← hFl] at hc
    exact FS.freeList_mem BLOCK_SIZE s n c hc
  have heF2 : cs.getLast hne ∉ f0 :: frest := by
    intro hmemF
    have := (hmem _ hmemF).2
    rw [heof] at this
    revert this
    decide
  have hchainF : ∀ fuel, (f0 :: frest).length ≤ fuel →
      FS.chainFrom BLOCK_SIZE
        { s with
          m_fat := FS.linkFAT (f0 :: frest) (s.m_fat.set (cs.getLast hne) (f0 : Int)),
          m_disk := (s.m_disk.set 1 (fatBytes (s.m_fat.set (cs.getLast hne) (f0 : Int)))).set 1
            (fatBytes (FS.linkFAT (f0 :: frest) (s.m_fat.set (cs.getLast hne) (f0 : Int)))) }
        fuel (f0 : Int) = Run.ret (f0 :: frest) := by
    intro fuel hf
    exact FS.chainFrom_linkFAT BLOCK_SIZE frest f0 (s.m_fat.set (cs.getLast hne) (f0 : Int)) _ fuel
      hnd (fun x hx => (hmem x hx).1) (by rw [List.length_set]; exact hlen) rfl hf
  have hother : ∀ x, x ≠ cs.getLast hne → x ∉ f0 :: frest →
      (FS.linkFAT (f0 :: frest) (s.m_fat.set (cs.getLast hne) (f0 : Int))).get? x =
        s.m_fat.get? x := by
    intro x hxe hxF
    rw [FS.linkFAT_get_not_mem _ _ x hxF, List.get?_eq_getElem?, List.get?_eq_getElem?,
      List.getElem?_set_ne (fun h => hxe h.symm)]
  refine ⟨{ s with
      m_fat := FS.linkFAT (f0 :: frest) (s.m_fat.set (cs.getLast hne) (f0 : Int)),
      m_disk := (s.m_disk.set 1 (fatBytes (s.m_fat.set (cs.getLast hne) (f0 : Int)))).set 1
        (fatBytes (FS.linkFAT (f0 :: frest) (s.m_fat.set (cs.getLast hne) (f0 : Int)))) },
    f0, frest, ?_, ?_, hFlen, hsorted, hmem, ?_, ?_, hother⟩
  · intro fuel hf
    obtain ⟨f0', frest', hFl', hE⟩ := FS.ExtendFileOnFAT_eval BLOCK_SIZE s n (cs.getLast hne)
      (start : Int) fuel hB hlen hd h0 h1 hn hfree (hEOF fuel hf) he2 heF
    rw [hFl] at hFl'
    cases hFl'
    exact hE
  · intro fuel hf
    apply FS.chainFrom_append BLOCK_SIZE s _ (f0 :: frest) f0 (cs.getLast hne) ?_ hchainF cs fuel0
      head hne hcs rfl ?_ fuel (by rw [hFlen]; exact hf)
    · show (FS.linkFAT (f0 :: frest) (s.m_fat.set (cs.getLast hne) (f0 : Int))).get?
        (cs.getLast hne) = _
      rw [FS.linkFAT_get_not_mem _ _ _ heF2, List.get?_eq_getElem?,
        List.getElem?_set_self (by rw [hlen]; exact heF)]
    · intro x hx hxe
      apply hother x hxe
      intro hxF
      exact hnotfree x hx (hmem x hxF).2
  · intro x hx hxf hnot
    rw [← hFl] at hnot ⊢
    exact FS.freeList_lowest BLOCK_SIZE s n x hx hxf hnot
  · exact FS.chainFrom_last BLOCK_SIZE _ (f0 :: frest) _ (f0 : Int) (List.cons_ne_nil _ _)
      (hchainF _ (le_refl _))

/-- C23, amended: on a table whose slots 0 and 1 are not FREE, let the walk
from `head` visit the chain `cs`, which does not run through block 0 or
block 1, and let `start` be any block of it.  With at least `n >= 1` FREE
slots, `ExtendFileOnFAT(n, start)` returns 0 within a loop budget of the
length of the chain.  Afterwards the walk from `head` visits the blocks of
`cs` in their order followed by the `n` lowest blocks that were FREE, in
ascending order, and ends there (the entry of the last new block is
`FAT_EOF`); every table slot other than that of the old last block and those
of the new blocks is as before. -/
theorem chain_extension (BLOCK_SIZE : Nat) (s : FS) (n : Nat) (head : Int) (cs : List Nat)
    (start fuel0 : Nat)
    (hB : BLOCK_SIZE ≤ 65536) (hlen : s.m_fat.length = FAT_SIZE BLOCK_SIZE)
    (hd : 2 ≤ s.m_disk.length)
    (h0 : s.m_fat.get? 0 ≠ some FAT_FREE) (h1 : s.m_fat.get? 1 ≠ some FAT_FREE)
    (hcs : FS.chainFrom BLOCK_SIZE s fuel0 head = Run.ret cs)
    (hstart : start ∈ cs) (hc0 : 0 ∉ cs) (hc1 : 1 ∉ cs)
    (hn : 1 ≤ n) (hfree : n ≤ s.freeCount BLOCK_SIZE) :
    ∃ (s1 : FS) (f0 : Nat) (frest : List Nat),
      (∀ fuel, cs.length ≤ fuel →
        s.ExtendFileOnFAT BLOCK_SIZE fuel (n : Int) (start : Int) = Run.ret (0, s1)) ∧
      (∀ fuel, cs.length + n ≤ fuel →
        FS.chainFrom BLOCK_SIZE s1 fuel head = Run.ret (cs ++ f0 :: frest)) ∧
      (f0 :: frest).length = n ∧
      (f0 :: frest).Pairwise (fun a b => a < b) ∧
      (∀ c ∈ f0 :: frest, c < FAT_SIZE BLOCK_SIZE ∧ s.m_fat.get? c = some FAT_FREE) ∧
      (∀ x, x < FAT_SIZE BLOCK_SIZE → s.m_fat.get? x = some FAT_FREE → x ∉ f0 :: frest →
        ∀ c ∈ f0 :: frest, c < x) ∧
      s1.m_fat.get? ((f0 :: frest).getLast (List.cons_ne_nil _ _)) = some FAT_EOF ∧
      (∀ x, x ≠ cs.getLast (List.ne_nil_of_mem hstart) → x ∉ f0 :: frest →
        s1.m_fat.get? x = s.m_fat.get? x) :=
  FS.ExtendFileOnFAT_chain BLOCK_SIZE s n head cs start fuel0 hB hlen hd h0 h1 hcs hstart hc0 hc1
    hn hfree

theorem chain_extension_witness :
    ∃ (s1 : FS) (f0 : Nat) (frest : List Nat),
      (∀ fuel, [2].length ≤ fuel →
        sampleWithFile.ExtendFileOnFAT 128 fuel ((2 : Nat) : Int) ((2 : Nat) : Int) =
          Run.ret (0, s1)) ∧
      (∀ fuel, [2].length + 2 ≤ fuel →
        FS.chainFrom 128 s1 fuel 2 = Run.ret ([2] ++ f0 :: frest)) ∧
      (f0 :: frest).length = 2 ∧
      (f0 :: frest).Pairwise (fun a b => a < b) ∧
      (∀ c ∈ f0 :: frest, c < FAT_SIZE 128 ∧ sampleWithFile.m_fat.get? c = some FAT_FREE) ∧
      (∀ x, x < FAT_SIZE 128 → sampleWithFile.m_fat.get? x = some FAT_FREE →
        x ∉ f0 :: frest → ∀ c ∈ f0 :: frest, c < x) ∧
      s1.m_fat.get? ((f0 :: frest).getLast (List.cons_ne_nil _ _)) = some FAT_EOF ∧
      (∀ x, x ≠ [2].getLast (List.ne_nil_of_mem (List.mem_singleton.mpr rfl)) →
        x ∉ f0 :: frest → s1.m_fat.get? x = sampleWithFile.m_fat.get? x) :=
  chain_extension 128 sampleWithFile 2 2 [2] 2 5 (by decide) (by decide!) (by decide!)
    (by decide!) (by decide!) (by decide!) (List.mem_singleton.mpr rfl) (by decide) (by decide)
    (by decide) (by decide!)

/-- C23 as stated fails for the chain of a reserved block: after `format` the
chain through block 0 is the single block 0, acyclic and ending at `FAT_EOF`,
and 62 slots are FREE, yet `ExtendFileOnFAT(1, 0)` returns the error status
and leaves the table as it was, `MakeFATEntry` refusing to rewrite slot 0.
The chain of a File is extended: `ExtendFileOnFAT(2, 2)` on the chain of `a`
gives the chain 2, 3, 4. -/
theorem chain_extension_reserved_counterexample :
    FS.chainFrom 128 sampleFormatted 5 0 = Run.ret [0] ∧
    sampleFormatted.freeCount 128 = 62 ∧
    (sampleFormatted.ExtendFileOnFAT 128 5 1 0).bind (fun r =>
      Run.ret (r.1, decide (r.2.m_fat = sampleFormatted.m_fat))) =
      Run.ret (ERROR_CODE, true) ∧
    (sampleWithFile.ExtendFileOnFAT 128 5 2 2).bind (fun r =>
      (FS.chainFrom 128 r.2 5 2).bind (fun c => Run.ret (r.1, c))) =
      Run.ret (0, [2, 3, 4]) := by
  refine ⟨by decide!, by decide!, by decide!, by decide!⟩

section ReservedChains

/-- A call of `GetEOFBlockFromStartBlock` that returns has walked a chain
that ends at the block returned, within the loop budget. -/
theorem FS.chainFrom_of_GetEOFBlock (B : Nat) (s : FS) :
    ∀ (fuel : Nat) (b e : Int), FS.GetEOFBlockFromStartBlock B s fuel b = Run.ret e →
      ∃ (x : Nat) (xs : List Nat), FS.chainFrom B s fuel b = Run.ret (x :: xs) ∧
        e = (((x :: xs).getLast (List.cons_ne_nil _ _) : Nat) : Int) ∧
        (x :: xs).length ≤ fuel := by
  intro fuel
  induction fuel with
  | zero => intro b e h; unfold FS.GetEOFBlockFromStartBlock at h; cases h
  | succ k ih =>
    intro b e h
    unfold FS.GetEOFBlockFromStartBlock at h
    cases hg : FS.GetChildBlock B s b with
    | ret c =>
      rw [hg] at h
      simp only [Run.ret_bind] at h
      obtain ⟨hb0, hbF, hget⟩ := FS.GetChildBlock_ret B s b c hg
      obtain ⟨m, hm⟩ : ∃ m : Nat, b = (m : Int) := ⟨b.toNat, (Int.toNat_of_nonneg hb0).symm⟩
      subst hm
      simp only [Int.toNat_ofNat] at hbF hget
      by_cases hc : c ≠ FAT_EOF
      · rw [if_pos hc] at h
        obtain ⟨x, xs, hch, hl, hlen⟩ := ih c e h
        refine ⟨m, x :: xs, ?_, ?_, ?_⟩
        · exact FS.chainFrom_intro B s m c k (x :: xs) hbF hget hch
        · rw [List.getLast_cons (List.cons_ne_nil _ _)]
          exact hl
        · simp only [List.length_cons] at hlen ⊢
          omega
      · rw [if_neg hc] at h
        have hce : c = FAT_EOF := by
          by_contra hne
          exact hc hne
        have hnil : FS.chainFrom B s k c = Run.ret [] := by
          rw [hce]
          cases k <;> simp [FS.chainFrom]
        refine ⟨m, [], ?_, ?_, ?_⟩
        · exact FS.chainFrom_intro B s m c k [] hbF hget hnil
        · exact (Run.ret.inj h).symm
        · simp
    | undef => rw [hg] at h; cases h
    | spin => rw [hg] at h; cases h
    | thrown => rw [hg] at h; cases h

/-- A linking loop that reports success has read every element it indexes:
the vector holds at least `n` blocks. -/
theorem FS.LinkLoop_success_length (B : Nat) (F : List Nat) (n : Nat) :
    ∀ (k : Nat) (s : FS) (r : Int × FS), 1 ≤ k → k ≤ n →
      FS.LinkLoop B F n k s = Run.ret r → r.1 = 0 → n ≤ F.length := by
  intro k
  induction k with
  | zero => intro s r h1; omega
  | succ k ih =>
    intro s r _ hkn h hr
    unfold FS.LinkLoop at h
    simp only at h
    cases hf : F.get? (n - (k + 1)) with
    | none => rw [hf] at h; cases h
    | some f =>
      rw [hf] at h
      simp only at h
      cases hl : (if n - (k + 1) = n - 1 then some FAT_EOF
          else (F.get? (n - (k + 1) + 1)).map Int.ofNat) with
      | none => rw [hl] at h; cases h
      | some l =>
        rw [hl] at h
        simp only at h
        cases hm : FS.MakeFATEntry B s (f : Int) l with
        | ret q =>
          rw [hm] at h
          obtain ⟨st, s1⟩ := q
          simp only at h
          by_cases c : st ≠ 0
          · rw [if_pos c] at h
            have := congrArg Prod.fst (Run.ret.inj h)
            rw [hr] at this
            exact absurd this ERROR_CODE_ne_zero
          · rw [if_neg c] at h
            cases k with
            | zero =>
              have hlt : n - 1 < F.length := by
                have := (List.get?_eq_some.mp hf).1
                simpa using this
              omega
            | succ j => exact ih s1 r (by omega) (by omega) h hr
        | undef => rw [hm] at h; cases h
        | spin => rw [hm] at h; cases h
        | thrown => rw [hm] at h; cases h

theorem FS.freeList_length_le (B : Nat) (s : FS) (n : Nat) :
    (s.freeList B n).length ≤ s.freeCount B := by
  unfold FS.freeList FS.freeCount
  rw [List.length_take]
  exact Nat.min_le_right _ _

/-- A call of `ExtendFileOnFAT` that returns 0 was asked for at least one
block and for no more blocks than are FREE. -/
theorem FS.ExtendFileOnFAT_success_count (B fuel : Nat) (s : FS) (n start : Int)
    (r : Int × FS) (h : FS.ExtendFileOnFAT B fuel s n start = Run.ret r) (hr : r.1 = 0) :
    ∃ k : Nat, n = (k : Int) ∧ 1 ≤ k ∧ k ≤ s.freeCount B := by
  by_cases hn : n < 0
  · unfold FS.ExtendFileOnFAT FS.GetFreeBlocks at h
    simp only [if_pos hn] at h
    have hne : ERROR_CODE ≠ 0 := ERROR_CODE_ne_zero
    simp only [ne_eq, hne, not_false_eq_true, if_true] at h
    have := congrArg Prod.fst (Run.ret.inj h)
    rw [hr] at this
    exact absurd this ERROR_CODE_ne_zero
  · obtain ⟨k, rfl⟩ : ∃ k : Nat, n = (k : Int) := ⟨n.toNat, (Int.toNat_of_nonneg (by omega)).symm⟩
    refine ⟨k, rfl, ?_⟩
    unfold FS.ExtendFileOnFAT at h
    rw [FS.GetFreeBlocks_nat] at h
    simp only [ne_eq, not_true_eq_false, if_false, Int.toNat_ofNat] at h
    cases he : FS.GetEOFBlockFromStartBlock B s fuel start with
    | ret e =>
      rw [he] at h
      simp only [Run.ret_bind] at h
      cases hf : (s.freeList B k).get? 0 with
      | none => rw [hf] at h; cases h
      | some first =>
        rw [hf] at h
        simp only [Run.ofOption, Run.ret_bind] at h
        cases hm : FS.MakeFATEntry B s e (first : Int) with
        | ret q =>
          rw [hm] at h
          simp only [Run.ret_bind] at h
          by_cases c2 : q.1 ≠ 0
          · rw [if_pos c2] at h
            have := congrArg Prod.fst (Run.ret.inj h)
            rw [hr] at this
            exact absurd this ERROR_CODE_ne_zero
          · rw [if_neg c2] at h
            cases hloop : FS.LinkLoop B (s.freeList B k) k k q.2 with
            | ret r2 =>
              rw [hloop] at h
              simp only [Run.ret_bind] at h
              by_cases c3 : r2.1 ≠ 0
              · rw [if_pos c3] at h
                have := congrArg Prod.fst (Run.ret.inj h)
                rw [hr] at this
                exact absurd this ERROR_CODE_ne_zero
              · have hk1 : 1 ≤ k := by
                  by_contra hk0
                  have hk : k = 0 := by omega
                  rw [hk] at hf
                  simp [FS.freeList] at hf
                have hr2 : r2.1 = 0 := by simpa using c3
                have := FS.LinkLoop_success_length B _ k k q.2 r2 hk1 (le_refl _) hloop hr2
                exact ⟨hk1, le_trans this (FS.freeList_length_le B s k)⟩
            | undef => rw [hloop] at h; cases h
            | spin => rw [hloop] at h; cases h
            | thrown => rw [hloop] at h; cases h
        | undef => rw [hm] at h; cases h
        | spin => rw [hm] at h; cases h
        | thrown => rw [hm] at h; cases h
    | undef => rw [he] at h; cases h
    | spin => rw [he] at h; cases h
    | thrown => rw [he] at h; cases h

/-- In a state whose reserved slots are marked, the walk from the start block
after a successful `ExtendFileOnFAT` visits neither reserved block. -/
theorem FS.ExtendFileOnFAT_chain_reserved (B : Nat) (s : FS) (hs : s.ReservedMarked B)
    (hB : B ≤ 65536) (fuel : Nat) (n start : Int) (r : Int × FS)
    (hE : FS.ExtendFileOnFAT B fuel s n start = Run.ret r) (hr0 : r.1 = 0)
    (fuelS : Nat) (cs : List Nat) (hcs : FS.chainFrom B r.2 fuelS start = Run.ret cs) :
    0 ∉ cs ∧ 1 ∉ cs := by
  obtain ⟨k, hnk, hk1, hkf⟩ := FS.ExtendFileOnFAT_success_count B fuel s n start r hE hr0
  subst hnk
  obtain ⟨e, he, he0, he1⟩ := FS.ExtendFileOnFAT_success_eof B fuel s _ start r hs hE hr0
  obtain ⟨_, _, h0, h1, hl, hd⟩ := hs
  obtain ⟨x, xs, hpre, _, hlen⟩ := FS.chainFrom_of_GetEOFBlock B s fuel start e he
  have hc0 : 0 ∉ x :: xs := fun hx =>
    he0 (FS.GetEOFBlock_of_chain B s _ fuel start hpre 0 hx h0 fuel e he)
  have hc1 : 1 ∉ x :: xs := fun hx =>
    he1 (FS.GetEOFBlock_of_chain B s _ fuel start hpre 1 hx h1 fuel e he)
  have h0' : s.m_fat.get? 0 ≠ some FAT_FREE := by rw [h0]; decide
  have h1' : s.m_fat.get? 1 ≠ some FAT_FREE := by rw [h1]; decide
  obtain ⟨hsx, _⟩ := FS.chainFrom_cons B s fuel start x xs hpre
  obtain ⟨s1, f0, frest, hExt, hchain, _, _, hmem, _, _, _⟩ :=
    FS.ExtendFileOnFAT_chain B s k start (x :: xs) x fuel hB hl hd h0' h1' hpre
      (List.mem_cons_self _ _) hc0 hc1 hk1 hkf
  have hrs : r = (0, s1) := by
    have h2 := hExt fuel hlen
    rw [← hsx, hE] at h2
    exact Run.ret.inj h2
  rw [hrs] at hcs
  have hA := FS.chainFrom_fuel B s1 cs fuelS start hcs
    (max cs.length ((x :: xs).length + k)) (le_max_left _ _)
  have hB2 := hchain (max cs.length ((x :: xs).length + k)) (le_max_right _ _)
  rw [hA] at hB2
  have hEq : cs = (x :: xs) ++ f0 :: frest := Run.ret.inj hB2
  rw [hEq]
  constructor
  · intro hx
    rcases List.mem_append.mp hx with hx | hx
    · exact hc0 hx
    · exact h0' (hmem 0 hx).2
  · intro hx
    rcases List.mem_append.mp hx with hx | hx
    · exact hc1 hx
    · exact h1' (hmem 1 hx).2

end ReservedChains

/-- C18: in every state reachable from a successful `format` by any sequence
of operations, the table entries of blocks 0 and 1 are `FAT_EOF`, and neither
block is in the vector of free blocks from which `AllocateNewFileOnFAT` and
`ExtendFileOnFAT` take the blocks they link.  With table entries that fit
`int16_t` (`BLOCK_SIZE <= 65536`): the chain that `AllocateNewFileOnFAT`
produces holds neither block; `ExtendFileOnFAT` succeeds only on a chain that
holds neither block, and whenever it returns 0 the walk from its start block
in the state it leaves visits neither block; on a chain that holds neither
block it does return 0, and the chain it leaves holds neither block. -/
theorem reserved_blocks_invariant (BLOCK_SIZE : Nat) (s : FS)
    (h : FS.Reachable BLOCK_SIZE s) :
    s.m_fat.get? 0 = some FAT_EOF ∧ s.m_fat.get? 1 = some FAT_EOF ∧
    (∀ n, 0 ∉ (s.GetFreeBlocks BLOCK_SIZE n).2 ∧ 1 ∉ (s.GetFreeBlocks BLOCK_SIZE n).2) ∧
    (BLOCK_SIZE ≤ 65536 → ∀ n : Nat, 1 ≤ n → n ≤ s.freeCount BLOCK_SIZE →
      ∃ s1 head chain,
        s.AllocateNewFileOnFAT BLOCK_SIZE (n : Int) = Run.ret (0, s1, head) ∧
        (∀ fuel, n ≤ fuel → FS.chainFrom BLOCK_SIZE s1 fuel head = Run.ret chain) ∧
        0 ∉ chain ∧ 1 ∉ chain) ∧
    (∀ (fuel : Nat) (n start : Int) (r : Int × FS),
      s.ExtendFileOnFAT BLOCK_SIZE fuel n start = Run.ret r → r.1 = 0 →
      ∀ (fuelS : Nat) (cs : List Nat),
        FS.chainFrom BLOCK_SIZE s fuelS start = Run.ret cs → 0 ∉ cs ∧ 1 ∉ cs) ∧
    (BLOCK_SIZE ≤ 65536 → ∀ (fuel : Nat) (n start : Int) (r : Int × FS),
      s.ExtendFileOnFAT BLOCK_SIZE fuel n start = Run.ret r → r.1 = 0 →
      ∀ (fuelS : Nat) (cs : List Nat),
        FS.chainFrom BLOCK_SIZE r.2 fuelS start = Run.ret cs → 0 ∉ cs ∧ 1 ∉ cs) ∧
    (BLOCK_SIZE ≤ 65536 → ∀ (n : Nat) (head : Int) (cs : List Nat) (start fuel0 : Nat),
      FS.chainFrom BLOCK_SIZE s fuel0 head = Run.ret cs → start ∈ cs → 0 ∉ cs → 1 ∉ cs →
      1 ≤ n → n ≤ s.freeCount BLOCK_SIZE →
      ∃ s1 chain,
        (∀ fuel, cs.length ≤ fuel →
          s.ExtendFileOnFAT BLOCK_SIZE fuel (n : Int) (start : Int) = Run.ret (0, s1)) ∧
        (∀ fuel, cs.length + n ≤ fuel →
          FS.chainFrom BLOCK_SIZE s1 fuel head = Run.ret chain) ∧
        chain.length = cs.length + n ∧ 0 ∉ chain ∧ 1 ∉ chain) := by
  have hm := FS.Reachable_marked BLOCK_SIZE s h
  obtain ⟨hr, hf, h0, h1, hl, hd⟩ := hm
  have hge := FS.GetFreeBlocks_ge_two BLOCK_SIZE s
  have h0' : s.m_fat.get? 0 ≠ some FAT_FREE := by rw [h0]; decide
  have h1' : s.m_fat.get? 1 ≠ some FAT_FREE := by rw [h1]; decide
  refine ⟨h0, h1, ?_, ?_, ?_, ?_, ?_⟩
  · intro n
    constructor
    · intro hmem
      have := hge n h0 h1 0 hmem
      omega
    · intro hmem
      have := hge n h0 h1 1 hmem
      omega
  · intro hB n hn hfree
    obtain ⟨b, rest, hF, hA⟩ :=
      FS.AllocateNewFileOnFAT_ok BLOCK_SIZE s n hB hl hd hn hfree h0' h1'
    have hFlen := FS.freeList_length BLOCK_SIZE s n hfree
    have hmem : ∀ x ∈ b :: rest, 2 ≤ x ∧ x < FAT_SIZE BLOCK_SIZE := by
      intro x hx
      rw [← hF] at hx
      exact ⟨FS.freeList_ge_two BLOCK_SIZE s n x h0' h1' hx,
        (FS.freeList_mem BLOCK_SIZE s n x hx).1⟩
    have hnd : (b :: rest).Nodup := by rw [← hF]; exact FS.freeList_nodup BLOCK_SIZE s n
    refine ⟨_, _, b :: rest, hA, ?_, ?_, ?_⟩
    · intro fuel hfuel
      exact FS.chainFrom_linkFAT BLOCK_SIZE rest b s.m_fat _ fuel hnd
        (fun x hx => (hmem x hx).2) hl rfl (by rw [← hF, hFlen]; exact hfuel)
    · intro hx
      have := (hmem 0 hx).1
      omega
    · intro hx
      have := (hmem 1 hx).1
      omega
  · intro fuel n start r hE hr0 fuelS cs hcs
    obtain ⟨e, he, he0, he1⟩ :=
      FS.ExtendFileOnFAT_success_eof BLOCK_SIZE fuel s n start r ⟨hr, hf, h0, h1, hl, hd⟩ hE hr0
    constructor
    · intro hx
      exact he0 (FS.GetEOFBlock_of_chain BLOCK_SIZE s cs fuelS start hcs 0 hx h0 fuel e he)
    · intro hx
      exact he1 (FS.GetEOFBlock_of_chain BLOCK_SIZE s cs fuelS start hcs 1 hx h1 fuel e he)
  · intro hB fuel n start r hE hr0 fuelS cs hcs
    exact FS.ExtendFileOnFAT_chain_reserved BLOCK_SIZE s ⟨hr, hf, h0, h1, hl, hd⟩ hB fuel n start
      r hE hr0 fuelS cs hcs
  · intro hB n head cs start fuel0 hcs hstart hc0 hc1 hn hfree
    obtain ⟨s1, f0, frest, hExt, hchain, hlen, _, hmem, _, _, _⟩ :=
      FS.ExtendFileOnFAT_chain BLOCK_SIZE s n head cs start fuel0 hB hl hd h0' h1' hcs hstart
        hc0 hc1 hn hfree
    refine ⟨s1, cs ++ f0 :: frest, hExt, hchain, ?_, ?_, ?_⟩
    · rw [List.length_append, hlen]
    · intro hx
      rcases List.mem_append.mp hx with hx | hx
      · exact hc0 hx
      · exact h0' (hmem 0 hx).2
    · intro hx
      rcases List.mem_append.mp hx with hx | hx
      · exact hc1 hx
      · exact h1' (hmem 1 hx).2

theorem reserved_blocks_invariant_witness :
    FS.Reachable 128 sampleWithFile ∧
    sampleWithFile.m_fat.get? 0 = some FAT_EOF ∧ sampleWithFile.m_fat.get? 1 = some FAT_EOF ∧
    (∀ n, 0 ∉ (sampleWithFile.GetFreeBlocks 128 n).2 ∧
      1 ∉ (sampleWithFile.GetFreeBlocks 128 n).2) ∧
    (∃ s1 head chain,
      sampleWithFile.AllocateNewFileOnFAT 128 ((2 : Nat) : Int) = Run.ret (0, s1, head) ∧
      (∀ fuel, 2 ≤ fuel → FS.chainFrom 128 s1 fuel head = Run.ret chain) ∧
      0 ∉ chain ∧ 1 ∉ chain) ∧
    sampleWithFile.ExtendFileOnFAT 128 5 2 2 =
      Run.ret (0, { sampleWithFile with
        m_fat := [-1, -1, 3, 4, -1] ++ List.replicate 59 0,
        m_disk := sampleWithFile.m_disk.set 1
          (fatBytes ([-1, -1, 3, 4, -1] ++ List.replicate 59 0)) }) ∧
    FS.chainFrom 128 { sampleWithFile with
        m_fat := [-1, -1, 3, 4, -1] ++ List.replicate 59 0,
        m_disk := sampleWithFile.m_disk.set 1
          (fatBytes ([-1, -1, 3, 4, -1] ++ List.replicate 59 0)) } 5 2 = Run.ret [2, 3, 4] ∧
    (0 ∉ [2, 3, 4] ∧ 1 ∉ [2, 3, 4]) ∧
    (0 ∉ [2] ∧ 1 ∉ [2]) ∧
    (∃ s1 chain,
      (∀ fuel, [2].length ≤ fuel →
        sampleWithFile.ExtendFileOnFAT 128 fuel ((2 : Nat) : Int) ((2 : Nat) : Int) =
          Run.ret (0, s1)) ∧
      (∀ fuel, [2].length + 2 ≤ fuel → FS.chainFrom 128 s1 fuel 2 = Run.ret chain) ∧
      chain.length = [2].length + 2 ∧ 0 ∉ chain ∧ 1 ∉ chain) :=
  have hreach : FS.Reachable 128 sampleWithFile :=
    FS.Reachable.step sampleFormatted sampleWithFile
      (FS.Reachable.format sampleRaw sampleFormatted (by decide) (by decide!))
      (FS.Step.create 1 sampleFormatted (str "a") (str "hello") (0, sampleWithFile)
        (by decide!))
  have hE : sampleWithFile.ExtendFileOnFAT 128 5 2 2 =
      Run.ret (0, { sampleWithFile with
        m_fat := [-1, -1, 3, 4, -1] ++ List.replicate 59 0,
        m_disk := sampleWithFile.m_disk.set 1
          (fatBytes ([-1, -1, 3, 4, -1] ++ List.replicate 59 0)) }) := by decide!
  have hC : FS.chainFrom 128 { sampleWithFile with
        m_fat := [-1, -1, 3, 4, -1] ++ List.replicate 59 0,
        m_disk := sampleWithFile.m_disk.set 1
          (fatBytes ([-1, -1, 3, 4, -1] ++ List.replicate 59 0)) } 5 2 =
      Run.ret [2, 3, 4] := by decide!
  have hP : FS.chainFrom 128 sampleWithFile 5 2 = Run.ret [2] := by decide!
  ⟨hreach, (reserved_blocks_invariant 128 sampleWithFile hreach).1,
    (reserved_blocks_invariant 128 sampleWithFile hreach).2.1,
    (reserved_blocks_invariant 128 sampleWithFile hreach).2.2.1,
    (reserved_blocks_invariant 128 sampleWithFile hreach).2.2.2.1 (by decide) 2 (by decide)
      (by decide!),
    hE, hC,
    (reserved_blocks_invariant 128 sampleWithFile hreach).2.2.2.2.2.1 (by decide) 5 2 2 _ hE rfl
      5 [2, 3, 4] hC,
    (reserved_blocks_invariant 128 sampleWithFile hreach).2.2.2.2.1 5 2 2 _ hE rfl 5 [2] hP,
    (reserved_blocks_invariant 128 sampleWithFile hreach).2.2.2.2.2.2 (by decide) 2 2 [2] 2 5 hP
      (List.mem_singleton.mpr rfl) (by decide) (by decide) (by decide) (by decide!)⟩

/-- C29 fails at the exact multiples of the block size.  With what is left
to write exactly one block long, `WriteDataStringToFile` copies
`size % BLOCK_SIZE = 0` bytes: the round consumes nothing.  On 128-byte
blocks, a NUL-free string of 128 bytes and a File record of size 128 whose
chain is the one block 2: the call returns the error status, having written
an all-zero block 2.  Likewise for 256 bytes on the two-block chain 2, 3: the
first round writes 128 bytes, the second none, and the call fails.  For 200
bytes on the same chain the write succeeds, block 2 holding the first 128
bytes and block 3 the other 72 followed by zeros, but
`ReadFileToDataString` then calls `strlen` on block 2, which holds no NUL:
the read runs past the buffer.  For 100 bytes on the one-block chain the
write succeeds and `ReadFileToDataString` gives the string back. -/
theorem writeDataString_exact_multiple_fails :
    (∀ B : Nat, FS.charactersToCopy B B = 0) ∧
    (∀ c ∈ List.replicate 128 120, c ≠ 0) ∧
    FS.chainFrom 128 sampleWithFile 5 2 = Run.ret [2] ∧
    CalculateMinBlockCount 128 128 = 1 ∧
    (FS.WriteDataStringToFile 128 5 sampleWithFile (List.replicate 128 120)
        { sampleFileEntry with size := 128 }).bind (fun w =>
      Run.ret (w.1, decide (w.2.m_disk.getD 2 [] = List.replicate 128 0))) =
      Run.ret (ERROR_CODE, true) ∧
    (sampleFormatted.AllocateNewFileOnFAT 128 2).bind (fun a =>
      (FS.chainFrom 128 a.2.1 5 a.2.2).bind (fun c =>
        (FS.WriteDataStringToFile 128 5 a.2.1 (List.replicate 256 120)
            { sampleFileEntry with size := 256 }).bind (fun w =>
          Run.ret (a.1, c, w.1,
            decide (w.2.m_disk.getD 2 [] = List.replicate 128 120),
            decide (w.2.m_disk.getD 3 [] = List.replicate 128 0))))) =
      Run.ret (0, [2, 3], ERROR_CODE, true, true) ∧
    (sampleFormatted.AllocateNewFileOnFAT 128 2).bind (fun a =>
      (FS.WriteDataStringToFile 128 5 a.2.1 (List.replicate 200 120)
          { sampleFileEntry with size := 200 }).bind (fun w =>
        Run.ret (w.1,
          decide (w.2.m_disk.getD 2 [] = List.replicate 128 120),
          decide (w.2.m_disk.getD 3 [] = List.replicate 72 120 ++ List.replicate 56 0)))) =
      Run.ret (0, true, true) ∧
    (sampleFormatted.AllocateNewFileOnFAT 128 2).bind (fun a =>
      (FS.WriteDataStringToFile 128 5 a.2.1 (List.replicate 200 120)
          { sampleFileEntry with size := 200 }).bind (fun w =>
        FS.ReadFileToDataString 128 5 w.2 [] { sampleFileEntry with size := 200 })) =
      Run.undef ∧
    (FS.WriteDataStringToFile 128 5 sampleWithFile (List.replicate 100 120)
        { sampleFileEntry with size := 100 }).bind (fun w =>
      (FS.ReadFileToDataString 128 5 w.2 [] { sampleFileEntry with size := 100 }).bind
        (fun r => Run.ret (w.1, r.1, decide (r.2 = List.replicate 100 120)))) =
      Run.ret (0, 0, true) := by
  refine ⟨?_, by decide!, by decide!, by decide!, by decide!, by decide!, by decide!,
    by decide!, by decide!⟩
  intro B
  unfold FS.charactersToCopy
  rw [if_neg (lt_irrefl B), Nat.mod_self]

section WriteChain

theorem FS.writeBlocks_nil_data (B : Nat) (d : List (List Nat)) (cs : List Nat) :
    FS.writeBlocks B d cs [] = d := by
  cases cs with
  | nil => rfl
  | cons c cs => rw [FS.writeBlocks, if_pos rfl]

theorem FS.writeBlocks_length (B : Nat) :
    ∀ (cs : List Nat) (d : List (List Nat)) (data : List Nat),
      (FS.writeBlocks B d cs data).length = d.length := by
  intro cs
  induction cs with
  | nil => intro d data; rfl
  | cons c cs ih =>
    intro d data
    rw [FS.writeBlocks]
    split
    · rfl
    · rw [ih, List.length_set]

theorem FS.writeBlocks_get_not_mem (B : Nat) :
    ∀ (cs : List Nat) (d : List (List Nat)) (data : List Nat) (x : Nat), x ∉ cs →
      (FS.writeBlocks B d cs data).get? x = d.get? x := by
  intro cs
  induction cs with
  | nil => intro d data x _; rfl
  | cons c cs ih =>
    intro d data x hx
    rw [FS.writeBlocks]
    split
    · rfl
    · rw [ih _ _ x (fun h => hx (List.mem_cons_of_mem _ h)), List.get?_eq_getElem?,
        List.get?_eq_getElem?, List.getElem?_set_ne (fun h => hx (by rw [← h]; exact List.mem_cons_self _ _))]

/-- The loop of `WriteDataStringToFile` along a chain of enough blocks, for a
length that is not a multiple of the block size. -/
theorem FS.WriteLoop_chain (B : Nat) (hB : 0 < B) :
    ∀ (cs : List Nat) (s : FS) (data : List Nat) (b : Int) (fuel0 : Nat),
      FS.chainFrom B s fuel0 b = Run.ret cs → data.length % B ≠ 0 →
      data.length / B + 1 ≤ cs.length → (∀ c ∈ cs, c < s.m_disk.length) →
      ∀ fuel, data.length / B + 1 ≤ fuel →
        FS.WriteLoop B fuel s data b =
          Run.ret (0, { s with m_disk := FS.writeBlocks B s.m_disk cs data }) := by
  intro cs
  induction cs with
  | nil =>
    intro s data b fuel0 _ _ hlen
    simp at hlen
  | cons x xs ih =>
    intro s data b fuel0 hch hmod hlen hdisk fuel hfuel
    obtain ⟨hb, hx, c, fuel1, hget, _, hrest⟩ := FS.chainFrom_cons B s fuel0 b x xs hch
    have hne : data ≠ [] := by
      intro h
      rw [h] at hmod
      simp at hmod
    have hxd : x < s.m_disk.length := hdisk x (List.mem_cons_self _ _)
    cases fuel with
    | zero => simp at hfuel
    | succ k =>
      unfold FS.WriteLoop
      rw [if_neg hne, hb]
      simp only
      by_cases hbig : B < data.length
      · have hk : FS.charactersToCopy B data.length = B := by
          unfold FS.charactersToCopy
          rw [if_pos hbig]
        have htl : (data.take B).length = B := by
          rw [List.length_take]
          omega
        rw [hk, Disk.write_natCast _ x _ hxd]
        simp only
        rw [FS.GetChildBlock_natCast B s x c hx hget]
        simp only [Run.ret_bind]
        have hdl : (data.drop B).length = data.length - B := List.length_drop _ _
        have hrest1 : FS.chainFrom B
            { s with m_disk := s.m_disk.set x (data.take B ++ List.replicate (B - B) 0) }
            fuel1 c = Run.ret xs := by
          rw [FS.chainFrom_congr B s
            { s with m_disk := s.m_disk.set x (data.take B ++ List.replicate (B - B) 0) } rfl]
          exact hrest
        have hdiv : data.length / B = (data.length - B) / B + 1 :=
          Nat.div_eq_sub_div hB (le_of_lt hbig)
        have hrec := ih
          { s with m_disk := s.m_disk.set x (data.take B ++ List.replicate (B - B) 0) }
          (data.drop B) c fuel1 hrest1
          (by rw [hdl, ← Nat.mod_eq_sub_mod (le_of_lt hbig)]; exact hmod)
          (by rw [hdl]; simp only [List.length_cons] at hlen; omega)
          (fun y hy => by
            show y < (s.m_disk.set x _).length
            rw [List.length_set]
            exact hdisk y (List.mem_cons_of_mem _ hy))
          k (by rw [hdl]; omega)
        rw [hrec]
        rw [FS.writeBlocks, if_neg hne, htl]
      · have hlt : data.length < B := by
          rcases Nat.lt_or_ge data.length B with h | h
          · exact h
          · have : data.length = B := by omega
            rw [this, Nat.mod_self] at hmod
            exact absurd rfl hmod
        have hk : FS.charactersToCopy B data.length = data.length := by
          unfold FS.charactersToCopy
          rw [if_neg hbig, Nat.mod_eq_of_lt hlt]
        have ht1 : data.take data.length = data := List.take_length _
        have ht2 : data.take B = data := List.take_of_length_le (le_of_lt hlt)
        have hd1 : data.drop data.length = [] := List.drop_length _
        have hd2 : data.drop B = [] := List.drop_of_length_le (le_of_lt hlt)
        rw [hk, ht1, hd1, Disk.write_natCast _ x _ hxd]
        simp only
        rw [FS.GetChildBlock_natCast B s x c hx hget]
        simp only [Run.ret_bind]
        rw [FS.WriteLoop_nil, FS.writeBlocks, if_neg hne, ht2, hd2, FS.writeBlocks_nil_data]

/-- Read along the chain, the blocks written hold the data followed by
NULs. -/
theorem FS.writeBlocks_flatten (B : Nat) (hB : 0 < B) :
    ∀ (cs : List Nat) (d : List (List Nat)) (data : List Nat), cs.Nodup →
      (∀ c ∈ cs, c < d.length) → data.length % B ≠ 0 → cs.length = data.length / B + 1 →
      (cs.map (fun b => (FS.writeBlocks B d cs data).getD b [])).flatten =
        data ++ List.replicate (cs.length * B - data.length) 0 := by
  intro cs
  induction cs with
  | nil =>
    intro d data _ _ _ hlen
    simp at hlen
  | cons x xs ih =>
    intro d data hnd hdisk hmod hlen
    have hne : data ≠ [] := by
      intro h
      rw [h] at hmod
      simp at hmod
    have hxd : x < d.length := hdisk x (List.mem_cons_self _ _)
    have hxn : x ∉ xs := (List.nodup_cons.mp hnd).1
    have hndx : xs.Nodup := (List.nodup_cons.mp hnd).2
    rw [FS.writeBlocks, if_neg hne, List.map_cons, List.flatten_cons]
    have hhead : (FS.writeBlocks B
        (d.set x (data.take B ++ List.replicate (B - (data.take B).length) 0)) xs
        (data.drop B)).getD x [] =
        data.take B ++ List.replicate (B - (data.take B).length) 0 := by
      rw [List.getD_eq_getElem?_getD, ← List.get?_eq_getElem?,
        FS.writeBlocks_get_not_mem B xs _ _ x hxn, List.get?_eq_getElem?,
        List.getElem?_set_self hxd]
      rfl
    rw [hhead]
    by_cases hbig : B < data.length
    · have htl : (data.take B).length = B := by
        rw [List.length_take]
        omega
      have hdl : (data.drop B).length = data.length - B := List.length_drop _ _
      have hdiv : data.length / B = (data.length - B) / B + 1 :=
        Nat.div_eq_sub_div hB (le_of_lt hbig)
      have hrec := ih (d.set x (data.take B ++ List.replicate (B - (data.take B).length) 0))
        (data.drop B) hndx
        (fun y hy => by rw [List.length_set]; exact hdisk y (List.mem_cons_of_mem _ hy))
        (by rw [hdl, ← Nat.mod_eq_sub_mod (le_of_lt hbig)]; exact hmod)
        (by rw [hdl]; simp only [List.length_cons] at hlen; omega)
      rw [hrec, htl, Nat.sub_self, List.replicate_zero, List.append_nil, ← List.append_assoc,
        List.take_append_drop, hdl]
      congr 2
      simp only [List.length_cons]
      have hle : data.length - B ≤ xs.length * B := by
        have h1 : xs.length = (data.length - B) / B + 1 := by
          simp only [List.length_cons] at hlen
          omega
        have h2 := Nat.lt_div_mul_add hB (a := data.length - B)
        rw [h1, Nat.add_mul]
        omega
      rw [Nat.add_mul]
      omega
    · have hlt : data.length < B := by
        rcases Nat.lt_or_ge data.length B with h | h
        · exact h
        · have : data.length = B := by omega
          rw [this, Nat.mod_self] at hmod
          exact absurd rfl hmod
      have hxs : xs = [] := by
        have h0 : data.length / B = 0 := Nat.div_eq_of_lt hlt
        rw [h0] at hlen
        simp only [List.length_cons] at hlen
        exact List.eq_nil_of_length_eq_zero (by omega)
      subst hxs
      rw [List.take_of_length_le (le_of_lt hlt)]
      simp

end WriteChain

section CreateMulti

theorem CalculateMinBlockCount_nat (B n : Nat) (hB : 0 < B) (hmod : n % B ≠ 0) :
    CalculateMinBlockCount B (n : Int) = ((n / B + 1 : Nat) : Int) := by
  unfold CalculateMinBlockCount
  have hm : Int.tmod (n : Int) (B : Int) = ((n % B : Nat) : Int) := by
    rw [Int.tmod_eq_emod (by omega) (by omega)]
    norm_cast
  have hdv : Int.tdiv (n : Int) (B : Int) = ((n / B : Nat) : Int) := by
    rw [Int.tdiv_eq_ediv (by omega) (by omega)]
    norm_cast
  rw [hm, hdv]
  have : ((n % B : Nat) : Int) ≠ 0 := by omega
  rw [if_pos this]
  norm_cast

theorem FS.freeCount_le (B : Nat) (s : FS) : s.freeCount B ≤ FAT_SIZE B := by
  unfold FS.freeCount
  have h := List.length_filter_le (fun b => s.BlockIsFree b) (List.range (FAT_SIZE B))
  rw [List.length_range] at h
  exact h

/-- `create` of a plain name in the working directory, for a payload of any
length that is not a multiple of the block size. -/
theorem FS.create_multi (B fuel : Nat) (s : FS) (name P : List Nat) (blk : List Nat) (i : Nat)
    (hB0 : 0 < B) (hB : B ≤ 65536) (hlen : s.m_fat.length = FAT_SIZE B)
    (hd : 2 ≤ s.m_disk.length)
    (hne : name ≠ []) (hal : ∀ c ∈ name, isalnum c = true) (hn55 : name.length ≤ 55)
    (hnt : name ≠ str "testfile") (hmod : (P.length + 1) % B ≠ 0)
    (hnex : s.FilepathExists B name = Run.ret false)
    (h0 : s.m_fat.get? 0 ≠ some FAT_FREE) (h1 : s.m_fat.get? 1 ≠ some FAT_FREE)
    (hfree : (P.length + 1) / B + 1 ≤ s.freeCount B)
    (hFd : ∀ f ∈ s.freeList B ((P.length + 1) / B + 1), f < s.m_disk.length)
    (hcwdU : s.m_fat.get? s.m_cwdBlock ≠ some FAT_FREE) (hcwd1 : s.m_cwdBlock ≠ 1)
    (hblk : s.m_disk.get? s.m_cwdBlock = some blk)
    (hi : FS.firstAbsent (dirEntries B blk) = some i)
    (hfuel : (P.length + 1) / B + 1 ≤ fuel) :
    ∃ f0 frest, s.freeList B ((P.length + 1) / B + 1) = f0 :: frest ∧
      s.create B fuel name P =
        Run.ret (0, FS.withSlot
          { s with
            m_fat := FS.linkFAT (f0 :: frest) s.m_fat,
            m_disk := FS.writeBlocks B
              (s.m_disk.set 1 (fatBytes (FS.linkFAT (f0 :: frest) s.m_fat)))
              (f0 :: frest) (P ++ [10]) }
          s.m_cwdBlock blk i (FS.createdEntry name (P.length + 1) f0)) := by
  have hvalid := FilenamesAreValid_plain name hne hal (by omega)
  have hparse := ParseDirPath_plain name hne hal
  have hN : FAT_SIZE B ≤ 32768 := by unfold FAT_SIZE; omega
  have hfc := FS.freeCount_le B s
  have hlenP : P.length + 1 < 2147483648 := by
    have h1 := Nat.lt_div_mul_add hB0 (a := P.length + 1)
    have h2 : ((P.length + 1) / B + 1) * B ≤ 32768 * 65536 :=
      Nat.mul_le_mul (by omega) hB
    rw [Nat.add_mul] at h2
    omega
  obtain ⟨f0, frest, hF, hA⟩ := FS.AllocateNewFileOnFAT_ok B s ((P.length + 1) / B + 1) hB hlen hd
    (Nat.le_add_left 1 _) hfree h0 h1
  refine ⟨f0, frest, hF, ?_⟩
  have hFlen := FS.freeList_length B s _ hfree
  have hnd := FS.freeList_nodup B s ((P.length + 1) / B + 1)
  rw [hF] at hFlen hnd hFd
  have hmem : ∀ c ∈ f0 :: frest, c < FAT_SIZE B ∧ s.m_fat.get? c = some FAT_FREE := by
    intro c hc
    rw [← hF] at hc
    exact FS.freeList_mem B s _ c hc
  have hf0 := (hmem f0 (List.mem_cons_self _ _)).1
  have hlenI : (P ++ [10]).length = P.length + 1 := by simp
  have hcalc : CalculateMinBlockCount B (((P ++ [10]).length : Nat) : Int) =
      (((P.length + 1) / B + 1 : Nat) : Int) := by
    rw [hlenI]
    exact CalculateMinBlockCount_nat B _ hB0 hmod
  have hstr := strcpy_empty_plain name (fun c hc => isalnum_ne_zero c (hal c hc)) hn55
  have hsz : toUInt32 (((P ++ [10]).length : Nat) : Int) = P.length + 1 := by
    rw [toUInt32_natCast _ (by rw [hlenI]; omega), hlenI]
  have hfb : toUInt16 (f0 : Int) = f0 := toUInt16_natCast f0 (by omega)
  have hchain := FS.chainFrom_linkFAT B frest f0 s.m_fat
    { s with m_fat := FS.linkFAT (f0 :: frest) s.m_fat,
             m_disk := s.m_disk.set 1 (fatBytes (FS.linkFAT (f0 :: frest) s.m_fat)) }
    (f0 :: frest).length hnd (fun x hx => (hmem x hx).1) hlen rfl (le_refl _)
  have hwl := FS.WriteLoop_chain B hB0 (f0 :: frest)
    { s with m_fat := FS.linkFAT (f0 :: frest) s.m_fat,
             m_disk := s.m_disk.set 1 (fatBytes (FS.linkFAT (f0 :: frest) s.m_fat)) }
    (P ++ [10]) (f0 : Int) _ hchain (by rw [hlenI]; exact hmod)
    (by rw [hlenI, hFlen])
    (fun c hc => by
      show c < (s.m_disk.set 1 _).length
      rw [List.length_set]
      exact hFd c hc)
    fuel (by rw [hlenI]; exact hfuel)
  have hwrite : FS.WriteDataStringToFile B fuel
      { s with m_fat := FS.linkFAT (f0 :: frest) s.m_fat,
               m_disk := s.m_disk.set 1 (fatBytes (FS.linkFAT (f0 :: frest) s.m_fat)) }
      (P ++ [10]) (FS.createdEntry name (P.length + 1) f0) =
      Run.ret (0, { s with
        m_fat := FS.linkFAT (f0 :: frest) s.m_fat,
        m_disk := FS.writeBlocks B
          (s.m_disk.set 1 (fatBytes (FS.linkFAT (f0 :: frest) s.m_fat)))
          (f0 :: frest) (P ++ [10]) }) := by
    unfold FS.WriteDataStringToFile
    have ht : (FS.createdEntry name (P.length + 1) f0).type = TYPE_FILE := rfl
    have hs : (FS.createdEntry name (P.length + 1) f0).size = P.length + 1 := rfl
    have hfbk : (FS.createdEntry name (P.length + 1) f0).first_blk = f0 := rfl
    have hc2 : CalculateMinBlockCount B (toInt32 ((P.length + 1 : Nat) : Int)) =
        (((P.length + 1) / B + 1 : Nat) : Int) := by
      rw [toInt32_small _ hlenP]
      exact CalculateMinBlockCount_nat B _ hB0 hmod
    rw [if_neg (by rw [ht]; exact fun h => h rfl), hs, hc2, hcalc, if_neg (lt_irrefl _), hfbk]
    exact hwl
  have hcwdF : s.m_cwdBlock ∉ f0 :: frest := fun h => hcwdU (hmem _ h).2
  have hget2 : (FS.writeBlocks B
      (s.m_disk.set 1 (fatBytes (FS.linkFAT (f0 :: frest) s.m_fat)))
      (f0 :: frest) (P ++ [10])).get? s.m_cwdBlock = some blk := by
    rw [FS.writeBlocks_get_not_mem B _ _ _ _ hcwdF, List.get?_eq_getElem?,
      List.getElem?_set_ne (Ne.symm hcwd1), ← List.get?_eq_getElem?, hblk]
  have hexn : DirEntryExists (FS.createdEntry name (P.length + 1) f0) = true := by
    cases name with
    | nil => exact absurd rfl hne
    | cons c cs =>
      have := isalnum_ne_zero c (hal c (by simp))
      simp [DirEntryExists, FS.createdEntry, this]
  have hadd := FS.AddNewDirEntry_ok B
    { s with
      m_fat := FS.linkFAT (f0 :: frest) s.m_fat,
      m_disk := FS.writeBlocks B
        (s.m_disk.set 1 (fatBytes (FS.linkFAT (f0 :: frest) s.m_fat)))
        (f0 :: frest) (P ++ [10]) }
    s.m_cwdBlock blk i (FS.createdEntry name (P.length + 1) f0) hexn hget2 hi
  unfold FS.create
  simp only [hvalid, Bool.not_true, Bool.false_eq_true, if_false, hnex, Run.ret_bind, hparse,
    List.getLast?_singleton, Run.ofOption, hnt, hcalc, hA, ne_eq, not_true_eq_false, hstr,
    hsz, hfb, List.dropLast_single]
  rw [show (dir_entry.mk (name ++ List.replicate (56 - name.length) 0) (P.length + 1) f0
      TYPE_FILE FS.m_defaultPermissions) = FS.createdEntry name (P.length + 1) f0 from rfl, hwrite]
  simp only [Run.ret_bind, ne_eq, not_true_eq_false, if_false, FS.GetDirectoryBlock,
    List.length_nil, if_true]
  rw [hadd]
  rfl

end CreateMulti

/-- C30, amended: in a well-formed state (a table of `FAT_SIZE` slots, slots 0
and 1 in use, the working directory's block in use, of `BLOCK_SIZE` bytes and
with a free slot), for every plain name of 1 to 55 alphanumeric bytes other
than `testfile` that does not exist yet and every input line `P` such that
`|P| + 1` is not a multiple of the block size and enough blocks are free,
`create` returns 0; the new File record bears the name and the size
`|P| + 1`; its chain is made of exactly `ceil((|P| + 1) / BLOCK_SIZE)` blocks
that were FREE; and the blocks of the chain, read in order, hold `P` followed
by one line terminator and then NULs to the end of the last block.  Size,
number of blocks and payload are thus functions of the line alone. -/
theorem create_payload_from_line (BLOCK_SIZE fuel : Nat) (s : FS) (name P : List Nat)
    (blk : List Nat) (i : Nat)
    (hB0 : 0 < BLOCK_SIZE) (hB : BLOCK_SIZE ≤ 65536)
    (hlen : s.m_fat.length = FAT_SIZE BLOCK_SIZE) (hd : 2 ≤ s.m_disk.length)
    (hne : name ≠ []) (hal : ∀ c ∈ name, isalnum c = true) (hn55 : name.length ≤ 55)
    (hnt : name ≠ str "testfile") (hmod : (P.length + 1) % BLOCK_SIZE ≠ 0)
    (hnex : s.FilepathExists BLOCK_SIZE name = Run.ret false)
    (h0 : s.m_fat.get? 0 ≠ some FAT_FREE) (h1 : s.m_fat.get? 1 ≠ some FAT_FREE)
    (hfree : (P.length + 1) / BLOCK_SIZE + 1 ≤ s.freeCount BLOCK_SIZE)
    (hFd : ∀ f ∈ s.freeList BLOCK_SIZE ((P.length + 1) / BLOCK_SIZE + 1), f < s.m_disk.length)
    (hcwdU : s.m_fat.get? s.m_cwdBlock ≠ some FAT_FREE) (hcwd1 : s.m_cwdBlock ≠ 1)
    (hblk : s.m_disk.get? s.m_cwdBlock = some blk) (hblkB : blk.length = BLOCK_SIZE)
    (hi : FS.firstAbsent (dirEntries BLOCK_SIZE blk) = some i)
    (hfuel : (P.length + 1) / BLOCK_SIZE + 1 ≤ fuel) :
    ∃ (s1 : FS) (e : dir_entry) (chain blk1 : List Nat),
      s.create BLOCK_SIZE fuel name P = Run.ret (0, s1) ∧
      s1.m_disk.get? s.m_cwdBlock = some blk1 ∧ dir_entry.decode (slotBytes blk1 i) = e ∧
      c_str e.file_name = some name ∧ e.type = TYPE_FILE ∧ e.size = P.length + 1 ∧
      (∀ fuel1, chain.length ≤ fuel1 →
        FS.chainFrom BLOCK_SIZE s1 fuel1 (e.first_blk : Int) = Run.ret chain) ∧
      chain.length = (P.length + 1) / BLOCK_SIZE + 1 ∧
      (chain.length - 1) * BLOCK_SIZE < P.length + 1 ∧
      P.length + 1 ≤ chain.length * BLOCK_SIZE ∧
      (∀ c ∈ chain, s.m_fat.get? c = some FAT_FREE) ∧
      (chain.map (fun b => s1.m_disk.getD b [])).flatten =
        P ++ [10] ++ List.replicate (chain.length * BLOCK_SIZE - (P.length + 1)) 0 := by
  obtain ⟨f0, frest, hF, hC⟩ := FS.create_multi BLOCK_SIZE fuel s name P blk i hB0 hB hlen hd hne
    hal hn55 hnt hmod hnex h0 h1 hfree hFd hcwdU hcwd1 hblk hi hfuel
  have hN : FAT_SIZE BLOCK_SIZE ≤ 32768 := by unfold FAT_SIZE; omega
  have hFlen := FS.freeList_length BLOCK_SIZE s _ hfree
  have hnd := FS.freeList_nodup BLOCK_SIZE s ((P.length + 1) / BLOCK_SIZE + 1)
  rw [hF] at hFlen hnd hFd
  have hmem : ∀ c ∈ f0 :: frest,
      c < FAT_SIZE BLOCK_SIZE ∧ s.m_fat.get? c = some FAT_FREE := by
    intro c hc
    rw [← hF] at hc
    exact FS.freeList_mem BLOCK_SIZE s _ c hc
  have hf0 := (hmem f0 (List.mem_cons_self _ _)).1
  have hcwdF : s.m_cwdBlock ∉ f0 :: frest := fun h => hcwdU (hmem _ h).2
  have hil : i < DIR_BLOCK_SIZE BLOCK_SIZE := by
    have := FS.firstAbsent_some _ i hi
    rw [dirEntries_length] at this
    exact this
  have h64 : 64 * i + 64 ≤ blk.length := by
    rw [hblkB]
    exact slot_in_block BLOCK_SIZE i hil
  have hcwdlt : s.m_cwdBlock < s.m_disk.length := (List.get?_eq_some.mp hblk).1
  have hlenP : P.length + 1 < 4294967296 := by
    have h1 := Nat.lt_div_mul_add hB0 (a := P.length + 1)
    have h2 : ((P.length + 1) / BLOCK_SIZE + 1) * BLOCK_SIZE ≤ 32768 * 65536 :=
      Nat.mul_le_mul (by have := FS.freeCount_le BLOCK_SIZE s; omega) hB
    rw [Nat.add_mul] at h2
    omega
  have hnl : (FS.createdEntry name (P.length + 1) f0).file_name.length = 56 := by
    show (name ++ List.replicate (56 - name.length) 0).length = 56
    rw [List.length_append, List.length_replicate]
    omega
  have hdl : (FS.writeBlocks BLOCK_SIZE
      (s.m_disk.set 1 (fatBytes (FS.linkFAT (f0 :: frest) s.m_fat)))
      (f0 :: frest) (P ++ [10])).length = s.m_disk.length := by
    rw [FS.writeBlocks_length, List.length_set]
  have hlenI : (P ++ [10]).length = P.length + 1 := by simp
  refine ⟨_, FS.createdEntry name (P.length + 1) f0, f0 :: frest,
    setSlot blk i (FS.createdEntry name (P.length + 1) f0), hC, ?_, ?_,
    FS.createdEntry_c_str name _ f0 hn55 (fun c hc => isalnum_ne_zero c (hal c hc)), rfl, rfl,
    ?_, hFlen, ?_, ?_, fun c hc => (hmem c hc).2, ?_⟩
  · show (List.set _ s.m_cwdBlock _).get? s.m_cwdBlock = _
    rw [List.get?_eq_getElem?, List.getElem?_set_self (by rw [hdl]; exact hcwdlt)]
  · rw [slotBytes_setSlot_same _ _ _ h64 hnl]
    exact FS.createdEntry_wf name _ f0 hn55 hlenP (by omega)
  · intro fuel1 hf1
    exact FS.chainFrom_linkFAT BLOCK_SIZE frest f0 s.m_fat _ fuel1 hnd
      (fun x hx => (hmem x hx).1) hlen rfl hf1
  · rw [hFlen, Nat.add_sub_cancel]
    have := Nat.div_mul_le_self (P.length + 1) BLOCK_SIZE
    have hm : 0 < (P.length + 1) % BLOCK_SIZE := Nat.pos_of_ne_zero hmod
    have hdm := Nat.div_add_mod (P.length + 1) BLOCK_SIZE
    rw [Nat.mul_comm] at hdm
    omega
  · rw [hFlen, Nat.add_mul]
    have := Nat.lt_div_mul_add hB0 (a := P.length + 1)
    omega
  · have hmap : (f0 :: frest).map (fun b =>
        (FS.withSlot
          { s with
            m_fat := FS.linkFAT (f0 :: frest) s.m_fat,
            m_disk := FS.writeBlocks BLOCK_SIZE
              (s.m_disk.set 1 (fatBytes (FS.linkFAT (f0 :: frest) s.m_fat)))
              (f0 :: frest) (P ++ [10]) }
          s.m_cwdBlock blk i (FS.createdEntry name (P.length + 1) f0)).m_disk.getD b []) =
        (f0 :: frest).map (fun b => (FS.writeBlocks BLOCK_SIZE
          (s.m_disk.set 1 (fatBytes (FS.linkFAT (f0 :: frest) s.m_fat)))
          (f0 :: frest) (P ++ [10])).getD b []) := by
      apply List.map_congr_left
      intro b hb
      have hbc : s.m_cwdBlock ≠ b := fun h => hcwdF (h ▸ hb)
      show (List.set _ s.m_cwdBlock _).getD b [] = _
      rw [List.getD_eq_getElem?_getD, List.getD_eq_getElem?_getD, List.getElem?_set_ne hbc]
    rw [hmap, FS.writeBlocks_flatten BLOCK_SIZE hB0 (f0 :: frest) _ (P ++ [10]) hnd
      (fun c hc => by rw [List.length_set]; exact hFd c hc)
      (by rw [hlenI]; exact hmod) (by rw [hlenI, hFlen]), hlenI]

theorem create_payload_from_line_witness :
    ∃ (s1 : FS) (e : dir_entry) (chain blk1 : List Nat),
      sampleFormatted.create 128 5 (str "a") (List.replicate 200 120) = Run.ret (0, s1) ∧
      s1.m_disk.get? sampleFormatted.m_cwdBlock = some blk1 ∧
      dir_entry.decode (slotBytes blk1 0) = e ∧
      c_str e.file_name = some (str "a") ∧ e.type = TYPE_FILE ∧
      e.size = (List.replicate 200 120).length + 1 ∧
      (∀ fuel1, chain.length ≤ fuel1 →
        FS.chainFrom 128 s1 fuel1 (e.first_blk : Int) = Run.ret chain) ∧
      chain.length = ((List.replicate 200 120).length + 1) / 128 + 1 ∧
      (chain.length - 1) * 128 < (List.replicate 200 120).length + 1 ∧
      (List.replicate 200 120).length + 1 ≤ chain.length * 128 ∧
      (∀ c ∈ chain, sampleFormatted.m_fat.get? c = some FAT_FREE) ∧
      (chain.map (fun b => s1.m_disk.getD b [])).flatten =
        List.replicate 200 120 ++ [10] ++
          List.replicate (chain.length * 128 - ((List.replicate 200 120).length + 1)) 0 :=
  create_payload_from_line 128 5 sampleFormatted (str "a") (List.replicate 200 120)
    (List.replicate 128 0) 0 (by decide) (by decide) (by decide!) (by decide!) (by decide)
    (by decide) (by decide) (by decide) (by decide!) (by decide!) (by decide!) (by decide!)
    (by decide!) (by decide!) (by decide!) (by decide!) (by decide!) (by decide!) (by decide!)
    (by decide!)

/-- C30 as stated fails for the name `testfile`: `create` then discards the
input line and stores `3 * BLOCK_SIZE + 1` bytes `a` and a line terminator.
On a freshly formatted device of 128-byte blocks, `create("testfile")` and
`create("other")` fed the same line `hi` both return 0; the first records
size 386 on the four blocks 2 to 5, block 2 beginning `aaaa`, the second size
3 on block 2, which begins with `hi` and the terminator. -/
theorem create_testfile_counterexample :
    FilenamesAreValid (str "testfile") = true ∧
    sampleFormatted.FilepathExists 128 (str "testfile") = Run.ret false ∧
    (sampleFormatted.create 128 9 (str "testfile") (str "hi")).bind (fun r =>
      (r.2.GetDirEntryPath 128 [str "testfile"]).bind (fun e =>
        (FS.chainFrom 128 r.2 9 e.2.first_blk).bind (fun c =>
          Run.ret (r.1, e.2.size, c, (r.2.m_disk.getD 2 []).take 4)))) =
      Run.ret (0, 386, [2, 3, 4, 5], str "aaaa") ∧
    (sampleFormatted.create 128 9 (str "other") (str "hi")).bind (fun r =>
      (r.2.GetDirEntryPath 128 [str "other"]).bind (fun e =>
        (FS.chainFrom 128 r.2 9 e.2.first_blk).bind (fun c =>
          Run.ret (r.1, e.2.size, c, (r.2.m_disk.getD 2 []).take 4)))) =
      Run.ret (0, 3, [2], str "hi" ++ [10, 0]) := by
  refine ⟨by decide, by decide!, by decide!, by decide!⟩

/-- C31 fails: the name check accepts segments of 56 bytes, one more than
the name field can hold with its terminator.  For every alphanumeric name of
exactly 56 bytes `FilenamesAreValid` holds while `strcpy` into a 56-byte name
field has no room for the terminating NUL; names of up to 55 bytes fit.  On
the samples, `create`, `mkdir`, `cp` and `mv` given the 56-byte name of
letters `a` all reach that `strcpy`, and so does `create` given the 56-byte
path made of `/` and 55 letters, `create` copying the whole path. -/
theorem name_check_admits_overlong_name :
    (∀ name : List Nat, (∀ c ∈ name, isalnum c = true) → name.length = 56 →
      FilenamesAreValid name = true ∧
      ∀ field : List Nat, field.length = 56 → strcpy field name = none) ∧
    (∀ name : List Nat, (∀ c ∈ name, isalnum c = true) → name.length ≤ 55 →
      strcpy dir_entry.empty.file_name name =
        some (name ++ List.replicate (56 - name.length) 0)) ∧
    sampleFormatted.create 128 5 (List.replicate 56 97) (str "hi") = Run.undef ∧
    sampleFormatted.mkdir 128 (List.replicate 56 97) = Run.undef ∧
    sampleWithFile.cp 128 5 (str "a") (List.replicate 56 97) = Run.undef ∧
    sampleWithFile.mv 128 (str "a") (List.replicate 56 97) = Run.undef ∧
    (FilenamesAreValid (str "/" ++ List.replicate 55 97) = true ∧
      sampleFormatted.create 128 5 (str "/" ++ List.replicate 55 97) (str "hi") = Run.undef) ∧
    (sampleFormatted.create 128 5 (List.replicate 55 97) (str "hi")).bind
      (fun r => Run.ret r.1) = Run.ret 0 := by
  refine ⟨?_, ?_, by decide!, by decide!, by decide!, by decide!, ⟨by decide!, by decide!⟩,
    by decide!⟩
  · intro name hal h56
    have hne : name ≠ [] := by
      intro h
      rw [h] at h56
      simp at h56
    refine ⟨FilenamesAreValid_plain name hne hal (by omega), ?_⟩
    intro field hf
    unfold strcpy
    rw [cstrOf_plain name (fun c hc => isalnum_ne_zero c (hal c hc)), if_neg (by omega)]
  · intro name hal h55
    exact strcpy_empty_plain name (fun c hc => isalnum_ne_zero c (hal c hc)) h55
